import Mathlib

/-!
# Verification development for the mining pool core

Shallow embedding of the block unlocker / reward engine (`payouts/unlocker.go`),
of the share pipeline (`proxy/miner.go`, `proxy/handlers.go`) and of the stratum
transport (`proxy/stratum.go`).

Conventions.
* `*big.Int` values are `Int`; `big.Int.Div` / `big.Int.Mod` are Euclidean, which
  is what `/` and `%` are on `Int`.
* `*big.Rat` values are `ℚ`.
* `int64` values are `Int`; where the source can overflow the wrap-around is
  written explicitly with `wrapInt64`.
* A run-time panic of the source (division by zero, nil dereference, index or
  slice out of range) is the value `none` of an `Option`; a returned Go `error`
  is `Except.error`.
* The node, the storage backend and the per-IP policy are outside the modelled
  code: they are functions over an arbitrary outside state, and every call to
  them is recorded in a trace.
* A stratum connection is the outside state together with the list of messages
  handed to its JSON encoder; the lines read from the socket are given as a
  list.
* `float64` values of the var-diff controller are `F64`: IEEE 754 binary64
  with every operation rounded to the nearest value, ties to even, one
  operation at a time. The conversion of a `float64` that does not fit an
  `int64` is the one of amd64. The `float64` division of the unlocker is a
  function of its collaborators.
-/

namespace Pool

/-! ## Arbitrary-precision helpers (`math/big`) -/

/-- `big.Int.Div`: Euclidean division (the divisor is non-zero at every call site
modelled with this helper). -/
def bigDiv (x y : Int) : Int := x / y

/-- `big.Int.Mod`: Euclidean modulus. -/
def bigMod (x y : Int) : Int := x % y

/-- `big.Int.Exp(x, y, nil)`: `x ^ y`, and `1` when `y ≤ 0`. -/
def bigExp (x y : Int) : Int := if y ≤ 0 then 1 else x ^ y.toNat

/-! ## Reward curve (`payouts/unlocker.go`) -/

/-- Source constant `minDepth`. -/
def minDepth : Int := 16

/-- Source variable `big32`. -/
def big32 : Int := 32

/-- Source variable `DisinflationRateQuotient`. -/
def DisinflationRateQuotient : Int := 249

/-- Source variable `DisinflationRateDivisor`. -/
def DisinflationRateDivisor : Int := 250

/-- The local table `rewards` of `GetBlockWinnerRewardByEra`. -/
def eraRewardsTable : List Int := [2000, 1300, 1200, 1100, 1000, 900, 800, 700, 625]

/-- `GetBlockWinnerRewardByEra(eraOrig)`. The local `era` starts as a copy of
`eraOrig` and is advanced by 475 when it is at least 45. -/
def GetBlockWinnerRewardByEra (eraOrig : Int) : Int :=
  let MaximumBlockReward : Int := 5000000000000000000 * 10
  if eraOrig = 0 then
    MaximumBlockReward
  else
    match _hera : (if eraOrig ≥ 45 then eraOrig + 475 else eraOrig) with
    | era =>
      let q := bigExp DisinflationRateQuotient era
      let d := bigExp DisinflationRateDivisor era
      let r := bigDiv (MaximumBlockReward * q) d
      if 36 ≤ era ∧ era < 45 then
        eraRewardsTable.getD (era - 36).toNat 0 * 10000000000000000
      else if _h : 33 ≤ era ∧ era < 36 then
        let r := GetBlockWinnerRewardByEra (33 - 1)
        let r2 := bigDiv r (2 * (45 - 33))
        let r2 := r2 * (era - 33 + 1)
        r - r2
      else
        r
termination_by (if 33 ≤ eraOrig ∧ eraOrig < 36 then 1 else 0 : Nat)
decreasing_by
  have h1 : 33 ≤ eraOrig ∧ eraOrig < 36 := by
    by_cases h45 : eraOrig ≥ 45
    · rw [dif_pos h45] at _hera
      omega
    · rw [dif_neg h45] at _hera
      omega
  rw [if_pos h1, if_neg (by omega)]
  exact Nat.zero_lt_one

/-- `getEraUncleBlockReward(era)`. -/
def getEraUncleBlockReward (era : Int) : Int :=
  bigDiv (GetBlockWinnerRewardByEra era) big32

/-- `GetBlockEra(blockNum, eraLength)`; `none` is the division-by-zero panic of
`big.Int.Mod` / `big.Int.Div` when `eraLength = 0`. -/
def GetBlockEra (blockNum eraLength : Int) : Option Int :=
  if blockNum < 1 then
    some 0
  else if eraLength = 0 then
    none
  else
    let remainder := bigMod (blockNum - 1) eraLength
    let base := blockNum - remainder
    let d := bigDiv base eraLength
    let dremainder := bigMod d 1
    some (d - dremainder)

/-! ## Hash verifier (`proxy/miner.go`) -/

/-- Source variable `maxUint256` (`Exp(2, 256, 0)`, a zero modulus means none). -/
def maxUint256 : Int := bigExp 2 256

/-- `checkHash(hash, difficulty)`. -/
def checkHash (hash difficulty : Int) : Bool :=
  if difficulty = 0 then
    false
  else
    let target := bigDiv maxUint256 difficulty
    decide (hash ≤ target)

/-! ## Strings and number parsing (`strings`, `strconv`) -/

/-- `strings.EqualFold` on ASCII text (block hashes and nonces are hex strings):
equality after mapping `A`..`Z` to `a`..`z`. -/
def equalFold (a b : String) : Bool :=
  a.data.map Char.toLower == b.data.map Char.toLower

/-- `strings.ToLower` on ASCII text. -/
def toLower (a : String) : String := String.mk (a.data.map Char.toLower)

/-- `strings.Replace(s, "0x", "", -1)` on the characters of `s`: every
non-overlapping occurrence of `0x`, scanning from the left, is dropped. -/
def dropAll0x : List Char → List Char
  | '0' :: 'x' :: rest => dropAll0x rest
  | c :: rest => c :: dropAll0x rest
  | [] => []

/-- `strings.Replace(s, "0x", "", -1)`. -/
def replace0x (s : String) : String := String.mk (dropAll0x s.data)

/-- The two errors of `strconv` (`ErrSyntax`, `ErrRange`). -/
inductive NumError where
  | ErrSyntax
  | ErrRange
deriving DecidableEq, Repr

/-- The text of a `strconv` error, as stored in `lastFail`. -/
def NumError.message : NumError → String
  | NumError.ErrSyntax => "invalid syntax"
  | NumError.ErrRange => "value out of range"

/-- Value of one digit in `strconv.ParseUint`: `0`-`9`, then letters of either
case counted from 10; `none` for any other byte. -/
def digitValue (c : Char) : Option Nat :=
  if '0' ≤ c ∧ c ≤ '9' then some (c.toNat - '0'.toNat)
  else if 'a' ≤ c ∧ c ≤ 'z' then some (c.toNat - 'a'.toNat + 10)
  else if 'A' ≤ c ∧ c ≤ 'Z' then some (c.toNat - 'A'.toNat + 10)
  else none

/-- The digit loop of `strconv.ParseUint(s, 16, 64)`: the value, and the error if
any. A byte that is not a hexadecimal digit is `ErrSyntax` (value 0); a value
that leaves the `uint64` range is `ErrRange` (value 2^64 - 1), reported at the
digit where it happens. -/
def parseUintLoop : List Char → Nat → Nat × Option NumError
  | [], n => (n, none)
  | c :: rest, n =>
    match digitValue c with
    | none => (0, some NumError.ErrSyntax)
    | some d =>
      if d ≥ 16 then (0, some NumError.ErrSyntax)
      else if n * 16 + d > 18446744073709551615 then
        (18446744073709551615, some NumError.ErrRange)
      else parseUintLoop rest (n * 16 + d)

/-- `strconv.ParseUint(s, 16, 64)`. -/
def ParseUint16 (s : String) : Nat × Option NumError :=
  if s.data = [] then (0, some NumError.ErrSyntax)
  else parseUintLoop s.data 0

/-- `strconv.ParseInt(s, 16, 64)`. -/
def ParseInt16 (s : String) : Int × Option NumError :=
  match s.data with
  | [] => (0, some NumError.ErrSyntax)
  | c :: rest =>
    let neg : Bool := c == '-'
    let body : List Char := if c == '+' || c == '-' then rest else c :: rest
    match ParseUint16 (String.mk body) with
    | (_, some NumError.ErrSyntax) => (0, some NumError.ErrSyntax)
    | (un, _) =>
      if !neg && decide (un ≥ 9223372036854775808) then
        (9223372036854775807, some NumError.ErrRange)
      else if neg && decide (un > 9223372036854775808) then
        (-9223372036854775808, some NumError.ErrRange)
      else
        (if neg then -(un : Int) else (un : Int), none)

/-! ## Data model (`rpc`, `storage`: the fields the source reads and writes) -/

/-- Modelled from the spec: `rpc.Tx` (declared outside the source files), with the
fields the source reads. -/
structure Tx where
  Hash : String
  GasPrice : String
deriving DecidableEq, Repr

/-- Modelled from the spec: `rpc.TxReceipt` (declared outside the source files),
with the field the source reads. -/
structure TxReceipt where
  GasUsed : String
deriving DecidableEq, Repr

/-- Modelled from the spec: `rpc.GetBlockReply` (declared outside the source
files): a block carries `number`, `hash`, `nonce`, `sealFields`, `uncles[]` and
`transactions[]`. -/
structure GetBlockReply where
  Number : String
  Hash : String
  Nonce : String
  Transactions : List Tx
  Uncles : List String
  SealFields : List String
deriving DecidableEq, Repr

/-- Modelled from the spec: `rpc.GetBlockReplyPart` (declared outside the source
files), with the fields of the pending block. -/
structure GetBlockReplyPart where
  Number : String
  Difficulty : String
deriving DecidableEq, Repr

/-- Modelled from the spec: `storage.BlockData` (declared outside the source
files), with the fields of the spec's data model. `Reward` and `ExtraReward` are
`*big.Int` and may be nil. -/
structure BlockData where
  Height : Int
  Timestamp : Int
  Difficulty : Int
  TotalShares : Int
  UncleHeight : Int
  Orphan : Bool
  Hash : String
  Nonce : String
  PowHash : String
  MixDigest : String
  Reward : Option Int
  ExtraReward : Option Int
  RoundHeight : Int
deriving DecidableEq, Repr

/-- `UnlockerConfig`. The `float64` fields carry the exact rational value of the
(finite) double read from the JSON configuration. -/
structure UnlockerConfig where
  Enabled : Bool
  PoolFee : ℚ
  PoolFeeAddress : String
  Depth : Int
  DevDonate : Option ℚ
  ImmatureDepth : Int
  KeepTxFees : Bool
  Interval : String
  Daemon : String
  Timeout : String

/-- Source constant `donationFee`. -/
def donationFee : ℚ := 10

/-- Source constant `donationAccount`. -/
def donationAccount : String := "0x2a42292799d49895a4c8d39411ae735e82987008"

/-! ## 64-bit integers -/

/-- Two's-complement wrap-around of an `int64` result. -/
def wrapInt64 (x : Int) : Int :=
  (x + 9223372036854775808) % 18446744073709551616 - 9223372036854775808

/-- `map[string]int64`, as an association list with one entry per key. -/
abbrev RewardMap := List (String × Int)

/-- The statement `rewards[k] += v` (a missing key reads as 0). -/
def RewardMap.add : RewardMap → String → Int → RewardMap
  | [], k, v => [(k, wrapInt64 (0 + v))]
  | (k0, v0) :: rest, k, v =>
    if k0 = k then (k0, wrapInt64 (v0 + v)) :: rest
    else (k0, v0) :: RewardMap.add rest k v

/-- `rewards[k]` (0 for a missing key). -/
def RewardMap.get (m : RewardMap) (k : String) : Int := (m.lookup k).getD 0

/-- Sum of all credited amounts of a rewards map. -/
def RewardMap.total (m : RewardMap) : Int := (m.map Prod.snd).sum

/-! ## Payout distributor (`payouts/unlocker.go`) -/

/-- Modelled from the spec: `common.Shannon` (declared outside the source files),
10^9 wei. -/
def Shannon : Int := 1000000000

/-- The integer written by `big.Rat.FloatString(0)`: an integer is printed as it
is; otherwise the quotient of `|num|` by `den` is rounded up when twice the
remainder reaches `den`, and the sign of the numerator is put in front. -/
def floatString0 (x : ℚ) : Int :=
  if x.den = 1 then
    x.num
  else
    let q := x.num.natAbs / x.den
    let r2 := x.num.natAbs % x.den
    let q := if x.den ≤ r2 + r2 then q + 1 else q
    if x.num < 0 then -(q : Int) else (q : Int)

/-- The value `strconv.ParseInt(s, 10, 64)` returns for the decimal string of
`v`, its error ignored: out of range it is the nearest `int64` bound. -/
def parseInt64 (v : Int) : Int :=
  if v < -9223372036854775808 then -9223372036854775808
  else if v > 9223372036854775807 then 9223372036854775807
  else v

/-- `weiToShannonInt64(wei)`. -/
def weiToShannonInt64 (wei : ℚ) : Int :=
  let shannon : ℚ := (Shannon : ℚ)
  let inShannon := wei / shannon
  parseInt64 (floatString0 inShannon)

/-- `chargeFee(value, fee)`. `fdiv` is the `float64` division, on exact values:
`fdiv fee 100` is the double the source passes to `SetFloat64`. -/
def chargeFee (fdiv : ℚ → ℚ → ℚ) (value fee : ℚ) : ℚ × ℚ :=
  let feePercent := fdiv fee 100
  let feeValue := value * feePercent
  (value - feeValue, feeValue)

/-- `calculateRewardsForShares(shares, total, reward)`; `none` is the panic of
`big.NewRat(n, total)` on a zero denominator. -/
def calculateRewardsForShares (shares : List (String × Int)) (total : Int) (reward : ℚ) :
    Option RewardMap :=
  shares.foldlM
    (fun rewards entry =>
      if total = 0 then none
      else
        let percent : ℚ := (entry.2 : ℚ) / (total : ℚ)
        let workerReward := reward * percent
        some (rewards.add entry.1 (weiToShannonInt64 workerReward)))
    ([] : RewardMap)

/-! ## Collaborators of the unlocker (node RPC, storage backend)

The node and the storage backend live outside the modelled code. Their state is
an arbitrary type `W`; every operation may read and change it. Each call the
source makes is also appended to a trace, so that "no call was issued" is a
statement about the trace. -/

/-- One call of the unlocker to the node RPC client or to the storage backend. -/
inductive Call where
  | GetPendingBlock
  | GetBlockByHeight (height : Int)
  | GetUncleByBlockNumberAndIndex (height : Int) (index : Int)
  | GetTxReceipt (hash : String)
  | GetCandidates (maxHeight : Int)
  | GetImmatureBlocks (maxHeight : Int)
  | WritePendingOrphans (blocks : List BlockData)
  | WriteImmatureBlock (block : BlockData) (rewards : RewardMap)
  | WriteMaturedBlock (block : BlockData) (rewards : RewardMap)
  | WriteOrphan (block : BlockData)
  | GetRoundShares (height : Int) (nonce : String)
deriving DecidableEq, Repr

/-- The collaborators of the unlocker. A Go result `(value, error)` is an
`Except`; a pointer result that may be nil is an `Option`; a lone `error`
result is `Option String` (`none` for nil). `SetString0` is
`big.Int.SetString(s, 0)` and `fdiv` is `float64` division on exact values. -/
structure Env (W : Type) where
  GetPendingBlock : W → Except String (Option GetBlockReplyPart) × W
  GetBlockByHeight : W → Int → Except String (Option GetBlockReply) × W
  GetUncleByBlockNumberAndIndex : W → Int → Int → Except String (Option GetBlockReply) × W
  GetTxReceipt : W → String → Except String (Option TxReceipt) × W
  GetCandidates : W → Int → Except String (List BlockData) × W
  GetImmatureBlocks : W → Int → Except String (List BlockData) × W
  WritePendingOrphans : W → List BlockData → Option String × W
  WriteImmatureBlock : W → BlockData → RewardMap → Option String × W
  WriteMaturedBlock : W → BlockData → RewardMap → Option String × W
  WriteOrphan : W → BlockData → Option String × W
  GetRoundShares : W → Int → String → Except String (List (String × Int)) × W
  SetString0 : String → Option Int
  fdiv : ℚ → ℚ → ℚ

/-- State of the outside world together with the trace of calls made so far. -/
structure World (W : Type) where
  st : W
  trace : List Call

/-- Run one collaborator operation and record the call. -/
def World.call {W α : Type} (w : World W) (c : Call) (op : W → α × W) : α × World W :=
  let r := op w.st
  (r.1, { st := r.2, trace := w.trace ++ [c] })

/-- `BlockUnlocker` (the RPC client and the backend are the `Env`). -/
structure BlockUnlocker where
  config : UnlockerConfig
  halt : Bool
  lastFail : Option String

/-- What `calculateRewards` returns on success: `revenue`, `minersProfit`,
`poolProfit` and `rewards`. The field `donation` records the local variable
`donation` of the source (0 when no donation is charged); it is not returned by
the source and is kept for stating properties. -/
structure RewardSplit where
  revenue : ℚ
  minersProfit : ℚ
  poolProfit : ℚ
  rewards : RewardMap
  donation : ℚ

/-- `calculateRewards(block)`. `none` is a panic (nil `Reward`, or `NewRat` with a
zero denominator); `Except.error` is the returned `error`. -/
def calculateRewards {W : Type} (env : Env W) (u : BlockUnlocker) (block : BlockData)
    (w : World W) : Option (Except String RewardSplit × World W) :=
  match block.Reward with
  | none => none
  | some reward =>
    let revenue : ℚ := (reward : ℚ)
    let fees := chargeFee env.fdiv revenue u.config.PoolFee
    let minersProfit := fees.1
    let poolProfit := fees.2
    match w.call (Call.GetRoundShares block.RoundHeight block.Nonce)
        (fun st => env.GetRoundShares st block.RoundHeight block.Nonce) with
    | (Except.error err, w1) => some (Except.error err, w1)
    | (Except.ok shares, w1) =>
      match calculateRewardsForShares shares block.TotalShares minersProfit with
      | none => none
      | some rewards =>
        let poolProfit : ℚ :=
          match block.ExtraReward with
          | some extraReward => poolProfit + (extraReward : ℚ)
          | none => poolProfit
        let revenue : ℚ :=
          match block.ExtraReward with
          | some extraReward => revenue + (extraReward : ℚ)
          | none => revenue
        let afterDonation : ℚ × ℚ × RewardMap :=
          if u.config.Enabled then
            let devdonate : ℚ :=
              match u.config.DevDonate with
              | some d => if d ≥ 0 ∧ d < 100 then d else donationFee
              | none => donationFee
            if devdonate > 0 then
              let split := chargeFee env.fdiv poolProfit devdonate
              let login := toLower donationAccount
              (split.1, split.2, rewards.add login (weiToShannonInt64 split.2))
            else
              (poolProfit, 0, rewards)
          else
            (poolProfit, 0, rewards)
        let poolProfit : ℚ := afterDonation.1
        let donation : ℚ := afterDonation.2.1
        let rewards : RewardMap := afterDonation.2.2
        let rewards : RewardMap :=
          if u.config.PoolFeeAddress.length ≠ 0 then
            let address := toLower u.config.PoolFeeAddress
            rewards.add address (weiToShannonInt64 poolProfit)
          else
            rewards
        some (Except.ok
          { revenue := revenue, minersProfit := minersProfit, poolProfit := poolProfit,
            rewards := rewards, donation := donation }, w1)

/-- The record `calculateRewards` builds after the share loop (lines 524-550 of
the source), as a function of the block reward and of the loop's rewards map. -/
def rewardSplitAfterShares (fdiv : ℚ → ℚ → ℚ) (config : UnlockerConfig) (block : BlockData)
    (reward : Int) (rewards : RewardMap) : RewardSplit :=
  let revenue : ℚ := (reward : ℚ)
  let fees := chargeFee fdiv revenue config.PoolFee
  let minersProfit := fees.1
  let poolProfit := fees.2
  let poolProfit : ℚ :=
    match block.ExtraReward with
    | some extraReward => poolProfit + (extraReward : ℚ)
    | none => poolProfit
  let revenue : ℚ :=
    match block.ExtraReward with
    | some extraReward => revenue + (extraReward : ℚ)
    | none => revenue
  let afterDonation : ℚ × ℚ × RewardMap :=
    if config.Enabled then
      let devdonate : ℚ :=
        match config.DevDonate with
        | some d => if d ≥ 0 ∧ d < 100 then d else donationFee
        | none => donationFee
      if devdonate > 0 then
        let split := chargeFee fdiv poolProfit devdonate
        let login := toLower donationAccount
        (split.1, split.2, rewards.add login (weiToShannonInt64 split.2))
      else
        (poolProfit, 0, rewards)
    else
      (poolProfit, 0, rewards)
  let poolProfit : ℚ := afterDonation.1
  let donation : ℚ := afterDonation.2.1
  let rewards : RewardMap := afterDonation.2.2
  let rewards : RewardMap :=
    if config.PoolFeeAddress.length ≠ 0 then
      let address := toLower config.PoolFeeAddress
      rewards.add address (weiToShannonInt64 poolProfit)
    else
      rewards
  { revenue := revenue, minersProfit := minersProfit, poolProfit := poolProfit,
    rewards := rewards, donation := donation }

/-! ## Block unlocker (`payouts/unlocker.go`)

A function of the source that can panic returns an `Option`, `none` being the
panic. A returned Go `error` is `Except.error`. The unlocker's own fields `halt`
and `lastFail` are threaded through as a `BlockUnlocker` value. -/

/-- `UnlockResult`. -/
structure UnlockResult where
  maturedBlocks : List BlockData
  orphanedBlocks : List BlockData
  orphans : Int
  uncles : Int
  blocks : Int
deriving DecidableEq, Repr

/-- `matchCandidate(block, candidate)`. -/
def matchCandidate (block : GetBlockReply) (candidate : BlockData) : Bool :=
  if candidate.Hash.length > 0 ∧ equalFold candidate.Hash block.Hash = true then
    true
  else if block.Nonce.length > 0 then
    equalFold block.Nonce candidate.Nonce
  else if block.SealFields.length = 2 then
    equalFold candidate.Nonce (block.SealFields.getD 1 "")
  else
    false

/-- The loop of `getExtraRewardForTx` over `block.Transactions`, `amount` being
the running sum. -/
def extraRewardLoop {W : Type} (env : Env W) :
    List Tx → Int → World W → Except String Int × World W
  | [], amount, w => (Except.ok amount, w)
  | tx :: rest, amount, w =>
    match w.call (Call.GetTxReceipt tx.Hash) (fun st => env.GetTxReceipt st tx.Hash) with
    | (Except.error err, w1) => (Except.error err, w1)
    | (Except.ok none, w1) => extraRewardLoop env rest amount w1
    | (Except.ok (some receipt), w1) =>
      match env.SetString0 receipt.GasUsed with
      | none => (Except.error ("malformed used gas: " ++ receipt.GasUsed), w1)
      | some gasUsed =>
        match env.SetString0 tx.GasPrice with
        | none => (Except.error ("malformed transaction gas price: " ++ tx.GasPrice), w1)
        | some gasPrice => extraRewardLoop env rest (amount + gasUsed * gasPrice) w1

/-- `getExtraRewardForTx(block)`. -/
def getExtraRewardForTx {W : Type} (env : Env W) (block : GetBlockReply) (w : World W) :
    Except String Int × World W :=
  extraRewardLoop env block.Transactions 0 w

/-- `handleBlock(block, candidate)`: the updated candidate, or the error. `none`
is the panic of `GetBlockEra` (it cannot happen with era length 100000). -/
def handleBlock {W : Type} (env : Env W) (u : BlockUnlocker) (block : GetBlockReply)
    (candidate : BlockData) (w : World W) : Option (Except String BlockData × World W) :=
  match ParseInt16 (replace0x block.Number) with
  | (_, some err) => some (Except.error err.message, w)
  | (correctHeight, none) =>
    let candidate := { candidate with Height := correctHeight }
    match GetBlockEra candidate.Height 100000 with
    | none => none
    | some era =>
      let reward := GetBlockWinnerRewardByEra era
      match getExtraRewardForTx env block w with
      | (Except.error err, w1) =>
        some (Except.error ("Error while fetching TX receipt: " ++ err), w1)
      | (Except.ok extraTxReward, w1) =>
        let candidate :=
          if u.config.KeepTxFees then { candidate with ExtraReward := some extraTxReward }
          else candidate
        let reward := if u.config.KeepTxFees then reward else reward + extraTxReward
        let uncleReward := getEraUncleBlockReward era
        let rewardForUncles := uncleReward * (block.Uncles.length : Int)
        let reward := reward + rewardForUncles
        some (Except.ok { candidate with Orphan := false, Hash := block.Hash, Reward := some reward },
          w1)

/-- `getUncleReward(uHeight, height)`; `none` is the panic of `GetBlockEra`. -/
def getUncleReward (_uHeight height : Int) : Option Int :=
  match GetBlockEra height 100000 with
  | none => none
  | some era => some (getEraUncleBlockReward era)

/-- `handleUncle(height, uncle, candidate)`. -/
def handleUncle (height : Int) (uncle : GetBlockReply) (candidate : BlockData) :
    Option (Except String BlockData) :=
  match ParseInt16 (replace0x uncle.Number) with
  | (_, some err) => some (Except.error err.message)
  | (uncleHeight, none) =>
    match getUncleReward uncleHeight height with
    | none => none
    | some reward =>
      some (Except.ok { candidate with
        Height := height, UncleHeight := uncleHeight, Orphan := false,
        Hash := uncle.Hash, Reward := some reward })

/-- State of the loops of `unlockCandidates` for one candidate: the local
`orphan` and the result under construction. -/
structure ScanState where
  orphan : Bool
  result : UnlockResult
deriving DecidableEq, Repr

/-- The loop over `block.Uncles` inside `unlockCandidates`, from index
`uncleIndex` on. It is entered with `orphan = true` and stops at the first
matching uncle. The log line of a match slices `uncle.Hash[0:10]`, which panics
on a hash shorter than 10 bytes. -/
def uncleLoop {W : Type} (env : Env W) (height : Int) (candidate : BlockData) :
    List String → Nat → UnlockResult → BlockUnlocker → World W →
      Option (Except String ScanState × BlockUnlocker × World W)
  | [], _, result, u, w => some (Except.ok { orphan := true, result := result }, u, w)
  | uncleHash :: rest, uncleIndex, result, u, w =>
    match w.call (Call.GetUncleByBlockNumberAndIndex height uncleIndex)
        (fun st => env.GetUncleByBlockNumberAndIndex st height uncleIndex) with
    | (Except.error err, w1) =>
      some (Except.error
        ("Error while retrieving uncle of block " ++ uncleHash ++ " from node: " ++ err), u, w1)
    | (Except.ok none, w1) =>
      some (Except.error
        ("Error while retrieving uncle of block " ++ toString height ++ " from node"), u, w1)
    | (Except.ok (some uncle), w1) =>
      if matchCandidate uncle candidate then
        let result := { result with uncles := result.uncles + 1 }
        match handleUncle height uncle candidate with
        | none => none
        | some (Except.error err) =>
          some (Except.error err, { u with halt := true, lastFail := some err }, w1)
        | some (Except.ok candidate1) =>
          let result := { result with maturedBlocks := result.maturedBlocks ++ [candidate1] }
          if uncle.Hash.utf8ByteSize < 10 then none
          else some (Except.ok { orphan := false, result := result }, u, w1)
      else
        uncleLoop env height candidate rest (uncleIndex + 1) result u w1

/-- The loop `for i := startBlock; i < minDepth; i++` of `unlockCandidates` for
one candidate, with `remaining = minDepth - i` iterations left. It is entered
with `orphan = true` and stops at the first matching block or uncle. The log
line of a block match slices `candidate.Hash[0:10]`, which panics on a hash
shorter than 10 bytes. -/
def heightLoop {W : Type} (env : Env W) (candidate : BlockData) :
    Nat → Int → UnlockResult → BlockUnlocker → World W →
      Option (Except String ScanState × BlockUnlocker × World W)
  | 0, _, result, u, w => some (Except.ok { orphan := true, result := result }, u, w)
  | remaining + 1, i, result, u, w =>
    let height := wrapInt64 (candidate.Height + i)
    match w.call (Call.GetBlockByHeight height) (fun st => env.GetBlockByHeight st height) with
    | (Except.error err, w1) => some (Except.error err, u, w1)
    | (Except.ok none, w1) =>
      some (Except.error
        ("Error while retrieving block " ++ toString height ++ " from node, wrong node height"),
        u, w1)
    | (Except.ok (some block), w1) =>
      if matchCandidate block candidate then
        let result := { result with blocks := result.blocks + 1 }
        match handleBlock env u block candidate w1 with
        | none => none
        | some (Except.error err, w2) =>
          some (Except.error err, { u with halt := true, lastFail := some err }, w2)
        | some (Except.ok candidate1, w2) =>
          let result := { result with maturedBlocks := result.maturedBlocks ++ [candidate1] }
          if candidate1.Hash.utf8ByteSize < 10 then none
          else some (Except.ok { orphan := false, result := result }, u, w2)
      else if block.Uncles.length = 0 then
        heightLoop env candidate remaining (i + 1) result u w1
      else
        match uncleLoop env height candidate block.Uncles 0 result u w1 with
        | none => none
        | some (Except.error err, u1, w2) => some (Except.error err, u1, w2)
        | some (Except.ok scan, u1, w2) =>
          if !scan.orphan then some (Except.ok scan, u1, w2)
          else heightLoop env candidate remaining (i + 1) scan.result u1 w2

/-- The loop `for _, candidate := range candidates` of `unlockCandidates`. -/
def candidateLoop {W : Type} (env : Env W) :
    List BlockData → UnlockResult → BlockUnlocker → World W →
      Option (Except String UnlockResult × BlockUnlocker × World W)
  | [], result, u, w => some (Except.ok result, u, w)
  | candidate :: rest, result, u, w =>
    let startBlock : Int := if minDepth * -1 < 0 then 0 else minDepth * -1
    match heightLoop env candidate (minDepth - startBlock).toNat startBlock result u w with
    | none => none
    | some (Except.error err, u1, w1) => some (Except.error err, u1, w1)
    | some (Except.ok scan, u1, w1) =>
      let result :=
        if scan.orphan then
          { scan.result with
            orphans := scan.result.orphans + 1,
            orphanedBlocks := scan.result.orphanedBlocks ++ [{ candidate with Orphan := true }] }
        else scan.result
      candidateLoop env rest result u1 w1

/-- `unlockCandidates(candidates)`. -/
def unlockCandidates {W : Type} (env : Env W) (u : BlockUnlocker) (candidates : List BlockData)
    (w : World W) : Option (Except String UnlockResult × BlockUnlocker × World W) :=
  candidateLoop env candidates
    { maturedBlocks := [], orphanedBlocks := [], orphans := 0, uncles := 0, blocks := 0 } u w

/-- The unlocker after a failure: `u.halt = true; u.lastFail = err`. -/
def BlockUnlocker.fail (u : BlockUnlocker) (err : String) : BlockUnlocker :=
  { u with halt := true, lastFail := some err }

/-- The loop over `result.maturedBlocks` of `unlockPendingBlocks`. -/
def immatureLoop {W : Type} (env : Env W) :
    List BlockData → BlockUnlocker → World W → Option (BlockUnlocker × World W)
  | [], u, w => some (u, w)
  | block :: rest, u, w =>
    match calculateRewards env u block w with
    | none => none
    | some (Except.error err, w1) => some (u.fail err, w1)
    | some (Except.ok split, w1) =>
      match w1.call (Call.WriteImmatureBlock block split.rewards)
          (fun st => env.WriteImmatureBlock st block split.rewards) with
      | (some err, w2) => some (u.fail err, w2)
      | (none, w2) => immatureLoop env rest u w2

/-- `unlockPendingBlocks()`. `none` is a panic (a nil pending block, or a panic of
`unlockCandidates` or `calculateRewards`). -/
def unlockPendingBlocks {W : Type} (env : Env W) (u : BlockUnlocker) (w : World W) :
    Option (BlockUnlocker × World W) :=
  if u.halt then
    some (u, w)
  else
    match w.call Call.GetPendingBlock env.GetPendingBlock with
    | (Except.error err, w1) => some (u.fail err, w1)
    | (Except.ok none, _) => none
    | (Except.ok (some current), w1) =>
      match ParseInt16 (replace0x current.Number) with
      | (_, some err) => some (u.fail err.message, w1)
      | (currentHeight, none) =>
        let maxHeight := wrapInt64 (currentHeight - u.config.ImmatureDepth)
        match w1.call (Call.GetCandidates maxHeight)
            (fun st => env.GetCandidates st maxHeight) with
        | (Except.error err, w2) => some (u.fail err, w2)
        | (Except.ok candidates, w2) =>
          if candidates.length = 0 then
            some (u, w2)
          else
            match unlockCandidates env u candidates w2 with
            | none => none
            | some (Except.error err, u1, w3) => some (u1.fail err, w3)
            | some (Except.ok result, u1, w3) =>
              match w3.call (Call.WritePendingOrphans result.orphanedBlocks)
                  (fun st => env.WritePendingOrphans st result.orphanedBlocks) with
              | (some err, w4) => some (u1.fail err, w4)
              | (none, w4) => immatureLoop env result.maturedBlocks u1 w4

/-- The loop over `result.orphanedBlocks` of `unlockAndCreditMiners`; the Boolean
tells whether every write succeeded. -/
def orphanLoop {W : Type} (env : Env W) :
    List BlockData → BlockUnlocker → World W → Bool × BlockUnlocker × World W
  | [], u, w => (true, u, w)
  | block :: rest, u, w =>
    match w.call (Call.WriteOrphan block) (fun st => env.WriteOrphan st block) with
    | (some err, w1) => (false, u.fail err, w1)
    | (none, w1) => orphanLoop env rest u w1

/-- The loop over `result.maturedBlocks` of `unlockAndCreditMiners`. -/
def maturedLoop {W : Type} (env : Env W) :
    List BlockData → BlockUnlocker → World W → Option (BlockUnlocker × World W)
  | [], u, w => some (u, w)
  | block :: rest, u, w =>
    match calculateRewards env u block w with
    | none => none
    | some (Except.error err, w1) => some (u.fail err, w1)
    | some (Except.ok split, w1) =>
      match w1.call (Call.WriteMaturedBlock block split.rewards)
          (fun st => env.WriteMaturedBlock st block split.rewards) with
      | (some err, w2) => some (u.fail err, w2)
      | (none, w2) => maturedLoop env rest u w2

/-- `unlockAndCreditMiners()`. -/
def unlockAndCreditMiners {W : Type} (env : Env W) (u : BlockUnlocker) (w : World W) :
    Option (BlockUnlocker × World W) :=
  if u.halt then
    some (u, w)
  else
    match w.call Call.GetPendingBlock env.GetPendingBlock with
    | (Except.error err, w1) => some (u.fail err, w1)
    | (Except.ok none, _) => none
    | (Except.ok (some current), w1) =>
      match ParseInt16 (replace0x current.Number) with
      | (_, some err) => some (u.fail err.message, w1)
      | (currentHeight, none) =>
        let maxHeight := wrapInt64 (currentHeight - u.config.Depth)
        match w1.call (Call.GetImmatureBlocks maxHeight)
            (fun st => env.GetImmatureBlocks st maxHeight) with
        | (Except.error err, w2) => some (u.fail err, w2)
        | (Except.ok immature, w2) =>
          if immature.length = 0 then
            some (u, w2)
          else
            match unlockCandidates env u immature w2 with
            | none => none
            | some (Except.error err, u1, w3) => some (u1.fail err, w3)
            | some (Except.ok result, u1, w3) =>
              match orphanLoop env result.orphanedBlocks u1 w3 with
              | (false, u2, w4) => some (u2, w4)
              | (true, u2, w4) => maturedLoop env result.maturedBlocks u2 w4

/-- One firing of the timer in `Start`: `unlockPendingBlocks` and then
`unlockAndCreditMiners`. -/
def tick {W : Type} (env : Env W) (u : BlockUnlocker) (w : World W) :
    Option (BlockUnlocker × World W) :=
  match unlockPendingBlocks env u w with
  | none => none
  | some (u1, w1) => unlockAndCreditMiners env u1 w1

/-- `n` firings of the timer, one after the other. -/
def ticks {W : Type} (env : Env W) : Nat → BlockUnlocker → World W →
    Option (BlockUnlocker × World W)
  | 0, u, w => some (u, w)
  | n + 1, u, w =>
    match tick env u w with
    | none => none
    | some (u1, w1) => ticks env n u1 w1

/-! ## Binary floating point (`float64`) -/

/-- A `float64` value: a number, an infinity, or a NaN. The sign of a zero is
not kept. -/
inductive F64 where
  | finite (q : ℚ)
  | inf (negative : Bool)
  | nan
deriving DecidableEq, Repr

/-- Exponent of the binade of `x` (`2^e ≤ |x| < 2^(e+1)`), held at the least
normal exponent for zero and the subnormal range. -/
def f64Exp (x : ℚ) : Int := if x = 0 then -1022 else max (Int.log 2 |x|) (-1022)

/-- Spacing of the `float64` values in the binade of `x` (53 significant bits). -/
def f64Ulp (x : ℚ) : ℚ := (2 : ℚ) ^ (f64Exp x - 52)

/-- Nearest integer, a tie going to the even neighbour. -/
def roundHalfEven (y : ℚ) : Int :=
  if y - (⌊y⌋ : ℚ) < 1 / 2 then ⌊y⌋
  else if 1 / 2 < y - (⌊y⌋ : ℚ) then ⌊y⌋ + 1
  else if ⌊y⌋ % 2 = 0 then ⌊y⌋ else ⌊y⌋ + 1

/-- The multiple of the spacing nearest to `x`, a tie going to the even
multiple: the rounded value before the exponent range is looked at. -/
def f64Near (x : ℚ) : ℚ := (roundHalfEven (x / f64Ulp x) : ℚ) * f64Ulp x

/-- Rounding of an exact result to `float64`: to the nearest value, a tie going
to the even significand, a result of magnitude `2^1024` or more being an
infinity. -/
def F64.round (x : ℚ) : F64 :=
  if |f64Near x| ≥ 2 ^ 1024 then F64.inf (decide (x < 0)) else F64.finite (f64Near x)

/-- The number `x` is a `float64` value: rounding leaves it as it is. -/
def isF64 (x : ℚ) : Prop := F64.round x = F64.finite x

instance (x : ℚ) : Decidable (isF64 x) := by unfold isF64; infer_instance

/-- `float64(n)` of an integer `n`. -/
def F64.ofInt (n : Int) : F64 := F64.round (n : ℚ)

/-- `x + y` on `float64`. -/
def F64.add : F64 → F64 → F64
  | .finite a, .finite b => F64.round (a + b)
  | .nan, _ => .nan
  | _, .nan => .nan
  | .inf s, .inf t => if s = t then .inf s else .nan
  | .inf s, .finite _ => .inf s
  | .finite _, .inf t => .inf t

/-- `x - y` on `float64`. -/
def F64.sub : F64 → F64 → F64
  | .finite a, .finite b => F64.round (a - b)
  | .nan, _ => .nan
  | _, .nan => .nan
  | .inf s, .inf t => if s = t then .nan else .inf s
  | .inf s, .finite _ => .inf s
  | .finite _, .inf t => .inf (!t)

/-- `x * y` on `float64`. -/
def F64.mul : F64 → F64 → F64
  | .finite a, .finite b => F64.round (a * b)
  | .nan, _ => .nan
  | _, .nan => .nan
  | .inf s, .inf t => .inf (s != t)
  | .inf s, .finite b => if b = 0 then .nan else .inf (s != decide (b < 0))
  | .finite a, .inf t => if a = 0 then .nan else .inf (decide (a < 0) != t)

/-- `x / y` on `float64`. A zero divisor is the positive zero: the divisors of
`calcNewDiff` are constants, converted integers and a sum of `Seconds()`
values, none of which is the negative zero. -/
def F64.div : F64 → F64 → F64
  | .finite a, .finite b =>
    if b = 0 then (if a = 0 then .nan else .inf (decide (a < 0))) else F64.round (a / b)
  | .nan, _ => .nan
  | _, .nan => .nan
  | .inf _, .inf _ => .nan
  | .inf s, .finite b => .inf (s != decide (b < 0))
  | .finite _, .inf _ => .finite 0

/-- `math.Abs(x)`. -/
def F64.abs : F64 → F64
  | .finite a => .finite |a|
  | .inf _ => .inf false
  | .nan => .nan

/-- `x < y` on `float64` (false when either side is a NaN). -/
def F64.lt : F64 → F64 → Bool
  | .finite a, .finite b => decide (a < b)
  | .finite _, .inf t => !t
  | .inf s, .finite _ => s
  | .inf s, .inf t => s && !t
  | _, _ => false

/-- `x > y` on `float64`. -/
def F64.gt (x y : F64) : Bool := F64.lt y x

/-- `int64(x)` of a `float64`: the fraction is discarded; a value that does not
fit (an infinity and a NaN included) gives the least `int64`, which is what the
amd64 conversion instruction returns (the language leaves this case to the
implementation). -/
def F64.toInt64 : F64 → Int
  | .finite q =>
    if -9223372036854775808 ≤ (if q ≥ 0 then ⌊q⌋ else ⌈q⌉)
        ∧ (if q ≥ 0 then ⌊q⌋ else ⌈q⌉) ≤ 9223372036854775807 then
      (if q ≥ 0 then ⌊q⌋ else ⌈q⌉)
    else -9223372036854775808
  | _ => -9223372036854775808

/-- `Duration.Seconds()`: `float64(d / Second) + float64(d % Second) / 1e9`,
the integer division and remainder truncating toward zero. -/
def Seconds (d : Int) : F64 :=
  F64.add (F64.ofInt (Int.tdiv d 1000000000))
    (F64.div (F64.ofInt (Int.tmod d 1000000000)) (F64.finite 1000000000))

/-- The loop `avg += d.Seconds()` over the window followed by
`avg /= float64(len(window))`. -/
def meanSeconds (window : List Int) : F64 :=
  F64.div (window.foldl (fun avg d => F64.add avg (Seconds d)) (F64.finite 0))
    (F64.ofInt window.length)

/-! ## Share pipeline (`proxy/miner.go`, `proxy/handlers.go`) -/

/-- Modelled from the spec: `ErrorReply` (declared outside the source files), an
error code and a message. -/
structure ErrorReply where
  Code : Int
  Message : String
deriving DecidableEq, Repr

/-- Modelled from the spec: `heightDiffPair` (declared outside the source files),
the `{height, diff}` a live header maps to. -/
structure HeightDiffPair where
  diff : Int
  height : Nat
deriving DecidableEq, Repr

/-- Modelled from the spec: `BlockTemplate` (declared outside the source files),
with the fields the source reads; `headers` is a `map[string]heightDiffPair`, as
an association list. -/
structure BlockTemplate where
  Header : String
  Seed : String
  Height : Nat
  GetPendingBlockCache : Option GetBlockReplyPart
  headers : List (String × HeightDiffPair)
deriving DecidableEq, Repr

/-- Modelled from the spec: `Session` (declared outside the source files), with
the fields the handlers read and write. A `time.Time` is a count of
nanoseconds, `none` being the zero time; a `time.Duration` is a count of
nanoseconds. -/
structure Session where
  ip : String
  login : String
  diff : Int
  nextDiff : Int
  lastShareTime : Option Int
  lastShareDurations : List Int
  hashNoNonce : String
deriving DecidableEq, Repr

/-- Modelled from the spec: the `VarDiff` section of the proxy configuration
(declared outside the source files). `MinDiff` and `MaxDiff` are `int64`.
`TargetTime`, `VariancePercent` and `MaxJump` hold the value of the field as a
number. The source reads the last two through `float64(...)`, which is the
rounding `F64.round` (it leaves a value that is a `float64` already as it is);
`TargetTime`, a `float64` by its use, is read the same way. -/
structure VarDiffConfig where
  MinDiff : Int
  MaxDiff : Int
  TargetTime : ℚ
  VariancePercent : ℚ
  MaxJump : ℚ

/-- Modelled from the spec: `ProxyServer` (declared outside the source files),
with the fields the handlers read. -/
structure ProxyServer where
  Difficulty : Int
  VarDiff : VarDiffConfig
  hashrateExpiration : Int

/-- One call of the share pipeline to a collaborator: the node, the storage
backend, the per-IP policy, or the template poller. -/
inductive ProxyCall where
  | SubmitBlock (params : List String)
  | FetchBlockTemplate
  | WriteBlock (login id : String) (params : List String) (diff roundDiff : Int) (height : Nat)
  | WriteShare (login id : String) (params : List String) (diff : Int) (height : Nat)
  | ApplySharePolicy (ip : String) (validShare : Bool)
  | ApplyMalformedPolicy (ip : String)
  | ApplyLoginPolicy (login ip : String)
deriving DecidableEq, Repr

/-- The collaborators of the share pipeline over an outside state `W`.
`CalcHash` is the PoW hasher, `Now` the clock, `currentBlockTemplate` the atomic
load of the current template (nil when there is none). -/
structure ProxyEnv (W : Type) where
  SubmitBlock : W → List String → Except String Bool × W
  fetchBlockTemplate : W → W
  WriteBlock : W → String → String → List String → Int → Int → Nat → Int →
    (Bool × Option String) × W
  WriteShare : W → String → String → List String → Int → Nat → Int →
    (Bool × Option String) × W
  ApplySharePolicy : W → String → Bool → Bool × W
  ApplyMalformedPolicy : W → String → Bool × W
  ApplyLoginPolicy : W → String → String → Bool × W
  CalcHash : List Nat → Nat → Int
  Now : W → Int
  currentBlockTemplate : W → Option BlockTemplate
  isSick : W → Bool

/-- State of the outside world of the share pipeline with the trace of calls. -/
structure ProxyWorld (W : Type) where
  st : W
  trace : List ProxyCall

/-- Run one collaborator operation and record the call. -/
def ProxyWorld.call {W α : Type} (w : ProxyWorld W) (c : ProxyCall) (op : W → α × W) :
    α × ProxyWorld W :=
  let r := op w.st
  (r.1, { st := r.2, trace := w.trace ++ [c] })

/-- Value of a hexadecimal digit for `encoding/hex`. -/
def hexNibble (c : Char) : Option Nat :=
  if '0' ≤ c ∧ c ≤ '9' then some (c.toNat - '0'.toNat)
  else if 'a' ≤ c ∧ c ≤ 'f' then some (c.toNat - 'a'.toNat + 10)
  else if 'A' ≤ c ∧ c ≤ 'F' then some (c.toNat - 'A'.toNat + 10)
  else none

/-- The loop of `hex.Decode`: the bytes decoded so far and the error, if any. -/
def hexDecodeLoop : List Char → List Nat → List Nat × Option String
  | [], acc => (acc, none)
  | [p], acc =>
    match hexNibble p with
    | none => (acc, some "encoding/hex: invalid byte")
    | some _ => (acc, some "encoding/hex: odd length hex string")
  | p :: q :: rest, acc =>
    match hexNibble p, hexNibble q with
    | some a, some b => hexDecodeLoop rest (acc ++ [a * 16 + b])
    | _, _ => (acc, some "encoding/hex: invalid byte")

/-- `hex.DecodeString(s)`. -/
def hexDecodeString (s : String) : List Nat × Option String := hexDecodeLoop s.data []

/-- `processShare(login, id, ip, t, params, shareDiff)`: the pair
`(exists, valid)`. `none` is a panic (fewer than two parameters, or a nil
template). The parameter `ip` is only logged. -/
def processShare {W : Type} (env : ProxyEnv W) (s : ProxyServer) (login id _ip : String)
    (t : Option BlockTemplate) (params : List String) (shareDiff : Int) (w : ProxyWorld W) :
    Option ((Bool × Bool) × ProxyWorld W) :=
  match params with
  | [] => none
  | [_] => none
  | nonceHex :: hashNoNonce :: _ =>
    let nonce := (ParseUint16 (replace0x nonceHex)).1
    match t with
    | none => none
    | some t =>
      match t.headers.lookup hashNoNonce with
      | none => some ((false, false), w)
      | some h =>
        let decoded := hexDecodeString t.Seed
        let header := decoded.1
        let err := decoded.2
        let hash := env.CalcHash header nonce
        if err.isSome || !checkHash hash shareDiff then
          some ((false, false), w)
        else if checkHash hash h.diff then
          match w.call (ProxyCall.SubmitBlock params) (fun st => env.SubmitBlock st params) with
          | (Except.error _, w1) => some ((false, true), w1)
          | (Except.ok false, w1) => some ((false, false), w1)
          | (Except.ok true, w1) =>
            let w2 : ProxyWorld W :=
              (w1.call ProxyCall.FetchBlockTemplate
                (fun st => ((), env.fetchBlockTemplate st))).2
            match w2.call
                (ProxyCall.WriteBlock login id params shareDiff (wrapInt64 h.diff) h.height)
                (fun st => env.WriteBlock st login id params shareDiff (wrapInt64 h.diff)
                  h.height s.hashrateExpiration) with
            | ((true, _), w3) => some ((true, false), w3)
            | ((false, _), w3) => some ((false, true), w3)
        else
          match w.call (ProxyCall.WriteShare login id params shareDiff h.height)
              (fun st => env.WriteShare st login id params shareDiff h.height
                s.hashrateExpiration) with
          | ((true, _), w1) => some ((true, false), w1)
          | ((false, _), w1) => some ((false, true), w1)

/-- `now.Sub(last)`: the difference in nanoseconds, held at the largest or the
least `Duration` when it does not fit. -/
def timeSub (t u : Int) : Int :=
  if t - u < -9223372036854775808 then -9223372036854775808
  else if t - u > 9223372036854775807 then 9223372036854775807
  else t - u

/-- `calcNewDiff(cs)`: the new difficulty and the updated session. The branch
taken is `none` when the source returns `cs.diff` early, and otherwise the
proposed difficulty with the `direction` of the change. Every `float64`
operation is rounded on its own (no fused multiply-add). -/
def calcNewDiff {W : Type} (env : ProxyEnv W) (s : ProxyServer) (cs : Session)
    (w : ProxyWorld W) : Int × Session :=
  let config := s.VarDiff
  let now := env.Now w.st
  match cs.lastShareTime with
  | none => (cs.diff, { cs with lastShareTime := some now })
  | some last =>
    let sinceLast := timeSub now last
    let cs := { cs with lastShareTime := some now }
    let cs := { cs with lastShareDurations := cs.lastShareDurations ++ [sinceLast] }
    let cs :=
      if cs.lastShareDurations.length > 5 then
        { cs with lastShareDurations := cs.lastShareDurations.drop 1 }
      else cs
    let avg := meanSeconds cs.lastShareDurations
    let variance := F64.mul (F64.div (F64.round config.VariancePercent) (F64.finite 100))
      (F64.round config.TargetTime)
    let tMin := F64.sub (F64.round config.TargetTime) variance
    let tMax := F64.add (F64.round config.TargetTime) variance
    let branch : Option (Int × F64) :=
      if F64.gt avg tMax ∧ cs.diff > config.MinDiff then
        let newDiff := F64.toInt64
          (F64.mul (F64.div (F64.round config.TargetTime) avg) (F64.ofInt cs.diff))
        let newDiff := max newDiff config.MinDiff
        some (newDiff, F64.finite (-1))
      else if F64.lt avg tMin ∧ cs.diff < config.MaxDiff then
        let newDiff := F64.toInt64
          (F64.mul (F64.div (F64.round config.TargetTime) avg) (F64.ofInt cs.diff))
        let newDiff := min newDiff config.MaxDiff
        some (newDiff, F64.finite 1)
      else none
    match branch with
    | none => (cs.diff, cs)
    | some (newDiff, direction) =>
      let newDiff :=
        if F64.gt
            (F64.mul
              (F64.div (F64.abs (F64.ofInt (wrapInt64 (newDiff - cs.diff)))) (F64.ofInt cs.diff))
              (F64.finite 100))
            (F64.round config.MaxJump) then
          let change := F64.toInt64
            (F64.mul
              (F64.mul (F64.div (F64.round config.MaxJump) (F64.finite 100)) (F64.ofInt cs.diff))
              direction)
          wrapInt64 (cs.diff + change)
        else newDiff
      (newDiff, { cs with lastShareDurations := [] })

/-- The regular expression `workerPattern`, `^[0-9a-zA-Z-_.]{1,192}$`. -/
def workerPatternMatch (id : String) : Bool :=
  decide (1 ≤ id.data.length) && decide (id.data.length ≤ 192)
    && id.data.all (fun c =>
      decide ('0' ≤ c ∧ c ≤ '9') || decide ('a' ≤ c ∧ c ≤ 'z') || decide ('A' ≤ c ∧ c ≤ 'Z')
        || c == '-' || c == '_' || c == '.')

/-- `handleSubmitRPC(cs, login, id, params)`: the reply `(bool, *ErrorReply)`, the
session afterwards and the world afterwards. `none` is a panic of
`processShare`. -/
def handleSubmitRPC {W : Type} (env : ProxyEnv W) (s : ProxyServer) (cs : Session)
    (login id : String) (params : List String) (w : ProxyWorld W) :
    Option ((Bool × Option ErrorReply) × Session × ProxyWorld W) :=
  let id := if !workerPatternMatch id then "0" else id
  if params.length ≠ 3 then
    let w1 := (w.call (ProxyCall.ApplyMalformedPolicy cs.ip)
      (fun st => env.ApplyMalformedPolicy st cs.ip)).2
    some ((false, some { Code := -1, Message := "Invalid params" }), cs, w1)
  else
    let t := env.currentBlockTemplate w.st
    match processShare env s login id cs.ip t params cs.diff w with
    | none => none
    | some ((exist, validShare), w1) =>
      match w1.call (ProxyCall.ApplySharePolicy cs.ip (!exist && validShare))
          (fun st => env.ApplySharePolicy st cs.ip (!exist && validShare)) with
      | (ok, w2) =>
        if exist then
          some ((false, some { Code := 22, Message := "Duplicate share" }), cs, w2)
        else if !validShare then
          if !ok then
            some ((false, some { Code := 23, Message := "Invalid share" }), cs, w2)
          else
            some ((false, none), cs, w2)
        else
          let r := calcNewDiff env s cs w2
          let cs := { r.2 with nextDiff := r.1 }
          if !ok then
            some ((true, some { Code := -1, Message := "High rate of invalid shares" }), cs, w2)
          else
            some ((true, none), cs, w2)

/-! ## Stratum transport (`proxy/stratum.go`, `proxy/handlers.go`) -/

/-- `hextable[n]` of `encoding/hex`, the table `0123456789abcdef`. -/
def hexChar (n : Nat) : Char := "0123456789abcdef".data.getD n '0'

/-- `hex.EncodeToString(bytes)`: two characters per byte, high half first. -/
def hexEncodeToString (bytes : List Nat) : String :=
  String.mk (bytes.flatMap (fun b => [hexChar (b / 16), hexChar (b % 16)]))

/-- `binary.LittleEndian.PutUint64` into a fresh 8-byte slice: byte `i` is
`byte(v >> (8 * i))`. -/
def putUint64LE (v : Nat) : List Nat := (List.range 8).map (fun i => v / 256 ^ i % 256)

/-- The job object `getJob` returns, a `map[string]string` with the four keys
`blob`, `job_id`, `target` and `algo`. -/
structure Job where
  blob : String
  job_id : String
  target : String
  algo : String
deriving DecidableEq, Repr

/-- `cs.getJob(hash, blob, target, algo)`: the job and the session afterwards.
`none` is the panic of a slice expression out of range (`target[2:]` on fewer
than 2 bytes, `cs.hashNoNonce[2:34]` on fewer than 34). The strings are hex
text, one byte per character. -/
def getJob (cs : Session) (hash blob target algo : String) : Option (Job × Session) :=
  let cs := { cs with hashNoNonce := hash }
  if target.utf8ByteSize < 2 then none
  else
    let targetReversed := (ParseUint16 (String.mk (target.data.drop 2))).1
    let targetBytes := putUint64LE targetReversed
    if cs.hashNoNonce.utf8ByteSize < 34 then none
    else
      some ({ blob := blob,
              job_id := String.mk ((cs.hashNoNonce.data.drop 2).take 32),
              target := hexEncodeToString targetBytes,
              algo := algo }, cs)

/-- Modelled from the spec: `StratumReq` (declared outside the source files).
`Id` and `Params` are `*json.RawMessage`, `none` being nil. -/
structure StratumReq where
  Id : Option String
  Method : String
  Params : Option String
  Worker : String
deriving DecidableEq, Repr

/-- Modelled from the spec: `JobRPC` (declared outside the source files); `Job` is
`none` for the nil map. -/
structure JobRPC where
  Id : String
  Job : Option Job
  Status : String
deriving DecidableEq, Repr

/-- The values the dispatcher passes as `Result interface{}`: a boolean or a
`JobRPC`. -/
inductive ReplyResult where
  | flag (b : Bool)
  | job (r : JobRPC)
deriving DecidableEq, Repr

/-- Modelled from the spec: `JSONRpcResp` (declared outside the source files). -/
structure JSONRpcResp where
  Id : Option String
  Version : String
  Result : Option ReplyResult
  Error : Option ErrorReply
deriving DecidableEq, Repr

/-- The collaborators of the stratum transport: those of the share pipeline, the
JSON encoder of the connection (`Encode` returns the write error, if any), the
JSON decoder (`unmarshalParams` decodes into a `map[string]string`, given as
an association list with distinct keys), the ban list, and the two functions
of `util` the handlers call (declared outside the source files). -/
structure StratumEnv (W : Type) extends ProxyEnv W where
  Encode : W → JSONRpcResp → Option String × W
  unmarshalParams : String → Except String (List (String × String))
  unmarshalReq : String → Except String StratumReq
  GetTargetHex : Int → String
  IsValidHexAddress : String → Bool
  BanClient : W → String → W

/-- One stratum connection: the outside world, the messages handed to the
encoder so far, whether the session is in `s.sessions`, and whether
`conn.Close()` has been called. -/
structure Conn (W : Type) where
  world : ProxyWorld W
  sent : List JSONRpcResp
  registered : Bool
  closed : Bool

/-- `cs.sendTCPResult(id, result)`: the returned error and the connection. -/
def sendTCPResult {W : Type} (env : StratumEnv W) (c : Conn W) (id : Option String)
    (result : ReplyResult) : Option String × Conn W :=
  let message : JSONRpcResp :=
    { Id := id, Version := "2.0", Result := some result, Error := none }
  let r := env.Encode c.world.st message
  (r.1, { c with world := { c.world with st := r.2 }, sent := c.sent ++ [message] })

/-- `cs.sendTCPError(id, reply)`: the returned error and the connection. -/
def sendTCPError {W : Type} (env : StratumEnv W) (c : Conn W) (id : Option String)
    (reply : ErrorReply) : Option String × Conn W :=
  let message : JSONRpcResp :=
    { Id := id, Version := "2.0", Result := none, Error := some reply }
  let r := env.Encode c.world.st message
  let c1 : Conn W := { c with world := { c.world with st := r.2 }, sent := c.sent ++ [message] }
  match r.1 with
  | some err => (some err, c1)
  | none => (some reply.Message, c1)

/-- `handleLoginRPC(cs, params, id)`. -/
def handleLoginRPC {W : Type} (env : StratumEnv W) (s : ProxyServer) (cs : Session)
    (params : List (String × String)) (_id : String) (c : Conn W) :
    (Bool × Option ErrorReply) × Session × Conn W :=
  if params.length = 0 then
    ((false, some { Code := -1, Message := "Invalid params" }), cs, c)
  else
    let login := toLower ((params.lookup "login").getD "")
    if !env.IsValidHexAddress login then
      ((false, some { Code := -1, Message := "Invalid login" }), cs, c)
    else
      match c.world.call (ProxyCall.ApplyLoginPolicy login cs.ip)
          (fun st => env.ApplyLoginPolicy st login cs.ip) with
      | (false, w1) =>
        ((false, some { Code := -1, Message := "You are blacklisted" }), cs,
          { c with world := w1 })
      | (true, w1) =>
        let cs := { cs with login := login }
        let cs := { cs with diff := s.Difficulty }
        let cs := { cs with nextDiff := cs.diff }
        ((true, none), cs, { c with world := w1, registered := true })

/-- `handleGetWorkRPC(cs)`: the work list (empty for nil), the error reply and
the session afterwards. -/
def handleGetWorkRPC {W : Type} (env : StratumEnv W) (_s : ProxyServer) (cs : Session)
    (w : ProxyWorld W) : (List String × Option ErrorReply) × Session :=
  match env.currentBlockTemplate w.st with
  | none => (([], some { Code := 0, Message := "Work not ready" }), cs)
  | some t =>
    if t.Header.utf8ByteSize = 0 || env.isSick w.st then
      (([], some { Code := 0, Message := "Work not ready" }), cs)
    else
      let cs := { cs with diff := cs.nextDiff }
      (([t.Header, t.Seed, env.GetTargetHex cs.diff], none), cs)

/-- `handleTCPSubmitRPC(cs, id, params)`; `none` is a panic of `processShare`. -/
def handleTCPSubmitRPC {W : Type} (env : StratumEnv W) (s : ProxyServer) (cs : Session)
    (id : String) (params : List String) (c : Conn W) :
    Option ((Bool × Option ErrorReply) × Session × Conn W) :=
  if !c.registered then
    some ((false, some { Code := 25, Message := "Not subscribed" }), cs, c)
  else
    match handleSubmitRPC env.toProxyEnv s cs cs.login id params c.world with
    | none => none
    | some (r, cs1, w1) => some (r, cs1, { c with world := w1 })

/-- `handleUnknownRPC(cs, m)`. -/
def handleUnknownRPC {W : Type} (env : StratumEnv W) (cs : Session) (_m : String)
    (c : Conn W) : ErrorReply × Conn W :=
  let w1 := (c.world.call (ProxyCall.ApplyMalformedPolicy cs.ip)
    (fun st => env.ApplyMalformedPolicy st cs.ip)).2
  ({ Code := -3, Message := "Method not found" }, { c with world := w1 })

/-- The job reply of `login` and `getjob`: `getJob(work[0], work[1], work[2],
work[3])` wrapped in a `JobRPC` and sent. `none` is a panic: an index out of
range, or a slice out of range in `getJob`. -/
def sendJob {W : Type} (env : StratumEnv W) (cs : Session) (id : Option String)
    (work : List String) (c : Conn W) : Option (Option String × Session × Conn W) :=
  match work[0]?, work[1]?, work[2]?, work[3]? with
  | some hash, some blob, some target, some algo =>
    match getJob cs hash blob target algo with
    | none => none
    | some (job, cs1) =>
      let r := sendTCPResult env c id
        (ReplyResult.job { Id := "0", Job := some job, Status := "OK" })
      some (r.1, cs1, r.2)
  | _, _, _, _ => none

/-- `cs.handleTCPMessage(s, req)`: the returned error, the session and the
connection afterwards. `none` is a panic (nil `req.Params`, an index out of
range, a panic of `processShare`). -/
def handleTCPMessage {W : Type} (env : StratumEnv W) (s : ProxyServer) (cs : Session)
    (req : StratumReq) (c : Conn W) : Option (Option String × Session × Conn W) :=
  if req.Method = "login" then
    match req.Params with
    | none => none
    | some raw =>
      match env.unmarshalParams raw with
      | Except.error err => some (some err, cs, c)
      | Except.ok params =>
        match handleLoginRPC env s cs params req.Worker c with
        | ((_, some errReply), cs1, c1) =>
          let r := sendTCPError env c1 req.Id errReply
          some (r.1, cs1, r.2)
        | ((true, none), cs1, c1) =>
          let g := handleGetWorkRPC env s cs1 c1.world
          sendJob env g.2 req.Id g.1.1 c1
        | ((false, none), cs1, c1) =>
          let r := sendTCPResult env c1 req.Id (ReplyResult.flag false)
          some (r.1, cs1, r.2)
  else if req.Method = "getjob" then
    match handleGetWorkRPC env s cs c.world with
    | ((_, some errReply), cs1) =>
      let r := sendTCPError env c req.Id errReply
      some (r.1, cs1, r.2)
    | ((work, none), cs1) => sendJob env cs1 req.Id work c
  else if req.Method = "submit" then
    match req.Params with
    | none => none
    | some raw =>
      match env.unmarshalParams raw with
      | Except.error err => some (some err, cs, c)
      | Except.ok params =>
        let prm := ["0x" ++ (params.lookup "nonce").getD "", cs.hashNoNonce,
                    "0x" ++ (params.lookup "result").getD ""]
        match handleTCPSubmitRPC env s cs req.Worker prm c with
        | none => none
        | some ((_, some errReply), cs1, c1) =>
          let r := sendTCPError env c1 req.Id errReply
          some (r.1, cs1, r.2)
        | some ((true, none), cs1, c1) =>
          let r := sendTCPResult env c1 req.Id
            (ReplyResult.job { Id := "", Job := none, Status := "OK" })
          some (r.1, cs1, r.2)
        | some ((false, none), cs1, c1) =>
          let r := sendTCPResult env c1 req.Id (ReplyResult.flag false)
          some (r.1, cs1, r.2)
  else if req.Method = "keepalived" then
    let r := sendTCPResult env c req.Id (ReplyResult.flag true)
    some (r.1, cs, r.2)
  else
    let u := handleUnknownRPC env cs req.Method c
    let r := sendTCPError env u.2 req.Id u.1
    some (r.1, cs, r.2)

/-- The error of `connbuff.ReadLine()`: `io.EOF` or another error. -/
inductive ReadError where
  | EOF
  | other (msg : String)
deriving DecidableEq, Repr

/-- The text of a read error. -/
def ReadError.message : ReadError → String
  | ReadError.EOF => "EOF"
  | ReadError.other msg => msg

/-- What one `connbuff.ReadLine()` returns: `data`, `isPrefix` (the line did not
fit the buffer) and `err`. -/
structure ReadLine where
  data : String
  tooLong : Bool
  err : Option ReadError
deriving DecidableEq, Repr

/-- How `handleTCPClient` stands after a finite sequence of reads: it has
returned an error value (nil or not), or it is waiting for the next line. -/
inductive ClientEnd where
  | returned (err : Option String)
  | reading
deriving DecidableEq, Repr

/-- `handleTCPClient(cs)` over the results of the successive `ReadLine` calls.
`none` is a panic of `handleTCPMessage`. Deadlines are not modelled. -/
def handleTCPClient {W : Type} (env : StratumEnv W) (s : ProxyServer) :
    Session → List ReadLine → Conn W → Option (ClientEnd × Session × Conn W)
  | cs, [], c => some (ClientEnd.reading, cs, c)
  | cs, r :: rest, c =>
    if r.tooLong then
      some (ClientEnd.returned (r.err.map ReadError.message), cs,
        { c with world := { c.world with st := env.BanClient c.world.st cs.ip } })
    else
      match r.err with
      | some ReadError.EOF =>
        some (ClientEnd.returned none, cs, { c with registered := false })
      | some (ReadError.other msg) => some (ClientEnd.returned (some msg), cs, c)
      | none =>
        if r.data.utf8ByteSize > 1 then
          match env.unmarshalReq r.data with
          | Except.error err =>
            let w1 := (c.world.call (ProxyCall.ApplyMalformedPolicy cs.ip)
              (fun st => env.ApplyMalformedPolicy st cs.ip)).2
            some (ClientEnd.returned (some err), cs, { c with world := w1 })
          | Except.ok req =>
            match handleTCPMessage env s cs req c with
            | none => none
            | some (some err, cs1, c1) => some (ClientEnd.returned (some err), cs1, c1)
            | some (none, cs1, c1) => handleTCPClient env s cs1 rest c1
        else
          handleTCPClient env s cs rest c

/-- The goroutine `ListenTCP` starts for an accepted connection: run
`handleTCPClient` and, if it returns an error, remove the session and close
the connection. -/
def serveConnection {W : Type} (env : StratumEnv W) (s : ProxyServer) (cs : Session)
    (reads : List ReadLine) (c : Conn W) : Option (ClientEnd × Session × Conn W) :=
  match handleTCPClient env s cs reads c with
  | none => none
  | some (ClientEnd.returned (some err), cs1, c1) =>
    some (ClientEnd.returned (some err), cs1, { c1 with registered := false, closed := true })
  | some (e, cs1, c1) => some (e, cs1, c1)

/-- Modelled from the spec: `JSONPushMessage` (declared outside the source
files), the notification that carries a new job. -/
structure JSONPushMessage where
  Version : String
  Method : String
  Params : Job
deriving DecidableEq, Repr

/-- The collaborators of the job broadcast: those of the stratum transport, the
JSON encoder of the connection for pushed messages, and the deployment
parameter `lyra2_block` (declared outside the source files). -/
structure BroadcastEnv (W : Type) extends StratumEnv W where
  EncodePush : W → JSONPushMessage → Option String × W
  lyra2_block : Nat

/-- `cs.pushNewJob(work)`: the returned error, the session and the connection.
`none` is a panic (an index out of range, or a slice out of range in `getJob`). -/
def pushNewJob {W : Type} (env : BroadcastEnv W) (cs : Session) (work : List String)
    (c : Conn W) : Option (Option String × Session × Conn W) :=
  match work[0]?, work[1]?, work[2]?, work[3]? with
  | some hash, some blob, some target, some algo =>
    match getJob cs hash blob target algo with
    | none => none
    | some (job, cs1) =>
      let message : JSONPushMessage := { Version := "2.0", Method := "job", Params := job }
      let r := env.EncodePush c.world.st message
      some (r.1, cs1, { c with world := { c.world with st := r.2 } })
  | _, _, _, _ => none

/-- The goroutine `broadcastNewJobs` starts for one session of `s.sessions`, `t`
being the template read at the start of the broadcast: promote `diff`, build
the work list, push it, and remove the session if the push fails. -/
def broadcastJob {W : Type} (env : BroadcastEnv W) (t : BlockTemplate) (cs : Session)
    (c : Conn W) : Option (Session × Conn W) :=
  let cs := { cs with diff := cs.nextDiff }
  let algo := if t.Height ≥ env.lyra2_block then "lyra2-webchain" else "cryptonight-webchain"
  let reply := [t.Header, t.Seed, env.GetTargetHex cs.diff, algo]
  match pushNewJob env cs reply c with
  | none => none
  | some (some _, cs1, c1) => some (cs1, { c1 with registered := false })
  | some (none, cs1, c1) => some (cs1, c1)

/-- `broadcastNewJobs()` as it acts on one connection: nothing happens without a
ready template, nor for a session that is not in `s.sessions`. -/
def broadcastNewJobs {W : Type} (env : BroadcastEnv W) (_s : ProxyServer) (cs : Session)
    (c : Conn W) : Option (Session × Conn W) :=
  match env.currentBlockTemplate c.world.st with
  | none => some (cs, c)
  | some t =>
    if t.Header.utf8ByteSize = 0 || env.isSick c.world.st then some (cs, c)
    else if c.registered then broadcastJob env t cs c
    else some (cs, c)

/-! ## Concrete scenarios -/

/-- Exact division, standing in for `float64` division where the quotient is
representable (0/100, 100/100, ...). -/
def exactDiv (a b : ℚ) : ℚ := a / b

/-- A node and a storage backend with no data: every query fails or is empty and
every write succeeds. -/
def quietEnv : Env Unit where
  GetPendingBlock := fun st => (Except.error "no node", st)
  GetBlockByHeight := fun st _ => (Except.error "no node", st)
  GetUncleByBlockNumberAndIndex := fun st _ _ => (Except.error "no node", st)
  GetTxReceipt := fun st _ => (Except.error "no node", st)
  GetCandidates := fun st _ => (Except.ok [], st)
  GetImmatureBlocks := fun st _ => (Except.ok [], st)
  WritePendingOrphans := fun st _ => (none, st)
  WriteImmatureBlock := fun st _ _ => (none, st)
  WriteMaturedBlock := fun st _ _ => (none, st)
  WriteOrphan := fun st _ => (none, st)
  GetRoundShares := fun st _ _ => (Except.ok [], st)
  SetString0 := fun _ => none
  fdiv := exactDiv

/-- A storage backend whose round has three miners with one share each. -/
def threeMinerEnv : Env Unit :=
  { quietEnv with
    GetRoundShares := fun st _ _ => (Except.ok [("a", 1), ("b", 1), ("c", 1)], st) }

/-- A configuration with no pool fee, no fee address and a donation of 0 percent. -/
def plainConfig : UnlockerConfig where
  Enabled := true
  PoolFee := 0
  PoolFeeAddress := ""
  Depth := 32
  DevDonate := some 0
  ImmatureDepth := 16
  KeepTxFees := false
  Interval := "10m"
  Daemon := "http://127.0.0.1:8545"
  Timeout := "10s"

/-- An unlocker that has not failed. -/
def plainUnlocker : BlockUnlocker := { config := plainConfig, halt := false, lastFail := none }

/-- A matured block worth two Shannon (2·10^9 wei) with three round shares. -/
def twoShannonBlock : BlockData where
  Height := 1
  Timestamp := 0
  Difficulty := 1
  TotalShares := 3
  UncleHeight := 0
  Orphan := false
  Hash := "0xaa"
  Nonce := "0x01"
  PowHash := ""
  MixDigest := ""
  Reward := some 2000000000
  ExtraReward := none
  RoundHeight := 1

/-- An unlocker that has halted after a failure. -/
def haltedUnlocker : BlockUnlocker :=
  { config := plainConfig, halt := true, lastFail := some "no node" }

/-- The outside world before any call. -/
def emptyWorld : World Unit := { st := (), trace := [] }

/-- A canonical block with another hash than `twoShannonBlock` and the same nonce. -/
def otherBlockSameNonce : GetBlockReply where
  Number := "0x1"
  Hash := "0xbb"
  Nonce := "0x01"
  Transactions := []
  Uncles := []
  SealFields := []

/-- The split `calculateRewards` returns for `twoShannonBlock` in `threeMinerEnv`. -/
def threeMinerSplit : RewardSplit where
  revenue := 2000000000
  minersProfit := 2000000000
  poolProfit := 0
  rewards := [("a", 1), ("b", 1), ("c", 1)]
  donation := 0

/-- A canonical block mined by the pool at height 100 (`0x64`). -/
def minedBlock : GetBlockReply where
  Number := "0x64"
  Hash := "0xaaaaaaaaaaaaaaaa"
  Nonce := "0x00000000000000aa"
  Transactions := []
  Uncles := []
  SealFields := []

/-- A canonical block mined by somebody else. -/
def foreignBlock : GetBlockReply where
  Number := "0x65"
  Hash := "0xffffffffffffffff"
  Nonce := "0x00000000000000ff"
  Transactions := []
  Uncles := []
  SealFields := []

/-- A node whose chain holds `minedBlock` at height 100 and foreign blocks elsewhere. -/
def chainEnv : Env Unit :=
  { quietEnv with
    GetBlockByHeight := fun st h =>
      (Except.ok (some (if h = 100 then minedBlock else foreignBlock)), st) }

/-- The candidate recorded for `minedBlock`. -/
def minedCandidate : BlockData where
  Height := 100
  Timestamp := 0
  Difficulty := 1
  TotalShares := 3
  UncleHeight := 0
  Orphan := false
  Hash := ""
  Nonce := "0x00000000000000AA"
  PowHash := ""
  MixDigest := ""
  Reward := none
  ExtraReward := none
  RoundHeight := 100

/-- A candidate at height 200 that never made it into the chain. -/
def lostCandidate : BlockData where
  Height := 200
  Timestamp := 0
  Difficulty := 1
  TotalShares := 3
  UncleHeight := 0
  Orphan := false
  Hash := ""
  Nonce := "0x00000000000000bb"
  PowHash := ""
  MixDigest := ""
  Reward := none
  ExtraReward := none
  RoundHeight := 200

/-- What `unlockCandidates` returns for the two candidates on `chainEnv`. -/
def chainResult : UnlockResult where
  maturedBlocks := [{ minedCandidate with
    Hash := "0xaaaaaaaaaaaaaaaa", Reward := some 50000000000000000000 }]
  orphanedBlocks := [{ lostCandidate with Orphan := true }]
  orphans := 1
  uncles := 0
  blocks := 1

/-- The node queries made by `unlockCandidates` for the two candidates. -/
def chainTrace : List Call :=
  Call.GetBlockByHeight 100 :: (List.range 16).map (fun i => Call.GetBlockByHeight (200 + (i : Int)))

/-- A share pipeline whose node accepts every block, whose storage has seen no
share before, whose policy tolerates everything, and whose current template
knows the single header `0xlive`. -/
def liveEnv : ProxyEnv Unit where
  SubmitBlock := fun st _ => (Except.ok true, st)
  fetchBlockTemplate := fun st => st
  WriteBlock := fun st _ _ _ _ _ _ _ => ((false, none), st)
  WriteShare := fun st _ _ _ _ _ _ => ((false, none), st)
  ApplySharePolicy := fun st _ _ => (true, st)
  ApplyMalformedPolicy := fun st _ => (true, st)
  ApplyLoginPolicy := fun st _ _ => (true, st)
  CalcHash := fun _ _ => 0
  Now := fun _ => 0
  currentBlockTemplate := fun _ =>
    some { Header := "0xlive", Seed := "00", Height := 100, GetPendingBlockCache := none,
           headers := [("0xlive", { diff := 1000, height := 100 })] }
  isSick := fun _ => false

/-- A proxy with var-diff between 100 and 10^9. -/
def plainProxy : ProxyServer where
  Difficulty := 1000
  VarDiff := { MinDiff := 100, MaxDiff := 1000000000, TargetTime := 30, VariancePercent := 30,
               MaxJump := 50 }
  hashrateExpiration := 3600

/-- A registered session. -/
def plainSession : Session where
  ip := "10.0.0.1"
  login := "0x2a42292799d49895a4c8d39411ae735e82987008"
  diff := 1000
  nextDiff := 1000
  lastShareTime := none
  lastShareDurations := []
  hashNoNonce := "0xstale"

/-- The outside world of the share pipeline before any call. -/
def emptyProxyWorld : ProxyWorld Unit := { st := (), trace := [] }

/-- A share pipeline like `liveEnv` whose node cannot be reached: `SubmitBlock`
returns an RPC error. -/
def nodeDownEnv : ProxyEnv Unit :=
  { liveEnv with SubmitBlock := fun st _ => (Except.error "connection refused", st) }

/-- The template of `liveEnv`. -/
def liveTemplate : BlockTemplate :=
  { Header := "0xlive", Seed := "00", Height := 100, GetPendingBlockCache := none,
    headers := [("0xlive", { diff := 1000, height := 100 })] }

/-- A configuration that keeps transaction fees and donates half of the pool
profit (50/100 is an exact `float64` quotient). -/
def halfDonationConfig : UnlockerConfig :=
  { plainConfig with DevDonate := some 50, KeepTxFees := true }

/-- An unlocker running `halfDonationConfig`. -/
def halfDonationUnlocker : BlockUnlocker :=
  { config := halfDonationConfig, halt := false, lastFail := none }

/-- The two-Shannon block with 1000 wei of transaction fees kept aside. -/
def feeBlock : BlockData := { twoShannonBlock with ExtraReward := some 1000 }

/-- A session that has sent four shares 10 s apart, the last one 10 s before the
time 0 of `liveEnv`. -/
def tenSecondSession : Session :=
  { plainSession with
    lastShareTime := some (-10000000000)
    lastShareDurations := [10000000000, 10000000000, 10000000000, 10000000000] }

/-- A proxy whose var-diff ranges up to 2^62, with a variance of one half of the
target time. -/
def wideProxy : ProxyServer where
  Difficulty := 1000
  VarDiff := { MinDiff := 100, MaxDiff := 4611686018427387904, TargetTime := 30,
               VariancePercent := 50, MaxJump := 50 }
  hashrateExpiration := 3600

/-- A session like `tenSecondSession` at the difficulty 2^53 + 3, which is not a
`float64` value. -/
def oddSession : Session :=
  { tenSecondSession with diff := 9007199254740995, nextDiff := 9007199254740995 }

/-- The stratum collaborators over `liveEnv`: every write to the connection
succeeds, a request line is read as the name of its method, and the parameters
of every request carry nonce 01 and result 00. -/
def liveStratum : StratumEnv Unit :=
  { toProxyEnv := liveEnv
    Encode := fun st _ => (none, st)
    unmarshalParams := fun _ => Except.ok [("nonce", "01"), ("result", "00")]
    unmarshalReq := fun data =>
      Except.ok { Id := some "1", Method := data, Params := some "params", Worker := "rig1" }
    GetTargetHex := fun _ => "0x00000000ffffffff"
    IsValidHexAddress := fun _ => true
    BanClient := fun st _ => st }

/-- An open connection of a registered session on which nothing has been sent. -/
def openConn : Conn Unit :=
  { world := emptyProxyWorld, sent := [], registered := true, closed := false }

/-- A request with a method the dispatcher does not know. -/
def pingReq : StratumReq :=
  { Id := some "1", Method := "ping", Params := some "params", Worker := "rig1" }

/-- A `submit` request. -/
def submitReq : StratumReq :=
  { Id := some "1", Method := "submit", Params := some "params", Worker := "rig1" }

/-- A mined block at height 1 with two uncles and two transactions. -/
def feeBearingBlock : GetBlockReply :=
  { Number := "0x1", Hash := "0xaabbccddeeff", Nonce := "0x01",
    Transactions := [{ Hash := "0xt1", GasPrice := "3" }, { Hash := "0xt2", GasPrice := "5" }],
    Uncles := ["0xu1", "0xu2"], SealFields := [] }

/-- A node that has a receipt with 21000 gas used for every transaction, and
decimal numbers for gas and prices. -/
def receiptEnv : Env Unit :=
  { quietEnv with
    GetTxReceipt := fun st _ => (Except.ok (some { GasUsed := "21000" }), st)
    SetString0 := fun s => if s = "21000" then some 21000 else if s = "3" then some 3
      else if s = "5" then some 5 else none }

/-- The broadcast collaborators over `liveStratum`: every push succeeds. -/
def liveBroadcast : BroadcastEnv Unit :=
  { toStratumEnv := liveStratum
    EncodePush := fun st _ => (none, st)
    lyra2_block := 1000 }

/-! ## Reference notions for the reconciliation search, written from the specification -/

/-- The height a node query asks about (block and uncle queries), if any. -/
def Call.queriedHeight : Call → Option Int
  | Call.GetBlockByHeight height => some height
  | Call.GetUncleByBlockNumberAndIndex height _ => some height
  | _ => none

/-- A node reply is a block that matches the candidate. -/
def replyMatches (reply : Except String (Option GetBlockReply)) (candidate : BlockData) : Bool :=
  match reply with
  | Except.ok (some block) => matchCandidate block candidate
  | _ => false

/-- The canonical block at `height`, or one of its uncles, matches the candidate;
`blockAt` and `uncleAt` are the node's answers. -/
def matchesAt (blockAt : Int → Except String (Option GetBlockReply))
    (uncleAt : Int → Int → Except String (Option GetBlockReply))
    (candidate : BlockData) (height : Int) : Bool :=
  match blockAt height with
  | Except.ok (some block) =>
    matchCandidate block candidate
      || (List.range block.Uncles.length).any
          (fun j => replyMatches (uncleAt height (j : Int)) candidate)
  | _ => false

/-- The canonical block or an uncle of it matches the candidate at some height in
`[Height, Height + 16)`. -/
def foundOnChain (blockAt : Int → Except String (Option GetBlockReply))
    (uncleAt : Int → Int → Except String (Option GetBlockReply))
    (candidate : BlockData) : Bool :=
  (List.range 16).any (fun i => matchesAt blockAt uncleAt candidate (candidate.Height + (i : Int)))

/-- The trace of `w1` is the trace of `w` followed by calls that all satisfy `P`. -/
def World.grows {W : Type} (w w1 : World W) (P : Call → Prop) : Prop :=
  ∃ new, w1.trace = w.trace ++ new ∧ ∀ c ∈ new, P c

/-- The result `r1` is the result `r` with one more matured block, which stands
for `candidate` and is not an orphan, and with one more block or uncle counted. -/
def MaturedOne (candidate : BlockData) (r r1 : UnlockResult) : Prop :=
  ∃ c1 : BlockData, c1.Orphan = false ∧ (c1.RoundHeight, c1.Nonce) = (candidate.RoundHeight, candidate.Nonce)
    ∧ r1.maturedBlocks = r.maturedBlocks ++ [c1]
    ∧ r1.orphanedBlocks = r.orphanedBlocks
    ∧ r1.orphans = r.orphans
    ∧ r1.blocks + r1.uncles = r.blocks + r.uncles + 1

/-- A call asks, if it asks about a height at all, about one in
`[candidate.Height, candidate.Height + 16)`. -/
def InWindow (candidate : BlockData) (c : Call) : Prop :=
  ∀ h, c.queriedHeight = some h → candidate.Height ≤ h ∧ h < candidate.Height + 16

/-- What identifies a candidate's round: `RoundHeight` and `Nonce`. -/
def roundOf (b : BlockData) : Int × String := (b.RoundHeight, b.Nonce)

/-! ## Reference curve, written from the specification -/

/-- The winner-reward curve as the specification words it. -/
def winnerRewardSpec (era : Int) : Int :=
  let R0 : Int := 50 * 10 ^ 18
  let W32 : Int := R0 * 249 ^ 32 / 250 ^ 32
  if era = 0 then R0
  else if 1 ≤ era ∧ era ≤ 32 then R0 * 249 ^ era.toNat / 250 ^ era.toNat
  else if 33 ≤ era ∧ era ≤ 35 then W32 - W32 / 24 * (era - 32)
  else if 36 ≤ era ∧ era ≤ 44 then
    [2000, 1300, 1200, 1100, 1000, 900, 800, 700, 625].getD (era - 36).toNat 0 * 10 ^ 16
  else R0 * 249 ^ (era + 475).toNat / 250 ^ (era + 475).toNat

/-! ## Reference notions for var-diff, written from the specification -/

/-- The window of the last (at most 5) inter-share durations after a share that
comes `sinceLast` after the previous one. -/
def shareWindow (durations : List Int) (sinceLast : Int) : List Int :=
  if (durations ++ [sinceLast]).length > 5 then (durations ++ [sinceLast]).drop 1
  else durations ++ [sinceLast]

/-- The length of an interval in seconds, as an exact value. -/
def exactSeconds (d : Int) : ℚ := (d : ℚ) / 1000000000

/-- The mean of a window of durations in seconds, the intervals taken as exact
values. -/
def windowMean (window : List Int) : ℚ :=
  (window.map exactSeconds).sum / (window.length : ℚ)

/-! ## Reference notions for the job target, written from the specification -/

/-- The value of a hexadecimal digit, of either case. -/
def hexDigitValue : Char → Option Nat
  | '0' => some 0 | '1' => some 1 | '2' => some 2 | '3' => some 3 | '4' => some 4
  | '5' => some 5 | '6' => some 6 | '7' => some 7 | '8' => some 8 | '9' => some 9
  | 'a' => some 10 | 'b' => some 11 | 'c' => some 12 | 'd' => some 13 | 'e' => some 14
  | 'f' => some 15
  | 'A' => some 10 | 'B' => some 11 | 'C' => some 12 | 'D' => some 13 | 'E' => some 14
  | 'F' => some 15
  | _ => none

/-- The number a string of hexadecimal digits denotes, most significant digit
first. -/
def hexValue (digits : List Char) : Nat :=
  digits.foldl (fun n c => n * 16 + (hexDigitValue c).getD 0) 0

/-- The 16-digit big-endian lowercase hexadecimal rendering of `v < 2^64`. -/
def beHex16 (v : Nat) : List Char :=
  (List.range 16).map (fun i => "0123456789abcdef".data.getD (v / 16 ^ (15 - i) % 16) '0')

/-- Reversal of the bytes of a hexadecimal string, each byte being two
characters. -/
def reverseBytes : List Char → List Char
  | a :: b :: rest => reverseBytes rest ++ [a, b]
  | rest => rest

/-! ## Reference notions for the block reward, written from the specification -/

/-- The receipts the node returns for the transactions of a block, asked for in
order; `none` when one of the queries fails. -/
def receiptsOf {W : Type} (env : Env W) : List Tx → W → Option (List (Option TxReceipt))
  | [], _ => some []
  | tx :: rest, st =>
    match env.GetTxReceipt st tx.Hash with
    | (Except.error _, _) => none
    | (Except.ok receipt, st1) => (receiptsOf env rest st1).map (fun rs => receipt :: rs)

/-- The fee of one transaction: gasUsed * gasPrice when it has a receipt, 0 when
it has none; `none` when the gas used or the gas price is not a number. -/
def txFee {W : Type} (env : Env W) (tx : Tx) : Option TxReceipt → Option Int
  | none => some 0
  | some receipt =>
    match env.SetString0 receipt.GasUsed, env.SetString0 tx.GasPrice with
    | some gasUsed, some gasPrice => some (gasUsed * gasPrice)
    | _, _ => none

/-- The sum of the fees of the transactions of a block, given their receipts. -/
def feeSum {W : Type} (env : Env W) : List Tx → List (Option TxReceipt) → Int
  | tx :: txs, receipt :: receipts => (txFee env tx receipt).getD 0 + feeSum env txs receipts
  | _, _ => 0

/-- The donation percentage as the specification words it: `DevDonate` when it
is configured and lies in [0, 100), the default 10 otherwise, and nothing when
the unlocker is not enabled. -/
def donationPercent (config : UnlockerConfig) : ℚ :=
  if config.Enabled then
    match config.DevDonate with
    | some d => if 0 ≤ d ∧ d < 100 then d else 10
    | none => 10
  else 0

/-! ## Reference notions for halting, written from the specification -/

/-- Whether a call writes to the storage backend. -/
def Call.isStorageWrite : Call → Bool
  | Call.WritePendingOrphans _ => true
  | Call.WriteImmatureBlock _ _ => true
  | Call.WriteMaturedBlock _ _ => true
  | Call.WriteOrphan _ => true
  | _ => false

/-! ## Theorems -/

/-! ### Reward curve -/

theorem winnerReward_main (era : Int) (h0 : era ≠ 0) (h33 : era < 33) :
    GetBlockWinnerRewardByEra era
      = bigDiv (50 * 10 ^ 18 * bigExp 249 era) (bigExp 250 era) := by
  rw [GetBlockWinnerRewardByEra]
  have h45 : ¬ era ≥ 45 := by omega
  simp only [h0, h45, if_false]
  rw [if_neg (by omega), dif_neg (by omega)]
  norm_num [DisinflationRateQuotient, DisinflationRateDivisor]

theorem winnerReward_skip (era : Int) (h45 : 45 ≤ era) :
    GetBlockWinnerRewardByEra era
      = bigDiv (50 * 10 ^ 18 * bigExp 249 (era + 475)) (bigExp 250 (era + 475)) := by
  rw [GetBlockWinnerRewardByEra]
  have h0 : era ≠ 0 := by omega
  have h45' : era ≥ 45 := h45
  simp only [h0, h45', if_false, if_true]
  rw [if_neg (by omega), dif_neg (by omega)]
  norm_num [DisinflationRateQuotient, DisinflationRateDivisor]

theorem winnerReward_table (era : Int) (h36 : 36 ≤ era) (h45 : era < 45) :
    GetBlockWinnerRewardByEra era = eraRewardsTable.getD (era - 36).toNat 0 * 10 ^ 16 := by
  rw [GetBlockWinnerRewardByEra]
  have h0 : era ≠ 0 := by omega
  have h45' : ¬ era ≥ 45 := by omega
  simp only [h0, h45', if_false]
  rw [if_pos ⟨h36, h45⟩]
  norm_num

theorem winnerReward_band (era : Int) (h33 : 33 ≤ era) (h36 : era < 36) :
    GetBlockWinnerRewardByEra era
      = GetBlockWinnerRewardByEra 32 - bigDiv (GetBlockWinnerRewardByEra 32) 24 * (era - 32) := by
  rw [GetBlockWinnerRewardByEra]
  have h0 : era ≠ 0 := by omega
  have h45' : ¬ era ≥ 45 := by omega
  simp only [h0, h45', if_false]
  rw [if_neg (by omega), dif_pos ⟨h33, h36⟩]
  norm_num
  left
  ring

theorem winnerReward_32 :
    GetBlockWinnerRewardByEra 32 = 50 * 10 ^ 18 * 249 ^ 32 / 250 ^ 32 := by
  rw [winnerReward_main 32 (by decide) (by decide)]
  have h : Int.toNat 32 = 32 := rfl
  norm_num [bigExp, bigDiv, h]

/-- C4: for every era ≥ 0 the winner reward computed by the code equals the
reference curve (base reward, geometric decay up to era 32, the linear band
33..35, the table band 36..44, and the shifted exponent from era 45 on); era 37
pays 1300·10^16 and era 45 uses exponent 520. -/
theorem winner_reward_matches_curve (era : Int) (h : 0 ≤ era) :
    GetBlockWinnerRewardByEra era = winnerRewardSpec era
      ∧ GetBlockWinnerRewardByEra 37 = 1300 * 10 ^ 16
      ∧ GetBlockWinnerRewardByEra 45 = 50 * 10 ^ 18 * 249 ^ 520 / 250 ^ 520 := by
  refine ⟨?_, ?_, ?_⟩
  · unfold winnerRewardSpec
    by_cases h0 : era = 0
    · subst h0; rw [GetBlockWinnerRewardByEra]; norm_num
    by_cases h32 : era ≤ 32
    · rw [winnerReward_main era h0 (by omega)]
      have hp : ¬ era ≤ 0 := by omega
      simp only [h0, if_false, bigExp, bigDiv, hp]
      rw [if_pos ⟨by omega, h32⟩]
    by_cases h35 : era ≤ 35
    · rw [winnerReward_band era (by omega) (by omega), winnerReward_32]
      simp only [h0, if_false, bigDiv]
      rw [if_neg (by omega), if_pos ⟨by omega, h35⟩]
    by_cases h44 : era ≤ 44
    · rw [winnerReward_table era (by omega) (by omega)]
      simp only [h0, if_false, eraRewardsTable]
      rw [if_neg (by omega), if_neg (by omega), if_pos ⟨by omega, h44⟩]
    · rw [winnerReward_skip era (by omega)]
      have hp : ¬ era + 475 ≤ 0 := by omega
      simp only [h0, if_false, bigExp, bigDiv, hp]
      rw [if_neg (by omega), if_neg (by omega), if_neg (by omega)]
  · rw [winnerReward_table 37 (by decide) (by decide)]
    simp [eraRewardsTable]
  · rw [winnerReward_skip 45 (by decide)]
    have h : Int.toNat 520 = 520 := rfl
    norm_num [bigExp, bigDiv, h]

/-- Witness for C4 at era 34, inside the linear band. -/
theorem winner_reward_matches_curve_witness :
    (0 : Int) ≤ 34 ∧ GetBlockWinnerRewardByEra 34 = winnerRewardSpec 34 :=
  ⟨by decide, (winner_reward_matches_curve 34 (by decide)).1⟩

/-- C5: for heights h ≥ 1 and era lengths L ≥ 2 the era is floor((h − 1) / L);
heights below 1 are era 0 for every era length; with L = 100000 the heights
1..100000 are era 0 and height 100001 is era 1. -/
theorem block_era_formula (h L : Int) (hh : 1 ≤ h) (hL : 2 ≤ L) :
    GetBlockEra h L = some ((h - 1) / L)
      ∧ (∀ h0 L0 : Int, h0 < 1 → GetBlockEra h0 L0 = some 0)
      ∧ (∀ h1 : Int, 1 ≤ h1 → h1 ≤ 100000 → GetBlockEra h1 100000 = some 0)
      ∧ GetBlockEra 100001 100000 = some 1 := by
  have key : ∀ a b : Int, 1 ≤ a → 2 ≤ b → GetBlockEra a b = some ((a - 1) / b) := by
    intro a b ha hb
    have h1 : ¬ a < 1 := by omega
    have h2 : b ≠ 0 := by omega
    simp only [GetBlockEra, h1, h2, if_false, bigMod, bigDiv, Int.emod_one, sub_zero]
    congr 1
    have e : a - (a - 1) % b = 1 + b * ((a - 1) / b) := by
      rw [Int.emod_def]; ring
    rw [e, Int.add_mul_ediv_left _ _ h2, Int.ediv_eq_zero_of_lt (by decide) (by omega)]
    simp
  refine ⟨key h L hh hL, ?_, ?_, ?_⟩
  · intro h0 L0 hlt
    simp [GetBlockEra, hlt]
  · intro h1 hlo hhi
    rw [key h1 100000 hlo (by decide)]
    congr 1
    omega
  · rw [key 100001 100000 (by decide) (by decide)]
    rfl

/-- Witness for C5 at height 250000 with the deployed era length. -/
theorem block_era_formula_witness :
    (1 : Int) ≤ 250000 ∧ (2 : Int) ≤ 100000 ∧ GetBlockEra 250000 100000 = some 2 :=
  ⟨by decide, by decide, (block_era_formula 250000 100000 (by decide) (by decide)).1⟩

/-! ### 64-bit integers and the rewards map -/

theorem wrapInt64_ge (x : Int) : -9223372036854775808 ≤ wrapInt64 x := by
  unfold wrapInt64; omega

theorem wrapInt64_lt (x : Int) : wrapInt64 x < 9223372036854775808 := by
  unfold wrapInt64; omega

theorem wrapInt64_le_self (x : Int) (h : -9223372036854775808 ≤ x) : wrapInt64 x ≤ x := by
  unfold wrapInt64; omega

theorem wrapInt64_of_range (x : Int) (h1 : -9223372036854775808 ≤ x)
    (h2 : x < 9223372036854775808) : wrapInt64 x = x := by
  unfold wrapInt64; omega

theorem parseInt64_range (v : Int) :
    -9223372036854775808 ≤ parseInt64 v ∧ parseInt64 v < 9223372036854775808 := by
  unfold parseInt64; split_ifs <;> omega

theorem parseInt64_le_self (v : Int) (h : 0 ≤ v) : 0 ≤ parseInt64 v ∧ parseInt64 v ≤ v := by
  unfold parseInt64; split_ifs <;> omega

theorem parseInt64_of_fit (v : Int) (h1 : -9223372036854775808 ≤ v)
    (h2 : v ≤ 9223372036854775807) : parseInt64 v = v := by
  unfold parseInt64; split_ifs <;> omega

theorem RewardMap.get_add_same (m : RewardMap) (k : String) (v : Int) :
    (m.add k v).get k = wrapInt64 (m.get k + v) := by
  induction m with
  | nil => simp [RewardMap.add, RewardMap.get, List.lookup]
  | cons p rest ih =>
    obtain ⟨k0, v0⟩ := p
    by_cases h : k0 = k
    · subst h
      simp [RewardMap.add, RewardMap.get, List.lookup]
    · have h2 : (k == k0) = false := by simpa using fun e => h e.symm
      simp only [RewardMap.add, h, if_false, RewardMap.get, List.lookup, h2] at ih ⊢
      exact ih

theorem RewardMap.get_add_other (m : RewardMap) (k k1 : String) (v : Int) (hne : k1 ≠ k) :
    (m.add k v).get k1 = m.get k1 := by
  induction m with
  | nil =>
    have h2 : (k1 == k) = false := by simpa using hne
    simp [RewardMap.add, RewardMap.get, List.lookup, h2]
  | cons p rest ih =>
    obtain ⟨k0, v0⟩ := p
    by_cases h : k0 = k
    · subst h
      have h2 : (k1 == k0) = false := by simpa using hne
      simp [RewardMap.add, RewardMap.get, List.lookup, h2]
    · simp only [RewardMap.add, h, if_false, RewardMap.get, List.lookup] at ih ⊢
      cases hk : (k1 == k0) <;> simp [hk, ih]


/-! ### Rounding of `weiToShannonInt64` -/

theorem floatString0_of_nonneg (x : ℚ) (hx : 0 ≤ x) : floatString0 x = ⌊x + 1 / 2⌋ := by
  have hnum : 0 ≤ x.num := Rat.num_nonneg.mpr hx
  have hden : 0 < x.den := x.den_pos
  unfold floatString0
  by_cases h1 : x.den = 1
  · rw [if_pos h1]
    symm
    rw [Int.floor_eq_iff]
    have hx' : x = (x.num : ℚ) := by
      conv_lhs => rw [← Rat.num_div_den x]
      rw [h1]; simp
    constructor
    · rw [← hx']; linarith
    · rw [← hx']; linarith
  · rw [if_neg h1]
    have hneg : ¬ x.num < 0 := by omega
    simp only [hneg, if_false]
    obtain ⟨n, hn⟩ := Int.eq_ofNat_of_zero_le hnum
    have hnat : x.num.natAbs = n := by rw [hn]; rfl
    rw [hnat]
    have hxq : x = (n : ℚ) / (x.den : ℚ) := by
      conv_lhs => rw [← Rat.num_div_den x]
      rw [hn]; simp
    have hdq : (0 : ℚ) < (x.den : ℚ) := by exact_mod_cast hden
    have hdm : x.den * (n / x.den) + n % x.den = n := Nat.div_add_mod n x.den
    have hdmq : (x.den : ℚ) * ((n / x.den : ℕ) : ℚ) + ((n % x.den : ℕ) : ℚ) = (n : ℚ) := by
      exact_mod_cast hdm
    have hrlt : n % x.den < x.den := Nat.mod_lt n hden
    have hrltq : ((n % x.den : ℕ) : ℚ) < (x.den : ℚ) := by exact_mod_cast hrlt
    have hr0 : (0 : ℚ) ≤ ((n % x.den : ℕ) : ℚ) := by positivity
    symm
    rw [Int.floor_eq_iff]
    have hxd : x * (x.den : ℚ) = (n : ℚ) := by
      rw [Rat.mul_den_eq_num, hn]; simp
    by_cases hup : x.den ≤ n % x.den + n % x.den
    · rw [if_pos hup]
      have hupq : (x.den : ℚ) ≤ ((n % x.den : ℕ) : ℚ) + ((n % x.den : ℕ) : ℚ) := by
        exact_mod_cast hup
      push_cast
      constructor
      · have : ((n / x.den : ℕ) : ℚ) + 1 ≤ x + 1 / 2 := by
          have h2 : (((n / x.den : ℕ) : ℚ) + 1) * (x.den : ℚ) ≤ (x + 1 / 2) * (x.den : ℚ) := by
            nlinarith
          exact le_of_mul_le_mul_right h2 hdq
        simpa using this
      · have : x + 1 / 2 < ((n / x.den : ℕ) : ℚ) + 1 + 1 := by
          have h2 : (x + 1 / 2) * (x.den : ℚ) < (((n / x.den : ℕ) : ℚ) + 1 + 1) * (x.den : ℚ) := by
            nlinarith
          exact lt_of_mul_lt_mul_right h2 hdq.le
        simpa using this
    · rw [if_neg hup]
      have hupq : ((n % x.den : ℕ) : ℚ) + ((n % x.den : ℕ) : ℚ) < (x.den : ℚ) := by
        exact_mod_cast (Nat.lt_of_not_le hup)
      push_cast
      constructor
      · have : ((n / x.den : ℕ) : ℚ) ≤ x + 1 / 2 := by
          have h2 : (((n / x.den : ℕ) : ℚ)) * (x.den : ℚ) ≤ (x + 1 / 2) * (x.den : ℚ) := by
            nlinarith
          exact le_of_mul_le_mul_right h2 hdq
        simpa using this
      · have : x + 1 / 2 < ((n / x.den : ℕ) : ℚ) + 1 := by
          have h2 : (x + 1 / 2) * (x.den : ℚ) < (((n / x.den : ℕ) : ℚ) + 1) * (x.den : ℚ) := by
            nlinarith
          exact lt_of_mul_lt_mul_right h2 hdq.le
        simpa using this

theorem weiToShannonInt64_of_nonneg (w : ℚ) (hw : 0 ≤ w) :
    weiToShannonInt64 w = parseInt64 ⌊w / 1000000000 + 1 / 2⌋ := by
  unfold weiToShannonInt64
  have h : 0 ≤ w / ((Shannon : Int) : ℚ) := by
    apply div_nonneg hw
    norm_num [Shannon]
  simp only []
  rw [floatString0_of_nonneg _ h]
  norm_num [Shannon]

theorem floor_half_nonneg (x : ℚ) (hx : 0 ≤ x) : 0 ≤ ⌊x + 1 / 2⌋ := by
  apply Int.floor_nonneg.mpr
  linarith

theorem weiToShannonInt64_bounds (w : ℚ) (hw : 0 ≤ w) :
    0 ≤ weiToShannonInt64 w ∧ weiToShannonInt64 w < 9223372036854775808
      ∧ 2 * (weiToShannonInt64 w : ℚ) * 1000000000 ≤ 2 * w + 1000000000 := by
  rw [weiToShannonInt64_of_nonneg w hw]
  have hx : 0 ≤ w / 1000000000 := by positivity
  have hf := floor_half_nonneg _ hx
  obtain ⟨h0, hle⟩ := parseInt64_le_self _ hf
  refine ⟨h0, (parseInt64_range _).2, ?_⟩
  have hfl : ((⌊w / 1000000000 + 1 / 2⌋ : Int) : ℚ) ≤ w / 1000000000 + 1 / 2 := Int.floor_le _
  have hq : ((parseInt64 ⌊w / 1000000000 + 1 / 2⌋ : Int) : ℚ) ≤ w / 1000000000 + 1 / 2 := by
    have : ((parseInt64 ⌊w / 1000000000 + 1 / 2⌋ : Int) : ℚ)
        ≤ ((⌊w / 1000000000 + 1 / 2⌋ : Int) : ℚ) := by exact_mod_cast hle
    linarith
  have e : w = w / 1000000000 * 1000000000 := by field_simp
  nlinarith

theorem weiToShannonInt64_600000000 : weiToShannonInt64 600000000 = 1 := by
  rw [weiToShannonInt64_of_nonneg _ (by norm_num)]
  have h : ⌊(600000000 : ℚ) / 1000000000 + 1 / 2⌋ = 1 := by
    rw [Int.floor_eq_iff]; norm_num
  rw [h]; rfl

/-! ### The share loop -/

theorem RewardMap.total_add_le (m : RewardMap) (k : String) (v : Int)
    (hm : ∀ p ∈ m, -9223372036854775808 ≤ p.2) (hv : 0 ≤ v) :
    (m.add k v).total ≤ m.total + v ∧ ∀ p ∈ m.add k v, -9223372036854775808 ≤ p.2 := by
  induction m with
  | nil =>
    have h1 := wrapInt64_le_self (0 + v) (by omega)
    have h2 := wrapInt64_ge (0 + v)
    constructor
    · simp only [RewardMap.add, RewardMap.total, List.map, List.sum_cons, List.sum_nil]
      omega
    · intro p hp
      simp only [RewardMap.add, List.mem_singleton] at hp
      subst hp
      exact h2
  | cons q rest ih =>
    obtain ⟨k0, v0⟩ := q
    have hv0 : -9223372036854775808 ≤ v0 := hm (k0, v0) (List.mem_cons_self _ _)
    have hrest : ∀ p ∈ rest, -9223372036854775808 ≤ p.2 :=
      fun p hp => hm p (List.mem_cons_of_mem _ hp)
    by_cases h : k0 = k
    · have h1 := wrapInt64_le_self (v0 + v) (by omega)
      have h2 := wrapInt64_ge (v0 + v)
      constructor
      · simp only [RewardMap.add, h, if_true, RewardMap.total, List.map, List.sum_cons]
        omega
      · intro p hp
        simp only [RewardMap.add, h, if_true, List.mem_cons] at hp
        rcases hp with hp | hp
        · subst hp; exact h2
        · exact hrest p hp
    · obtain ⟨ih1, ih2⟩ := ih hrest
      constructor
      · simp only [RewardMap.add, h, if_false, RewardMap.total, List.map, List.sum_cons] at ih1 ⊢
        omega
      · intro p hp
        simp only [RewardMap.add, h, if_false, List.mem_cons] at hp
        rcases hp with hp | hp
        · subst hp; exact hv0
        · exact ih2 p hp

/-- The loop body of `calculateRewardsForShares`. -/
theorem sharesFold_cons (total : Int) (reward : ℚ) (ht : total ≠ 0) (e : String × Int)
    (rest : List (String × Int)) (acc : RewardMap) :
    List.foldlM
      (fun rewards entry =>
        if total = 0 then none
        else
          let percent : ℚ := (entry.2 : ℚ) / (total : ℚ)
          let workerReward := reward * percent
          some (RewardMap.add rewards entry.1 (weiToShannonInt64 workerReward)))
      acc (e :: rest)
    = List.foldlM
      (fun rewards entry =>
        if total = 0 then none
        else
          let percent : ℚ := (entry.2 : ℚ) / (total : ℚ)
          let workerReward := reward * percent
          some (RewardMap.add rewards entry.1 (weiToShannonInt64 workerReward)))
      (acc.add e.1 (weiToShannonInt64 (reward * ((e.2 : ℚ) / (total : ℚ))))) rest := by
  simp [List.foldlM_cons, ht]

theorem sharesFold_values (total : Int) (reward : ℚ) (ht : total ≠ 0) :
    ∀ (shares : List (String × Int)) (acc : RewardMap), (shares.map Prod.fst).Nodup →
      ∃ m, List.foldlM
        (fun rewards entry =>
          if total = 0 then none
          else
            let percent : ℚ := (entry.2 : ℚ) / (total : ℚ)
            let workerReward := reward * percent
            some (RewardMap.add rewards entry.1 (weiToShannonInt64 workerReward)))
        acc shares = some m
        ∧ (∀ k, k ∉ shares.map Prod.fst → m.get k = acc.get k)
        ∧ (∀ p ∈ shares, m.get p.1
            = wrapInt64 (acc.get p.1 + weiToShannonInt64 (reward * ((p.2 : ℚ) / (total : ℚ))))) := by
  intro shares
  induction shares with
  | nil =>
    intro acc _
    exact ⟨acc, by simp, by simp, by simp⟩
  | cons e rest ih =>
    intro acc hnd
    rw [sharesFold_cons total reward ht]
    simp only [List.map, List.nodup_cons] at hnd
    obtain ⟨m, hm, hother, hval⟩ := ih (acc.add e.1 (weiToShannonInt64 (reward * ((e.2 : ℚ) / (total : ℚ))))) hnd.2
    refine ⟨m, hm, ?_, ?_⟩
    · intro k hk
      simp only [List.map, List.mem_cons, not_or] at hk
      rw [hother k hk.2, RewardMap.get_add_other _ _ _ _ hk.1]
    · intro p hp
      rcases List.mem_cons.mp hp with hp | hp
      · subst hp
        rw [hother p.1 hnd.1, RewardMap.get_add_same]
      · have hne : p.1 ≠ e.1 := by
          intro heq
          apply hnd.1
          rw [← heq]
          exact List.mem_map_of_mem Prod.fst hp
        rw [hval p hp, RewardMap.get_add_other _ _ _ _ hne]

theorem sharesFold_bound (total : Int) (reward : ℚ) (ht : 0 < total) (hr : 0 ≤ reward) :
    ∀ (shares : List (String × Int)) (acc : RewardMap),
      (∀ p ∈ acc, -9223372036854775808 ≤ p.2) → (∀ p ∈ shares, 0 ≤ p.2) →
      ∃ m, List.foldlM
        (fun rewards entry =>
          if total = 0 then none
          else
            let percent : ℚ := (entry.2 : ℚ) / (total : ℚ)
            let workerReward := reward * percent
            some (RewardMap.add rewards entry.1 (weiToShannonInt64 workerReward)))
        acc shares = some m
        ∧ (∀ p ∈ m, -9223372036854775808 ≤ p.2)
        ∧ 2 * (m.total : ℚ) * 1000000000
            ≤ 2 * (acc.total : ℚ) * 1000000000
              + 2 * (reward * (((shares.map Prod.snd).sum : Int) : ℚ) / (total : ℚ))
              + (shares.length : ℚ) * 1000000000 := by
  have htq : (0 : ℚ) < (total : ℚ) := by exact_mod_cast ht
  intro shares
  induction shares with
  | nil =>
    intro acc hacc _
    exact ⟨acc, by simp, hacc, by simp⟩
  | cons e rest ih =>
    intro acc hacc hpos
    rw [sharesFold_cons total reward (by omega)]
    have he : 0 ≤ e.2 := hpos e (List.mem_cons_self _ _)
    have heq : (0 : ℚ) ≤ (e.2 : ℚ) := by exact_mod_cast he
    have hw : 0 ≤ reward * ((e.2 : ℚ) / (total : ℚ)) := by positivity
    obtain ⟨b0, _, b2⟩ := weiToShannonInt64_bounds _ hw
    obtain ⟨a1, a2⟩ := RewardMap.total_add_le acc e.1 _ hacc b0
    obtain ⟨m, hm, hinv, hb⟩ := ih _ a2 (fun p hp => hpos p (List.mem_cons_of_mem _ hp))
    refine ⟨m, hm, hinv, ?_⟩
    have a1q : ((RewardMap.total (acc.add e.1 (weiToShannonInt64 (reward * ((e.2 : ℚ) / (total : ℚ))))) : Int) : ℚ)
        ≤ (acc.total : ℚ) + (weiToShannonInt64 (reward * ((e.2 : ℚ) / (total : ℚ))) : ℚ) := by
      exact_mod_cast a1
    rw [List.map_cons, List.sum_cons, List.length_cons, Int.cast_add, Nat.cast_succ]
    have esplit : reward * ((e.2 : ℚ) + (((rest.map Prod.snd).sum : Int) : ℚ)) / (total : ℚ)
        = reward * ((e.2 : ℚ) / (total : ℚ)) + reward * (((rest.map Prod.snd).sum : Int) : ℚ) / (total : ℚ) := by
      field_simp
      ring
    rw [esplit]
    nlinarith

/-! ### Payout distributor -/

theorem calculateRewardsForShares_ok (shares : List (String × Int)) (total : Int)
    (minersProfit : ℚ) (hnd : (shares.map Prod.fst).Nodup) (ht : 0 < total)
    (hmp : 0 ≤ minersProfit) (hpos : ∀ p ∈ shares, 0 ≤ p.2) :
    ∃ m, calculateRewardsForShares shares total minersProfit = some m
      ∧ ∀ p ∈ shares,
          ⌊minersProfit * (p.2 : ℚ) / (total : ℚ) / 10 ^ 9 + 1 / 2⌋ ≤ 2 ^ 63 - 1 →
          m.get p.1 = ⌊minersProfit * (p.2 : ℚ) / (total : ℚ) / 10 ^ 9 + 1 / 2⌋ := by
  obtain ⟨m, hm, _, hval⟩ := sharesFold_values total minersProfit (by omega) shares [] hnd
  refine ⟨m, hm, ?_⟩
  intro p hp hfit
  have htq : (0 : ℚ) < (total : ℚ) := by exact_mod_cast ht
  have hp0 : (0 : ℚ) ≤ (p.2 : ℚ) := by exact_mod_cast hpos p hp
  have hw : 0 ≤ minersProfit * ((p.2 : ℚ) / (total : ℚ)) := by positivity
  rw [hval p hp, weiToShannonInt64_of_nonneg _ hw]
  have e : minersProfit * ((p.2 : ℚ) / (total : ℚ)) / 1000000000
      = minersProfit * (p.2 : ℚ) / (total : ℚ) / 10 ^ 9 := by
    norm_num; ring
  rw [e]
  have hx : 0 ≤ minersProfit * (p.2 : ℚ) / (total : ℚ) / 10 ^ 9 := by positivity
  have hf := floor_half_nonneg _ hx
  have hfit2 : ⌊minersProfit * (p.2 : ℚ) / (total : ℚ) / 10 ^ 9 + 1 / 2⌋ ≤ 9223372036854775807 := by
    have : (2 : Int) ^ 63 - 1 = 9223372036854775807 := by norm_num
    omega
  rw [parseInt64_of_fit _ (by omega) hfit2]
  have hget : RewardMap.get ([] : RewardMap) p.1 = 0 := rfl
  rw [hget, zero_add, wrapInt64_of_range _ (by omega) (by omega)]

/-- C2 (as amended): for a non-negative wei amount whose rounded Shannon value
fits in an int64, `weiToShannonInt64` rounds to the nearest Shannon, halves up:
it returns floor(w / 10^9 + 1/2); so each miner is credited
floor(minersProfit · n / totalShares / 10^9 + 1/2) by
`calculateRewardsForShares`, and 600000000 wei converts to 1 Shannon. -/
theorem weiToShannon_rounds_to_nearest (w : ℚ) (hw : 0 ≤ w)
    (hfit : ⌊w / 10 ^ 9 + 1 / 2⌋ ≤ 2 ^ 63 - 1) :
    weiToShannonInt64 w = ⌊w / 10 ^ 9 + 1 / 2⌋
      ∧ (∀ (shares : List (String × Int)) (total : Int) (minersProfit : ℚ),
          (shares.map Prod.fst).Nodup → 0 < total → 0 ≤ minersProfit →
          (∀ p ∈ shares, 0 ≤ p.2) →
          ∃ m, calculateRewardsForShares shares total minersProfit = some m
            ∧ ∀ p ∈ shares,
                ⌊minersProfit * (p.2 : ℚ) / (total : ℚ) / 10 ^ 9 + 1 / 2⌋ ≤ 2 ^ 63 - 1 →
                m.get p.1 = ⌊minersProfit * (p.2 : ℚ) / (total : ℚ) / 10 ^ 9 + 1 / 2⌋)
      ∧ weiToShannonInt64 600000000 = 1 := by
  refine ⟨?_, ?_, weiToShannonInt64_600000000⟩
  · rw [weiToShannonInt64_of_nonneg w hw]
    have e : w / 1000000000 = w / 10 ^ 9 := by norm_num
    rw [e]
    have hx : 0 ≤ w / 10 ^ 9 := by positivity
    have hf := floor_half_nonneg _ hx
    have hfit2 : ⌊w / 10 ^ 9 + 1 / 2⌋ ≤ 9223372036854775807 := by
      have : (2 : Int) ^ 63 - 1 = 9223372036854775807 := by norm_num
      omega
    exact parseInt64_of_fit _ (by omega) hfit2
  · intro shares total minersProfit hnd ht hmp hpos
    exact calculateRewardsForShares_ok shares total minersProfit hnd ht hmp hpos

theorem floor_example_1500 : ⌊(1500000000 : ℚ) / 10 ^ 9 + 1 / 2⌋ = 2 := by
  rw [Int.floor_eq_iff]; norm_num

/-- Witness for C2 (as amended): 1.5 Shannon is credited as 2 Shannon. -/
theorem weiToShannon_rounds_to_nearest_witness :
    (0 : ℚ) ≤ 1500000000 ∧ weiToShannonInt64 1500000000 = 2 :=
  ⟨by norm_num, by
    have h := (weiToShannon_rounds_to_nearest 1500000000 (by norm_num)
      (by rw [floor_example_1500]; norm_num)).1
    rw [floor_example_1500] at h
    exact h⟩

/-- C2 fails as stated: 600000000 wei (0.6 Shannon) is not converted to
floor(0.6) = 0 but to 1. -/
theorem weiToShannon_is_not_floor :
    ¬ (weiToShannonInt64 600000000 = ⌊(600000000 : ℚ) / 10 ^ 9⌋)
      ∧ ¬ (weiToShannonInt64 600000000 = 0) := by
  have hfl : ⌊(600000000 : ℚ) / 10 ^ 9⌋ = 0 := by
    rw [Int.floor_eq_iff]; norm_num
  rw [hfl, weiToShannonInt64_600000000]
  decide

theorem calculateRewards_unfold {W : Type} (env : Env W) (u : BlockUnlocker)
    (block : BlockData) (w : World W) :
    calculateRewards env u block w =
      match block.Reward with
      | none => none
      | some reward =>
        match w.call (Call.GetRoundShares block.RoundHeight block.Nonce)
            (fun st => env.GetRoundShares st block.RoundHeight block.Nonce) with
        | (Except.error err, w1) => some (Except.error err, w1)
        | (Except.ok shares, w1) =>
          match calculateRewardsForShares shares block.TotalShares
              (chargeFee env.fdiv (reward : ℚ) u.config.PoolFee).1 with
          | none => none
          | some rewards =>
            some (Except.ok (rewardSplitAfterShares env.fdiv u.config block reward rewards), w1) := by
  rfl

theorem calculateRewards_ok_inv {W : Type} (env : Env W) (u : BlockUnlocker)
    (block : BlockData) (w w1 : World W) (out : RewardSplit)
    (h : calculateRewards env u block w = some (Except.ok out, w1)) :
    ∃ reward shares rewards, block.Reward = some reward
      ∧ w.call (Call.GetRoundShares block.RoundHeight block.Nonce)
            (fun st => env.GetRoundShares st block.RoundHeight block.Nonce) = (Except.ok shares, w1)
      ∧ calculateRewardsForShares shares block.TotalShares
              (chargeFee env.fdiv (reward : ℚ) u.config.PoolFee).1 = some rewards
      ∧ out = rewardSplitAfterShares env.fdiv u.config block reward rewards := by
  rw [calculateRewards_unfold] at h
  cases hR : block.Reward with
  | none => rw [hR] at h; simp at h
  | some reward =>
    rw [hR] at h
    simp only [] at h
    rcases hS : w.call (Call.GetRoundShares block.RoundHeight block.Nonce)
            (fun st => env.GetRoundShares st block.RoundHeight block.Nonce) with ⟨r, w2⟩
    rw [hS] at h
    cases r with
    | error e => simp at h
    | ok shares =>
      simp only [] at h
      cases hC : calculateRewardsForShares shares block.TotalShares
              (chargeFee env.fdiv (reward : ℚ) u.config.PoolFee).1 with
      | none => rw [hC] at h; simp at h
      | some rewards =>
        rw [hC] at h
        simp only [Option.some.injEq, Prod.mk.injEq, Except.ok.injEq] at h
        exact ⟨reward, shares, rewards, rfl, by rw [h.2], hC, h.1.symm⟩

theorem chargeFee_sum (fdiv : ℚ → ℚ → ℚ) (v pct : ℚ) :
    (chargeFee fdiv v pct).1 + (chargeFee fdiv v pct).2 = v := by
  simp [chargeFee]

theorem rewardSplitAfterShares_sum (fdiv : ℚ → ℚ → ℚ) (config : UnlockerConfig)
    (block : BlockData) (reward : Int) (rewards : RewardMap) :
    (rewardSplitAfterShares fdiv config block reward rewards).revenue
      = (rewardSplitAfterShares fdiv config block reward rewards).minersProfit
        + (rewardSplitAfterShares fdiv config block reward rewards).poolProfit
        + (rewardSplitAfterShares fdiv config block reward rewards).donation := by
  unfold rewardSplitAfterShares
  simp only []
  cases block.ExtraReward <;> split_ifs <;> simp [chargeFee] <;> ring

theorem rewardSplitAfterShares_no_donation (fdiv : ℚ → ℚ → ℚ) (config : UnlockerConfig)
    (block : BlockData) (reward : Int) (rewards : RewardMap)
    (h : config.Enabled = false ∨ config.DevDonate = some 0) :
    (rewardSplitAfterShares fdiv config block reward rewards).donation = 0 := by
  rcases h with h | h
  · simp [rewardSplitAfterShares, h]
  · simp only [rewardSplitAfterShares, h]
    split_ifs <;> simp_all

/-- C3: whenever `calculateRewards` succeeds, the returned exact rationals satisfy
revenue = minersProfit + poolProfit + donation, where donation is the amount
split off the pool profit for the donation address (0 when none is charged: the
unlocker is not enabled, or the donation is configured as 0 percent); and
`chargeFee` returns a pair whose components add up to its input. -/
theorem revenue_is_sum_of_parts {W : Type} (env : Env W) (u : BlockUnlocker)
    (block : BlockData) (w w1 : World W) (out : RewardSplit)
    (h : calculateRewards env u block w = some (Except.ok out, w1)) :
    out.revenue = out.minersProfit + out.poolProfit + out.donation
      ∧ (u.config.Enabled = false ∨ u.config.DevDonate = some 0 → out.donation = 0)
      ∧ (∀ (fdiv : ℚ → ℚ → ℚ) (v pct : ℚ),
          (chargeFee fdiv v pct).1 + (chargeFee fdiv v pct).2 = v) := by
  obtain ⟨reward, shares, rewards, _, _, _, hout⟩ := calculateRewards_ok_inv env u block w w1 out h
  subst hout
  exact ⟨rewardSplitAfterShares_sum _ _ _ _ _,
    rewardSplitAfterShares_no_donation _ _ _ _ _, chargeFee_sum⟩

theorem credit_bound (m : RewardMap) (k : String) (x : ℚ)
    (hm : ∀ p ∈ m, -9223372036854775808 ≤ p.2) (hx : 0 ≤ x) :
    (∀ p ∈ m.add k (weiToShannonInt64 x), -9223372036854775808 ≤ p.2)
      ∧ 2 * ((m.add k (weiToShannonInt64 x)).total : ℚ) * 1000000000
          ≤ 2 * (m.total : ℚ) * 1000000000 + 2 * x + 1000000000 := by
  obtain ⟨b0, _, b2⟩ := weiToShannonInt64_bounds x hx
  obtain ⟨a1, a2⟩ := RewardMap.total_add_le m k _ hm b0
  refine ⟨a2, ?_⟩
  have a1q : ((RewardMap.total (m.add k (weiToShannonInt64 x)) : Int) : ℚ)
      ≤ (m.total : ℚ) + (weiToShannonInt64 x : ℚ) := by exact_mod_cast a1
  nlinarith

theorem devdonate_range (config : UnlockerConfig) :
    0 ≤ (match config.DevDonate with
          | some d => if d ≥ 0 ∧ d < 100 then d else donationFee
          | none => donationFee)
      ∧ (match config.DevDonate with
          | some d => if d ≥ 0 ∧ d < 100 then d else donationFee
          | none => donationFee) ≤ 100 := by
  cases config.DevDonate with
  | none => simp only []; norm_num [donationFee]
  | some d =>
    simp only []
    split_ifs with h
    · exact ⟨h.1, h.2.le⟩
    · norm_num [donationFee]

theorem tail_bound (m : RewardMap) (hm : ∀ p ∈ m, -9223372036854775808 ≤ p.2)
    (P d : ℚ) (hP : 0 ≤ P) (hd0 : 0 ≤ d) (hd1 : d ≤ 1) (kd ka : String) :
    2 * (((m.add kd (weiToShannonInt64 (P * d))).add ka
            (weiToShannonInt64 (P - P * d))).total : ℚ) * 1000000000
        ≤ 2 * (m.total : ℚ) * 1000000000 + 2 * P + 2 * 1000000000
      ∧ 2 * ((m.add kd (weiToShannonInt64 (P * d))).total : ℚ) * 1000000000
        ≤ 2 * (m.total : ℚ) * 1000000000 + 2 * P + 2 * 1000000000
      ∧ 2 * ((m.add ka (weiToShannonInt64 P)).total : ℚ) * 1000000000
        ≤ 2 * (m.total : ℚ) * 1000000000 + 2 * P + 2 * 1000000000
      ∧ 2 * (m.total : ℚ) * 1000000000
        ≤ 2 * (m.total : ℚ) * 1000000000 + 2 * P + 2 * 1000000000 := by
  have hPd : 0 ≤ P * d := mul_nonneg hP hd0
  have hPr : 0 ≤ P - P * d := by nlinarith
  obtain ⟨i1, b1⟩ := credit_bound m kd (P * d) hm hPd
  obtain ⟨_, b2⟩ := credit_bound _ ka (P - P * d) i1 hPr
  obtain ⟨_, b3⟩ := credit_bound m ka P hm hP
  refine ⟨by linarith, by linarith, by linarith, by linarith⟩

theorem rewardSplitAfterShares_bound (fdiv : ℚ → ℚ → ℚ) (config : UnlockerConfig)
    (block : BlockData) (reward : Int) (rewards : RewardMap)
    (hm : ∀ p ∈ rewards, -9223372036854775808 ≤ p.2)
    (hr : 0 ≤ reward) (hE : ∀ e, block.ExtraReward = some e → 0 ≤ e)
    (hfee : 0 ≤ config.PoolFee ∧ config.PoolFee ≤ 100)
    (hdiv : ∀ x : ℚ, 0 ≤ x → x ≤ 100 → 0 ≤ fdiv x 100 ∧ fdiv x 100 ≤ 1) :
    2 * ((rewardSplitAfterShares fdiv config block reward rewards).rewards.total : ℚ) * 1000000000
      ≤ 2 * (rewards.total : ℚ) * 1000000000
        + 2 * ((rewardSplitAfterShares fdiv config block reward rewards).revenue
              - (rewardSplitAfterShares fdiv config block reward rewards).minersProfit)
        + 2 * 1000000000 := by
  have hrq : (0 : ℚ) ≤ (reward : ℚ) := by exact_mod_cast hr
  obtain ⟨hp0, hp1⟩ := hdiv config.PoolFee hfee.1 hfee.2
  obtain ⟨hd0, hd1⟩ := devdonate_range config
  obtain ⟨hdd0, hdd1⟩ := hdiv _ hd0 hd1
  have hpp : 0 ≤ (reward : ℚ) * fdiv config.PoolFee 100 := mul_nonneg hrq hp0
  unfold rewardSplitAfterShares
  simp only []
  cases hX : block.ExtraReward with
  | none =>
    simp only []
    obtain ⟨t1, t2, t3, t4⟩ := tail_bound rewards hm _ _ hpp hdd0 hdd1
      (toLower donationAccount) (toLower config.PoolFeeAddress)
    split_ifs <;> simp only [chargeFee] <;> linarith
  | some extra =>
    simp only []
    have he : (0 : ℚ) ≤ (extra : ℚ) := by exact_mod_cast hE extra hX
    have hpe : 0 ≤ (reward : ℚ) * fdiv config.PoolFee 100 + (extra : ℚ) := by linarith
    obtain ⟨t1, t2, t3, t4⟩ := tail_bound rewards hm _ _ hpe hdd0 hdd1
      (toLower donationAccount) (toLower config.PoolFeeAddress)
    split_ifs <;> simp only [chargeFee] <;> linarith

/-- C1 (as amended): for a matured block with non-negative Reward (and
non-negative or absent ExtraReward), round shares with positive counts summing
to TotalShares > 0, and a pool fee in [0, 100], `calculateRewards` succeeds and
the credited Shannon amounts exceed the revenue by at most half a Shannon per
credit: 2 · sum · 10^9 ≤ 2 · revenue + (number of miners + 2) · 10^9. -/
theorem rewards_sum_le_revenue_plus_rounding {W : Type} (env : Env W) (u : BlockUnlocker)
    (block : BlockData) (w : World W) (reward : Int) (shares : List (String × Int)) (st1 : W)
    (hR : block.Reward = some reward) (hr : 0 ≤ reward)
    (hE : ∀ e, block.ExtraReward = some e → 0 ≤ e)
    (hS : env.GetRoundShares w.st block.RoundHeight block.Nonce = (Except.ok shares, st1))
    (hpos : ∀ p ∈ shares, 0 < p.2)
    (hsum : (shares.map Prod.snd).sum = block.TotalShares)
    (htot : 0 < block.TotalShares)
    (hfee : 0 ≤ u.config.PoolFee ∧ u.config.PoolFee ≤ 100)
    (hdiv : ∀ x : ℚ, 0 ≤ x → x ≤ 100 → 0 ≤ env.fdiv x 100 ∧ env.fdiv x 100 ≤ 1) :
    ∃ out, calculateRewards env u block w
          = some (Except.ok out,
              { st := st1,
                trace := w.trace ++ [Call.GetRoundShares block.RoundHeight block.Nonce] })
      ∧ 2 * (out.rewards.total : ℚ) * 10 ^ 9
          ≤ 2 * out.revenue + ((shares.length : ℚ) + 2) * 10 ^ 9 := by
  have hrq : (0 : ℚ) ≤ (reward : ℚ) := by exact_mod_cast hr
  obtain ⟨hp0, hp1⟩ := hdiv u.config.PoolFee hfee.1 hfee.2
  have hmp : 0 ≤ (chargeFee env.fdiv (reward : ℚ) u.config.PoolFee).1 := by
    simp only [chargeFee]
    nlinarith
  obtain ⟨m, hm, hinv, hb⟩ := sharesFold_bound block.TotalShares
    (chargeFee env.fdiv (reward : ℚ) u.config.PoolFee).1 htot hmp shares []
    (by simp) (fun p hp => (hpos p hp).le)
  have hcall : w.call (Call.GetRoundShares block.RoundHeight block.Nonce)
      (fun st => env.GetRoundShares st block.RoundHeight block.Nonce)
      = (Except.ok shares, { st := st1, trace := w.trace ++ [Call.GetRoundShares block.RoundHeight block.Nonce] }) := by
    simp [World.call, hS]
  refine ⟨rewardSplitAfterShares env.fdiv u.config block reward m, ?_, ?_⟩
  · rw [calculateRewards_unfold, hR]
    simp only []
    rw [hcall]
    simp only []
    have hm2 : calculateRewardsForShares shares block.TotalShares
        (chargeFee env.fdiv (reward : ℚ) u.config.PoolFee).1 = some m := hm
    rw [hm2]
  · have hb2 := rewardSplitAfterShares_bound env.fdiv u.config block reward m hinv hr hE hfee hdiv
    have htq : (0 : ℚ) < (block.TotalShares : ℚ) := by exact_mod_cast htot
    rw [hsum] at hb
    have hmul : (chargeFee env.fdiv (reward : ℚ) u.config.PoolFee).1 * (block.TotalShares : ℚ)
        / (block.TotalShares : ℚ) = (chargeFee env.fdiv (reward : ℚ) u.config.PoolFee).1 := by
      field_simp
    rw [hmul] at hb
    have hmpeq : (rewardSplitAfterShares env.fdiv u.config block reward m).minersProfit
        = (chargeFee env.fdiv (reward : ℚ) u.config.PoolFee).1 := rfl
    have h0 : (RewardMap.total ([] : RewardMap) : ℚ) = 0 := by simp [RewardMap.total]
    rw [h0] at hb
    rw [hmpeq] at hb2
    have e9 : (10 : ℚ) ^ 9 = 1000000000 := by norm_num
    rw [e9]
    linarith

theorem weiToShannonInt64_two_thirds : weiToShannonInt64 (2000000000 * ((1 : ℚ) / 3)) = 1 := by
  rw [weiToShannonInt64_of_nonneg _ (by norm_num)]
  have h : ⌊(2000000000 : ℚ) * (1 / 3) / 1000000000 + 1 / 2⌋ = 1 := by
    rw [Int.floor_eq_iff]; norm_num
  rw [h]; rfl

theorem calculateRewards_threeMiners :
    calculateRewards threeMinerEnv plainUnlocker twoShannonBlock emptyWorld
      = some (Except.ok threeMinerSplit,
          { st := (), trace := [Call.GetRoundShares 1 "0x01"] }) := by
  have hfee : chargeFee exactDiv ((2000000000 : Int) : ℚ) 0 = (2000000000, 0) := by
    simp [chargeFee, exactDiv]
  have hshares : calculateRewardsForShares [("a", 1), ("b", 1), ("c", 1)] 3 2000000000
      = some [("a", 1), ("b", 1), ("c", 1)] := by
    have h13 : (((1 : Int) : ℚ) / ((3 : Int) : ℚ)) = (1 : ℚ) / 3 := by norm_num
    simp only [calculateRewardsForShares, List.foldlM, h13, weiToShannonInt64_two_thirds]
    simp [RewardMap.add, wrapInt64]
  rw [calculateRewards_unfold]
  simp only [twoShannonBlock, threeMinerEnv, quietEnv, plainUnlocker, plainConfig, emptyWorld,
    World.call, List.nil_append, hfee, hshares]
  simp [rewardSplitAfterShares, threeMinerSplit, chargeFee, exactDiv]

/-- C1 fails as stated: three miners with one share each, a two-Shannon block and
no fees. Every miner is credited round(2/3) = 1 Shannon, so 3 Shannon are
credited against a revenue of 2 Shannon. -/
theorem rewards_sum_exceeds_revenue :
    ∃ out w1, calculateRewards threeMinerEnv plainUnlocker twoShannonBlock emptyWorld
        = some (Except.ok out, w1)
      ∧ out.rewards.total = 3
      ∧ out.revenue = 2 * 10 ^ 9
      ∧ ¬ ((out.rewards.total : ℚ) * 10 ^ 9 ≤ out.revenue) := by
  refine ⟨threeMinerSplit, _, calculateRewards_threeMiners, ?_, ?_, ?_⟩
  · simp [threeMinerSplit, RewardMap.total]
  · norm_num [threeMinerSplit]
  · norm_num [threeMinerSplit, RewardMap.total]

/-- Witness for C1 (as amended): the three-miner round. -/
theorem rewards_sum_le_revenue_plus_rounding_witness :
    ∃ out, calculateRewards threeMinerEnv plainUnlocker twoShannonBlock emptyWorld
          = some (Except.ok out,
              { st := (), trace := emptyWorld.trace ++ [Call.GetRoundShares
                  twoShannonBlock.RoundHeight twoShannonBlock.Nonce] })
      ∧ 2 * (out.rewards.total : ℚ) * 10 ^ 9
          ≤ 2 * out.revenue + ((([("a", 1), ("b", 1), ("c", 1)] : List (String × Int)).length : ℚ) + 2)
              * 10 ^ 9 :=
  rewards_sum_le_revenue_plus_rounding threeMinerEnv plainUnlocker twoShannonBlock emptyWorld
    2000000000 [("a", 1), ("b", 1), ("c", 1)] () rfl (by decide)
    (by intro e he; simp [twoShannonBlock] at he)
    rfl (by decide) (by decide) (by decide)
    (by norm_num [plainUnlocker, plainConfig])
    (by
      intro x h0 h100
      unfold threeMinerEnv quietEnv exactDiv
      constructor
      · positivity
      · rw [div_le_one (by norm_num)]; exact h100)

/-- Witness for C3: the three-miner round. -/
theorem revenue_is_sum_of_parts_witness :
    calculateRewards threeMinerEnv plainUnlocker twoShannonBlock emptyWorld
        = some (Except.ok threeMinerSplit, { st := (), trace := [Call.GetRoundShares 1 "0x01"] })
      ∧ threeMinerSplit.revenue
          = threeMinerSplit.minersProfit + threeMinerSplit.poolProfit + threeMinerSplit.donation :=
  ⟨calculateRewards_threeMiners,
    (revenue_is_sum_of_parts threeMinerEnv plainUnlocker twoShannonBlock emptyWorld _
      threeMinerSplit calculateRewards_threeMiners).1⟩

/-! ### Candidate matching -/

/-- C8: the code returns true for a candidate with a recorded hash that differs
from the block's hash when the nonces agree. -/
theorem matchCandidate_hash_mismatch_falls_through :
    twoShannonBlock.Hash.length > 0
      ∧ equalFold twoShannonBlock.Hash otherBlockSameNonce.Hash = false
      ∧ matchCandidate otherBlockSameNonce twoShannonBlock = true := by
  decide

/-! ### Block unlocker: the reconciliation search -/

/-! ### Traces -/

theorem World.grows_refl {W : Type} (w : World W) (P : Call → Prop) : w.grows w P :=
  ⟨[], by simp, by simp⟩

theorem World.grows_trans {W : Type} {w w1 w2 : World W} {P : Call → Prop}
    (h1 : w.grows w1 P) (h2 : w1.grows w2 P) : w.grows w2 P := by
  obtain ⟨n1, e1, p1⟩ := h1
  obtain ⟨n2, e2, p2⟩ := h2
  refine ⟨n1 ++ n2, by rw [e2, e1, List.append_assoc], ?_⟩
  intro c hc
  rcases List.mem_append.mp hc with hc | hc
  · exact p1 c hc
  · exact p2 c hc

theorem World.grows_mono {W : Type} {w w1 : World W} {P Q : Call → Prop}
    (hPQ : ∀ c, P c → Q c) (h : w.grows w1 P) : w.grows w1 Q := by
  obtain ⟨n, e, p⟩ := h
  exact ⟨n, e, fun c hc => hPQ c (p c hc)⟩

theorem World.call_fst {W α : Type} (w : World W) (c : Call) (op : W → α × W) :
    (w.call c op).1 = (op w.st).1 := rfl

theorem World.call_trace {W α : Type} (w : World W) (c : Call) (op : W → α × W) :
    (w.call c op).2.trace = w.trace ++ [c] := rfl

theorem World.grows_call {W α : Type} (w : World W) (c : Call) (op : W → α × W)
    (P : Call → Prop) (hc : P c) : w.grows (w.call c op).2 P :=
  ⟨[c], rfl, by intro d hd; simp at hd; subst hd; exact hc⟩

theorem World.call_eq {W α : Type} {w w1 : World W} {c : Call} {op : W → α × W} {r : α}
    (h : w.call c op = (r, w1)) (P : Call → Prop) (hc : P c) :
    r = (op w.st).1 ∧ w.grows w1 P := by
  have h1 : (w.call c op).1 = r := by rw [h]
  have h2 : (w.call c op).2 = w1 := by rw [h]
  exact ⟨h1.symm, h2 ▸ World.grows_call w c op P hc⟩

/-! ### `handleBlock` and `handleUncle` -/

theorem handleUncle_ok (height : Int) (uncle : GetBlockReply) (candidate c1 : BlockData)
    (h : handleUncle height uncle candidate = some (Except.ok c1)) :
    c1.Orphan = false ∧ roundOf c1 = roundOf candidate ∧ c1.Hash = uncle.Hash := by
  unfold handleUncle at h
  rcases hp : ParseInt16 (replace0x uncle.Number) with ⟨v, e⟩
  rw [hp] at h
  cases e with
  | some err => simp at h
  | none =>
    simp only [] at h
    cases hr : getUncleReward v height with
    | none => rw [hr] at h; simp at h
    | some reward =>
      rw [hr] at h
      simp only [Option.some.injEq, Except.ok.injEq] at h
      subst h
      exact ⟨rfl, rfl, rfl⟩

theorem extraRewardLoop_trace {W : Type} (env : Env W) :
    ∀ (txs : List Tx) (amount : Int) (w : World W),
      w.grows (extraRewardLoop env txs amount w).2 (fun c => c.queriedHeight = none) := by
  intro txs
  induction txs with
  | nil => intro amount w; exact World.grows_refl _ _
  | cons tx rest ih =>
    intro amount w
    simp only [extraRewardLoop]
    rcases hcall : w.call (Call.GetTxReceipt tx.Hash) (fun st => env.GetTxReceipt st tx.Hash)
      with ⟨r, w1⟩
    obtain ⟨_, hg⟩ := World.call_eq hcall (fun c => c.queriedHeight = none) rfl
    cases r with
    | error err => exact hg
    | ok receipt =>
      cases receipt with
      | none => exact World.grows_trans hg (ih amount w1)
      | some receipt =>
        simp only []
        cases env.SetString0 receipt.GasUsed with
        | none => exact hg
        | some gasUsed =>
          simp only []
          cases env.SetString0 tx.GasPrice with
          | none => exact hg
          | some gasPrice => exact World.grows_trans hg (ih _ w1)

theorem handleBlock_ok {W : Type} (env : Env W) (u : BlockUnlocker) (block : GetBlockReply)
    (candidate c1 : BlockData) (w w1 : World W)
    (h : handleBlock env u block candidate w = some (Except.ok c1, w1)) :
    c1.Orphan = false ∧ roundOf c1 = roundOf candidate ∧ c1.Hash = block.Hash
      ∧ w.grows w1 (fun c => c.queriedHeight = none) := by
  unfold handleBlock at h
  rcases hp : ParseInt16 (replace0x block.Number) with ⟨v, e⟩
  rw [hp] at h
  cases e with
  | some err => simp at h
  | none =>
    simp only [] at h
    cases hera : GetBlockEra v 100000 with
    | none => rw [hera] at h; simp at h
    | some era =>
      rw [hera] at h
      simp only [] at h
      have ht := extraRewardLoop_trace env block.Transactions 0 w
      rcases hx : getExtraRewardForTx env block w with ⟨r, w2⟩
      rw [hx] at h
      have hw2 : (extraRewardLoop env block.Transactions 0 w).2 = w2 := by
        unfold getExtraRewardForTx at hx
        rw [hx]
      rw [hw2] at ht
      cases r with
      | error err => simp at h
      | ok extra =>
        simp only [Option.some.injEq, Prod.mk.injEq, Except.ok.injEq] at h
        obtain ⟨hc, hw⟩ := h
        subst hw
        refine ⟨?_, ?_, ?_, ht⟩
        · rw [← hc]
        · rw [← hc]; unfold roundOf; split_ifs <;> rfl
        · rw [← hc]

theorem range_any_succ (n : Nat) (f : Nat → Bool) :
    (List.range (n + 1)).any f = (f 0 || (List.range n).any (fun k => f (k + 1))) := by
  rw [List.range_succ_eq_map, List.any_cons, List.any_map]
  rfl

theorem uncleLoop_spec {W : Type} (env : Env W) (height : Int) (candidate : BlockData) :
    ∀ (uncles : List String) (idx : Nat) (result : UnlockResult) (u : BlockUnlocker) (w : World W)
      (scan : ScanState) (u1 : BlockUnlocker) (w1 : World W),
      uncleLoop env height candidate uncles idx result u w = some (Except.ok scan, u1, w1) →
      u1 = u ∧ w.grows w1 (fun c => c.queriedHeight = some height)
        ∧ (scan.orphan = true → scan.result = result)
        ∧ (scan.orphan = false → MaturedOne candidate result scan.result)
        ∧ (∀ uncleAt : Int → Except String (Option GetBlockReply),
            (∀ st j, (env.GetUncleByBlockNumberAndIndex st height j).1 = uncleAt j) →
            scan.orphan = !(List.range uncles.length).any
              (fun k => replyMatches (uncleAt ((idx + k : Nat) : Int)) candidate)) := by
  intro uncles
  induction uncles with
  | nil =>
    intro idx result u w scan u1 w1 h
    simp only [uncleLoop, Option.some.injEq, Prod.mk.injEq, Except.ok.injEq] at h
    obtain ⟨hs, hu, hw⟩ := h
    subst hs hu hw
    exact ⟨rfl, World.grows_refl _ _, fun _ => rfl, fun hf => by simp at hf,
      fun _ _ => by simp⟩
  | cons uncleHash rest ih =>
    intro idx result u w scan u1 w1 h
    simp only [uncleLoop] at h
    rcases hcall : w.call (Call.GetUncleByBlockNumberAndIndex height idx)
        (fun st => env.GetUncleByBlockNumberAndIndex st height idx) with ⟨r, w2⟩
    rw [hcall] at h
    obtain ⟨hr, hg⟩ := World.call_eq hcall (fun c => c.queriedHeight = some height) rfl
    cases r with
    | error err => simp at h
    | ok reply =>
      cases reply with
      | none => simp at h
      | some uncle =>
        simp only [] at h
        by_cases hm : matchCandidate uncle candidate = true
        · rw [if_pos hm] at h
          cases hh : handleUncle height uncle candidate with
          | none => rw [hh] at h; simp at h
          | some res =>
            rw [hh] at h
            cases res with
            | error err => simp at h
            | ok c1 =>
              simp only [] at h
              by_cases hlen : uncle.Hash.utf8ByteSize < 10
              · rw [if_pos hlen] at h; simp at h
              · rw [if_neg hlen] at h
                simp only [Option.some.injEq, Prod.mk.injEq, Except.ok.injEq] at h
                obtain ⟨hs, hu, hw⟩ := h
                subst hs hu hw
                obtain ⟨ho, hro, _⟩ := handleUncle_ok height uncle candidate c1 hh
                refine ⟨rfl, hg, fun hf => by simp at hf, fun _ => ?_, ?_⟩
                · exact ⟨c1, ho, hro, rfl, rfl, rfl, by simp only []; omega⟩
                · intro uncleAt hU
                  have h0 : replyMatches (uncleAt ((idx : Nat) : Int)) candidate = true := by
                    rw [← hU w.st idx, ← hr]
                    simpa [replyMatches] using hm
                  rw [List.length_cons, range_any_succ]
                  simp [h0]
        · rw [if_neg hm] at h
          obtain ⟨hu, hg2, ho1, ho2, hS⟩ := ih (idx + 1) result u w2 scan u1 w1 h
          refine ⟨hu, World.grows_trans hg hg2, ho1, ho2, ?_⟩
          intro uncleAt hU
          have h0 : replyMatches (uncleAt ((idx : Nat) : Int)) candidate = false := by
            rw [← hU w.st idx, ← hr]
            simpa [replyMatches] using hm
          rw [List.length_cons, range_any_succ, hS uncleAt hU]
          simp only [Nat.add_zero, h0, Bool.false_or]
          congr 2
          funext k
          congr 3
          omega


theorem matchesAt_of_reply (blockAt : Int → Except String (Option GetBlockReply))
    (uncleAt : Int → Int → Except String (Option GetBlockReply)) (candidate : BlockData)
    (height : Int) (block : GetBlockReply) (hb : blockAt height = Except.ok (some block)) :
    matchesAt blockAt uncleAt candidate height
      = (matchCandidate block candidate
          || (List.range block.Uncles.length).any
              (fun j => replyMatches (uncleAt height (j : Int)) candidate)) := by
  simp [matchesAt, hb]

theorem heightLoop_spec {W : Type} (env : Env W) (candidate : BlockData)
    (hlo : -9223372036854775808 ≤ candidate.Height)
    (hhi : candidate.Height + 16 ≤ 9223372036854775808) :
    ∀ (remaining : Nat) (i : Int) (result : UnlockResult) (u : BlockUnlocker) (w : World W)
      (scan : ScanState) (u1 : BlockUnlocker) (w1 : World W),
      0 ≤ i → i + remaining ≤ 16 →
      heightLoop env candidate remaining i result u w = some (Except.ok scan, u1, w1) →
      u1 = u ∧ w.grows w1 (InWindow candidate)
        ∧ (scan.orphan = true → scan.result = result)
        ∧ (scan.orphan = false → MaturedOne candidate result scan.result)
        ∧ (∀ (blockAt : Int → Except String (Option GetBlockReply))
            (uncleAt : Int → Int → Except String (Option GetBlockReply)),
            (∀ st h, (env.GetBlockByHeight st h).1 = blockAt h) →
            (∀ st h j, (env.GetUncleByBlockNumberAndIndex st h j).1 = uncleAt h j) →
            scan.orphan = !(List.range remaining).any
              (fun k => matchesAt blockAt uncleAt candidate (candidate.Height + i + (k : Int)))) := by
  intro remaining
  induction remaining with
  | zero =>
    intro i result u w scan u1 w1 _ _ h
    simp only [heightLoop, Option.some.injEq, Prod.mk.injEq, Except.ok.injEq] at h
    obtain ⟨hs, hu, hw⟩ := h
    subst hs hu hw
    exact ⟨rfl, World.grows_refl _ _, fun _ => rfl, fun hf => by simp at hf,
      fun _ _ _ _ => by simp⟩
  | succ n ih =>
    intro i result u w scan u1 w1 hi0 hi16 h
    have hwrap : wrapInt64 (candidate.Height + i) = candidate.Height + i :=
      wrapInt64_of_range _ (by omega) (by push_cast at hi16; omega)
    simp only [heightLoop, hwrap] at h
    have hin : ∀ c : Call, c.queriedHeight = some (candidate.Height + i) ∨ c.queriedHeight = none →
        InWindow candidate c := by
      intro c hc h1 hq
      rcases hc with hc | hc
      · rw [hc] at hq
        simp only [Option.some.injEq] at hq
        subst hq
        push_cast at hi16
        constructor <;> omega
      · rw [hc] at hq; simp at hq
    rcases hcall : w.call (Call.GetBlockByHeight (candidate.Height + i))
        (fun st => env.GetBlockByHeight st (candidate.Height + i)) with ⟨r, w2⟩
    rw [hcall] at h
    obtain ⟨hr, hg⟩ := World.call_eq hcall (InWindow candidate) (hin _ (Or.inl rfl))
    have hi16n : i + 1 + (n : Int) ≤ 16 := by push_cast at hi16; omega
    -- the tail of the scan, shifted by one
    have hshift : ∀ (blockAt : Int → Except String (Option GetBlockReply))
        (uncleAt : Int → Int → Except String (Option GetBlockReply)),
        (List.range n).any
            (fun k => matchesAt blockAt uncleAt candidate (candidate.Height + (i + 1) + (k : Int)))
          = (List.range n).any
            (fun k => matchesAt blockAt uncleAt candidate
              (candidate.Height + i + ((k + 1 : Nat) : Int))) := by
      intro blockAt uncleAt
      congr 1
      funext k
      congr 1
      push_cast
      ring
    cases r with
    | error err => simp at h
    | ok reply =>
      cases reply with
      | none => simp at h
      | some block =>
        simp only [] at h
        have hblock : ∀ blockAt : Int → Except String (Option GetBlockReply),
            (∀ st h, (env.GetBlockByHeight st h).1 = blockAt h) →
            blockAt (candidate.Height + i + ((0 : Nat) : Int)) = Except.ok (some block) := by
          intro blockAt hB
          have e : candidate.Height + i + ((0 : Nat) : Int) = candidate.Height + i := by simp
          rw [e, ← hB w.st, ← hr]
        by_cases hm : matchCandidate block candidate = true
        · rw [if_pos hm] at h
          cases hh : handleBlock env u block candidate w2 with
          | none => rw [hh] at h; simp at h
          | some res =>
            rw [hh] at h
            rcases res with ⟨res, w3⟩
            cases res with
            | error err => simp at h
            | ok c1 =>
              simp only [] at h
              by_cases hlen : c1.Hash.utf8ByteSize < 10
              · rw [if_pos hlen] at h; simp at h
              · rw [if_neg hlen] at h
                simp only [Option.some.injEq, Prod.mk.injEq, Except.ok.injEq] at h
                obtain ⟨hs, hu, hw⟩ := h
                subst hs hu hw
                obtain ⟨ho, hro, _, hg3⟩ := handleBlock_ok env u block candidate c1 w2 w3 hh
                refine ⟨rfl, World.grows_trans hg
                  (World.grows_mono (fun c hc => hin c (Or.inr hc)) hg3),
                  fun hf => by simp at hf, fun _ => ?_, ?_⟩
                · exact ⟨c1, ho, hro, rfl, rfl, rfl, by simp only []; omega⟩
                · intro blockAt uncleAt hB hU
                  rw [range_any_succ, matchesAt_of_reply _ _ _ _ block (hblock blockAt hB)]
                  simp [hm]
        · rw [if_neg hm] at h
          by_cases hun : block.Uncles.length = 0
          · rw [if_pos hun] at h
            obtain ⟨hu, hg2, ho1, ho2, hS⟩ := ih (i + 1) result u w2 scan u1 w1 (by omega) hi16n h
            refine ⟨hu, World.grows_trans hg hg2, ho1, ho2, ?_⟩
            intro blockAt uncleAt hB hU
            rw [range_any_succ, matchesAt_of_reply _ _ _ _ block (hblock blockAt hB),
              hS blockAt uncleAt hB hU, hshift]
            simp [hm, hun]
          · rw [if_neg hun] at h
            cases hul : uncleLoop env (candidate.Height + i) candidate block.Uncles 0 result u w2 with
            | none => rw [hul] at h; simp at h
            | some res =>
              rw [hul] at h
              rcases res with ⟨res, u2, w3⟩
              cases res with
              | error err => simp at h
              | ok scan1 =>
                simp only [] at h
                obtain ⟨hu2, hg3, hu_o1, hu_o2, hUS⟩ :=
                  uncleLoop_spec env (candidate.Height + i) candidate block.Uncles 0 result u w2
                    scan1 u2 w3 hul
                have hg3w : w2.grows w3 (InWindow candidate) :=
                  World.grows_mono (fun c hc => hin c (Or.inl hc)) hg3
                have huncles : ∀ uncleAt : Int → Int → Except String (Option GetBlockReply),
                    (∀ st h j, (env.GetUncleByBlockNumberAndIndex st h j).1 = uncleAt h j) →
                    scan1.orphan = !(List.range block.Uncles.length).any
                      (fun j => replyMatches
                        (uncleAt (candidate.Height + i + ((0 : Nat) : Int)) (j : Int)) candidate) := by
                  intro uncleAt hU
                  have := hUS (uncleAt (candidate.Height + i)) (fun st j => hU st _ j)
                  rw [this]
                  simp
                by_cases hso : scan1.orphan = true
                · simp only [hso, Bool.not_true] at h
                  rw [if_neg (by simp)] at h
                  subst hu2
                  obtain ⟨hu, hg2, ho1, ho2, hS⟩ :=
                    ih (i + 1) scan1.result u2 w3 scan u1 w1 (by omega) hi16n h
                  have hres := hu_o1 hso
                  rw [hres] at ho1 ho2
                  refine ⟨hu, World.grows_trans hg (World.grows_trans hg3w hg2), ho1, ho2, ?_⟩
                  intro blockAt uncleAt hB hU
                  have hu0 := huncles uncleAt hU
                  rw [hso] at hu0
                  rw [range_any_succ, matchesAt_of_reply _ _ _ _ block (hblock blockAt hB),
                    hS blockAt uncleAt hB hU, hshift]
                  have hu1 : (List.range block.Uncles.length).any
                      (fun j => replyMatches
                        (uncleAt (candidate.Height + i + ((0 : Nat) : Int)) (j : Int)) candidate)
                      = false := by
                    cases hx : (List.range block.Uncles.length).any
                      (fun j => replyMatches
                        (uncleAt (candidate.Height + i + ((0 : Nat) : Int)) (j : Int)) candidate)
                    · rfl
                    · rw [hx] at hu0; simp at hu0
                  have hm2 : matchCandidate block candidate = false := by simpa using hm
                  rw [hu1, hm2]
                  rfl
                · have hso2 : scan1.orphan = false := by simpa using hso
                  simp only [hso2, Bool.not_false, if_true] at h
                  simp only [Option.some.injEq, Prod.mk.injEq, Except.ok.injEq] at h
                  obtain ⟨hs, hu, hw⟩ := h
                  subst hs hu hw hu2
                  refine ⟨rfl, World.grows_trans hg hg3w, fun hf => by rw [hso2] at hf; simp at hf,
                    fun _ => hu_o2 hso2, ?_⟩
                  intro blockAt uncleAt hB hU
                  have hu0 := huncles uncleAt hU
                  rw [hso2] at hu0
                  have hu1 : (List.range block.Uncles.length).any
                      (fun j => replyMatches
                        (uncleAt (candidate.Height + i + ((0 : Nat) : Int)) (j : Int)) candidate)
                      = true := by
                    cases hx : (List.range block.Uncles.length).any
                      (fun j => replyMatches
                        (uncleAt (candidate.Height + i + ((0 : Nat) : Int)) (j : Int)) candidate)
                    · rw [hx] at hu0; simp at hu0
                    · rfl
                  rw [range_any_succ, matchesAt_of_reply _ _ _ _ block (hblock blockAt hB), hso2,
                    hu1]
                  simp

theorem candidateLoop_spec {W : Type} (env : Env W) :
    ∀ (candidates : List BlockData) (result : UnlockResult) (u : BlockUnlocker) (w : World W)
      (result1 : UnlockResult) (u1 : BlockUnlocker) (w1 : World W),
      (∀ c ∈ candidates, -9223372036854775808 ≤ c.Height ∧ c.Height + 16 ≤ 9223372036854775808) →
      candidateLoop env candidates result u w = some (Except.ok result1, u1, w1) →
      u1 = u
        ∧ w.grows w1 (fun call => ∀ h, call.queriedHeight = some h →
            ∃ c ∈ candidates, c.Height ≤ h ∧ h < c.Height + 16)
        ∧ ∃ ms os : List BlockData,
            result1.maturedBlocks = result.maturedBlocks ++ ms
            ∧ result1.orphanedBlocks = result.orphanedBlocks ++ os
            ∧ result1.blocks + result1.uncles = result.blocks + result.uncles + (ms.length : Int)
            ∧ result1.orphans = result.orphans + (os.length : Int)
            ∧ ms.length + os.length = candidates.length
            ∧ (∀ b ∈ ms, b.Orphan = false) ∧ (∀ b ∈ os, b.Orphan = true)
            ∧ (∀ (blockAt : Int → Except String (Option GetBlockReply))
                (uncleAt : Int → Int → Except String (Option GetBlockReply)),
                (∀ st h, (env.GetBlockByHeight st h).1 = blockAt h) →
                (∀ st h j, (env.GetUncleByBlockNumberAndIndex st h j).1 = uncleAt h j) →
                os = (candidates.filter (fun c => !foundOnChain blockAt uncleAt c)).map
                      (fun c => { c with Orphan := true })
                ∧ ms.map roundOf
                    = (candidates.filter (fun c => foundOnChain blockAt uncleAt c)).map roundOf) := by
  intro candidates
  induction candidates with
  | nil =>
    intro result u w result1 u1 w1 _ h
    simp only [candidateLoop, Option.some.injEq, Prod.mk.injEq, Except.ok.injEq] at h
    obtain ⟨hs, hu, hw⟩ := h
    subst hs hu hw
    exact ⟨rfl, World.grows_refl _ _, [], [], by simp, by simp, by simp, by simp, by simp,
      by simp, by simp, fun _ _ _ _ => by simp⟩
  | cons candidate rest ih =>
    intro result u w result1 u1 w1 hrange h
    obtain ⟨hlo, hhi⟩ := hrange candidate (List.mem_cons_self _ _)
    have hrest : ∀ c ∈ rest,
        -9223372036854775808 ≤ c.Height ∧ c.Height + 16 ≤ 9223372036854775808 :=
      fun c hc => hrange c (List.mem_cons_of_mem _ hc)
    have hstart : (if minDepth * -1 < 0 then (0 : Int) else minDepth * -1) = 0 := by decide
    have hcount : (minDepth - 0).toNat = 16 := by decide
    simp only [candidateLoop, hstart, hcount] at h
    cases hl : heightLoop env candidate 16 0 result u w with
    | none => rw [hl] at h; simp at h
    | some res =>
      rw [hl] at h
      rcases res with ⟨res, u2, w2⟩
      cases res with
      | error err => simp at h
      | ok scan =>
        simp only [] at h
        obtain ⟨hu2, hg, ho1, ho2, hS⟩ :=
          heightLoop_spec env candidate hlo hhi 16 0 result u w scan u2 w2 (by omega) (by norm_num) hl
        subst hu2
        obtain ⟨hu1, hg2, ms, os, hm, hos, hbu, hor, hlen, hmo, hoo, hst⟩ :=
          ih _ u2 w2 result1 u1 w1 hrest h
        have hg' : w.grows w2 (fun call => ∀ h, call.queriedHeight = some h →
            ∃ c ∈ candidate :: rest, c.Height ≤ h ∧ h < c.Height + 16) :=
          World.grows_mono (fun c hc h hq => ⟨candidate, List.mem_cons_self _ _, hc h hq⟩) hg
        have hg2' : w2.grows w1 (fun call => ∀ h, call.queriedHeight = some h →
            ∃ c ∈ candidate :: rest, c.Height ≤ h ∧ h < c.Height + 16) :=
          World.grows_mono (fun c hc h hq => by
            obtain ⟨c0, hc0, hb⟩ := hc h hq
            exact ⟨c0, List.mem_cons_of_mem _ hc0, hb⟩) hg2
        have hfound : ∀ (blockAt : Int → Except String (Option GetBlockReply))
            (uncleAt : Int → Int → Except String (Option GetBlockReply)),
            (∀ st h, (env.GetBlockByHeight st h).1 = blockAt h) →
            (∀ st h j, (env.GetUncleByBlockNumberAndIndex st h j).1 = uncleAt h j) →
            scan.orphan = !foundOnChain blockAt uncleAt candidate := by
          intro blockAt uncleAt hB hU
          rw [hS blockAt uncleAt hB hU]
          simp [foundOnChain]
        refine ⟨hu1, World.grows_trans hg' hg2', ?_⟩
        by_cases hso : scan.orphan = true
        · have hres := ho1 hso
          simp only [hso, if_true, hres] at hm hos hbu hor
          refine ⟨ms, { candidate with Orphan := true } :: os, hm, ?_, hbu, ?_, ?_, hmo, ?_, ?_⟩
          · rw [hos]; simp
          · rw [hor, List.length_cons]; push_cast; ring
          · simp only [List.length_cons]; omega
          · intro b hb
            rcases List.mem_cons.mp hb with hb | hb
            · subst hb; rfl
            · exact hoo b hb
          · intro blockAt uncleAt hB hU
            obtain ⟨e1, e2⟩ := hst blockAt uncleAt hB hU
            have hf := hfound blockAt uncleAt hB hU
            rw [hso] at hf
            have hf2 : foundOnChain blockAt uncleAt candidate = false := by
              cases hx : foundOnChain blockAt uncleAt candidate
              · rfl
              · rw [hx] at hf; simp at hf
            constructor
            · rw [List.filter_cons_of_pos (by simp [hf2]), List.map_cons, e1]
            · rw [List.filter_cons_of_neg (by simp [hf2]), e2]
        · have hso2 : scan.orphan = false := by simpa using hso
          obtain ⟨c1, hc1o, hc1r, hm1, hos1, hor1, hbu1⟩ := ho2 hso2
          simp only [hso2] at hm hos hbu hor
          simp only [Bool.false_eq_true, if_false] at hm hos hbu hor
          refine ⟨c1 :: ms, os, ?_, ?_, ?_, ?_, ?_, ?_, hoo, ?_⟩
          · rw [hm, hm1]; simp
          · rw [hos, hos1]
          · rw [hbu, hbu1, List.length_cons]; push_cast; ring
          · rw [hor, hor1]
          · simp only [List.length_cons]; omega
          · intro b hb
            rcases List.mem_cons.mp hb with hb | hb
            · subst hb; exact hc1o
            · exact hmo b hb
          · intro blockAt uncleAt hB hU
            obtain ⟨e1, e2⟩ := hst blockAt uncleAt hB hU
            have hf := hfound blockAt uncleAt hB hU
            rw [hso2] at hf
            have hf2 : foundOnChain blockAt uncleAt candidate = true := by
              cases hx : foundOnChain blockAt uncleAt candidate
              · rw [hx] at hf; simp at hf
              · rfl
            constructor
            · rw [List.filter_cons_of_neg (by simp [hf2]), e1]
            · rw [List.filter_cons_of_pos (by simp [hf2]), List.map_cons, List.map_cons, e2]
              congr 1

theorem handleBlock_mined (w : World Unit) :
    handleBlock chainEnv plainUnlocker minedBlock minedCandidate w
      = some (Except.ok { minedCandidate with
          Hash := "0xaaaaaaaaaaaaaaaa", Reward := some 50000000000000000000 }, w) := by
  have hp : ParseInt16 (replace0x minedBlock.Number) = (100, none) := by decide
  have he : GetBlockEra 100 100000 = some 0 := by decide
  have hw : GetBlockWinnerRewardByEra 0 = 50000000000000000000 := by
    rw [GetBlockWinnerRewardByEra]; simp
  simp only [handleBlock, hp, he, getEraUncleBlockReward, hw]
  simp [getExtraRewardForTx, extraRewardLoop, minedBlock, plainUnlocker, plainConfig, minedCandidate]

theorem lost_scan (result : UnlockResult) (u : BlockUnlocker) (w : World Unit) :
    heightLoop chainEnv lostCandidate 16 0 result u w
      = some (Except.ok { orphan := true, result := result }, u,
          { st := (), trace := w.trace ++ (List.range 16).map
              (fun i => Call.GetBlockByHeight (200 + (i : Int))) }) := by
  simp [heightLoop, World.call, chainEnv, lostCandidate, foreignBlock, matchCandidate,
    wrapInt64, equalFold, List.range, List.range.loop]


theorem unlockCandidates_chain :
    unlockCandidates chainEnv plainUnlocker [minedCandidate, lostCandidate] emptyWorld
      = some (Except.ok chainResult, plainUnlocker, { st := (), trace := chainTrace }) := by
  have hm : matchCandidate minedBlock minedCandidate = true := by decide
  have hlen : ¬ ("0xaaaaaaaaaaaaaaaa" : String).utf8ByteSize < 10 := by decide
  have hstart : (if minDepth * -1 < 0 then (0 : Int) else minDepth * -1) = 0 := by decide
  have hcount : (minDepth - 0).toNat = 16 := by decide
  have hfirst : ∀ (result : UnlockResult),
      heightLoop chainEnv minedCandidate 16 0 result plainUnlocker emptyWorld
        = some (Except.ok
            { orphan := false
              result :=
                { result with
                  blocks := result.blocks + 1
                  maturedBlocks := result.maturedBlocks ++ [{ minedCandidate with
                    Hash := "0xaaaaaaaaaaaaaaaa", Reward := some 50000000000000000000 }] } },
            plainUnlocker, { st := (), trace := [Call.GetBlockByHeight 100] }) := by
    intro result
    have hcall : emptyWorld.call (Call.GetBlockByHeight (wrapInt64 (minedCandidate.Height + 0)))
        (fun st => chainEnv.GetBlockByHeight st (wrapInt64 (minedCandidate.Height + 0)))
        = (Except.ok (some minedBlock), { st := (), trace := [Call.GetBlockByHeight 100] }) := by
      rfl
    rw [heightLoop]
    simp only [hcall, hm, if_true, handleBlock_mined, hlen, if_false]
  unfold unlockCandidates
  simp only [candidateLoop, hstart, hcount, hfirst, lost_scan]
  simp [chainResult, chainTrace, List.range, List.range.loop]

/-- C7: whenever `unlockCandidates` returns without error (and every candidate's
16-block window lies within the int64 range), the counters add up to the number
of candidates, every candidate ends in exactly one of `maturedBlocks` (not
orphan) and `orphanedBlocks` (orphan), a candidate is marked orphan exactly when
neither the canonical block nor one of its uncles matches it at a height in
`[Height, Height + 16)`, and every height queried lies in such a window, so
none below the candidate's Height. -/
theorem unlockCandidates_classifies {W : Type} (env : Env W) (u u1 : BlockUnlocker)
    (candidates : List BlockData) (w w1 : World W) (result : UnlockResult)
    (h : unlockCandidates env u candidates w = some (Except.ok result, u1, w1))
    (hrange : ∀ c ∈ candidates,
      -9223372036854775808 ≤ c.Height ∧ c.Height + 16 ≤ 9223372036854775808) :
    result.blocks + result.uncles + result.orphans = (candidates.length : Int)
      ∧ result.maturedBlocks.length + result.orphanedBlocks.length = candidates.length
      ∧ (result.maturedBlocks.length : Int) = result.blocks + result.uncles
      ∧ (result.orphanedBlocks.length : Int) = result.orphans
      ∧ (∀ b ∈ result.maturedBlocks, b.Orphan = false)
      ∧ (∀ b ∈ result.orphanedBlocks, b.Orphan = true)
      ∧ w.grows w1 (fun call => ∀ h, call.queriedHeight = some h →
          ∃ c ∈ candidates, c.Height ≤ h ∧ h < c.Height + 16)
      ∧ (∀ (blockAt : Int → Except String (Option GetBlockReply))
          (uncleAt : Int → Int → Except String (Option GetBlockReply)),
          (∀ st h, (env.GetBlockByHeight st h).1 = blockAt h) →
          (∀ st h j, (env.GetUncleByBlockNumberAndIndex st h j).1 = uncleAt h j) →
          result.orphanedBlocks
              = (candidates.filter (fun c => !foundOnChain blockAt uncleAt c)).map
                  (fun c => { c with Orphan := true })
            ∧ result.maturedBlocks.map roundOf
              = (candidates.filter (fun c => foundOnChain blockAt uncleAt c)).map roundOf) := by
  unfold unlockCandidates at h
  obtain ⟨_, hg, ms, os, hm, hos, hbu, hor, hlen, hmo, hoo, hst⟩ :=
    candidateLoop_spec env candidates _ u w result u1 w1 hrange h
  simp only [List.nil_append, zero_add] at hm hos hbu hor
  rw [hm, hos, hbu, hor]
  refine ⟨?_, hlen, rfl, rfl, hmo, hoo, hg, hst⟩
  rw [← hlen]; push_cast; ring

/-- Witness for C7: one candidate found on the chain and one lost. -/
theorem unlockCandidates_classifies_witness :
    unlockCandidates chainEnv plainUnlocker [minedCandidate, lostCandidate] emptyWorld
        = some (Except.ok chainResult, plainUnlocker, { st := (), trace := chainTrace })
      ∧ chainResult.blocks + chainResult.uncles + chainResult.orphans
          = (([minedCandidate, lostCandidate] : List BlockData).length : Int)
      ∧ (∀ b ∈ chainResult.orphanedBlocks, b.Orphan = true) :=
  have hw := unlockCandidates_classifies chainEnv plainUnlocker plainUnlocker
    [minedCandidate, lostCandidate] emptyWorld { st := (), trace := chainTrace } chainResult
    unlockCandidates_chain (by decide)
  ⟨unlockCandidates_chain, hw.1, hw.2.2.2.2.2.1⟩

/-! ### Block unlocker: halting -/

theorem unlockPendingBlocks_halted {W : Type} (env : Env W) (u : BlockUnlocker) (w : World W)
    (hh : u.halt = true) : unlockPendingBlocks env u w = some (u, w) := by
  simp [unlockPendingBlocks, hh]

theorem unlockAndCreditMiners_halted {W : Type} (env : Env W) (u : BlockUnlocker) (w : World W)
    (hh : u.halt = true) : unlockAndCreditMiners env u w = some (u, w) := by
  simp [unlockAndCreditMiners, hh]

theorem ticks_halted {W : Type} (env : Env W) (u : BlockUnlocker) (w : World W)
    (hh : u.halt = true) : ∀ n, ticks env n u w = some (u, w) := by
  intro n
  induction n with
  | zero => rfl
  | succ n ih =>
    simp [ticks, tick, unlockPendingBlocks_halted env u w hh,
      unlockAndCreditMiners_halted env u w hh, ih]

theorem uncleLoop_halt {W : Type} (env : Env W) (height : Int) (candidate : BlockData) :
    ∀ (uncles : List String) (idx : Nat) (result : UnlockResult) (u : BlockUnlocker) (w : World W)
      (r : Except String ScanState) (u1 : BlockUnlocker) (w1 : World W),
      uncleLoop env height candidate uncles idx result u w = some (r, u1, w1) →
      u.halt = true → u1.halt = true := by
  intro uncles
  induction uncles with
  | nil =>
    intro idx result u w r u1 w1 h hh
    simp only [uncleLoop, Option.some.injEq, Prod.mk.injEq] at h
    rw [← h.2.1]; exact hh
  | cons uncleHash rest ih =>
    intro idx result u w r u1 w1 h hh
    simp only [uncleLoop] at h
    split at h
    · simp only [Option.some.injEq, Prod.mk.injEq] at h
      rw [← h.2.1]; exact hh
    · simp only [Option.some.injEq, Prod.mk.injEq] at h
      rw [← h.2.1]; exact hh
    · split at h
      · split at h
        · exact absurd h (by simp)
        · simp only [Option.some.injEq, Prod.mk.injEq] at h
          rw [← h.2.1]
        · split at h
          · exact absurd h (by simp)
          · simp only [Option.some.injEq, Prod.mk.injEq] at h
            rw [← h.2.1]; exact hh
      · exact ih _ _ _ _ _ _ _ h hh


theorem heightLoop_halt {W : Type} (env : Env W) (candidate : BlockData) :
    ∀ (remaining : Nat) (i : Int) (result : UnlockResult) (u : BlockUnlocker) (w : World W)
      (r : Except String ScanState) (u1 : BlockUnlocker) (w1 : World W),
      heightLoop env candidate remaining i result u w = some (r, u1, w1) →
      u.halt = true → u1.halt = true := by
  intro remaining
  induction remaining with
  | zero =>
    intro i result u w r u1 w1 h hh
    simp only [heightLoop, Option.some.injEq, Prod.mk.injEq] at h
    rw [← h.2.1]; exact hh
  | succ n ih =>
    intro i result u w r u1 w1 h hh
    simp only [heightLoop] at h
    rcases hcall : w.call (Call.GetBlockByHeight (wrapInt64 (candidate.Height + i)))
        (fun st => env.GetBlockByHeight st (wrapInt64 (candidate.Height + i))) with ⟨rep, w2⟩
    rw [hcall] at h
    cases rep with
    | error err =>
      simp only [Option.some.injEq, Prod.mk.injEq] at h
      rw [← h.2.1]; exact hh
    | ok reply =>
      cases reply with
      | none =>
        simp only [Option.some.injEq, Prod.mk.injEq] at h
        rw [← h.2.1]; exact hh
      | some block =>
        simp only [] at h
        by_cases hm : matchCandidate block candidate = true
        · rw [if_pos hm] at h
          cases hb : handleBlock env u block candidate w2 with
          | none => rw [hb] at h; simp at h
          | some res =>
            rw [hb] at h
            rcases res with ⟨res, w3⟩
            cases res with
            | error err =>
              simp only [Option.some.injEq, Prod.mk.injEq] at h
              rw [← h.2.1]
            | ok c1 =>
              simp only [] at h
              split at h
              · simp at h
              · simp only [Option.some.injEq, Prod.mk.injEq] at h
                rw [← h.2.1]; exact hh
        · rw [if_neg hm] at h
          by_cases hun : block.Uncles.length = 0
          · rw [if_pos hun] at h
            exact ih _ _ _ _ _ _ _ h hh
          · rw [if_neg hun] at h
            cases hul : uncleLoop env (wrapInt64 (candidate.Height + i)) candidate block.Uncles 0
                result u w2 with
            | none => rw [hul] at h; simp at h
            | some res =>
              rw [hul] at h
              rcases res with ⟨res, u2, w3⟩
              have hu2 : u2.halt = true := uncleLoop_halt env _ candidate _ _ _ _ _ _ _ _ hul hh
              cases res with
              | error err =>
                simp only [Option.some.injEq, Prod.mk.injEq] at h
                rw [← h.2.1]; exact hu2
              | ok scan =>
                simp only [] at h
                split at h
                · simp only [Option.some.injEq, Prod.mk.injEq] at h
                  rw [← h.2.1]; exact hu2
                · exact ih _ _ _ _ _ _ _ h hu2

theorem candidateLoop_halt {W : Type} (env : Env W) :
    ∀ (candidates : List BlockData) (result : UnlockResult) (u : BlockUnlocker) (w : World W)
      (r : Except String UnlockResult) (u1 : BlockUnlocker) (w1 : World W),
      candidateLoop env candidates result u w = some (r, u1, w1) →
      u.halt = true → u1.halt = true := by
  intro candidates
  induction candidates with
  | nil =>
    intro result u w r u1 w1 h hh
    simp only [candidateLoop, Option.some.injEq, Prod.mk.injEq] at h
    rw [← h.2.1]; exact hh
  | cons candidate rest ih =>
    intro result u w r u1 w1 h hh
    simp only [candidateLoop] at h
    cases hl : heightLoop env candidate
        (minDepth - if minDepth * -1 < 0 then 0 else minDepth * -1).toNat
        (if minDepth * -1 < 0 then 0 else minDepth * -1) result u w with
    | none => rw [hl] at h; simp at h
    | some res =>
      rw [hl] at h
      rcases res with ⟨res, u2, w2⟩
      have hu2 : u2.halt = true := heightLoop_halt env candidate _ _ _ _ _ _ _ _ hl hh
      cases res with
      | error err =>
        simp only [Option.some.injEq, Prod.mk.injEq] at h
        rw [← h.2.1]; exact hu2
      | ok scan =>
        simp only [] at h
        exact ih _ _ _ _ _ _ h hu2

/-- C9: with `halt = true` both phases return at once: no node RPC and no storage
call is made (the world and its trace are unchanged) and `halt` and `lastFail`
keep their values; the same holds for any number of later ticks; and
`unlockCandidates`, the remaining writer of `halt`, never clears it. -/
theorem halted_unlocker_is_inert {W : Type} (env : Env W) (u : BlockUnlocker) (w : World W)
    (hh : u.halt = true) :
    unlockPendingBlocks env u w = some (u, w)
      ∧ unlockAndCreditMiners env u w = some (u, w)
      ∧ (∀ n, ticks env n u w = some (u, w))
      ∧ (∀ (candidates : List BlockData) (r : Except String UnlockResult)
          (u1 : BlockUnlocker) (w1 : World W),
          unlockCandidates env u candidates w = some (r, u1, w1) → u1.halt = true) :=
  ⟨unlockPendingBlocks_halted env u w hh, unlockAndCreditMiners_halted env u w hh,
    ticks_halted env u w hh,
    fun candidates r u1 w1 h => candidateLoop_halt env candidates _ u w r u1 w1 h hh⟩

/-- Witness for C9: a halted unlocker in front of a node that would answer. -/
theorem halted_unlocker_is_inert_witness :
    haltedUnlocker.halt = true
      ∧ ticks quietEnv 3 haltedUnlocker emptyWorld = some (haltedUnlocker, emptyWorld) :=
  ⟨rfl, (halted_unlocker_is_inert quietEnv haltedUnlocker emptyWorld rfl).2.2.1 3⟩

/-! ### Share pipeline: stale submissions -/

theorem processShare_stale {W : Type} (env : ProxyEnv W) (s : ProxyServer)
    (login id ip nonceHex hashNoNonce mixDigest : String) (t : BlockTemplate) (shareDiff : Int)
    (w : ProxyWorld W) (hstale : hashNoNonce ∉ t.headers.map Prod.fst) :
    processShare env s login id ip (some t) [nonceHex, hashNoNonce, mixDigest] shareDiff w
      = some ((false, false), w) := by
  have hl : t.headers.lookup hashNoNonce = none := by
    rw [List.lookup_eq_none_iff]
    intro p hp
    simp only [bne_iff_ne, ne_eq]
    intro heq
    apply hstale
    rw [heq]
    exact List.mem_map_of_mem Prod.fst hp
  simp [processShare, hl]

/-- C10 (as amended): for a submission whose hashNoNonce is not a key of the
current template's headers, `processShare` returns (false, false) without
touching the node or the storage (the world and its trace are unchanged), and
`handleSubmitRPC` treats it like any invalid share: it calls the share policy
exactly once, with valid = false, leaves the session unchanged and replies
(false, nil), or (false, error 23) when the policy reports the tolerance
exceeded. -/
theorem stale_share_is_invalid_share {W : Type} (env : ProxyEnv W) (s : ProxyServer)
    (cs : Session) (login id nonceHex hashNoNonce mixDigest : String) (t : BlockTemplate)
    (w : ProxyWorld W)
    (ht : env.currentBlockTemplate w.st = some t)
    (hstale : hashNoNonce ∉ t.headers.map Prod.fst) :
    (∀ (login1 id1 ip1 : String) (shareDiff : Int),
        processShare env s login1 id1 ip1 (some t) [nonceHex, hashNoNonce, mixDigest] shareDiff w
          = some ((false, false), w))
      ∧ handleSubmitRPC env s cs login id [nonceHex, hashNoNonce, mixDigest] w
          = some ((false,
                if (env.ApplySharePolicy w.st cs.ip false).1 then none
                else some { Code := 23, Message := "Invalid share" }),
              cs,
              { st := (env.ApplySharePolicy w.st cs.ip false).2,
                trace := w.trace ++ [ProxyCall.ApplySharePolicy cs.ip false] }) := by
  constructor
  · intro login1 id1 ip1 shareDiff
    exact processShare_stale env s login1 id1 ip1 nonceHex hashNoNonce mixDigest t shareDiff w hstale
  · unfold handleSubmitRPC
    simp only [ht]
    rw [processShare_stale env s login _ cs.ip nonceHex hashNoNonce mixDigest t cs.diff w hstale]
    simp only [List.length_cons, List.length_nil, ProxyWorld.call]
    cases hok : (env.ApplySharePolicy w.st cs.ip false).1 <;> simp [hok]

/-- Witness for C10 (as amended): a submission for the unknown header `0xstale`. -/
theorem stale_share_is_invalid_share_witness :
    handleSubmitRPC liveEnv plainProxy plainSession plainSession.login "rig1"
        ["0x0000000000000001", "0xstale", "0x00"] emptyProxyWorld
      = some ((false, none), plainSession,
          { st := (), trace := [ProxyCall.ApplySharePolicy "10.0.0.1" false] }) :=
  (stale_share_is_invalid_share liveEnv plainProxy plainSession plainSession.login "rig1"
    "0x0000000000000001" "0xstale" "0x00"
    { Header := "0xlive", Seed := "00", Height := 100, GetPendingBlockCache := none,
      headers := [("0xlive", { diff := 1000, height := 100 })] }
    emptyProxyWorld rfl (by decide)).2

/-- C10 fails as stated: for a submission whose hashNoNonce (`0xstale`) is not a
key of the template's headers, `handleSubmitRPC` does call the share policy with
valid = false. -/
theorem stale_share_reaches_share_policy :
    ∃ reply cs1 w1,
      handleSubmitRPC liveEnv plainProxy plainSession plainSession.login "rig1"
          ["0x0000000000000001", "0xstale", "0x00"] emptyProxyWorld = some (reply, cs1, w1)
        ∧ "0xstale" ∉ ((liveEnv.currentBlockTemplate ()).map
              (fun t => t.headers.map Prod.fst)).getD []
        ∧ ProxyCall.ApplySharePolicy "10.0.0.1" false ∈ w1.trace := by
  refine ⟨(false, none), plainSession,
    { st := (), trace := [ProxyCall.ApplySharePolicy "10.0.0.1" false] }, ?_, by decide, by simp⟩
  rfl

/-! ### Hash verifier -/

/-- C6: for every hash (in particular every non-negative one) and every positive
difficulty, `checkHash` accepts exactly when hash ≤ floor(2^256 / difficulty);
difficulty 0 is rejected for every hash. -/
theorem checkHash_iff_le_target (hash d : Int) (hd : 0 < d) :
    (checkHash hash d = true ↔ hash ≤ 2 ^ 256 / d)
      ∧ (∀ x : Int, checkHash x 0 = false) := by
  have hne : d ≠ 0 := by omega
  have h256 : Int.toNat 256 = 256 := rfl
  constructor
  · simp [checkHash, hne, bigDiv, maxUint256, bigExp, h256]
  · intro x
    simp [checkHash]

/-- Witness for C6: hash 2^255 against difficulty 2. -/
theorem checkHash_iff_le_target_witness :
    (0 : Int) < 2 ∧ (checkHash (2 ^ 255) 2 = true ↔ (2 : Int) ^ 255 ≤ 2 ^ 256 / 2) :=
  ⟨by decide, (checkHash_iff_le_target (2 ^ 255) 2 (by decide)).1⟩

/-! ### Share pipeline: classification of a submission -/

theorem processShare_live {W : Type} (env : ProxyEnv W) (s : ProxyServer)
    (login id ip nonceHex hashNoNonce : String) (rest : List String) (t : BlockTemplate)
    (h : HeightDiffPair) (shareDiff : Int) (w : ProxyWorld W)
    (hlive : t.headers.lookup hashNoNonce = some h) :
    processShare env s login id ip (some t) (nonceHex :: hashNoNonce :: rest) shareDiff w
      = if (hexDecodeString t.Seed).2.isSome
            || !checkHash (env.CalcHash (hexDecodeString t.Seed).1
                  (ParseUint16 (replace0x nonceHex)).1) shareDiff then
          some ((false, false), w)
        else if checkHash (env.CalcHash (hexDecodeString t.Seed).1
                  (ParseUint16 (replace0x nonceHex)).1) h.diff then
          match w.call (ProxyCall.SubmitBlock (nonceHex :: hashNoNonce :: rest))
              (fun st => env.SubmitBlock st (nonceHex :: hashNoNonce :: rest)) with
          | (Except.error _, w1) => some ((false, true), w1)
          | (Except.ok false, w1) => some ((false, false), w1)
          | (Except.ok true, w1) =>
            match (w1.call ProxyCall.FetchBlockTemplate
                    (fun st => ((), env.fetchBlockTemplate st))).2.call
                (ProxyCall.WriteBlock login id (nonceHex :: hashNoNonce :: rest) shareDiff
                  (wrapInt64 h.diff) h.height)
                (fun st => env.WriteBlock st login id (nonceHex :: hashNoNonce :: rest) shareDiff
                  (wrapInt64 h.diff) h.height s.hashrateExpiration) with
            | ((true, _), w3) => some ((true, false), w3)
            | ((false, _), w3) => some ((false, true), w3)
        else
          match w.call (ProxyCall.WriteShare login id (nonceHex :: hashNoNonce :: rest) shareDiff
                h.height)
              (fun st => env.WriteShare st login id (nonceHex :: hashNoNonce :: rest) shareDiff
                h.height s.hashrateExpiration) with
          | ((true, _), w1) => some ((true, false), w1)
          | ((false, _), w1) => some ((false, true), w1) := by
  simp only [processShare, hlive]

theorem checkHash_false_iff (hash d : Int) :
    checkHash hash d = false ↔ (d = 0 ∨ hash > 2 ^ 256 / d) := by
  have h256 : Int.toNat 256 = 256 := rfl
  by_cases hd : d = 0
  · simp [checkHash, hd]
  · simp [checkHash, hd, bigDiv, maxUint256, bigExp, h256]

theorem checkHash_zero_1000 : checkHash 0 1000 = true := by
  rw [← Bool.not_eq_false, checkHash_false_iff]
  norm_num

/-- C14: for a submission against a live header, if the template seed is not
valid hex or the PoW hash does not meet the session's shareDiff (shareDiff = 0,
or hash > floor(2^256 / shareDiff)), `processShare` returns (false, false) and
makes no call at all (so no SubmitBlock, WriteBlock or WriteShare), whatever
the network difficulty; and valid = true implies that the header is live, the
seed decodes and the hash meets shareDiff. -/
theorem share_gate_blocks_all_calls {W : Type} (env : ProxyEnv W) (s : ProxyServer)
    (login id ip nonceHex hashNoNonce : String) (rest : List String) (t : BlockTemplate)
    (h : HeightDiffPair) (shareDiff : Int) (w : ProxyWorld W)
    (hlive : t.headers.lookup hashNoNonce = some h)
    (hbad : (hexDecodeString t.Seed).2 ≠ none ∨ shareDiff = 0
      ∨ env.CalcHash (hexDecodeString t.Seed).1 (ParseUint16 (replace0x nonceHex)).1
          > 2 ^ 256 / shareDiff) :
    processShare env s login id ip (some t) (nonceHex :: hashNoNonce :: rest) shareDiff w
        = some ((false, false), w)
      ∧ (∀ (t1 : Option BlockTemplate) (shareDiff1 : Int) (exist : Bool) (w1 : ProxyWorld W),
          processShare env s login id ip t1 (nonceHex :: hashNoNonce :: rest) shareDiff1 w
            = some ((exist, true), w1) →
          ∃ t0 h0, t1 = some t0 ∧ t0.headers.lookup hashNoNonce = some h0
            ∧ (hexDecodeString t0.Seed).2 = none
            ∧ checkHash (env.CalcHash (hexDecodeString t0.Seed).1
                (ParseUint16 (replace0x nonceHex)).1) shareDiff1 = true) := by
  constructor
  · rw [processShare_live env s login id ip nonceHex hashNoNonce rest t h shareDiff w hlive]
    have hc : ((hexDecodeString t.Seed).2.isSome
        || !checkHash (env.CalcHash (hexDecodeString t.Seed).1
              (ParseUint16 (replace0x nonceHex)).1) shareDiff) = true := by
      rcases hbad with hb | hb
      · cases hs : (hexDecodeString t.Seed).2 with
        | none => exact absurd hs hb
        | some e => simp
      · have := (checkHash_false_iff (env.CalcHash (hexDecodeString t.Seed).1
              (ParseUint16 (replace0x nonceHex)).1) shareDiff).mpr hb
        simp [this]
    rw [if_pos hc]
  · intro t1 shareDiff1 exist w1 hv
    cases t1 with
    | none => simp [processShare] at hv
    | some t0 =>
      cases hl : t0.headers.lookup hashNoNonce with
      | none => simp [processShare, hl] at hv
      | some h0 =>
        rw [processShare_live env s login id ip nonceHex hashNoNonce rest t0 h0 shareDiff1 w hl] at hv
        by_cases hc : ((hexDecodeString t0.Seed).2.isSome
            || !checkHash (env.CalcHash (hexDecodeString t0.Seed).1
                  (ParseUint16 (replace0x nonceHex)).1) shareDiff1) = true
        · rw [if_pos hc] at hv
          simp at hv
        · refine ⟨t0, h0, rfl, hl, ?_, ?_⟩
          · cases hs : (hexDecodeString t0.Seed).2 with
            | none => rfl
            | some e => rw [hs] at hc; simp at hc
          · cases hk : checkHash (env.CalcHash (hexDecodeString t0.Seed).1
                  (ParseUint16 (replace0x nonceHex)).1) shareDiff1 with
            | true => rfl
            | false => rw [hk] at hc; simp at hc

/-- Witness for C14: share difficulty 0 against the live header of `liveEnv`. -/
theorem share_gate_blocks_all_calls_witness :
    processShare liveEnv plainProxy "miner" "rig1" "10.0.0.1" (some liveTemplate)
        ["0x01", "0xlive", "0x00"] 0 emptyProxyWorld
      = some ((false, false), emptyProxyWorld) :=
  (share_gate_blocks_all_calls liveEnv plainProxy "miner" "rig1" "10.0.0.1" "0x01" "0xlive"
    ["0x00"] liveTemplate { diff := 1000, height := 100 } 0 emptyProxyWorld (by decide)
    (Or.inr (Or.inl rfl))).1

/-- C19: a share against a live header whose hash meets both the session's share
difficulty and the header's network difficulty, and that the node accepts
(`SubmitBlock` returns true), makes exactly three calls, in this order: the
submission, one template refresh, one `WriteBlock` carrying the 64-bit network
difficulty and the height; no `WriteShare`. It returns valid = true with the
duplicate flag of `WriteBlock` (and exists and valid are then opposite). The
difficulty recorded is the header's own whenever that fits 64 bits. -/
theorem accepted_block_refreshes_and_writes_block {W : Type} (env : ProxyEnv W)
    (s : ProxyServer) (login id ip nonceHex hashNoNonce : String) (rest : List String)
    (t : BlockTemplate) (h : HeightDiffPair) (shareDiff : Int) (w : ProxyWorld W)
    (hlive : t.headers.lookup hashNoNonce = some h)
    (hseed : (hexDecodeString t.Seed).2 = none)
    (hshare : checkHash (env.CalcHash (hexDecodeString t.Seed).1
        (ParseUint16 (replace0x nonceHex)).1) shareDiff = true)
    (hnet : checkHash (env.CalcHash (hexDecodeString t.Seed).1
        (ParseUint16 (replace0x nonceHex)).1) h.diff = true)
    (hnode : (env.SubmitBlock w.st (nonceHex :: hashNoNonce :: rest)).1 = Except.ok true) :
    ∃ (exist : Bool) (st3 : W),
      processShare env s login id ip (some t) (nonceHex :: hashNoNonce :: rest) shareDiff w
        = some ((exist, !exist),
            { st := st3,
              trace := w.trace ++
                [ProxyCall.SubmitBlock (nonceHex :: hashNoNonce :: rest),
                 ProxyCall.FetchBlockTemplate,
                 ProxyCall.WriteBlock login id (nonceHex :: hashNoNonce :: rest) shareDiff
                   (wrapInt64 h.diff) h.height] })
      ∧ exist = (env.WriteBlock
          (env.fetchBlockTemplate (env.SubmitBlock w.st (nonceHex :: hashNoNonce :: rest)).2)
          login id (nonceHex :: hashNoNonce :: rest) shareDiff (wrapInt64 h.diff) h.height
          s.hashrateExpiration).1.1
      ∧ (-(2 : Int) ^ 63 ≤ h.diff → h.diff < 2 ^ 63 → wrapInt64 h.diff = h.diff) := by
  rw [processShare_live env s login id ip nonceHex hashNoNonce rest t h shareDiff w hlive]
  have hc : ¬ ((hexDecodeString t.Seed).2.isSome
      || !checkHash (env.CalcHash (hexDecodeString t.Seed).1
            (ParseUint16 (replace0x nonceHex)).1) shareDiff) = true := by
    simp [hseed, hshare]
  rw [if_neg hc, if_pos hnet]
  rcases hsb : env.SubmitBlock w.st (nonceHex :: hashNoNonce :: rest) with ⟨r1, st1⟩
  rw [hsb] at hnode
  simp only at hnode
  subst hnode
  rcases hwb : env.WriteBlock (env.fetchBlockTemplate st1) login id
      (nonceHex :: hashNoNonce :: rest) shareDiff (wrapInt64 h.diff) h.height
      s.hashrateExpiration with ⟨⟨e, er⟩, st3⟩
  refine ⟨e, st3, ?_, rfl, fun h1 h2 => wrapInt64_of_range h.diff h1 h2⟩
  cases e <;> simp [ProxyWorld.call, hsb, hwb]

/-- Witness for C19: the node accepts a block found against the live header of
`liveEnv`. -/
theorem accepted_block_refreshes_and_writes_block_witness :
    ∃ (exist : Bool) (st3 : Unit),
      processShare liveEnv plainProxy "miner" "rig1" "10.0.0.1" (some liveTemplate)
          ["0x01", "0xlive", "0x00"] 1000 emptyProxyWorld
        = some ((exist, !exist),
            { st := st3,
              trace := emptyProxyWorld.trace ++
                [ProxyCall.SubmitBlock ["0x01", "0xlive", "0x00"],
                 ProxyCall.FetchBlockTemplate,
                 ProxyCall.WriteBlock "miner" "rig1" ["0x01", "0xlive", "0x00"] 1000
                   (wrapInt64 1000) 100] })
      ∧ exist = (liveEnv.WriteBlock
          (liveEnv.fetchBlockTemplate (liveEnv.SubmitBlock emptyProxyWorld.st
            ["0x01", "0xlive", "0x00"]).2)
          "miner" "rig1" ["0x01", "0xlive", "0x00"] 1000 (wrapInt64 1000) 100
          plainProxy.hashrateExpiration).1.1
      ∧ (-(2 : Int) ^ 63 ≤ 1000 → (1000 : Int) < 2 ^ 63 → wrapInt64 1000 = 1000) :=
  accepted_block_refreshes_and_writes_block liveEnv plainProxy "miner" "rig1" "10.0.0.1" "0x01"
    "0xlive" ["0x00"] liveTemplate { diff := 1000, height := 100 } 1000 emptyProxyWorld
    (by decide) (by decide) (checkHash_zero_1000) (checkHash_zero_1000) rfl

/-! ### Share pipeline: node errors and unparsable nonces -/

/-- C12 (as amended): a share against a live header whose hash meets both
the session's share difficulty and the header's network difficulty, and for
which `SubmitBlock` returns an RPC error, is returned as (false, true): valid,
not a duplicate. The submission is the only call: no template refresh and no
storage write. -/
theorem submit_rpc_error_keeps_share_valid {W : Type} (env : ProxyEnv W)
    (s : ProxyServer) (login id ip nonceHex hashNoNonce : String) (rest : List String)
    (t : BlockTemplate) (h : HeightDiffPair) (shareDiff : Int) (w : ProxyWorld W) (e : String)
    (hlive : t.headers.lookup hashNoNonce = some h)
    (hseed : (hexDecodeString t.Seed).2 = none)
    (hshare : checkHash (env.CalcHash (hexDecodeString t.Seed).1
        (ParseUint16 (replace0x nonceHex)).1) shareDiff = true)
    (hnet : checkHash (env.CalcHash (hexDecodeString t.Seed).1
        (ParseUint16 (replace0x nonceHex)).1) h.diff = true)
    (hnode : (env.SubmitBlock w.st (nonceHex :: hashNoNonce :: rest)).1 = Except.error e) :
    processShare env s login id ip (some t) (nonceHex :: hashNoNonce :: rest) shareDiff w
      = some ((false, true),
          { st := (env.SubmitBlock w.st (nonceHex :: hashNoNonce :: rest)).2,
            trace := w.trace ++ [ProxyCall.SubmitBlock (nonceHex :: hashNoNonce :: rest)] }) := by
  rw [processShare_live env s login id ip nonceHex hashNoNonce rest t h shareDiff w hlive]
  have hc : ¬ ((hexDecodeString t.Seed).2.isSome
      || !checkHash (env.CalcHash (hexDecodeString t.Seed).1
            (ParseUint16 (replace0x nonceHex)).1) shareDiff) = true := by
    simp [hseed, hshare]
  rw [if_neg hc, if_pos hnet]
  rcases hsb : env.SubmitBlock w.st (nonceHex :: hashNoNonce :: rest) with ⟨r1, st1⟩
  rw [hsb] at hnode
  simp only at hnode
  subst hnode
  simp [ProxyWorld.call, hsb]

/-- Witness for C12 (as amended): the node of `nodeDownEnv` cannot be
reached. -/
theorem submit_rpc_error_keeps_share_valid_witness :
    processShare nodeDownEnv plainProxy "miner" "rig1" "10.0.0.1" (some liveTemplate)
        ["0x01", "0xlive", "0x00"] 1000 emptyProxyWorld
      = some ((false, true),
          { st := (nodeDownEnv.SubmitBlock emptyProxyWorld.st ["0x01", "0xlive", "0x00"]).2,
            trace := emptyProxyWorld.trace
              ++ [ProxyCall.SubmitBlock ["0x01", "0xlive", "0x00"]] }) :=
  submit_rpc_error_keeps_share_valid nodeDownEnv plainProxy "miner" "rig1" "10.0.0.1" "0x01"
    "0xlive" ["0x00"] liveTemplate { diff := 1000, height := 100 } 1000 emptyProxyWorld
    "connection refused" (by decide) (by decide) checkHash_zero_1000 checkHash_zero_1000 rfl

/-- C12 fails as stated: the hash 0 meets share difficulty 1000 and network
difficulty 1000, `SubmitBlock` returns an RPC error, and `processShare` returns
valid = true. -/
theorem submit_rpc_error_returns_valid :
    checkHash (nodeDownEnv.CalcHash (hexDecodeString liveTemplate.Seed).1
        (ParseUint16 (replace0x "0x01")).1) 1000 = true
      ∧ liveTemplate.headers.lookup "0xlive" = some { diff := 1000, height := 100 }
      ∧ (nodeDownEnv.SubmitBlock () ["0x01", "0xlive", "0x00"]).1
          = Except.error "connection refused"
      ∧ (processShare nodeDownEnv plainProxy "miner" "rig1" "10.0.0.1" (some liveTemplate)
          ["0x01", "0xlive", "0x00"] 1000 emptyProxyWorld).map (fun r => r.1.2) = some true := by
  refine ⟨checkHash_zero_1000, by decide, rfl, ?_⟩
  rw [processShare_live nodeDownEnv plainProxy "miner" "rig1" "10.0.0.1" "0x01" "0xlive"
    ["0x00"] liveTemplate { diff := 1000, height := 100 } 1000 emptyProxyWorld (by decide)]
  have hk : checkHash (nodeDownEnv.CalcHash (hexDecodeString liveTemplate.Seed).1
      (ParseUint16 (replace0x "0x01")).1) 1000 = true := checkHash_zero_1000
  have hs : (hexDecodeString liveTemplate.Seed).2 = none := by decide
  simp only [hk, hs]
  rfl

theorem parseUintLoop_err (e : NumError) :
    ∀ (l : List Char) (n : Nat), (parseUintLoop l n).2 = some e →
      (parseUintLoop l n).1
        = (match e with
           | NumError.ErrSyntax => 0
           | NumError.ErrRange => 18446744073709551615) := by
  intro l
  induction l with
  | nil => intro n h; simp [parseUintLoop] at h
  | cons c rest ih =>
    intro n h
    unfold parseUintLoop at h ⊢
    cases hd : digitValue c with
    | none =>
      rw [hd] at h
      simp only [Option.some.injEq] at h
      subst h
      rfl
    | some d =>
      rw [hd] at h
      simp only at h ⊢
      by_cases h16 : d ≥ 16
      · rw [if_pos h16] at h ⊢
        simp only [Option.some.injEq] at h
        subst h
        rfl
      · rw [if_neg h16] at h ⊢
        by_cases hr : n * 16 + d > 18446744073709551615
        · rw [if_pos hr] at h ⊢
          simp only [Option.some.injEq] at h
          subst h
          rfl
        · rw [if_neg hr] at h ⊢
          exact ih _ h

theorem ParseUint16_err (s : String) (e : NumError) :
    (ParseUint16 s).2 = some e →
    (ParseUint16 s).1
      = (match e with
         | NumError.ErrSyntax => 0
         | NumError.ErrRange => 18446744073709551615) := by
  unfold ParseUint16
  by_cases hs : s.data = []
  · rw [if_pos hs]
    intro h
    simp only [Option.some.injEq] at h
    subst h
    rfl
  · rw [if_neg hs]
    exact parseUintLoop_err e _ _

/-- C13 (as amended): when the nonce parameter does not parse,
`processShare` drops the parse error and hashes with the value the parser
returns, 0 after a syntax error and 2^64 - 1 after a range error. Against a
live header with a valid seed the share is then classified by that hash alone:
(false, false) if the hash misses the share difficulty, and (false, true),
a valid share written to storage, if it meets the share difficulty but not
the network difficulty and storage reports no duplicate. -/
theorem unparsable_nonce_is_hashed_with_parser_value {W : Type} (env : ProxyEnv W)
    (s : ProxyServer) (login id ip nonceHex hashNoNonce : String) (rest : List String)
    (t : BlockTemplate) (h : HeightDiffPair) (shareDiff : Int) (w : ProxyWorld W)
    (e : NumError)
    (hparse : (ParseUint16 (replace0x nonceHex)).2 = some e)
    (hlive : t.headers.lookup hashNoNonce = some h)
    (hseed : (hexDecodeString t.Seed).2 = none) :
    (e = NumError.ErrSyntax → (ParseUint16 (replace0x nonceHex)).1 = 0)
      ∧ (e = NumError.ErrRange → (ParseUint16 (replace0x nonceHex)).1 = 2 ^ 64 - 1)
      ∧ (checkHash (env.CalcHash (hexDecodeString t.Seed).1
            (ParseUint16 (replace0x nonceHex)).1) shareDiff = false →
          processShare env s login id ip (some t) (nonceHex :: hashNoNonce :: rest) shareDiff w
            = some ((false, false), w))
      ∧ (checkHash (env.CalcHash (hexDecodeString t.Seed).1
            (ParseUint16 (replace0x nonceHex)).1) shareDiff = true →
          checkHash (env.CalcHash (hexDecodeString t.Seed).1
            (ParseUint16 (replace0x nonceHex)).1) h.diff = false →
          (env.WriteShare w.st login id (nonceHex :: hashNoNonce :: rest) shareDiff h.height
            s.hashrateExpiration).1.1 = false →
          processShare env s login id ip (some t) (nonceHex :: hashNoNonce :: rest) shareDiff w
            = some ((false, true),
                { st := (env.WriteShare w.st login id (nonceHex :: hashNoNonce :: rest)
                          shareDiff h.height s.hashrateExpiration).2,
                  trace := w.trace ++ [ProxyCall.WriteShare login id
                    (nonceHex :: hashNoNonce :: rest) shareDiff h.height] })) := by
  have hv := ParseUint16_err (replace0x nonceHex) e hparse
  refine ⟨?_, ?_, ?_, ?_⟩
  · intro he; subst he; exact hv
  · intro he; subst he; exact hv
  · intro hk
    rw [processShare_live env s login id ip nonceHex hashNoNonce rest t h shareDiff w hlive]
    simp [hk]
  · intro hk hn hw
    rw [processShare_live env s login id ip nonceHex hashNoNonce rest t h shareDiff w hlive]
    have hc : ¬ ((hexDecodeString t.Seed).2.isSome
        || !checkHash (env.CalcHash (hexDecodeString t.Seed).1
              (ParseUint16 (replace0x nonceHex)).1) shareDiff) = true := by
      simp [hseed, hk]
    have hn2 : ¬ checkHash (env.CalcHash (hexDecodeString t.Seed).1
        (ParseUint16 (replace0x nonceHex)).1) h.diff = true := by simp [hn]
    rw [if_neg hc, if_neg hn2]
    rcases hws : env.WriteShare w.st login id (nonceHex :: hashNoNonce :: rest) shareDiff
        h.height s.hashrateExpiration with ⟨⟨ex, er⟩, st1⟩
    rw [hws] at hw
    simp only at hw
    subst hw
    simp [ProxyWorld.call, hws]

/-- Witness for C13 (as amended): the nonce `0xzz` against the live
header of `liveEnv`. -/
theorem unparsable_nonce_is_hashed_with_parser_value_witness :
    (ParseUint16 (replace0x "0xzz")).2 = some NumError.ErrSyntax
      ∧ (ParseUint16 (replace0x "0xzz")).1 = 0 :=
  ⟨by decide,
   (unparsable_nonce_is_hashed_with_parser_value liveEnv plainProxy "miner" "rig1" "10.0.0.1"
      "0xzz" "0xlive" ["0x00"] liveTemplate { diff := 1000, height := 100 } 1000
      emptyProxyWorld NumError.ErrSyntax (by decide) (by decide) (by decide)).1 rfl⟩

/-- C13 fails as stated: the nonce `0xzz` is not a hexadecimal number, yet the
submission is returned as a valid share (here even a block candidate, since
the hash of the fallback nonce 0 meets the network difficulty). -/
theorem unparsable_nonce_returns_valid :
    (ParseUint16 (replace0x "0xzz")).2 = some NumError.ErrSyntax
      ∧ processShare liveEnv plainProxy "miner" "rig1" "10.0.0.1" (some liveTemplate)
          ["0xzz", "0xlive", "0x00"] 1000 emptyProxyWorld
        = some ((false, true),
            { st := (),
              trace := [ProxyCall.SubmitBlock ["0xzz", "0xlive", "0x00"],
                        ProxyCall.FetchBlockTemplate,
                        ProxyCall.WriteBlock "miner" "rig1" ["0xzz", "0xlive", "0x00"] 1000
                          1000 100] }) := by
  refine ⟨by decide, ?_⟩
  rw [processShare_live liveEnv plainProxy "miner" "rig1" "10.0.0.1" "0xzz" "0xlive"
    ["0x00"] liveTemplate { diff := 1000, height := 100 } 1000 emptyProxyWorld (by decide)]
  have hk : checkHash (liveEnv.CalcHash (hexDecodeString liveTemplate.Seed).1
      (ParseUint16 (replace0x "0xzz")).1) 1000 = true := checkHash_zero_1000
  have hs : (hexDecodeString liveTemplate.Seed).2 = none := by decide
  simp only [hk, hs]
  rfl

/-! ### Payout distributor: kept transaction fees -/

theorem rewardSplitAfterShares_get_other (fdiv : ℚ → ℚ → ℚ) (config : UnlockerConfig)
    (block : BlockData) (reward : Int) (rewards : RewardMap) (login : String)
    (hd : login ≠ toLower donationAccount) (hp : login ≠ toLower config.PoolFeeAddress) :
    (rewardSplitAfterShares fdiv config block reward rewards).rewards.get login
      = rewards.get login := by
  unfold rewardSplitAfterShares
  simp only []
  split_ifs <;>
    simp only [RewardMap.get_add_other _ _ _ _ hd, RewardMap.get_add_other _ _ _ _ hp]

theorem rewardSplitAfterShares_minersProfit (fdiv : ℚ → ℚ → ℚ) (config : UnlockerConfig)
    (block : BlockData) (reward : Int) (rewards : RewardMap) :
    (rewardSplitAfterShares fdiv config block reward rewards).minersProfit
      = (chargeFee fdiv (reward : ℚ) config.PoolFee).1 := rfl

theorem rewardSplitAfterShares_revenue (fdiv : ℚ → ℚ → ℚ) (config : UnlockerConfig)
    (block : BlockData) (reward : Int) (rewards : RewardMap) :
    (rewardSplitAfterShares fdiv config block reward rewards).revenue
      = (reward : ℚ) + ((block.ExtraReward.getD 0 : Int) : ℚ) := by
  unfold rewardSplitAfterShares
  cases block.ExtraReward <;> simp

theorem rewardSplitAfterShares_pool (fdiv : ℚ → ℚ → ℚ) (config : UnlockerConfig)
    (block : BlockData) (reward : Int) (rewards : RewardMap) :
    (rewardSplitAfterShares fdiv config block reward rewards).poolProfit
        + (rewardSplitAfterShares fdiv config block reward rewards).donation
      = (chargeFee fdiv (reward : ℚ) config.PoolFee).2
          + ((block.ExtraReward.getD 0 : Int) : ℚ) := by
  have h := rewardSplitAfterShares_sum fdiv config block reward rewards
  rw [rewardSplitAfterShares_revenue, rewardSplitAfterShares_minersProfit] at h
  have hc := chargeFee_sum fdiv (reward : ℚ) config.PoolFee
  linarith

/-- C17 (as amended): two matured blocks that differ only in ExtraReward
get, from `calculateRewards`, the same minersProfit and, for every login other
than the donation account and the pool fee address, the same credited amount,
which is the amount of the share split. Revenue grows by exactly the difference
of the extra rewards, and so does poolProfit plus the donation taken out of it:
the returned poolProfit alone grows by exactly that difference only when no
donation is charged. -/
theorem kept_tx_fees_stay_out_of_share_split {W : Type} (env : Env W) (u : BlockUnlocker)
    (b : BlockData) (x : Option Int) (w w1 : World W) (out1 : RewardSplit)
    (h1 : calculateRewards env u b w = some (Except.ok out1, w1)) :
    ∃ out2 shares split,
      calculateRewards env u { b with ExtraReward := x } w = some (Except.ok out2, w1)
      ∧ out2.minersProfit = out1.minersProfit
      ∧ (env.GetRoundShares w.st b.RoundHeight b.Nonce).1 = Except.ok shares
      ∧ calculateRewardsForShares shares b.TotalShares out1.minersProfit = some split
      ∧ (∀ login, login ≠ toLower donationAccount → login ≠ toLower u.config.PoolFeeAddress →
          out1.rewards.get login = split.get login ∧ out2.rewards.get login = split.get login)
      ∧ out2.revenue - out1.revenue
          = ((x.getD 0 : Int) : ℚ) - ((b.ExtraReward.getD 0 : Int) : ℚ)
      ∧ (out2.poolProfit + out2.donation) - (out1.poolProfit + out1.donation)
          = ((x.getD 0 : Int) : ℚ) - ((b.ExtraReward.getD 0 : Int) : ℚ)
      ∧ (u.config.Enabled = false ∨ u.config.DevDonate = some 0 →
          out2.poolProfit - out1.poolProfit
            = ((x.getD 0 : Int) : ℚ) - ((b.ExtraReward.getD 0 : Int) : ℚ)) := by
  obtain ⟨reward, shares, split, hR, hcall, hsplit, hout⟩ :=
    calculateRewards_ok_inv env u b w w1 out1 h1
  refine ⟨rewardSplitAfterShares env.fdiv u.config { b with ExtraReward := x } reward split,
    shares, split, ?_, ?_, ?_, ?_, ?_, ?_, ?_, ?_⟩
  · rw [calculateRewards_unfold]
    simp only [hR, hcall, hsplit]
  · rw [hout]; rfl
  · have := congrArg Prod.fst hcall
    simpa [World.call] using this
  · rw [hout, rewardSplitAfterShares_minersProfit]; exact hsplit
  · intro login hd hp
    rw [hout]
    exact ⟨rewardSplitAfterShares_get_other _ _ _ _ _ _ hd hp,
      rewardSplitAfterShares_get_other _ _ _ _ _ _ hd hp⟩
  · rw [hout, rewardSplitAfterShares_revenue, rewardSplitAfterShares_revenue]
    simp
  · rw [hout, rewardSplitAfterShares_pool, rewardSplitAfterShares_pool]
    simp
  · intro hno
    have e1 := rewardSplitAfterShares_pool env.fdiv u.config b reward split
    have e2 := rewardSplitAfterShares_pool env.fdiv u.config { b with ExtraReward := x }
      reward split
    rw [rewardSplitAfterShares_no_donation _ _ _ _ _ hno] at e1 e2
    rw [hout]
    simp only [add_zero] at e1 e2
    rw [e1, e2]
    simp

/-- Witness for C17 (as amended): the three-miner round, with 1000 wei of
transaction fees kept aside. -/
theorem kept_tx_fees_stay_out_of_share_split_witness :
    ∃ out2 shares split,
      calculateRewards threeMinerEnv plainUnlocker
          { twoShannonBlock with ExtraReward := some 1000 } emptyWorld
        = some (Except.ok out2, { st := (), trace := [Call.GetRoundShares 1 "0x01"] })
      ∧ out2.minersProfit = threeMinerSplit.minersProfit
      ∧ (threeMinerEnv.GetRoundShares emptyWorld.st twoShannonBlock.RoundHeight
          twoShannonBlock.Nonce).1 = Except.ok shares
      ∧ calculateRewardsForShares shares twoShannonBlock.TotalShares
          threeMinerSplit.minersProfit = some split
      ∧ (∀ login, login ≠ toLower donationAccount →
          login ≠ toLower plainUnlocker.config.PoolFeeAddress →
          threeMinerSplit.rewards.get login = split.get login
            ∧ out2.rewards.get login = split.get login)
      ∧ out2.revenue - threeMinerSplit.revenue
          = ((((some 1000 : Option Int).getD 0 : Int)) : ℚ)
            - ((twoShannonBlock.ExtraReward.getD 0 : Int) : ℚ)
      ∧ (out2.poolProfit + out2.donation)
            - (threeMinerSplit.poolProfit + threeMinerSplit.donation)
          = ((((some 1000 : Option Int).getD 0 : Int)) : ℚ)
            - ((twoShannonBlock.ExtraReward.getD 0 : Int) : ℚ)
      ∧ (plainUnlocker.config.Enabled = false ∨ plainUnlocker.config.DevDonate = some 0 →
          out2.poolProfit - threeMinerSplit.poolProfit
            = ((((some 1000 : Option Int).getD 0 : Int)) : ℚ)
              - ((twoShannonBlock.ExtraReward.getD 0 : Int) : ℚ)) :=
  kept_tx_fees_stay_out_of_share_split threeMinerEnv plainUnlocker twoShannonBlock (some 1000)
    emptyWorld { st := (), trace := [Call.GetRoundShares 1 "0x01"] } threeMinerSplit
    calculateRewards_threeMiners

/-- C17 fails as stated: with a donation of 50 percent and no pool fee, the block
without kept fees returns poolProfit 0 and the same block with 1000 wei of kept
fees returns poolProfit 500: poolProfit grows by 500, not by ExtraReward. -/
theorem kept_tx_fees_pool_profit_grows_by_less :
    ∃ out1 out2 w1 w2,
      calculateRewards quietEnv halfDonationUnlocker twoShannonBlock emptyWorld
        = some (Except.ok out1, w1)
      ∧ calculateRewards quietEnv halfDonationUnlocker feeBlock emptyWorld
        = some (Except.ok out2, w2)
      ∧ feeBlock = { twoShannonBlock with ExtraReward := some 1000 }
      ∧ out1.poolProfit = 0 ∧ out2.poolProfit = 500
      ∧ out2.poolProfit - out1.poolProfit ≠ 1000 := by
  have e1 : (rewardSplitAfterShares exactDiv halfDonationConfig twoShannonBlock 2000000000
      []).poolProfit = 0 := by
    norm_num [rewardSplitAfterShares, halfDonationConfig, plainConfig, twoShannonBlock,
      chargeFee, exactDiv]
  have e2 : (rewardSplitAfterShares exactDiv halfDonationConfig feeBlock 2000000000
      []).poolProfit = 500 := by
    norm_num [rewardSplitAfterShares, halfDonationConfig, plainConfig, twoShannonBlock,
      feeBlock, chargeFee, exactDiv]
  refine ⟨rewardSplitAfterShares exactDiv halfDonationConfig twoShannonBlock 2000000000 [],
    rewardSplitAfterShares exactDiv halfDonationConfig feeBlock 2000000000 [],
    { st := (), trace := [Call.GetRoundShares 1 "0x01"] },
    { st := (), trace := [Call.GetRoundShares 1 "0x01"] }, rfl, rfl, rfl, e1, e2, ?_⟩
  rw [e1, e2]
  norm_num

/-! ### Binary floating point -/

/-! ### Rounding to the nearest integer -/

theorem roundHalfEven_intCast (n : Int) : roundHalfEven (n : ℚ) = n := by
  unfold roundHalfEven
  simp

theorem roundHalfEven_le (y : ℚ) (N : Int) (h : y ≤ (N : ℚ)) : roundHalfEven y ≤ N := by
  have hfl : (⌊y⌋ : ℚ) ≤ y := Int.floor_le y
  have hfN : ⌊y⌋ ≤ N := by
    have : ((⌊y⌋ : Int) : ℚ) ≤ (N : ℚ) := le_trans hfl h
    exact_mod_cast this
  unfold roundHalfEven
  by_cases h1 : y - (⌊y⌋ : ℚ) < 1 / 2
  · rw [if_pos h1]; exact hfN
  · rw [if_neg h1]
    have hne : ⌊y⌋ ≠ N := by
      intro he
      rw [he] at h1
      apply h1
      linarith
    have : ⌊y⌋ + 1 ≤ N := by omega
    split_ifs <;> omega

theorem le_roundHalfEven (y : ℚ) (N : Int) (h : (N : ℚ) ≤ y) : N ≤ roundHalfEven y := by
  have hfN : N ≤ ⌊y⌋ := Int.le_floor.mpr h
  unfold roundHalfEven
  split_ifs <;> omega

theorem roundHalfEven_sub_abs (y : ℚ) : |(roundHalfEven y : ℚ) - y| ≤ 1 / 2 := by
  have hfl : (⌊y⌋ : ℚ) ≤ y := Int.floor_le y
  have hlt : y < (⌊y⌋ : ℚ) + 1 := Int.lt_floor_add_one y
  unfold roundHalfEven
  rw [abs_le]
  split_ifs with h1 h2 h3
  · constructor <;> linarith
  · push_cast; constructor <;> linarith
  · have : y - (⌊y⌋ : ℚ) = 1 / 2 := le_antisymm (not_lt.mp h2) (not_lt.mp h1)
    constructor <;> linarith
  · have : y - (⌊y⌋ : ℚ) = 1 / 2 := le_antisymm (not_lt.mp h2) (not_lt.mp h1)
    push_cast; constructor <;> linarith

theorem roundHalfEven_neg (y : ℚ) : roundHalfEven (-y) = -roundHalfEven y := by
  by_cases hint : (⌊y⌋ : ℚ) = y
  · rw [← hint, ← Int.cast_neg, roundHalfEven_intCast, roundHalfEven_intCast]
  · have hfl : (⌊y⌋ : ℚ) ≤ y := Int.floor_le y
    have hlt : y < (⌊y⌋ : ℚ) + 1 := Int.lt_floor_add_one y
    have hfl2 : (⌊y⌋ : ℚ) < y := lt_of_le_of_ne hfl hint
    have hneg : ⌊-y⌋ = -⌊y⌋ - 1 := by
      rw [Int.floor_eq_iff]
      push_cast
      constructor <;> linarith
    unfold roundHalfEven
    rw [hneg]
    push_cast
    by_cases h1 : y - (⌊y⌋ : ℚ) < 1 / 2
    · have a1 : ¬ (-y - (-(⌊y⌋ : ℚ) - 1) < 1 / 2) := by intro hc; linarith
      have a2 : 1 / 2 < -y - (-(⌊y⌋ : ℚ) - 1) := by linarith
      rw [if_pos h1, if_neg a1, if_pos a2]
      ring
    · by_cases h2 : 1 / 2 < y - (⌊y⌋ : ℚ)
      · have a1 : -y - (-(⌊y⌋ : ℚ) - 1) < 1 / 2 := by linarith
        rw [if_neg h1, if_pos h2, if_pos a1]
        ring
      · have a1 : ¬ (-y - (-(⌊y⌋ : ℚ) - 1) < 1 / 2) := by intro hc; linarith
        have a2 : ¬ (1 / 2 < -y - (-(⌊y⌋ : ℚ) - 1)) := by intro hc; linarith
        rw [if_neg h1, if_neg h2, if_neg a1, if_neg a2]
        split_ifs <;> omega

theorem roundHalfEven_eq_of_lt (y : ℚ) (n : Int) (h : |y - (n : ℚ)| < 1 / 2) :
    roundHalfEven y = n := by
  rw [abs_lt] at h
  have h1 := roundHalfEven_sub_abs y
  rw [abs_le] at h1
  have h2 : |((roundHalfEven y - n : Int) : ℚ)| < 1 := by
    rw [abs_lt]; push_cast; constructor <;> linarith
  have h3 : |roundHalfEven y - n| < 1 := by exact_mod_cast h2
  rw [abs_lt] at h3
  omega

theorem roundHalfEven_tie (f : Int) :
    roundHalfEven ((f : ℚ) + 1 / 2) = if f % 2 = 0 then f else f + 1 := by
  have hf : ⌊(f : ℚ) + 1 / 2⌋ = f := by
    rw [Int.floor_eq_iff]; constructor <;> linarith
  unfold roundHalfEven
  rw [hf]
  have a1 : ¬ ((f : ℚ) + 1 / 2 - (f : ℚ) < 1 / 2) := by intro hc; linarith
  have a2 : ¬ (1 / 2 < (f : ℚ) + 1 / 2 - (f : ℚ)) := by intro hc; linarith
  rw [if_neg a1, if_neg a2]

/-! ### The binade of a number -/

theorem two_zpow_pos (e : Int) : (0 : ℚ) < (2 : ℚ) ^ e := zpow_pos (by norm_num) e

theorem two_zpow_le (m n : Int) (h : m ≤ n) : (2 : ℚ) ^ m ≤ (2 : ℚ) ^ n :=
  zpow_le_zpow_right₀ (by norm_num) h

theorem two_zpow_lt (m n : Int) (h : m < n) : (2 : ℚ) ^ m < (2 : ℚ) ^ n :=
  zpow_lt_zpow_right₀ (by norm_num) h

theorem f64Ulp_pos (x : ℚ) : 0 < f64Ulp x := two_zpow_pos _

theorem f64Exp_ge (x : ℚ) : -1022 ≤ f64Exp x := by
  unfold f64Exp
  split_ifs
  · exact le_refl _
  · exact le_max_right _ _

theorem f64Exp_neg (x : ℚ) : f64Exp (-x) = f64Exp x := by
  unfold f64Exp
  simp only [abs_neg, neg_eq_zero]

theorem f64Ulp_neg (x : ℚ) : f64Ulp (-x) = f64Ulp x := by
  unfold f64Ulp
  rw [f64Exp_neg]

theorem log_lt_of_abs_lt (x : ℚ) (hx : x ≠ 0) (z : Int) (h : |x| < (2 : ℚ) ^ z) :
    Int.log 2 |x| < z := by
  have h0 : 0 < |x| := abs_pos.mpr hx
  have := (Int.lt_zpow_iff_log_lt (R := ℚ) (b := 2) (by norm_num) (x := z) h0).mp
    (by simpa using h)
  exact this

theorem le_log_of_le_abs (x : ℚ) (hx : x ≠ 0) (z : Int) (h : (2 : ℚ) ^ z ≤ |x|) :
    z ≤ Int.log 2 |x| := by
  have h0 : 0 < |x| := abs_pos.mpr hx
  have := (Int.zpow_le_iff_le_log (R := ℚ) (b := 2) (by norm_num) (x := z) h0).mp
    (by simpa using h)
  exact this

theorem abs_lt_log (x : ℚ) : |x| < (2 : ℚ) ^ (Int.log 2 |x| + 1) := by
  have := Int.lt_zpow_succ_log_self (R := ℚ) (b := 2) (by norm_num) |x|
  simpa using this

theorem log_le_abs (x : ℚ) (hx : x ≠ 0) : (2 : ℚ) ^ (Int.log 2 |x|) ≤ |x| := by
  have h0 : 0 < |x| := abs_pos.mpr hx
  have := Int.zpow_log_le_self (R := ℚ) (b := 2) (by norm_num) h0
  simpa using this

theorem abs_lt_f64Exp (x : ℚ) : |x| < (2 : ℚ) ^ (f64Exp x + 1) := by
  unfold f64Exp
  split_ifs with h0
  · subst h0
    rw [abs_zero]
    exact two_zpow_pos _
  · exact lt_of_lt_of_le (abs_lt_log x) (two_zpow_le _ _ (by
      have := le_max_left (Int.log 2 |x|) (-1022)
      omega))

theorem f64Exp_le_abs (x : ℚ) (hx : x ≠ 0) (h : -1022 < f64Exp x) :
    (2 : ℚ) ^ f64Exp x ≤ |x| := by
  unfold f64Exp at h ⊢
  rw [if_neg hx] at h ⊢
  have : max (Int.log 2 |x|) (-1022) = Int.log 2 |x| := by
    rcases max_cases (Int.log 2 |x|) (-1022) with hc | hc <;> omega
  rw [this]
  exact log_le_abs x hx

theorem f64Exp_eq (x : ℚ) (e : Int) (he : -1022 ≤ e) (h1 : (2 : ℚ) ^ e ≤ |x|)
    (h2 : |x| < (2 : ℚ) ^ (e + 1)) : f64Exp x = e := by
  have hx : x ≠ 0 := by
    intro h0
    subst h0
    rw [abs_zero] at h1
    exact absurd h1 (not_le.mpr (two_zpow_pos e))
  have a := le_log_of_le_abs x hx e h1
  have b := log_lt_of_abs_lt x hx (e + 1) h2
  unfold f64Exp
  rw [if_neg hx]
  rcases max_cases (Int.log 2 |x|) (-1022) with hc | hc <;> omega

theorem f64Exp_of_small (x : ℚ) (h : |x| < (2 : ℚ) ^ (-1022 : Int)) : f64Exp x = -1022 := by
  unfold f64Exp
  split_ifs with h0
  · rfl
  · have b := log_lt_of_abs_lt x h0 (-1022) h
    rcases max_cases (Int.log 2 |x|) (-1022) with hc | hc <;> omega

theorem f64Exp_of_normal (x : ℚ) (h : (2 : ℚ) ^ (-1022 : Int) ≤ |x|) :
    (2 : ℚ) ^ f64Exp x ≤ |x| := by
  have hx : x ≠ 0 := by
    intro h0
    subst h0
    rw [abs_zero] at h
    exact absurd h (not_le.mpr (two_zpow_pos _))
  have a := le_log_of_le_abs x hx _ h
  unfold f64Exp
  rw [if_neg hx]
  have : max (Int.log 2 |x|) (-1022) = Int.log 2 |x| := by
    rcases max_cases (Int.log 2 |x|) (-1022) with hc | hc <;> omega
  rw [this]
  exact log_le_abs x hx

theorem f64Exp_mono (x y : ℚ) (h : |x| ≤ |y|) : f64Exp x ≤ f64Exp y := by
  by_cases hx : x = 0
  · have : f64Exp x = -1022 := by unfold f64Exp; rw [if_pos hx]
    rw [this]
    exact f64Exp_ge y
  · have h0 : 0 < |x| := abs_pos.mpr hx
    have hy : y ≠ 0 := by
      intro hy0
      subst hy0
      rw [abs_zero] at h
      exact absurd h (not_le.mpr h0)
    have := Int.log_mono_right (R := ℚ) (b := 2) h0 h
    unfold f64Exp
    rw [if_neg hx, if_neg hy]
    exact max_le_max this (le_refl _)

/-! ### The nearest multiple of the spacing -/

theorem f64Near_zero : f64Near 0 = 0 := by
  unfold f64Near
  rw [zero_div]
  have : roundHalfEven (0 : ℚ) = 0 := by
    have := roundHalfEven_intCast 0
    simpa using this
  rw [this]
  simp

theorem f64Near_neg (x : ℚ) : f64Near (-x) = -f64Near x := by
  unfold f64Near
  rw [f64Ulp_neg, neg_div, roundHalfEven_neg]
  push_cast
  ring

theorem f64Near_of_mul (x : ℚ) (n : Int) (h : x = (n : ℚ) * f64Ulp x) : f64Near x = x := by
  unfold f64Near
  have hu := f64Ulp_pos x
  have : x / f64Ulp x = (n : ℚ) := by
    rw [div_eq_iff hu.ne']
    exact h
  rw [this, roundHalfEven_intCast]
  exact h.symm

theorem f64Near_mul (x : ℚ) : ∃ n : Int, f64Near x = (n : ℚ) * f64Ulp x :=
  ⟨roundHalfEven (x / f64Ulp x), rfl⟩

theorem abs_f64Near_sub (x : ℚ) : |f64Near x - x| ≤ f64Ulp x / 2 := by
  have hu := f64Ulp_pos x
  have h := roundHalfEven_sub_abs (x / f64Ulp x)
  have e : f64Near x - x = ((roundHalfEven (x / f64Ulp x) : ℚ) - x / f64Ulp x) * f64Ulp x := by
    unfold f64Near
    field_simp
  rw [e, abs_mul, abs_of_pos hu]
  calc |(roundHalfEven (x / f64Ulp x) : ℚ) - x / f64Ulp x| * f64Ulp x
      ≤ 1 / 2 * f64Ulp x := mul_le_mul_of_nonneg_right h hu.le
    _ = f64Ulp x / 2 := by ring

theorem f64Ulp_le (x : ℚ) (h : (2 : ℚ) ^ (-1022 : Int) ≤ |x|) :
    f64Ulp x ≤ |x| / 2 ^ 52 := by
  have a := f64Exp_of_normal x h
  unfold f64Ulp
  rw [zpow_sub₀ (by norm_num : (2 : ℚ) ≠ 0)]
  have : (2 : ℚ) ^ (52 : Int) = 2 ^ 52 := by norm_cast
  rw [this]
  exact div_le_div_of_nonneg_right a (by positivity)

theorem abs_f64Near_sub_rel (x : ℚ) (h : (2 : ℚ) ^ (-1022 : Int) ≤ |x|) :
    |f64Near x - x| ≤ |x| / 2 ^ 53 := by
  have a := abs_f64Near_sub x
  have b := f64Ulp_le x h
  calc |f64Near x - x| ≤ f64Ulp x / 2 := a
    _ ≤ |x| / 2 ^ 52 / 2 := div_le_div_of_nonneg_right b (by norm_num)
    _ = |x| / 2 ^ 53 := by ring

theorem f64Exp_le_of_abs_lt (x : ℚ) (z : Int) (hz : -1022 ≤ z)
    (h : |x| < (2 : ℚ) ^ (z + 1)) : f64Exp x ≤ z := by
  unfold f64Exp
  split_ifs with h0
  · exact hz
  · have b := log_lt_of_abs_lt x h0 (z + 1) h
    rcases max_cases (Int.log 2 |x|) (-1022) with hc | hc <;> omega

theorem two_zpow_split (a b : Int) (h : b ≤ a) :
    (2 : ℚ) ^ a = (((2 : Int) ^ (a - b).toNat : Int) : ℚ) * (2 : ℚ) ^ b := by
  have e : a = ((a - b).toNat : Int) + b := by
    rw [Int.toNat_of_nonneg (by omega)]; ring
  conv_lhs => rw [e]
  rw [zpow_add₀ (by norm_num : (2 : ℚ) ≠ 0), zpow_natCast]
  push_cast
  rfl

theorem f64Near_le_of (x : ℚ) (N : Int) (h : x ≤ (N : ℚ) * f64Ulp x) :
    f64Near x ≤ (N : ℚ) * f64Ulp x := by
  have hu := f64Ulp_pos x
  unfold f64Near
  have h1 : x / f64Ulp x ≤ (N : ℚ) := by
    rw [div_le_iff₀ hu]; exact h
  have h2 := roundHalfEven_le _ N h1
  have h3 : (roundHalfEven (x / f64Ulp x) : ℚ) ≤ (N : ℚ) := by exact_mod_cast h2
  exact mul_le_mul_of_nonneg_right h3 hu.le

theorem f64Near_of_rep (x : ℚ) (n e : Int) (hx : x = (n : ℚ) * (2 : ℚ) ^ e)
    (hn : |n| < 2 ^ 53) (he : -1074 ≤ e) : f64Near x = x := by
  have hlt : |x| < (2 : ℚ) ^ (e + 52 + 1) := by
    rw [hx, abs_mul, abs_of_pos (two_zpow_pos e)]
    have e1 : (2 : ℚ) ^ (e + 52 + 1) = 2 ^ 53 * (2 : ℚ) ^ e := by
      have : e + 52 + 1 = (53 : Int) + e := by ring
      rw [this, zpow_add₀ (by norm_num : (2 : ℚ) ≠ 0)]
      norm_cast
    rw [e1]
    have hn2 : |(n : ℚ)| < 2 ^ 53 := by exact_mod_cast hn
    exact mul_lt_mul_of_pos_right hn2 (two_zpow_pos e)
  have hE := f64Exp_le_of_abs_lt x (e + 52) (by omega) hlt
  apply f64Near_of_mul x (n * (2 : Int) ^ (e - (f64Exp x - 52)).toNat)
  unfold f64Ulp
  conv_lhs => rw [hx, two_zpow_split e (f64Exp x - 52) (by omega)]
  push_cast
  ring

theorem f64Near_two_zpow (e : Int) (he : -1074 ≤ e) : f64Near ((2 : ℚ) ^ e) = (2 : ℚ) ^ e :=
  f64Near_of_rep _ 1 e (by simp) (by norm_num) he

theorem f64Near_le (x r : ℚ) (hr : f64Near r = r) (h : x ≤ r) : f64Near x ≤ r := by
  obtain ⟨m, hm⟩ := f64Near_mul r
  rw [hr] at hm
  by_cases hx0 : x ≤ 0
  · by_cases hr0 : 0 ≤ r
    · have := f64Near_le_of x 0 (by simpa using hx0)
      have h0 : f64Near x ≤ 0 := by simpa using this
      exact le_trans h0 hr0
    · have hr0 : r < 0 := not_le.mp hr0
      have habs : |r| ≤ |x| := by
        rw [abs_of_neg hr0, abs_of_nonpos hx0]; linarith
      have hE := f64Exp_mono r x habs
      by_cases hEq : f64Exp r = f64Exp x
      · have hu : f64Ulp r = f64Ulp x := by unfold f64Ulp; rw [hEq]
        rw [hu] at hm
        have := f64Near_le_of x m (by rw [← hm]; exact h)
        rw [← hm] at this
        exact this
      · have hlt : f64Exp r < f64Exp x := lt_of_le_of_ne hE hEq
        have hxne : x ≠ 0 := by
          intro h0; rw [h0] at h; linarith
        have hg := f64Exp_ge r
        have a := f64Exp_le_abs x hxne (by omega)
        have b := abs_lt_f64Exp r
        have c : (2 : ℚ) ^ (f64Exp r + 1) ≤ (2 : ℚ) ^ f64Exp x := two_zpow_le _ _ (by omega)
        rw [abs_of_nonpos hx0] at a
        rw [abs_of_neg hr0] at b
        have hs : (2 : ℚ) ^ f64Exp x = (((2 : Int) ^ (f64Exp x - (f64Exp x - 52)).toNat : Int) : ℚ)
            * f64Ulp x := two_zpow_split _ _ (by omega)
        have hN := f64Near_le_of x (-((2 : Int) ^ (f64Exp x - (f64Exp x - 52)).toNat)) (by
          rw [Int.cast_neg, neg_mul, ← hs]; linarith)
        rw [Int.cast_neg, neg_mul, ← hs] at hN
        linarith
  · have hx0 : 0 < x := not_le.mp hx0
    have hr0 : 0 < r := lt_of_lt_of_le hx0 h
    have habs : |x| ≤ |r| := by
      rw [abs_of_pos hr0, abs_of_pos hx0]; exact h
    have hE := f64Exp_mono x r habs
    have hs : f64Ulp r = (((2 : Int) ^ (f64Exp r - 52 - (f64Exp x - 52)).toNat : Int) : ℚ)
        * f64Ulp x := two_zpow_split _ _ (by omega)
    have hm2 : r = ((m * (2 : Int) ^ (f64Exp r - 52 - (f64Exp x - 52)).toNat : Int) : ℚ)
        * f64Ulp x := by
      conv_lhs => rw [hm, hs]
      push_cast
      ring
    have := f64Near_le_of x _ (by rw [← hm2]; exact h)
    rw [← hm2] at this
    exact this

theorem le_f64Near (x r : ℚ) (hr : f64Near r = r) (h : r ≤ x) : r ≤ f64Near x := by
  have h1 : f64Near (-r) = -r := by rw [f64Near_neg, hr]
  have h2 := f64Near_le (-x) (-r) h1 (by linarith)
  rw [f64Near_neg] at h2
  linarith

theorem f64Near_nonneg (x : ℚ) (h : 0 ≤ x) : 0 ≤ f64Near x :=
  le_f64Near x 0 f64Near_zero h

theorem f64Near_idem (x : ℚ) : f64Near (f64Near x) = f64Near x := by
  have hu := f64Ulp_pos x
  have hg := f64Exp_ge x
  have hlt := abs_lt_f64Exp x
  have hs : (2 : ℚ) ^ (f64Exp x + 1) = 2 ^ 53 * f64Ulp x := by
    unfold f64Ulp
    have : f64Exp x + 1 = (53 : Int) + (f64Exp x - 52) := by ring
    rw [this, zpow_add₀ (by norm_num : (2 : ℚ) ≠ 0)]
    norm_cast
  have hq : |x / f64Ulp x| < 2 ^ 53 := by
    rw [abs_div, abs_of_pos hu, div_lt_iff₀ hu, ← hs]
    exact hlt
  rw [abs_lt] at hq
  have hn1 : roundHalfEven (x / f64Ulp x) ≤ 2 ^ 53 :=
    roundHalfEven_le _ _ (by push_cast; linarith [hq.2])
  have hn2 : -(2 ^ 53) ≤ roundHalfEven (x / f64Ulp x) :=
    le_roundHalfEven _ _ (by push_cast; linarith [hq.1])
  by_cases hb : |roundHalfEven (x / f64Ulp x)| < 2 ^ 53
  · exact f64Near_of_rep _ (roundHalfEven (x / f64Ulp x)) (f64Exp x - 52) rfl hb (by omega)
  · have hcase : roundHalfEven (x / f64Ulp x) = 2 ^ 53 ∨ roundHalfEven (x / f64Ulp x) = -(2 ^ 53) := by
      rw [abs_lt] at hb
      omega
    rcases hcase with hc | hc
    · apply f64Near_of_rep _ 1 (f64Exp x + 1) _ (by norm_num) (by omega)
      unfold f64Near
      rw [hc, hs]
      push_cast
      ring
    · apply f64Near_of_rep _ (-1) (f64Exp x + 1) _ (by norm_num) (by omega)
      unfold f64Near
      rw [hc, hs]
      push_cast
      ring

/-! ### Rounding to `float64` -/

theorem isF64_iff (x : ℚ) : isF64 x ↔ f64Near x = x ∧ |x| < 2 ^ 1024 := by
  unfold isF64 F64.round
  constructor
  · intro h
    split_ifs at h with hc
    have e : f64Near x = x := F64.finite.inj h
    rw [e] at hc
    exact ⟨e, not_le.mp hc⟩
  · rintro ⟨e, hlt⟩
    rw [e, if_neg (not_le.mpr hlt)]

theorem isF64_of_rep (x : ℚ) (n e : Int) (hx : x = (n : ℚ) * (2 : ℚ) ^ e)
    (hn : |n| < 2 ^ 53) (he : -1074 ≤ e) (he2 : e ≤ 971) : isF64 x := by
  rw [isF64_iff]
  refine ⟨f64Near_of_rep x n e hx hn he, ?_⟩
  rw [hx, abs_mul, abs_of_pos (two_zpow_pos e)]
  have hn2 : |(n : ℚ)| < 2 ^ 53 := by exact_mod_cast hn
  have h1 : (2 : ℚ) ^ e ≤ (2 : ℚ) ^ (971 : Int) := two_zpow_le _ _ he2
  have h2 : (2 : ℚ) ^ (971 : Int) = 2 ^ 971 := by simp only [zpow_ofNat]
  rw [h2] at h1
  calc |(n : ℚ)| * (2 : ℚ) ^ e ≤ |(n : ℚ)| * 2 ^ 971 :=
        mul_le_mul_of_nonneg_left h1 (abs_nonneg _)
    _ < 2 ^ 53 * 2 ^ 971 := mul_lt_mul_of_pos_right hn2 (by positivity)
    _ = 2 ^ 1024 := by rw [← pow_add]

theorem isF64_intCast (n : Int) (h : |n| ≤ 2 ^ 53) : isF64 (n : ℚ) := by
  by_cases hb : |n| < 2 ^ 53
  · exact isF64_of_rep _ n 0 (by simp) hb (by norm_num) (by norm_num)
  · have hcase : n = 2 ^ 53 ∨ n = -(2 ^ 53) := by
      rw [abs_lt] at hb
      rw [abs_le] at h
      omega
    rcases hcase with hc | hc
    · exact isF64_of_rep _ 1 53 (by rw [hc]; norm_num) (by norm_num) (by norm_num) (by norm_num)
    · exact isF64_of_rep _ (-1) 53 (by rw [hc]; norm_num) (by norm_num) (by norm_num)
        (by norm_num)

theorem F64.round_of_isF64 (x : ℚ) (h : isF64 x) : F64.round x = F64.finite x := h

theorem F64.round_intCast (n : Int) (h : |n| ≤ 2 ^ 53) : F64.round (n : ℚ) = F64.finite (n : ℚ) :=
  isF64_intCast n h

theorem F64.round_finite (x : ℚ) (h : |x| ≤ 2 ^ 1023) :
    F64.round x = F64.finite (f64Near x) := by
  have hr : f64Near ((2 : ℚ) ^ (1023 : Int)) = (2 : ℚ) ^ (1023 : Int) :=
    f64Near_two_zpow 1023 (by norm_num)
  have e : (2 : ℚ) ^ (1023 : Int) = 2 ^ 1023 := by simp only [zpow_ofNat]
  rw [e] at hr
  rw [abs_le] at h
  have h1 := f64Near_le x _ hr h.2
  have hr2 : f64Near (-(2 : ℚ) ^ 1023) = -(2 : ℚ) ^ 1023 := by rw [f64Near_neg, hr]
  have h2 := le_f64Near x _ hr2 h.1
  unfold F64.round
  rw [if_neg]
  rw [not_le, abs_lt]
  constructor
  · calc -(2 : ℚ) ^ 1024 < -(2 : ℚ) ^ 1023 := by norm_num
      _ ≤ f64Near x := h2
  · calc f64Near x ≤ (2 : ℚ) ^ 1023 := h1
      _ < 2 ^ 1024 := by norm_num

theorem F64.round_eq_finite (x q : ℚ) (h : F64.round x = F64.finite q) : q = f64Near x := by
  unfold F64.round at h
  split_ifs at h
  exact (F64.finite.inj h).symm

theorem isF64_f64Near (x : ℚ) (h : |x| ≤ 2 ^ 1023) : isF64 (f64Near x) := by
  have := F64.round_finite x h
  unfold F64.round at this
  split_ifs at this with hc
  rw [isF64_iff]
  exact ⟨f64Near_idem x, not_le.mp hc⟩

/-! ### Rounding to `float64`: relative error and conversions -/

theorem two_zpow_neg_nat (m : Nat) : (2 : ℚ) ^ (-(m : Int)) = 1 / 2 ^ m := by
  rw [zpow_neg, zpow_natCast, one_div]

theorem normal_of_le (x : ℚ) (m : Nat) (hm : m ≤ 1022) (h : 1 / 2 ^ m ≤ x) :
    (2 : ℚ) ^ (-1022 : Int) ≤ |x| := by
  have h1 : (2 : ℚ) ^ (-1022 : Int) ≤ (2 : ℚ) ^ (-(m : Int)) := two_zpow_le _ _ (by omega)
  rw [two_zpow_neg_nat] at h1
  exact le_trans h1 (le_trans h (le_abs_self x))

theorem f64Near_le_rel (x : ℚ) (m : Nat) (hm : m ≤ 1022) (h : x = 0 ∨ 1 / 2 ^ m ≤ x) :
    f64Near x ≤ x * (1 + 1 / 2 ^ 53) := by
  rcases h with h | h
  · subst h; rw [f64Near_zero]; norm_num
  · have hx : 0 < x := lt_of_lt_of_le (by positivity) h
    have a := abs_f64Near_sub_rel x (normal_of_le x m hm h)
    rw [abs_of_pos hx, abs_le] at a
    linarith [a.2]

theorem f64Near_ge_rel (x : ℚ) (m : Nat) (hm : m ≤ 1022) (h : x = 0 ∨ 1 / 2 ^ m ≤ x) :
    x * (1 - 1 / 2 ^ 53) ≤ f64Near x := by
  rcases h with h | h
  · subst h; rw [f64Near_zero]; norm_num
  · have hx : 0 < x := lt_of_lt_of_le (by positivity) h
    have a := abs_f64Near_sub_rel x (normal_of_le x m hm h)
    rw [abs_of_pos hx, abs_le] at a
    linarith [a.1]

theorem f64Near_two_pow (m : Nat) : f64Near ((2 : ℚ) ^ m) = (2 : ℚ) ^ m := by
  have := f64Near_two_zpow (m : Int) (by omega)
  rwa [zpow_natCast] at this

theorem f64Near_le_two_pow (x : ℚ) (m : Nat) (h : x ≤ 2 ^ m) : f64Near x ≤ 2 ^ m :=
  f64Near_le x _ (f64Near_two_pow m) h

theorem F64.round_small (x : ℚ) (h0 : 0 ≤ x) (m : Nat) (hm : m ≤ 1023) (h : x ≤ 2 ^ m) :
    F64.round x = F64.finite (f64Near x) := by
  apply F64.round_finite
  rw [abs_of_nonneg h0]
  exact le_trans h (pow_le_pow_right₀ (by norm_num) hm)

theorem F64.ofInt_eq (n : Int) (h : |n| ≤ 2 ^ 53) : F64.ofInt n = F64.finite (n : ℚ) :=
  F64.round_intCast n h

theorem isF64_neg (x : ℚ) (h : isF64 x) : isF64 (-x) := by
  rw [isF64_iff] at h ⊢
  rw [f64Near_neg, h.1, abs_neg]
  exact ⟨rfl, h.2⟩

theorem F64.toInt64_nonneg (y : ℚ) (h0 : 0 ≤ y) (h1 : y < 2 ^ 63) :
    F64.toInt64 (F64.finite y) = ⌊y⌋ := by
  have hf0 : 0 ≤ ⌊y⌋ := Int.floor_nonneg.mpr h0
  have hf1 : ⌊y⌋ < 2 ^ 63 := by
    have : ((⌊y⌋ : Int) : ℚ) < ((2 ^ 63 : Int) : ℚ) := by
      push_cast
      exact lt_of_le_of_lt (Int.floor_le y) h1
    exact_mod_cast this
  unfold F64.toInt64
  simp only [ge_iff_le, h0, if_true]
  rw [if_pos]
  constructor <;> omega

theorem F64.toInt64_neg (y : ℚ) (h0 : 0 ≤ y) (h1 : y < 2 ^ 63) :
    F64.toInt64 (F64.finite (-y)) = -⌊y⌋ := by
  by_cases hy : y = 0
  · subst hy
    rw [neg_zero, F64.toInt64_nonneg 0 (le_refl _) (by norm_num)]
    simp
  · have hpos : 0 < y := lt_of_le_of_ne h0 (Ne.symm hy)
    have hf0 : 0 ≤ ⌊y⌋ := Int.floor_nonneg.mpr h0
    have hf1 : ⌊y⌋ < 2 ^ 63 := by
      have : ((⌊y⌋ : Int) : ℚ) < ((2 ^ 63 : Int) : ℚ) := by
        push_cast
        exact lt_of_le_of_lt (Int.floor_le y) h1
      exact_mod_cast this
    have hn : ¬ (-y ≥ 0) := by intro hc; linarith
    unfold F64.toInt64
    simp only [hn, if_false, Int.ceil_neg]
    rw [if_pos]
    constructor <;> omega

/-! ### Var-diff: the capped jump -/

theorem two_round_upper (x q c D t : ℚ) (hD : 0 < D) (ht : 0 ≤ t) (hx : 0 ≤ x)
    (h1 : q ≤ x / D * (1 + 1 / 2 ^ 53)) (h2 : c ≤ q * t * (1 + 1 / 2 ^ 53)) :
    c * D ≤ x * t * (1 + 1 / 2 ^ 51) := by
  have a : q * D ≤ x * (1 + 1 / 2 ^ 53) := by
    have := mul_le_mul_of_nonneg_right h1 hD.le
    have e : x / D * (1 + 1 / 2 ^ 53) * D = x * (1 + 1 / 2 ^ 53) := by
      field_simp
      ring
    rw [e] at this
    exact this
  have b : c * D ≤ q * t * (1 + 1 / 2 ^ 53) * D := mul_le_mul_of_nonneg_right h2 hD.le
  have c1 : q * D * (t * (1 + 1 / 2 ^ 53)) ≤ x * (1 + 1 / 2 ^ 53) * (t * (1 + 1 / 2 ^ 53)) :=
    mul_le_mul_of_nonneg_right a (by positivity)
  have hxt : 0 ≤ x * t := mul_nonneg hx ht
  have e2 : x * (1 + 1 / 2 ^ 53) * (t * (1 + 1 / 2 ^ 53))
      = x * t * ((1 + 1 / 2 ^ 53) * (1 + 1 / 2 ^ 53)) := by ring
  have e3 : ((1 : ℚ) + 1 / 2 ^ 53) * (1 + 1 / 2 ^ 53) ≤ 1 + 1 / 2 ^ 51 := by norm_num
  have e4 := mul_le_mul_of_nonneg_left e3 hxt
  have e5 : q * t * (1 + 1 / 2 ^ 53) * D = q * D * (t * (1 + 1 / 2 ^ 53)) := by ring
  linarith

theorem two_round_lower (x q c D t : ℚ) (hD : 0 < D) (ht : 0 ≤ t) (hx : 0 ≤ x)
    (h1 : x / D * (1 - 1 / 2 ^ 53) ≤ q) (h2 : q * t * (1 - 1 / 2 ^ 53) ≤ c) :
    x * t * (1 - 1 / 2 ^ 52) ≤ c * D := by
  have a : x * (1 - 1 / 2 ^ 53) ≤ q * D := by
    have := mul_le_mul_of_nonneg_right h1 hD.le
    have e : x / D * (1 - 1 / 2 ^ 53) * D = x * (1 - 1 / 2 ^ 53) := by
      field_simp
      ring
    rw [e] at this
    exact this
  have b : q * t * (1 - 1 / 2 ^ 53) * D ≤ c * D := mul_le_mul_of_nonneg_right h2 hD.le
  have c1 : x * (1 - 1 / 2 ^ 53) * (t * (1 - 1 / 2 ^ 53)) ≤ q * D * (t * (1 - 1 / 2 ^ 53)) :=
    mul_le_mul_of_nonneg_right a (mul_nonneg ht (by norm_num))
  have hxt : 0 ≤ x * t := mul_nonneg hx ht
  have e2 : x * (1 - 1 / 2 ^ 53) * (t * (1 - 1 / 2 ^ 53))
      = x * t * ((1 - 1 / 2 ^ 53) * (1 - 1 / 2 ^ 53)) := by ring
  have e3 : (1 : ℚ) - 1 / 2 ^ 52 ≤ (1 - 1 / 2 ^ 53) * (1 - 1 / 2 ^ 53) := by norm_num
  have e4 := mul_le_mul_of_nonneg_left e3 hxt
  have e5 : q * t * (1 - 1 / 2 ^ 53) * D = q * D * (t * (1 - 1 / 2 ^ 53)) := by ring
  linarith

theorem f64Near_inv_two_pow (m : Nat) (hm : m ≤ 1074) :
    f64Near (1 / 2 ^ m) = 1 / 2 ^ m := by
  have := f64Near_two_zpow (-(m : Int)) (by omega)
  rwa [two_zpow_neg_nat] at this

theorem capJump_bound (d n1 j k sgn : Int) (hs : sgn = 1 ∨ sgn = -1)
    (hj : 0 ≤ j) (hd0 : 0 < d) (hd : d ≤ 2 ^ 51) (hjd : j * d < 2 ^ 51)
    (hk0 : 0 ≤ k) (hk : k ≤ 2 ^ 51) (hn1 : n1 = d + sgn * k) :
    ∃ k' : Int, 0 ≤ k' ∧ k' ≤ k ∧ 100 * k' ≤ j * d ∧
      (if F64.gt (F64.mul (F64.div (F64.abs (F64.ofInt (wrapInt64 (n1 - d)))) (F64.ofInt d))
            (F64.finite 100)) (F64.round (j : ℚ)) = true then
          wrapInt64 (d + F64.toInt64 (F64.mul (F64.mul (F64.div (F64.round (j : ℚ))
            (F64.finite 100)) (F64.ofInt d)) (F64.finite (sgn : ℚ))))
        else n1) = d + sgn * k' := by
  have hD : (0 : ℚ) < (d : ℚ) := by exact_mod_cast hd0
  have hD1 : (1 : ℚ) ≤ (d : ℚ) := by exact_mod_cast hd0
  have hDle : (d : ℚ) ≤ 2 ^ 51 := by exact_mod_cast hd
  have hK : (0 : ℚ) ≤ (k : ℚ) := by exact_mod_cast hk0
  have hKle : (k : ℚ) ≤ 2 ^ 51 := by exact_mod_cast hk
  have hJ : (0 : ℚ) ≤ (j : ℚ) := by exact_mod_cast hj
  have hjle : j ≤ j * d := by nlinarith
  have hJD : (j : ℚ) * (d : ℚ) + 1 ≤ 2 ^ 51 := by
    have : j * d + 1 ≤ 2 ^ 51 := by omega
    exact_mod_cast this
  -- the jump test
  have hw : wrapInt64 (n1 - d) = sgn * k := by
    rw [hn1]
    have e : d + sgn * k - d = sgn * k := by ring
    rw [e]
    apply wrapInt64_of_range <;> rcases hs with h | h <;> subst h <;> omega
  have ho : F64.ofInt (sgn * k) = F64.finite ((sgn * k : Int) : ℚ) := by
    apply F64.ofInt_eq
    rw [abs_le]
    rcases hs with h | h <;> subst h <;> constructor <;> omega
  have habs : |((sgn * k : Int) : ℚ)| = (k : ℚ) := by
    rcases hs with h | h <;> subst h
    · simp [abs_of_nonneg hK]
    · simp [abs_of_nonneg hK]
  have hod : F64.ofInt d = F64.finite (d : ℚ) :=
    F64.ofInt_eq d (by rw [abs_le]; constructor <;> omega)
  have hkd : (k : ℚ) / (d : ℚ) ≤ 2 ^ 51 := le_trans (div_le_self hK hD1) hKle
  have hkd0 : 0 ≤ (k : ℚ) / (d : ℚ) := div_nonneg hK hD.le
  have hr1 := F64.round_small _ hkd0 51 (by norm_num) hkd
  have hq1a := f64Near_nonneg _ hkd0
  have hq1b := f64Near_le_two_pow _ 51 hkd
  have hq100 : f64Near ((k : ℚ) / (d : ℚ)) * 100 ≤ 2 ^ 58 := by
    calc f64Near ((k : ℚ) / (d : ℚ)) * 100 ≤ 2 ^ 51 * 100 :=
          mul_le_mul_of_nonneg_right hq1b (by norm_num)
      _ ≤ 2 ^ 58 := by norm_num
  have hr2 := F64.round_small _ (mul_nonneg hq1a (by norm_num : (0 : ℚ) ≤ 100)) 58
    (by norm_num) hq100
  have hrj : F64.round (j : ℚ) = F64.finite (j : ℚ) :=
    F64.round_intCast j (by rw [abs_le]; constructor <;> omega)
  have htest : F64.gt (F64.mul (F64.div (F64.abs (F64.ofInt (wrapInt64 (n1 - d)))) (F64.ofInt d))
      (F64.finite 100)) (F64.round (j : ℚ))
      = decide ((j : ℚ) < f64Near (f64Near ((k : ℚ) / (d : ℚ)) * 100)) := by
    rw [hw, ho, hod, hrj]
    simp only [F64.abs, habs, F64.div, hD.ne', if_false, hr1, F64.mul, hr2, F64.gt, F64.lt]
  simp only [htest, decide_eq_true_eq]
  -- relative errors of the jump test
  have hkcase : k = 0 ∨ 1 ≤ k := by omega
  have hx1 : (k : ℚ) / (d : ℚ) = 0 ∨ 1 / 2 ^ 51 ≤ (k : ℚ) / (d : ℚ) := by
    rcases hkcase with h | h
    · left; subst h; simp
    · right
      have h1 : (1 : ℚ) ≤ (k : ℚ) := by exact_mod_cast h
      rw [div_le_div_iff₀ (by positivity) hD]
      nlinarith
  have hx2 : f64Near ((k : ℚ) / (d : ℚ)) * 100 = 0
      ∨ 1 / 2 ^ 51 ≤ f64Near ((k : ℚ) / (d : ℚ)) * 100 := by
    rcases hx1 with h | h
    · left; rw [h, f64Near_zero]; norm_num
    · right
      have := le_f64Near _ _ (f64Near_inv_two_pow 51 (by norm_num)) h
      have h0 : (0 : ℚ) < 1 / 2 ^ 51 := by positivity
      linarith
  by_cases hc : (j : ℚ) < f64Near (f64Near ((k : ℚ) / (d : ℚ)) * 100)
  · rw [if_pos hc]
    -- the capped change
    have hj100 : (j : ℚ) / 100 ≤ (j : ℚ) := div_le_self hJ (by norm_num)
    have hjq : (j : ℚ) ≤ 2 ^ 51 := by
      have : j ≤ 2 ^ 51 := by omega
      exact_mod_cast this
    have hr3 := F64.round_small _ (div_nonneg hJ (by norm_num : (0 : ℚ) ≤ 100)) 51
      (by norm_num) (le_trans hj100 hjq)
    have hjrep : f64Near (j : ℚ) = (j : ℚ) :=
      ((isF64_iff _).mp (isF64_intCast j (by rw [abs_le]; constructor <;> omega))).1
    have hq0a := f64Near_nonneg _ (div_nonneg hJ (by norm_num : (0 : ℚ) ≤ 100))
    have hq0b : f64Near ((j : ℚ) / 100) ≤ (j : ℚ) := f64Near_le _ _ hjrep hj100
    have hq0d : f64Near ((j : ℚ) / 100) * (d : ℚ) ≤ 2 ^ 51 := by
      have : f64Near ((j : ℚ) / 100) * (d : ℚ) ≤ (j : ℚ) * (d : ℚ) :=
        mul_le_mul_of_nonneg_right hq0b hD.le
      linarith
    have hq0d0 : 0 ≤ f64Near ((j : ℚ) / 100) * (d : ℚ) := mul_nonneg hq0a hD.le
    have hr4 := F64.round_small _ hq0d0 51 (by norm_num) hq0d
    have hya := f64Near_nonneg _ hq0d0
    have hyb := f64Near_le_two_pow _ 51 hq0d
    have hyF : isF64 (f64Near (f64Near ((j : ℚ) / 100) * (d : ℚ))) :=
      isF64_f64Near _ (by
        rw [abs_of_nonneg hq0d0]
        exact le_trans hq0d (pow_le_pow_right₀ (by norm_num) (by norm_num)))
    have hy63 : f64Near (f64Near ((j : ℚ) / 100) * (d : ℚ)) < 2 ^ 63 :=
      lt_of_le_of_lt hyb (by norm_num)
    have hchange : F64.toInt64 (F64.mul (F64.mul (F64.div (F64.round (j : ℚ))
        (F64.finite 100)) (F64.ofInt d)) (F64.finite (sgn : ℚ)))
        = sgn * ⌊f64Near (f64Near ((j : ℚ) / 100) * (d : ℚ))⌋ := by
      rw [hrj, hod]
      simp only [F64.div, (by norm_num : (100 : ℚ) ≠ 0), if_false, hr3, F64.mul, hr4]
      rcases hs with h | h <;> subst h
      · rw [Int.cast_one, mul_one, F64.round_of_isF64 _ hyF, F64.toInt64_nonneg _ hya hy63, one_mul]
      · have e : f64Near (f64Near ((j : ℚ) / 100) * (d : ℚ)) * ((-1 : Int) : ℚ)
            = -f64Near (f64Near ((j : ℚ) / 100) * (d : ℚ)) := by push_cast; ring
        rw [e, F64.round_of_isF64 _ (isF64_neg _ hyF), F64.toInt64_neg _ hya hy63]
        ring
    rw [hchange]
    have hfl0 : 0 ≤ ⌊f64Near (f64Near ((j : ℚ) / 100) * (d : ℚ))⌋ := Int.floor_nonneg.mpr hya
    have hflq : ((⌊f64Near (f64Near ((j : ℚ) / 100) * (d : ℚ))⌋ : Int) : ℚ)
        ≤ f64Near (f64Near ((j : ℚ) / 100) * (d : ℚ)) := Int.floor_le _
    have hfl51 : ⌊f64Near (f64Near ((j : ℚ) / 100) * (d : ℚ))⌋ ≤ 2 ^ 51 := by
      have : ((⌊f64Near (f64Near ((j : ℚ) / 100) * (d : ℚ))⌋ : Int) : ℚ) ≤ ((2 ^ 51 : Int) : ℚ) := by
        push_cast; linarith
      exact_mod_cast this
    -- 100 * change <= j * d
    have hjcase : j = 0 ∨ 1 ≤ j := by omega
    have hy1 : (j : ℚ) / 100 = 0 ∨ 1 / 2 ^ 7 ≤ (j : ℚ) / 100 := by
      rcases hjcase with h | h
      · left; subst h; simp
      · right
        have h1 : (1 : ℚ) ≤ (j : ℚ) := by exact_mod_cast h
        rw [div_le_div_iff₀ (by positivity) (by norm_num)]
        norm_num
        linarith
    have hy2 : f64Near ((j : ℚ) / 100) * (d : ℚ) = 0
        ∨ 1 / 2 ^ 7 ≤ f64Near ((j : ℚ) / 100) * (d : ℚ) := by
      rcases hy1 with h | h
      · left; rw [h, f64Near_zero]; norm_num
      · right
        have := le_f64Near _ _ (f64Near_inv_two_pow 7 (by norm_num)) h
        have h0 : (0 : ℚ) < 1 / 2 ^ 7 := by positivity
        nlinarith
    have hup := two_round_upper (j : ℚ) _ _ 100 (d : ℚ) (by norm_num) hD.le hJ
      (f64Near_le_rel _ 7 (by norm_num) hy1) (f64Near_le_rel _ 7 (by norm_num) hy2)
    have hcap : 100 * ⌊f64Near (f64Near ((j : ℚ) / 100) * (d : ℚ))⌋ ≤ j * d := by
      have h1 : (j : ℚ) * (d : ℚ) * (1 + 1 / 2 ^ 51) < (j : ℚ) * (d : ℚ) + 1 := by
        have : (j : ℚ) * (d : ℚ) * (1 / 2 ^ 51) < 1 := by
          have h2 : (j : ℚ) * (d : ℚ) < 2 ^ 51 := by linarith
          calc (j : ℚ) * (d : ℚ) * (1 / 2 ^ 51) < 2 ^ 51 * (1 / 2 ^ 51) :=
                mul_lt_mul_of_pos_right h2 (by positivity)
            _ = 1 := by norm_num
        linarith
      have h3 : ((100 * ⌊f64Near (f64Near ((j : ℚ) / 100) * (d : ℚ))⌋ : Int) : ℚ)
          < ((j * d + 1 : Int) : ℚ) := by
        push_cast
        linarith
      have h4 : 100 * ⌊f64Near (f64Near ((j : ℚ) / 100) * (d : ℚ))⌋ < j * d + 1 := by
        exact_mod_cast h3
      omega
    -- change <= k
    have hkpos : 1 ≤ k := by
      rcases hkcase with h | h
      · exfalso
        subst h
        simp only [Int.cast_zero, zero_div, f64Near_zero, zero_mul] at hc
        linarith
      · exact h
    have hup2 := two_round_upper (k : ℚ) _ _ (d : ℚ) 100 hD (by norm_num) hK
      (f64Near_le_rel _ 51 (by norm_num) hx1) (f64Near_le_rel _ 51 (by norm_num) hx2)
    have hjdk : j * d < 100 * k + 100 := by
      have h1 : (j : ℚ) * (d : ℚ) < f64Near (f64Near ((k : ℚ) / (d : ℚ)) * 100) * (d : ℚ) :=
        mul_lt_mul_of_pos_right hc hD
      have h2 : (k : ℚ) * 100 * (1 + 1 / 2 ^ 51) ≤ (k : ℚ) * 100 + 100 := by
        have : (k : ℚ) * 100 * (1 / 2 ^ 51) ≤ 2 ^ 51 * 100 * (1 / 2 ^ 51) :=
          mul_le_mul_of_nonneg_right (mul_le_mul_of_nonneg_right hKle (by norm_num))
            (by positivity)
        have e : (2 : ℚ) ^ 51 * 100 * (1 / 2 ^ 51) = 100 := by norm_num
        linarith
      have h3 : ((j * d : Int) : ℚ) < ((100 * k + 100 : Int) : ℚ) := by
        push_cast
        linarith
      exact_mod_cast h3
    refine ⟨⌊f64Near (f64Near ((j : ℚ) / 100) * (d : ℚ))⌋, hfl0, by omega, hcap, ?_⟩
    apply wrapInt64_of_range <;> rcases hs with h | h <;> subst h <;> omega
  · rw [if_neg hc]
    refine ⟨k, hk0, le_refl _, ?_, hn1⟩
    by_contra hcon
    have hcon2 : j * d + 1 ≤ 100 * k := by omega
    have hcon3 : (j : ℚ) * (d : ℚ) + 1 ≤ (k : ℚ) * 100 := by
      have : ((j * d + 1 : Int) : ℚ) ≤ ((100 * k : Int) : ℚ) := by exact_mod_cast hcon2
      push_cast at this
      linarith
    have hlow := two_round_lower (k : ℚ) _ _ (d : ℚ) 100 hD (by norm_num) hK
      (f64Near_ge_rel _ 51 (by norm_num) hx1) (f64Near_ge_rel _ 51 (by norm_num) hx2)
    have h1 : ((j : ℚ) * (d : ℚ) + 1) * (1 - 1 / 2 ^ 52) ≤ (k : ℚ) * 100 * (1 - 1 / 2 ^ 52) :=
      mul_le_mul_of_nonneg_right hcon3 (by norm_num)
    have h2 : (j : ℚ) * (d : ℚ) < ((j : ℚ) * (d : ℚ) + 1) * (1 - 1 / 2 ^ 52) := by
      have : ((j : ℚ) * (d : ℚ) + 1) * (1 / 2 ^ 52) < 1 := by
        calc ((j : ℚ) * (d : ℚ) + 1) * (1 / 2 ^ 52) ≤ 2 ^ 51 * (1 / 2 ^ 52) :=
              mul_le_mul_of_nonneg_right hJD (by positivity)
          _ < 1 := by norm_num
      linarith
    have h3 : (j : ℚ) * (d : ℚ) < f64Near (f64Near ((k : ℚ) / (d : ℚ)) * 100) * (d : ℚ) := by
      linarith
    exact hc (lt_of_mul_lt_mul_right h3 hD.le)

/-! ### Var-diff: the branch taken -/

theorem calcNewDiff_fst_none {W : Type} (env : ProxyEnv W) (s : ProxyServer) (cs : Session)
    (w : ProxyWorld W) (hl : cs.lastShareTime = none) :
    (calcNewDiff env s cs w).1 = cs.diff := by
  unfold calcNewDiff
  rw [hl]

theorem calcNewDiff_fst_some {W : Type} (env : ProxyEnv W) (s : ProxyServer) (cs : Session)
    (w : ProxyWorld W) (last : Int) (hl : cs.lastShareTime = some last) :
    (calcNewDiff env s cs w).1
      = (if F64.gt (meanSeconds (shareWindow cs.lastShareDurations (timeSub (env.Now w.st) last)))
              (F64.add (F64.round s.VarDiff.TargetTime)
                (F64.mul (F64.div (F64.round s.VarDiff.VariancePercent) (F64.finite 100))
                  (F64.round s.VarDiff.TargetTime))) = true
            ∧ cs.diff > s.VarDiff.MinDiff then
          (if F64.gt (F64.mul (F64.div (F64.abs (F64.ofInt (wrapInt64
                (max (F64.toInt64 (F64.mul (F64.div (F64.round s.VarDiff.TargetTime)
                    (meanSeconds (shareWindow cs.lastShareDurations
                      (timeSub (env.Now w.st) last)))) (F64.ofInt cs.diff)))
                  s.VarDiff.MinDiff - cs.diff)))) (F64.ofInt cs.diff)) (F64.finite 100))
                (F64.round s.VarDiff.MaxJump) = true then
            wrapInt64 (cs.diff + F64.toInt64 (F64.mul (F64.mul (F64.div
              (F64.round s.VarDiff.MaxJump) (F64.finite 100)) (F64.ofInt cs.diff))
              (F64.finite (-1))))
          else max (F64.toInt64 (F64.mul (F64.div (F64.round s.VarDiff.TargetTime)
                    (meanSeconds (shareWindow cs.lastShareDurations
                      (timeSub (env.Now w.st) last)))) (F64.ofInt cs.diff)))
                  s.VarDiff.MinDiff)
        else if F64.lt (meanSeconds (shareWindow cs.lastShareDurations
                (timeSub (env.Now w.st) last)))
              (F64.sub (F64.round s.VarDiff.TargetTime)
                (F64.mul (F64.div (F64.round s.VarDiff.VariancePercent) (F64.finite 100))
                  (F64.round s.VarDiff.TargetTime))) = true
            ∧ cs.diff < s.VarDiff.MaxDiff then
          (if F64.gt (F64.mul (F64.div (F64.abs (F64.ofInt (wrapInt64
                (min (F64.toInt64 (F64.mul (F64.div (F64.round s.VarDiff.TargetTime)
                    (meanSeconds (shareWindow cs.lastShareDurations
                      (timeSub (env.Now w.st) last)))) (F64.ofInt cs.diff)))
                  s.VarDiff.MaxDiff - cs.diff)))) (F64.ofInt cs.diff)) (F64.finite 100))
                (F64.round s.VarDiff.MaxJump) = true then
            wrapInt64 (cs.diff + F64.toInt64 (F64.mul (F64.mul (F64.div
              (F64.round s.VarDiff.MaxJump) (F64.finite 100)) (F64.ofInt cs.diff))
              (F64.finite 1)))
          else min (F64.toInt64 (F64.mul (F64.div (F64.round s.VarDiff.TargetTime)
                    (meanSeconds (shareWindow cs.lastShareDurations
                      (timeSub (env.Now w.st) last)))) (F64.ofInt cs.diff)))
                  s.VarDiff.MaxDiff)
        else cs.diff) := by
  unfold calcNewDiff shareWindow
  rw [hl]
  simp only []
  by_cases hlen : (cs.lastShareDurations ++ [timeSub (env.Now w.st) last]).length > 5
  · simp only [if_pos hlen]
    by_cases hdown : F64.gt (meanSeconds ((cs.lastShareDurations
          ++ [timeSub (env.Now w.st) last]).drop 1))
        (F64.add (F64.round s.VarDiff.TargetTime)
          (F64.mul (F64.div (F64.round s.VarDiff.VariancePercent) (F64.finite 100))
            (F64.round s.VarDiff.TargetTime))) = true ∧ cs.diff > s.VarDiff.MinDiff
    · simp only [if_pos hdown]
    · simp only [if_neg hdown]
      by_cases hup : F64.lt (meanSeconds ((cs.lastShareDurations
            ++ [timeSub (env.Now w.st) last]).drop 1))
          (F64.sub (F64.round s.VarDiff.TargetTime)
            (F64.mul (F64.div (F64.round s.VarDiff.VariancePercent) (F64.finite 100))
              (F64.round s.VarDiff.TargetTime))) = true ∧ cs.diff < s.VarDiff.MaxDiff
      · simp only [if_pos hup]
      · simp only [if_neg hup]
  · simp only [if_neg hlen]
    by_cases hdown : F64.gt (meanSeconds (cs.lastShareDurations
          ++ [timeSub (env.Now w.st) last]))
        (F64.add (F64.round s.VarDiff.TargetTime)
          (F64.mul (F64.div (F64.round s.VarDiff.VariancePercent) (F64.finite 100))
            (F64.round s.VarDiff.TargetTime))) = true ∧ cs.diff > s.VarDiff.MinDiff
    · simp only [if_pos hdown]
    · simp only [if_neg hdown]
      by_cases hup : F64.lt (meanSeconds (cs.lastShareDurations
            ++ [timeSub (env.Now w.st) last]))
          (F64.sub (F64.round s.VarDiff.TargetTime)
            (F64.mul (F64.div (F64.round s.VarDiff.VariancePercent) (F64.finite 100))
              (F64.round s.VarDiff.TargetTime))) = true ∧ cs.diff < s.VarDiff.MaxDiff
      · simp only [if_pos hup]
      · simp only [if_neg hup]

theorem F64.round_nonneg_cases (x : ℚ) (h : 0 ≤ x) :
    (∃ q, F64.round x = F64.finite q ∧ 0 ≤ q) ∨ F64.round x = F64.inf false := by
  unfold F64.round
  by_cases hc : |f64Near x| ≥ 2 ^ 1024
  · right
    rw [if_pos hc]
    have : ¬ x < 0 := not_lt.mpr h
    simp [this]
  · left
    rw [if_neg hc]
    exact ⟨_, rfl, f64Near_nonneg x h⟩

theorem F64.round_ge_cases (x r : ℚ) (hr : f64Near r = r) (hr0 : 0 ≤ r) (h : r ≤ x) :
    (∃ q, F64.round x = F64.finite q ∧ r ≤ q) ∨ F64.round x = F64.inf false := by
  unfold F64.round
  by_cases hc : |f64Near x| ≥ 2 ^ 1024
  · right
    rw [if_pos hc]
    have : ¬ x < 0 := not_lt.mpr (le_trans hr0 h)
    simp [this]
  · left
    rw [if_neg hc]
    exact ⟨_, rfl, le_f64Near x r hr h⟩

theorem F64.round_le_cases (x r : ℚ) (hr : isF64 r) (h : x ≤ r) :
    (∃ q, F64.round x = F64.finite q ∧ q ≤ r) ∨ F64.round x = F64.inf true := by
  rw [isF64_iff] at hr
  have hle := f64Near_le x r hr.1 h
  unfold F64.round
  by_cases hc : |f64Near x| ≥ 2 ^ 1024
  · right
    rw [if_pos hc]
    have : x < 0 := by
      by_contra hx
      have h0 := f64Near_nonneg x (not_lt.mp hx)
      rw [abs_of_nonneg h0] at hc
      have h2 : r ≤ |r| := le_abs_self r
      have h3 := hr.2
      have h4 : f64Near x < 2 ^ 1024 := lt_of_le_of_lt (le_trans hle h2) h3
      exact absurd hc (not_le.mpr h4)
    simp [this]
  · left
    rw [if_neg hc]
    exact ⟨_, rfl, hle⟩

theorem variance_cases (V T : ℚ) (hV : 0 ≤ V) (hT : 0 < T) :
    (∃ v, F64.mul (F64.div (F64.round V) (F64.finite 100)) (F64.finite T) = F64.finite v ∧ 0 ≤ v)
      ∨ F64.mul (F64.div (F64.round V) (F64.finite 100)) (F64.finite T) = F64.inf false := by
  have hT0 : T ≠ 0 := hT.ne'
  have hTn : ¬ T < 0 := not_lt.mpr hT.le
  rcases F64.round_nonneg_cases V hV with ⟨q, hq, hq0⟩ | hinf
  · rw [hq]
    simp only [F64.div, (by norm_num : (100 : ℚ) ≠ 0), if_false]
    rcases F64.round_nonneg_cases (q / 100) (div_nonneg hq0 (by norm_num)) with
      ⟨q2, hq2, hq20⟩ | hinf2
    · rw [hq2]
      simp only [F64.mul]
      rcases F64.round_nonneg_cases (q2 * T) (mul_nonneg hq20 hT.le) with ⟨q3, hq3, hq30⟩ | hinf3
      · left; exact ⟨q3, hq3, hq30⟩
      · right; exact hinf3
    · right
      rw [hinf2]
      simp [F64.mul, hT0, hTn]
  · right
    rw [hinf]
    simp [F64.div, F64.mul, hT0, hTn]

theorem gt_tMax (a T V : ℚ) (hT : 0 < T) (hTf : isF64 T) (hV : 0 ≤ V)
    (h : F64.gt (F64.finite a) (F64.add (F64.finite T)
      (F64.mul (F64.div (F64.round V) (F64.finite 100)) (F64.finite T))) = true) : T < a := by
  rcases variance_cases V T hV hT with ⟨v, hv, hv0⟩ | hinf
  · rw [hv] at h
    simp only [F64.add] at h
    rcases F64.round_ge_cases (T + v) T ((isF64_iff T).mp hTf).1 hT.le (by linarith) with
      ⟨q, hq, hqT⟩ | hinf2
    · rw [hq] at h
      simp only [F64.gt, F64.lt, decide_eq_true_eq] at h
      linarith
    · rw [hinf2] at h
      simp [F64.gt, F64.lt] at h
  · rw [hinf] at h
    simp [F64.add, F64.gt, F64.lt] at h

theorem lt_tMin (a T V : ℚ) (hT : 0 < T) (hTf : isF64 T) (hV : 0 ≤ V)
    (h : F64.lt (F64.finite a) (F64.sub (F64.finite T)
      (F64.mul (F64.div (F64.round V) (F64.finite 100)) (F64.finite T))) = true) : a < T := by
  rcases variance_cases V T hV hT with ⟨v, hv, hv0⟩ | hinf
  · rw [hv] at h
    simp only [F64.sub] at h
    rcases F64.round_le_cases (T - v) T hTf (by linarith) with ⟨q, hq, hqT⟩ | hinf2
    · rw [hq] at h
      simp only [F64.lt, decide_eq_true_eq] at h
      linarith
    · rw [hinf2] at h
      simp [F64.lt] at h
  · rw [hinf] at h
    simp [F64.sub, F64.lt] at h

theorem f64Near_one : f64Near 1 = 1 := by
  have := f64Near_two_pow 0
  simpa using this

theorem f64Near_intCast (n : Int) (h : |n| ≤ 2 ^ 53) : f64Near (n : ℚ) = (n : ℚ) :=
  ((isF64_iff _).mp (isF64_intCast n h)).1

theorem proposal_down (T a : ℚ) (d : Int) (hT : 0 < T) (ha : T < a) (hd0 : 0 < d)
    (hd : d ≤ 2 ^ 51) :
    0 ≤ F64.toInt64 (F64.mul (F64.div (F64.finite T) (F64.finite a)) (F64.ofInt d))
      ∧ F64.toInt64 (F64.mul (F64.div (F64.finite T) (F64.finite a)) (F64.ofInt d)) ≤ d := by
  have ha0 : 0 < a := lt_trans hT ha
  have hD : (0 : ℚ) < (d : ℚ) := by exact_mod_cast hd0
  have hDle : (d : ℚ) ≤ 2 ^ 51 := by exact_mod_cast hd
  have hq0 : 0 ≤ T / a := div_nonneg hT.le ha0.le
  have hq1 : T / a ≤ 2 ^ 0 := by
    rw [pow_zero, div_le_one ha0]
    exact ha.le
  have hr1 := F64.round_small _ hq0 0 (by norm_num) hq1
  have ht0 := f64Near_nonneg _ hq0
  have ht1 : f64Near (T / a) ≤ 1 := by
    have := f64Near_le_two_pow _ 0 hq1
    simpa using this
  have hod : F64.ofInt d = F64.finite (d : ℚ) :=
    F64.ofInt_eq d (by rw [abs_le]; constructor <;> omega)
  have hp0 : 0 ≤ f64Near (T / a) * (d : ℚ) := mul_nonneg ht0 hD.le
  have hp1 : f64Near (T / a) * (d : ℚ) ≤ (d : ℚ) := by
    calc f64Near (T / a) * (d : ℚ) ≤ 1 * (d : ℚ) := mul_le_mul_of_nonneg_right ht1 hD.le
      _ = (d : ℚ) := one_mul _
  have hr2 := F64.round_small _ hp0 51 (by norm_num) (le_trans hp1 hDle)
  have hy0 := f64Near_nonneg _ hp0
  have hy1 : f64Near (f64Near (T / a) * (d : ℚ)) ≤ (d : ℚ) :=
    f64Near_le _ _ (f64Near_intCast d (by rw [abs_le]; constructor <;> omega)) hp1
  have hval : F64.toInt64 (F64.mul (F64.div (F64.finite T) (F64.finite a)) (F64.ofInt d))
      = ⌊f64Near (f64Near (T / a) * (d : ℚ))⌋ := by
    rw [hod]
    simp only [F64.div, ha0.ne', if_false, hr1, F64.mul, hr2]
    exact F64.toInt64_nonneg _ hy0 (lt_of_le_of_lt (le_trans hy1 hDle) (by norm_num))
  rw [hval]
  refine ⟨Int.floor_nonneg.mpr hy0, ?_⟩
  have : ((⌊f64Near (f64Near (T / a) * (d : ℚ))⌋ : Int) : ℚ) ≤ (d : ℚ) :=
    le_trans (Int.floor_le _) hy1
  exact_mod_cast this

theorem proposal_up (T a : ℚ) (d : Int) (ha0 : 0 < a) (ha : a < T) (hd0 : 0 < d)
    (hd : d ≤ 2 ^ 51) (hr : T / a * (d : ℚ) ≤ 2 ^ 62) :
    d ≤ F64.toInt64 (F64.mul (F64.div (F64.finite T) (F64.finite a)) (F64.ofInt d)) := by
  have hD : (0 : ℚ) < (d : ℚ) := by exact_mod_cast hd0
  have hD1 : (1 : ℚ) ≤ (d : ℚ) := by exact_mod_cast hd0
  have hq1 : 1 ≤ T / a := by
    rw [one_le_div ha0]
    exact ha.le
  have hq0 : 0 ≤ T / a := le_trans zero_le_one hq1
  have hq62 : T / a ≤ 2 ^ 62 := by
    calc T / a = T / a * 1 := (mul_one _).symm
      _ ≤ T / a * (d : ℚ) := mul_le_mul_of_nonneg_left hD1 hq0
      _ ≤ 2 ^ 62 := hr
  have hr1 := F64.round_small _ hq0 62 (by norm_num) hq62
  have ht1 : 1 ≤ f64Near (T / a) := le_f64Near _ _ f64Near_one hq1
  have ht2 : f64Near (T / a) ≤ T / a * (1 + 1 / 2 ^ 53) :=
    f64Near_le_rel _ 0 (by norm_num) (Or.inr (by simpa using hq1))
  have hod : F64.ofInt d = F64.finite (d : ℚ) :=
    F64.ofInt_eq d (by rw [abs_le]; constructor <;> omega)
  have hp1 : (d : ℚ) ≤ f64Near (T / a) * (d : ℚ) := by
    calc (d : ℚ) = 1 * (d : ℚ) := (one_mul _).symm
      _ ≤ f64Near (T / a) * (d : ℚ) := mul_le_mul_of_nonneg_right ht1 hD.le
  have hp0 : 0 ≤ f64Near (T / a) * (d : ℚ) := le_trans hD.le hp1
  have hp2 : f64Near (T / a) * (d : ℚ) ≤ 2 ^ 62 * (1 + 1 / 2 ^ 53) := by
    calc f64Near (T / a) * (d : ℚ) ≤ T / a * (1 + 1 / 2 ^ 53) * (d : ℚ) :=
          mul_le_mul_of_nonneg_right ht2 hD.le
      _ = T / a * (d : ℚ) * (1 + 1 / 2 ^ 53) := by ring
      _ ≤ 2 ^ 62 * (1 + 1 / 2 ^ 53) := mul_le_mul_of_nonneg_right hr (by norm_num)
  have hr2 := F64.round_small _ hp0 63 (by norm_num) (le_trans hp2 (by norm_num))
  have hy1 : (d : ℚ) ≤ f64Near (f64Near (T / a) * (d : ℚ)) :=
    le_f64Near _ _ (f64Near_intCast d (by rw [abs_le]; constructor <;> omega)) hp1
  have hy0 : 0 ≤ f64Near (f64Near (T / a) * (d : ℚ)) := le_trans hD.le hy1
  have hy2 : f64Near (f64Near (T / a) * (d : ℚ))
      ≤ f64Near (T / a) * (d : ℚ) * (1 + 1 / 2 ^ 53) :=
    f64Near_le_rel _ 0 (by norm_num) (Or.inr (by
      have : (1 : ℚ) ≤ f64Near (T / a) * (d : ℚ) := le_trans hD1 hp1
      simpa using this))
  have hy63 : f64Near (f64Near (T / a) * (d : ℚ)) < 2 ^ 63 := by
    have h1 : f64Near (T / a) * (d : ℚ) * (1 + 1 / 2 ^ 53)
        ≤ 2 ^ 62 * (1 + 1 / 2 ^ 53) * (1 + 1 / 2 ^ 53) :=
      mul_le_mul_of_nonneg_right hp2 (by norm_num)
    have h2 : (2 : ℚ) ^ 62 * (1 + 1 / 2 ^ 53) * (1 + 1 / 2 ^ 53) < 2 ^ 63 := by norm_num
    linarith
  have hval : F64.toInt64 (F64.mul (F64.div (F64.finite T) (F64.finite a)) (F64.ofInt d))
      = ⌊f64Near (f64Near (T / a) * (d : ℚ))⌋ := by
    rw [hod]
    simp only [F64.div, ha0.ne', if_false, hr1, F64.mul, hr2]
    exact F64.toInt64_nonneg _ hy0 hy63
  rw [hval]
  exact Int.le_floor.mpr hy1

/-! ### Var-diff: worked examples -/

theorem F64.round_of_int (x : ℚ) (n : Int) (hx : x = (n : ℚ)) (h1 : -(2 ^ 53) ≤ n)
    (h2 : n ≤ 2 ^ 53) : F64.round x = F64.finite x := by
  subst hx
  exact F64.round_intCast n (by rw [abs_le]; exact ⟨h1, h2⟩)

theorem F64.round_of_rep (x : ℚ) (n e : Int) (hx : x = (n : ℚ) * (2 : ℚ) ^ e)
    (hn : |n| < 2 ^ 53) (he : -1074 ≤ e) (he2 : e ≤ 971) : F64.round x = F64.finite x :=
  isF64_of_rep x n e hx hn he he2

theorem F64.round_of_cert (x : ℚ) (e n : Int) (he : -1022 ≤ e) (he2 : e ≤ 1022)
    (h1 : (2 : ℚ) ^ e ≤ |x|) (h2 : |x| < (2 : ℚ) ^ (e + 1))
    (hn : roundHalfEven (x / (2 : ℚ) ^ (e - 52)) = n) :
    F64.round x = F64.finite ((n : ℚ) * (2 : ℚ) ^ (e - 52)) := by
  have hE := f64Exp_eq x e he h1 h2
  have hfin : |x| ≤ 2 ^ 1023 := by
    have a : (2 : ℚ) ^ (e + 1) ≤ (2 : ℚ) ^ (1023 : Int) := two_zpow_le _ _ (by omega)
    have b : (2 : ℚ) ^ (1023 : Int) = 2 ^ 1023 := by simp only [zpow_ofNat]
    rw [b] at a
    exact le_trans h2.le a
  rw [F64.round_finite x hfin]
  unfold f64Near f64Ulp
  rw [hE, hn]

theorem F64.toInt64_of_int (x : ℚ) (n : Int) (hx : x = (n : ℚ)) (h0 : 0 ≤ n)
    (h1 : n < 2 ^ 63) : F64.toInt64 (F64.finite x) = n := by
  subst hx
  have hq0 : (0 : ℚ) ≤ (n : ℚ) := by exact_mod_cast h0
  have hq1 : (n : ℚ) < 2 ^ 63 := by exact_mod_cast h1
  rw [F64.toInt64_nonneg _ hq0 hq1, Int.floor_intCast]

theorem Seconds_tenSeconds : Seconds 10000000000 = F64.finite 10 := by
  have h1 : Int.tdiv 10000000000 1000000000 = 10 := by decide
  have h2 : Int.tmod 10000000000 1000000000 = 0 := by decide
  have r0 : F64.round (0 : ℚ) = F64.finite 0 :=
    F64.round_of_int 0 0 (by norm_num) (by norm_num) (by norm_num)
  have r10 : F64.round (10 : ℚ) = F64.finite 10 :=
    F64.round_of_int 10 10 (by norm_num) (by norm_num) (by norm_num)
  unfold Seconds
  rw [h1, h2]
  norm_num [F64.ofInt, F64.add, F64.div, r0, r10]

theorem meanSeconds_tenSeconds :
    meanSeconds [10000000000, 10000000000, 10000000000, 10000000000, 10000000000]
      = F64.finite 10 := by
  have r5 : F64.round (5 : ℚ) = F64.finite 5 :=
    F64.round_of_int 5 5 (by norm_num) (by norm_num) (by norm_num)
  have r10 : F64.round (10 : ℚ) = F64.finite 10 :=
    F64.round_of_int 10 10 (by norm_num) (by norm_num) (by norm_num)
  have r20 : F64.round (20 : ℚ) = F64.finite 20 :=
    F64.round_of_int 20 20 (by norm_num) (by norm_num) (by norm_num)
  have r30 : F64.round (30 : ℚ) = F64.finite 30 :=
    F64.round_of_int 30 30 (by norm_num) (by norm_num) (by norm_num)
  have r40 : F64.round (40 : ℚ) = F64.finite 40 :=
    F64.round_of_int 40 40 (by norm_num) (by norm_num) (by norm_num)
  have r50 : F64.round (50 : ℚ) = F64.finite 50 :=
    F64.round_of_int 50 50 (by norm_num) (by norm_num) (by norm_num)
  unfold meanSeconds
  simp only [List.foldl, Seconds_tenSeconds, List.length]
  norm_num [F64.ofInt, F64.add, F64.div, r5, r10, r20, r30, r40, r50]

theorem tenSecond_window :
    shareWindow tenSecondSession.lastShareDurations
        (timeSub (liveEnv.Now emptyProxyWorld.st) (-10000000000))
      = [10000000000, 10000000000, 10000000000, 10000000000, 10000000000] := by
  decide

theorem round_three_tenths :
    F64.round (3 / 10) = F64.finite (5404319552844595 / 18014398509481984) := by
  have h := F64.round_of_cert (3 / 10) (-2) 5404319552844595 (by norm_num) (by norm_num)
    (by norm_num [abs_of_pos]) (by norm_num [abs_of_pos])
    (roundHalfEven_eq_of_lt _ _ (by norm_num [abs_lt]))
  rw [h]
  norm_num

theorem round_variance_of_thirty :
    F64.round (5404319552844595 / 18014398509481984 * 30) = F64.finite 9 := by
  have h := F64.round_of_cert (5404319552844595 / 18014398509481984 * 30) 3 5066549580791808
    (by norm_num) (by norm_num)
    (by norm_num [abs_of_pos]) (by norm_num [abs_of_pos])
    (roundHalfEven_eq_of_lt _ _ (by norm_num [abs_lt]))
  rw [h]
  norm_num

theorem F64.div_exact (a b c : ℚ) (hb : b ≠ 0) (hc : a / b = c)
    (hr : F64.round c = F64.finite c) : F64.div (F64.finite a) (F64.finite b) = F64.finite c := by
  simp only [F64.div, hb, if_false, hc, hr]

theorem F64.mul_exact (a b c : ℚ) (hc : a * b = c) (hr : F64.round c = F64.finite c) :
    F64.mul (F64.finite a) (F64.finite b) = F64.finite c := by
  simp only [F64.mul, hc, hr]

theorem F64.add_exact (a b c : ℚ) (hc : a + b = c) (hr : F64.round c = F64.finite c) :
    F64.add (F64.finite a) (F64.finite b) = F64.finite c := by
  simp only [F64.add, hc, hr]

theorem F64.sub_exact (a b c : ℚ) (hc : a - b = c) (hr : F64.round c = F64.finite c) :
    F64.sub (F64.finite a) (F64.finite b) = F64.finite c := by
  simp only [F64.sub, hc, hr]

theorem F64.ofInt_exact (n : Int) (c : ℚ) (hc : (n : ℚ) = c) (h1 : -(2 ^ 53) ≤ n)
    (h2 : n ≤ 2 ^ 53) : F64.ofInt n = F64.finite c := by
  rw [← hc]
  exact F64.ofInt_eq n (by rw [abs_le]; exact ⟨h1, h2⟩)

theorem F64.round_lit (c : ℚ) (n : Int) (hc : c = (n : ℚ)) (h1 : -(2 ^ 53) ≤ n)
    (h2 : n ≤ 2 ^ 53) : F64.round c = F64.finite c :=
  F64.round_of_int c n hc h1 h2

theorem tenSecond_variance :
    F64.mul (F64.div (F64.finite 30) (F64.finite 100)) (F64.finite 30) = F64.finite 9 := by
  have e1 : F64.div (F64.finite 30) (F64.finite 100)
      = F64.finite (5404319552844595 / 18014398509481984) := by
    simp only [F64.div, (by norm_num : (100 : ℚ) ≠ 0), if_false]
    rw [(by norm_num : (30 : ℚ) / 100 = 3 / 10), round_three_tenths]
  rw [e1]
  simp only [F64.mul]
  exact round_variance_of_thirty

theorem calcNewDiff_tenSecond :
    (calcNewDiff liveEnv plainProxy tenSecondSession emptyProxyWorld).1 = 1500 := by
  rw [calcNewDiff_fst_some liveEnv plainProxy tenSecondSession emptyProxyWorld (-10000000000) rfl,
    tenSecond_window, meanSeconds_tenSeconds]
  have hd : tenSecondSession.diff = 1000 := rfl
  have h1 : plainProxy.VarDiff.TargetTime = 30 := rfl
  have h2 : plainProxy.VarDiff.VariancePercent = 30 := rfl
  have h3 : plainProxy.VarDiff.MaxJump = 50 := rfl
  have h4 : plainProxy.VarDiff.MinDiff = 100 := rfl
  have h5 : plainProxy.VarDiff.MaxDiff = 1000000000 := rfl
  rw [hd, h1, h2, h3, h4, h5]
  have r30 : F64.round (30 : ℚ) = F64.finite 30 :=
    F64.round_lit 30 30 (by norm_num) (by norm_num) (by norm_num)
  have r50 : F64.round (50 : ℚ) = F64.finite 50 :=
    F64.round_lit 50 50 (by norm_num) (by norm_num) (by norm_num)
  have rhalf : F64.round (1 / 2 : ℚ) = F64.finite (1 / 2) :=
    F64.round_of_rep _ 1 (-1) (by norm_num) (by norm_num) (by norm_num) (by norm_num)
  have htMax : F64.add (F64.finite 30) (F64.finite 9) = F64.finite 39 :=
    F64.add_exact 30 9 39 (by norm_num)
      (F64.round_lit 39 39 (by norm_num) (by norm_num) (by norm_num))
  have htMin : F64.sub (F64.finite 30) (F64.finite 9) = F64.finite 21 :=
    F64.sub_exact 30 9 21 (by norm_num)
      (F64.round_lit 21 21 (by norm_num) (by norm_num) (by norm_num))
  have hquot : F64.div (F64.finite 30) (F64.finite 10) = F64.finite 3 :=
    F64.div_exact 30 10 3 (by norm_num) (by norm_num)
      (F64.round_lit 3 3 (by norm_num) (by norm_num) (by norm_num))
  have hod : F64.ofInt 1000 = F64.finite 1000 :=
    F64.ofInt_exact 1000 1000 (by norm_num) (by norm_num) (by norm_num)
  have hpf : F64.mul (F64.finite 3) (F64.finite 1000) = F64.finite 3000 :=
    F64.mul_exact 3 1000 3000 (by norm_num)
      (F64.round_lit 3000 3000 (by norm_num) (by norm_num) (by norm_num))
  have hprop : F64.toInt64 (F64.finite 3000) = 3000 :=
    F64.toInt64_of_int _ 3000 (by norm_num) (by norm_num) (by norm_num)
  have hm : min (3000 : Int) 1000000000 = 3000 := by decide
  have hw1 : wrapInt64 (3000 - 1000) = 2000 := by decide
  have hoj : F64.ofInt 2000 = F64.finite 2000 :=
    F64.ofInt_exact 2000 2000 (by norm_num) (by norm_num) (by norm_num)
  have habs : F64.abs (F64.finite 2000) = F64.finite 2000 := by
    simp only [F64.abs]
    rw [abs_of_pos (by norm_num)]
  have hrel : F64.div (F64.finite 2000) (F64.finite 1000) = F64.finite 2 :=
    F64.div_exact 2000 1000 2 (by norm_num) (by norm_num)
      (F64.round_lit 2 2 (by norm_num) (by norm_num) (by norm_num))
  have hpct : F64.mul (F64.finite 2) (F64.finite 100) = F64.finite 200 :=
    F64.mul_exact 2 100 200 (by norm_num)
      (F64.round_lit 200 200 (by norm_num) (by norm_num) (by norm_num))
  have hj100 : F64.div (F64.finite 50) (F64.finite 100) = F64.finite (1 / 2) :=
    F64.div_exact 50 100 (1 / 2) (by norm_num) (by norm_num) rhalf
  have hcf : F64.mul (F64.finite (1 / 2)) (F64.finite 1000) = F64.finite 500 :=
    F64.mul_exact (1 / 2) 1000 500 (by norm_num)
      (F64.round_lit 500 500 (by norm_num) (by norm_num) (by norm_num))
  have hcd : F64.mul (F64.finite 500) (F64.finite 1) = F64.finite 500 :=
    F64.mul_exact 500 1 500 (by norm_num)
      (F64.round_lit 500 500 (by norm_num) (by norm_num) (by norm_num))
  have hchange : F64.toInt64 (F64.finite 500) = 500 :=
    F64.toInt64_of_int _ 500 (by norm_num) (by norm_num) (by norm_num)
  have hw2 : wrapInt64 (1000 + 500) = 1500 := by decide
  have hgt1 : F64.gt (F64.finite 10) (F64.finite 39) = false := by
    simp only [F64.gt, F64.lt]; norm_num
  have hlt1 : F64.lt (F64.finite 10) (F64.finite 21) = true := by
    simp only [F64.lt]; norm_num
  have hgt2 : F64.gt (F64.finite 200) (F64.finite 50) = true := by
    simp only [F64.gt, F64.lt]; norm_num
  rw [r30, r50, tenSecond_variance, htMax, htMin, hgt1, hlt1, hquot, hod, hpf, hprop, hm, hw1,
    hoj, habs, hrel, hpct, hgt2, hj100, hcf, hcd, hchange, hw2]
  decide

theorem round_oddDiff :
    F64.round (9007199254740995 : ℚ) = F64.finite 9007199254740996 := by
  have ht : roundHalfEven ((9007199254740995 : ℚ) / (2 : ℚ) ^ ((53 : Int) - 52))
      = 4503599627370498 := by
    have e : (9007199254740995 : ℚ) / (2 : ℚ) ^ ((53 : Int) - 52)
        = ((4503599627370497 : Int) : ℚ) + 1 / 2 := by norm_num
    rw [e, roundHalfEven_tie]
    decide
  have h := F64.round_of_cert 9007199254740995 53 4503599627370498 (by norm_num) (by norm_num)
    (by norm_num [abs_of_pos]) (by norm_num [abs_of_pos]) ht
  rw [h]
  norm_num

theorem round_oddJump :
    F64.round (18014398509481993 : ℚ) = F64.finite 18014398509481992 := by
  have h := F64.round_of_cert 18014398509481993 54 4503599627370498 (by norm_num) (by norm_num)
    (by norm_num [abs_of_pos]) (by norm_num [abs_of_pos])
    (roundHalfEven_eq_of_lt _ _ (by norm_num [abs_lt]))
  rw [h]
  norm_num

theorem odd_window :
    shareWindow oddSession.lastShareDurations
        (timeSub (liveEnv.Now emptyProxyWorld.st) (-10000000000))
      = [10000000000, 10000000000, 10000000000, 10000000000, 10000000000] := by
  decide

theorem calcNewDiff_oddSession :
    (calcNewDiff liveEnv wideProxy oddSession emptyProxyWorld).1 = 13510798882111493 := by
  rw [calcNewDiff_fst_some liveEnv wideProxy oddSession emptyProxyWorld (-10000000000) rfl,
    odd_window, meanSeconds_tenSeconds]
  have hd : oddSession.diff = 9007199254740995 := rfl
  have h1 : wideProxy.VarDiff.TargetTime = 30 := rfl
  have h2 : wideProxy.VarDiff.VariancePercent = 50 := rfl
  have h3 : wideProxy.VarDiff.MaxJump = 50 := rfl
  have h4 : wideProxy.VarDiff.MinDiff = 100 := rfl
  have h5 : wideProxy.VarDiff.MaxDiff = 4611686018427387904 := rfl
  rw [hd, h1, h2, h3, h4, h5]
  have r30 : F64.round (30 : ℚ) = F64.finite 30 :=
    F64.round_lit 30 30 (by norm_num) (by norm_num) (by norm_num)
  have r50 : F64.round (50 : ℚ) = F64.finite 50 :=
    F64.round_lit 50 50 (by norm_num) (by norm_num) (by norm_num)
  have rhalf : F64.round (1 / 2 : ℚ) = F64.finite (1 / 2) :=
    F64.round_of_rep _ 1 (-1) (by norm_num) (by norm_num) (by norm_num) (by norm_num)
  have hj100 : F64.div (F64.finite 50) (F64.finite 100) = F64.finite (1 / 2) :=
    F64.div_exact 50 100 (1 / 2) (by norm_num) (by norm_num) rhalf
  have hvar : F64.mul (F64.finite (1 / 2)) (F64.finite 30) = F64.finite 15 :=
    F64.mul_exact (1 / 2) 30 15 (by norm_num)
      (F64.round_lit 15 15 (by norm_num) (by norm_num) (by norm_num))
  have htMax : F64.add (F64.finite 30) (F64.finite 15) = F64.finite 45 :=
    F64.add_exact 30 15 45 (by norm_num)
      (F64.round_lit 45 45 (by norm_num) (by norm_num) (by norm_num))
  have htMin : F64.sub (F64.finite 30) (F64.finite 15) = F64.finite 15 :=
    F64.sub_exact 30 15 15 (by norm_num)
      (F64.round_lit 15 15 (by norm_num) (by norm_num) (by norm_num))
  have hgt1 : F64.gt (F64.finite 10) (F64.finite 45) = false := by
    simp only [F64.gt, F64.lt]; norm_num
  have hlt1 : F64.lt (F64.finite 10) (F64.finite 15) = true := by
    simp only [F64.lt]; norm_num
  have hquot : F64.div (F64.finite 30) (F64.finite 10) = F64.finite 3 :=
    F64.div_exact 30 10 3 (by norm_num) (by norm_num)
      (F64.round_lit 3 3 (by norm_num) (by norm_num) (by norm_num))
  have hod : F64.ofInt 9007199254740995 = F64.finite 9007199254740996 := by
    unfold F64.ofInt
    rw [← round_oddDiff]
    norm_num
  have hpf : F64.mul (F64.finite 3) (F64.finite 9007199254740996)
      = F64.finite 27021597764222988 :=
    F64.mul_exact 3 9007199254740996 27021597764222988 (by norm_num)
      (F64.round_of_rep _ 6755399441055747 2 (by norm_num) (by norm_num) (by norm_num)
        (by norm_num))
  have hprop : F64.toInt64 (F64.finite 27021597764222988) = 27021597764222988 :=
    F64.toInt64_of_int _ 27021597764222988 (by norm_num) (by norm_num) (by norm_num)
  have hm : min (27021597764222988 : Int) 4611686018427387904 = 27021597764222988 := by decide
  have hw1 : wrapInt64 (27021597764222988 - 9007199254740995) = 18014398509481993 := by decide
  have hoj : F64.ofInt 18014398509481993 = F64.finite 18014398509481992 := by
    unfold F64.ofInt
    rw [← round_oddJump]
    norm_num
  have habs : F64.abs (F64.finite 18014398509481992) = F64.finite 18014398509481992 := by
    simp only [F64.abs]
    rw [abs_of_pos (by norm_num)]
  have hrel : F64.div (F64.finite 18014398509481992) (F64.finite 9007199254740996)
      = F64.finite 2 :=
    F64.div_exact _ _ 2 (by norm_num) (by norm_num)
      (F64.round_lit 2 2 (by norm_num) (by norm_num) (by norm_num))
  have hpct : F64.mul (F64.finite 2) (F64.finite 100) = F64.finite 200 :=
    F64.mul_exact 2 100 200 (by norm_num)
      (F64.round_lit 200 200 (by norm_num) (by norm_num) (by norm_num))
  have hgt2 : F64.gt (F64.finite 200) (F64.finite 50) = true := by
    simp only [F64.gt, F64.lt]; norm_num
  have hcf : F64.mul (F64.finite (1 / 2)) (F64.finite 9007199254740996)
      = F64.finite 4503599627370498 :=
    F64.mul_exact (1 / 2) 9007199254740996 4503599627370498 (by norm_num)
      (F64.round_lit _ 4503599627370498 (by norm_num) (by norm_num) (by norm_num))
  have hcd : F64.mul (F64.finite 4503599627370498) (F64.finite 1)
      = F64.finite 4503599627370498 :=
    F64.mul_exact 4503599627370498 1 4503599627370498 (by norm_num)
      (F64.round_lit _ 4503599627370498 (by norm_num) (by norm_num) (by norm_num))
  have hchange : F64.toInt64 (F64.finite 4503599627370498) = 4503599627370498 :=
    F64.toInt64_of_int _ 4503599627370498 (by norm_num) (by norm_num) (by norm_num)
  have hw2 : wrapInt64 (9007199254740995 + 4503599627370498) = 13510798882111493 := by decide
  rw [r30, r50, hj100, hvar, htMax, htMin, hgt1, hlt1, hquot, hod, hpf, hprop, hm, hw1,
    hoj, habs, hrel, hpct, hgt2, hcf, hcd, hchange, hw2]
  decide

/-! ### Var-diff: the jump cap -/

theorem windowMean_tenSeconds :
    windowMean [10000000000, 10000000000, 10000000000, 10000000000, 10000000000] = 10 := by
  norm_num [windowMean, exactSeconds]

/-- C18 fails as stated: with TargetTime = 30, VariancePercent = 50, MaxJump = 50,
MinDiff = 100, MaxDiff = 2^62, cs.diff = 2^53 + 3 and five intervals of 10 s
(mean 10 s, as an exact value and as a `float64`), every hypothesis of the claim
holds and the range of `int64` is never left, but `calcNewDiff` returns
cs.diff + 2^52 + 2: `float64(cs.diff)` is 2^53 + 4, the capped change is
`int64(0.5 * (2^53 + 4))`, and 100 * (2^52 + 2) exceeds MaxJump * cs.diff by 50. -/
theorem calcNewDiff_jump_exceeds_cap :
    0 < wideProxy.VarDiff.TargetTime ∧ 0 ≤ wideProxy.VarDiff.VariancePercent
      ∧ 0 ≤ wideProxy.VarDiff.MaxJump
      ∧ wideProxy.VarDiff.MinDiff ≤ wideProxy.VarDiff.MaxDiff
      ∧ wideProxy.VarDiff.MinDiff ≤ oddSession.diff
      ∧ oddSession.diff ≤ wideProxy.VarDiff.MaxDiff
      ∧ 0 < oddSession.diff
      ∧ windowMean (shareWindow oddSession.lastShareDurations
          (timeSub (liveEnv.Now emptyProxyWorld.st) (-10000000000))) = 10
      ∧ meanSeconds (shareWindow oddSession.lastShareDurations
          (timeSub (liveEnv.Now emptyProxyWorld.st) (-10000000000))) = F64.finite 10
      ∧ (calcNewDiff liveEnv wideProxy oddSession emptyProxyWorld).1
          = oddSession.diff + 4503599627370498
      ∧ ¬ (|(((calcNewDiff liveEnv wideProxy oddSession emptyProxyWorld).1
              - oddSession.diff : Int) : ℚ)| * 100
            ≤ wideProxy.VarDiff.MaxJump * (oddSession.diff : ℚ)) := by
  have hd : oddSession.diff = 9007199254740995 := rfl
  have hJ : wideProxy.VarDiff.MaxJump = 50 := rfl
  refine ⟨by norm_num [wideProxy], by norm_num [wideProxy], by norm_num [wideProxy],
    by decide, by decide, by decide, by decide, ?_, ?_, ?_, ?_⟩
  · rw [odd_window]
    exact windowMean_tenSeconds
  · rw [odd_window]
    exact meanSeconds_tenSeconds
  · rw [calcNewDiff_oddSession, hd]
    decide
  · rw [calcNewDiff_oddSession, hd, hJ]
    norm_num

/-- C18 (as amended): with TargetTime a positive `float64` value,
VariancePercent >= 0, MaxJump a whole number, MinDiff <= cs.diff <= MaxDiff <= 2^51,
cs.diff > 0, MaxJump * cs.diff < 2^51, and a window of share intervals whose
`float64` mean, computed as the source computes it, is a positive number avg
with TargetTime / avg * cs.diff <= 2^62, the value d returned by `calcNewDiff`
satisfies |d - cs.diff| * 100 <= MaxJump * cs.diff and MinDiff <= d <= MaxDiff.
With TargetTime = 30, VariancePercent = 30, MaxJump = 50, cs.diff = 1000 and
five intervals of 10 s it returns 1500. -/
theorem calcNewDiff_jump_is_capped {W : Type} (env : ProxyEnv W) (s : ProxyServer)
    (cs : Session) (w : ProxyWorld W) (j : Nat)
    (hT : 0 < s.VarDiff.TargetTime) (hTf : isF64 s.VarDiff.TargetTime)
    (hV : 0 ≤ s.VarDiff.VariancePercent)
    (hJ : s.VarDiff.MaxJump = (j : ℚ))
    (hlo : s.VarDiff.MinDiff ≤ cs.diff) (hhi : cs.diff ≤ s.VarDiff.MaxDiff)
    (hpos : 0 < cs.diff) (hM : s.VarDiff.MaxDiff ≤ 2 ^ 51)
    (hjd : (j : Int) * cs.diff < 2 ^ 51)
    (havg : ∀ last, cs.lastShareTime = some last →
      ∃ a : ℚ, meanSeconds (shareWindow cs.lastShareDurations (timeSub (env.Now w.st) last))
          = F64.finite a ∧ 0 < a ∧ s.VarDiff.TargetTime / a * (cs.diff : ℚ) ≤ 2 ^ 62) :
    (|(((calcNewDiff env s cs w).1 - cs.diff : Int) : ℚ)| * 100
        ≤ s.VarDiff.MaxJump * (cs.diff : ℚ)
      ∧ s.VarDiff.MinDiff ≤ (calcNewDiff env s cs w).1
      ∧ (calcNewDiff env s cs w).1 ≤ s.VarDiff.MaxDiff)
    ∧ (calcNewDiff liveEnv plainProxy tenSecondSession emptyProxyWorld).1 = 1500 := by
  refine ⟨?_, calcNewDiff_tenSecond⟩
  have hdq : (0 : ℚ) < (cs.diff : ℚ) := by exact_mod_cast hpos
  have hJ0 : (0 : ℚ) ≤ s.VarDiff.MaxJump := by rw [hJ]; positivity
  have hsame : |(((cs.diff - cs.diff : Int)) : ℚ)| * 100 ≤ s.VarDiff.MaxJump * (cs.diff : ℚ) := by
    simp only [sub_self, Int.cast_zero, abs_zero, zero_mul]
    positivity
  have hfinal : ∀ (sgn k' : Int), (sgn = 1 ∨ sgn = -1) → 0 ≤ k' → 100 * k' ≤ (j : Int) * cs.diff →
      |(((cs.diff + sgn * k' - cs.diff : Int)) : ℚ)| * 100 ≤ s.VarDiff.MaxJump * (cs.diff : ℚ) := by
    intro sgn k' hs hk0 hk
    have e : cs.diff + sgn * k' - cs.diff = sgn * k' := by ring
    have hkq : (0 : ℚ) ≤ (k' : ℚ) := by exact_mod_cast hk0
    have habs : |((sgn * k' : Int) : ℚ)| = (k' : ℚ) := by
      rcases hs with h | h <;> subst h
      · simp [abs_of_nonneg hkq]
      · simp [abs_of_nonneg hkq]
    rw [e, habs, hJ]
    have : ((100 * k' : Int) : ℚ) ≤ (((j : Int) * cs.diff : Int) : ℚ) := by exact_mod_cast hk
    push_cast at this
    linarith
  cases hl : cs.lastShareTime with
  | none =>
    rw [calcNewDiff_fst_none env s cs w hl]
    exact ⟨hsame, hlo, hhi⟩
  | some last =>
    obtain ⟨a, hmean, ha0, hrange⟩ := havg last hl
    rw [calcNewDiff_fst_some env s cs w last hl, hmean, F64.round_of_isF64 _ hTf]
    have hJr : F64.round s.VarDiff.MaxJump = F64.round (((j : Int) : ℚ)) := by
      rw [hJ]; norm_cast
    by_cases hdown : F64.gt (F64.finite a) (F64.add (F64.finite s.VarDiff.TargetTime)
        (F64.mul (F64.div (F64.round s.VarDiff.VariancePercent) (F64.finite 100))
          (F64.finite s.VarDiff.TargetTime))) = true ∧ cs.diff > s.VarDiff.MinDiff
    · rw [if_pos hdown]
      have hTa := gt_tMax a _ _ hT hTf hV hdown.1
      obtain ⟨hp0, hpd⟩ := proposal_down _ a cs.diff hT hTa hpos (by omega)
      obtain ⟨k', hk0, hkk, hcap, hres⟩ := capJump_bound cs.diff
        (max (F64.toInt64 (F64.mul (F64.div (F64.finite s.VarDiff.TargetTime) (F64.finite a))
          (F64.ofInt cs.diff))) s.VarDiff.MinDiff) (j : Int)
        (cs.diff - max (F64.toInt64 (F64.mul (F64.div (F64.finite s.VarDiff.TargetTime)
          (F64.finite a)) (F64.ofInt cs.diff))) s.VarDiff.MinDiff) (-1) (Or.inr rfl)
        (by positivity) hpos (by omega) hjd (by omega) (by omega) (by ring)
      rw [hJr]
      have e1 : (F64.finite (-1) : F64) = F64.finite (((-1 : Int)) : ℚ) := by norm_num
      rw [e1, hres]
      exact ⟨hfinal (-1) k' (Or.inr rfl) hk0 hcap, by omega, by omega⟩
    · rw [if_neg hdown]
      by_cases hup : F64.lt (F64.finite a) (F64.sub (F64.finite s.VarDiff.TargetTime)
          (F64.mul (F64.div (F64.round s.VarDiff.VariancePercent) (F64.finite 100))
            (F64.finite s.VarDiff.TargetTime))) = true ∧ cs.diff < s.VarDiff.MaxDiff
      · rw [if_pos hup]
        have hTa := lt_tMin a _ _ hT hTf hV hup.1
        have hpd := proposal_up _ a cs.diff ha0 hTa hpos (by omega) hrange
        obtain ⟨k', hk0, hkk, hcap, hres⟩ := capJump_bound cs.diff
          (min (F64.toInt64 (F64.mul (F64.div (F64.finite s.VarDiff.TargetTime) (F64.finite a))
            (F64.ofInt cs.diff))) s.VarDiff.MaxDiff) (j : Int)
          (min (F64.toInt64 (F64.mul (F64.div (F64.finite s.VarDiff.TargetTime)
            (F64.finite a)) (F64.ofInt cs.diff))) s.VarDiff.MaxDiff - cs.diff) 1 (Or.inl rfl)
          (by positivity) hpos (by omega) hjd (by omega) (by omega) (by ring)
        rw [hJr]
        have e1 : (F64.finite 1 : F64) = F64.finite (((1 : Int)) : ℚ) := by norm_num
        rw [e1, hres]
        exact ⟨hfinal 1 k' (Or.inl rfl) hk0 hcap, by omega, by omega⟩
      · rw [if_neg hup]
        exact ⟨hsame, hlo, hhi⟩

/-- Witness for C18 (as amended): the session with five intervals of 10 s. -/
theorem calcNewDiff_jump_is_capped_witness :
    (|(((calcNewDiff liveEnv plainProxy tenSecondSession emptyProxyWorld).1
          - tenSecondSession.diff : Int) : ℚ)| * 100
        ≤ plainProxy.VarDiff.MaxJump * (tenSecondSession.diff : ℚ)
      ∧ plainProxy.VarDiff.MinDiff
          ≤ (calcNewDiff liveEnv plainProxy tenSecondSession emptyProxyWorld).1
      ∧ (calcNewDiff liveEnv plainProxy tenSecondSession emptyProxyWorld).1
          ≤ plainProxy.VarDiff.MaxDiff)
    ∧ (calcNewDiff liveEnv plainProxy tenSecondSession emptyProxyWorld).1 = 1500 :=
  calcNewDiff_jump_is_capped liveEnv plainProxy tenSecondSession emptyProxyWorld 50
    (by norm_num [plainProxy])
    (F64.round_lit 30 30 (by norm_num) (by norm_num) (by norm_num))
    (by norm_num [plainProxy]) (by norm_num [plainProxy])
    (by decide) (by decide) (by decide) (by decide) (by decide)
    (by
      intro last hl
      have h : last = -10000000000 := by
        have h2 : tenSecondSession.lastShareTime = some (-10000000000) := rfl
        rw [h2] at hl
        exact (Option.some.inj hl).symm
      subst h
      refine ⟨10, ?_, by norm_num, ?_⟩
      · rw [tenSecond_window]
        exact meanSeconds_tenSeconds
      · norm_num [plainProxy, tenSecondSession, plainSession])

/-! ### Stratum: the job target -/

theorem hexDigitValue_digitValue (c : Char) (d : Nat) (h : hexDigitValue c = some d) :
    digitValue c = some d ∧ d < 16 := by
  unfold hexDigitValue at h
  split at h <;> first
    | (simp only [Option.some.injEq] at h; subst h; exact ⟨by decide, by decide⟩)
    | exact absurd h (by simp)

theorem hexFold_ge (digits : List Char) :
    ∀ n : Nat, n ≤ digits.foldl (fun n c => n * 16 + (hexDigitValue c).getD 0) n := by
  induction digits with
  | nil => intro n; exact Nat.le_refl _
  | cons c rest ih =>
    intro n
    simp only [List.foldl_cons]
    exact le_trans (by omega) (ih _)

theorem parseUintLoop_hex (digits : List Char)
    (hdig : ∀ c ∈ digits, (hexDigitValue c).isSome = true) :
    ∀ n : Nat,
      digits.foldl (fun n c => n * 16 + (hexDigitValue c).getD 0) n ≤ 18446744073709551615 →
      parseUintLoop digits n
        = (digits.foldl (fun n c => n * 16 + (hexDigitValue c).getD 0) n, none) := by
  induction digits with
  | nil => intro n _; rfl
  | cons c rest ih =>
    intro n hle
    have hc := hdig c (List.mem_cons_self _ _)
    obtain ⟨d, hd⟩ := Option.isSome_iff_exists.mp hc
    obtain ⟨hdv, hd16⟩ := hexDigitValue_digitValue c d hd
    simp only [List.foldl_cons, hd, Option.getD_some] at hle ⊢
    have hge := hexFold_ge rest (n * 16 + d)
    unfold parseUintLoop
    rw [hdv]
    simp only []
    rw [if_neg (by omega), if_neg (by omega)]
    exact ih (fun c hc => hdig c (List.mem_cons_of_mem _ hc)) _ hle

theorem ParseUint16_hex (digits : List Char)
    (hdig : ∀ c ∈ digits, (hexDigitValue c).isSome = true)
    (hv : hexValue digits < 2 ^ 64) :
    (ParseUint16 (String.mk digits)).1 = hexValue digits := by
  unfold ParseUint16
  by_cases h : digits = []
  · subst h; rfl
  · simp only [h, if_false]
    rw [parseUintLoop_hex digits hdig 0 (by unfold hexValue at hv; omega)]
    rfl

theorem hexBytes_eq_reverse (v : Nat) :
    (hexEncodeToString (putUint64LE v)).data = reverseBytes (beHex16 v) := by
  have e : ∀ n : Nat, hexChar n = "0123456789abcdef".data.getD n '0' := fun _ => rfl
  simp only [hexEncodeToString, putUint64LE, beHex16, List.range, List.range.loop, List.map,
    List.flatMap, List.flatten, reverseBytes, List.append, e, List.nil_append, List.cons_append]
  norm_num
  have h0 : v % 256 / 16 = v / 16 % 16 := by omega
  have h1 : v / 256 % 256 / 16 = v / 4096 % 16 := by omega
  have h2 : v / 65536 % 256 / 16 = v / 1048576 % 16 := by omega
  have h3 : v / 16777216 % 256 / 16 = v / 268435456 % 16 := by omega
  have h4 : v / 4294967296 % 256 / 16 = v / 68719476736 % 16 := by omega
  have h5 : v / 1099511627776 % 256 / 16 = v / 17592186044416 % 16 := by omega
  have h6 : v / 281474976710656 % 256 / 16 = v / 4503599627370496 % 16 := by omega
  have h7 : v / 72057594037927936 % 256 / 16 = v / 1152921504606846976 % 16 := by omega
  rw [h0, h1, h2, h3, h4, h5, h6, h7]
  exact ⟨rfl, rfl, rfl, rfl, rfl, rfl, rfl, rfl⟩

theorem hexBytes_length (v : Nat) : (hexEncodeToString (putUint64LE v)).data.length = 16 := by
  simp [hexEncodeToString, putUint64LE, List.range, List.range.loop, List.flatMap]

theorem hexChar_mem (n : Nat) : hexChar n ∈ "0123456789abcdef".data := by
  unfold hexChar
  by_cases h : n < 16
  · have : n = 0 ∨ n = 1 ∨ n = 2 ∨ n = 3 ∨ n = 4 ∨ n = 5 ∨ n = 6 ∨ n = 7 ∨ n = 8 ∨ n = 9
        ∨ n = 10 ∨ n = 11 ∨ n = 12 ∨ n = 13 ∨ n = 14 ∨ n = 15 := by omega
    rcases this with h | h | h | h | h | h | h | h | h | h | h | h | h | h | h | h <;>
      subst h <;> decide
  · have hlen : "0123456789abcdef".data.length ≤ n := by
      have : "0123456789abcdef".data.length = 16 := rfl
      omega
    rw [List.getD_eq_default _ _ hlen]
    decide

theorem hexBytes_lowercase (bs : List Nat) :
    ∀ ch ∈ (hexEncodeToString bs).data, ch ∈ "0123456789abcdef".data := by
  intro ch hch
  simp only [hexEncodeToString, List.mem_flatMap, List.mem_cons, List.mem_singleton,
    List.not_mem_nil, or_false] at hch
  obtain ⟨b, _, hb | hb⟩ := hch
  · rw [hb]; exact hexChar_mem _
  · rw [hb]; exact hexChar_mem _

theorem utf8ByteSize_0x (digits : List Char) :
    2 ≤ (String.mk ('0' :: 'x' :: digits)).utf8ByteSize := by
  simp only [String.utf8ByteSize, String.utf8ByteSize.go]
  have h0 : '0'.utf8Size = 1 := by decide
  have hx : 'x'.utf8Size = 1 := by decide
  omega

/-- C20: for a target string `0x` followed by hexadecimal digits that denote a
value v < 2^64 (and a header hash of at least 34 bytes, so that the job id can
be cut), `getJob` builds a job whose `target` field is exactly 16 lowercase
hexadecimal characters: the 8 bytes of v in little-endian order, which is the
byte-reversal of the 16-digit big-endian hexadecimal rendering of v. -/
theorem getJob_target_is_little_endian (cs : Session) (hash blob algo : String)
    (digits : List Char)
    (hdig : ∀ c ∈ digits, (hexDigitValue c).isSome = true)
    (hv : hexValue digits < 2 ^ 64)
    (hhash : 34 ≤ hash.utf8ByteSize) :
    ∃ job cs1, getJob cs hash blob (String.mk ('0' :: 'x' :: digits)) algo = some (job, cs1)
      ∧ job.target.data = reverseBytes (beHex16 (hexValue digits))
      ∧ job.target.data
          = (List.range 8).flatMap (fun i =>
              [hexChar (hexValue digits / 256 ^ i % 256 / 16),
               hexChar (hexValue digits / 256 ^ i % 256 % 16)])
      ∧ job.target.data.length = 16
      ∧ (∀ ch ∈ job.target.data, ch ∈ "0123456789abcdef".data) := by
  have h2 : ¬ (String.mk ('0' :: 'x' :: digits)).utf8ByteSize < 2 :=
    not_lt.mpr (utf8ByteSize_0x digits)
  have h34 : ¬ hash.utf8ByteSize < 34 := not_lt.mpr hhash
  have hp : (ParseUint16 (String.mk (List.drop 2 ('0' :: 'x' :: digits)))).1
      = hexValue digits := ParseUint16_hex digits hdig hv
  refine ⟨{ blob := blob, job_id := String.mk ((hash.data.drop 2).take 32),
            target := hexEncodeToString (putUint64LE (hexValue digits)), algo := algo },
    { cs with hashNoNonce := hash }, ?_, ?_, ?_, ?_, ?_⟩
  · unfold getJob
    simp only [h2, h34, if_false, hp]
  · exact hexBytes_eq_reverse _
  · simp [hexEncodeToString, putUint64LE, List.flatMap_map]
  · exact hexBytes_length _
  · exact hexBytes_lowercase _

/-- Witness for C20: the target `0x00000000ffffffff`, whose value is 2^32 - 1. -/
theorem getJob_target_is_little_endian_witness :
    ∃ job cs1,
      getJob plainSession "0x0123456789abcdef0123456789abcdef0123456789abcdef" "0xblob"
          (String.mk ('0' :: 'x' :: "00000000ffffffff".data)) "cryptonight-webchain"
        = some (job, cs1)
      ∧ job.target.data = reverseBytes (beHex16 (hexValue "00000000ffffffff".data))
      ∧ job.target.data
          = (List.range 8).flatMap (fun i =>
              [hexChar (hexValue "00000000ffffffff".data / 256 ^ i % 256 / 16),
               hexChar (hexValue "00000000ffffffff".data / 256 ^ i % 256 % 16)])
      ∧ job.target.data.length = 16
      ∧ (∀ ch ∈ job.target.data, ch ∈ "0123456789abcdef".data) :=
  getJob_target_is_little_endian plainSession
    "0x0123456789abcdef0123456789abcdef0123456789abcdef" "0xblob" "cryptonight-webchain"
    "00000000ffffffff".data (by decide) (by decide) (by decide)

/-! ### Stratum: the dispatcher -/

theorem sendTCPResult_sent {W : Type} (env : StratumEnv W) (c : Conn W) (id : Option String)
    (result : ReplyResult) :
    (sendTCPResult env c id result).2.sent
        = c.sent ++ [{ Id := id, Version := "2.0", Result := some result, Error := none }]
      ∧ (sendTCPResult env c id result).2.world.trace = c.world.trace
      ∧ (sendTCPResult env c id result).2.registered = c.registered
      ∧ (sendTCPResult env c id result).2.closed = c.closed :=
  ⟨rfl, rfl, rfl, rfl⟩

theorem sendTCPError_sent {W : Type} (env : StratumEnv W) (c : Conn W) (id : Option String)
    (reply : ErrorReply) :
    (sendTCPError env c id reply).2.sent
        = c.sent ++ [{ Id := id, Version := "2.0", Result := none, Error := some reply }]
      ∧ (sendTCPError env c id reply).2.world.trace = c.world.trace
      ∧ (sendTCPError env c id reply).2.registered = c.registered
      ∧ (sendTCPError env c id reply).2.closed = c.closed
      ∧ (sendTCPError env c id reply).1
          = some ((env.Encode c.world.st
              { Id := id, Version := "2.0", Result := none, Error := some reply }).1.getD
                reply.Message) := by
  unfold sendTCPError
  cases h : (env.Encode c.world.st
      { Id := id, Version := "2.0", Result := none, Error := some reply }).1 <;>
    simp [h]

theorem handleGetWorkRPC_length {W : Type} (env : StratumEnv W) (s : ProxyServer)
    (cs : Session) (w : ProxyWorld W) :
    (handleGetWorkRPC env s cs w).1.1.length ≤ 3 := by
  unfold handleGetWorkRPC
  cases env.currentBlockTemplate w.st with
  | none => simp
  | some t =>
    simp only []
    split_ifs <;> simp

theorem sendJob_short {W : Type} (env : StratumEnv W) (cs : Session) (id : Option String)
    (work : List String) (c : Conn W) (h : work.length ≤ 3) :
    sendJob env cs id work c = none := by
  have h3 : work[3]? = none := List.getElem?_eq_none (by omega)
  unfold sendJob
  rw [h3]
  cases work[0]? <;> cases work[1]? <;> cases work[2]? <;> rfl

/-- C15: the dispatcher reads `work[3]`, but `handleGetWorkRPC` returns a list of
three elements (header, seed, target) for a ready template and no list
otherwise. So for every session and every ready template a `getjob` request
panics with an index out of range instead of producing a job, and so does the
job reply of every successful `login`, whatever the template. -/
theorem getjob_reads_past_the_work_list {W : Type} (env : StratumEnv W) (s : ProxyServer)
    (cs : Session) (c : Conn W) (t : BlockTemplate)
    (ht : env.currentBlockTemplate c.world.st = some t)
    (hh : t.Header.utf8ByteSize ≠ 0)
    (hs : env.isSick c.world.st = false) :
    handleGetWorkRPC env s cs c.world
        = (([t.Header, t.Seed, env.GetTargetHex cs.nextDiff], none),
            { cs with diff := cs.nextDiff })
      ∧ (∀ req : StratumReq, req.Method = "getjob" → handleTCPMessage env s cs req c = none)
      ∧ (∀ (req : StratumReq) (raw : String) (params : List (String × String))
            (cs1 : Session) (c1 : Conn W),
          req.Method = "login" → req.Params = some raw →
          env.unmarshalParams raw = Except.ok params →
          handleLoginRPC env s cs params req.Worker c = ((true, none), cs1, c1) →
          handleTCPMessage env s cs req c = none) := by
  have hw : handleGetWorkRPC env s cs c.world
      = (([t.Header, t.Seed, env.GetTargetHex cs.nextDiff], none),
          { cs with diff := cs.nextDiff }) := by
    unfold handleGetWorkRPC
    simp [ht, hh, hs]
  refine ⟨hw, ?_, ?_⟩
  · intro req hm
    unfold handleTCPMessage
    have h1 : ¬ req.Method = "login" := by rw [hm]; decide
    rw [if_neg h1, if_pos hm, hw]
    exact sendJob_short _ _ _ _ _ (by simp)
  · intro req raw params cs1 c1 hm hp hu hl
    unfold handleTCPMessage
    rw [if_pos hm, hp]
    simp only [hu, hl]
    exact sendJob_short _ _ _ _ _ (handleGetWorkRPC_length _ _ _ _)

/-- Witness for C15: a `getjob` on the ready template of `liveEnv`. -/
theorem getjob_reads_past_the_work_list_witness :
    handleTCPMessage liveStratum plainProxy plainSession
        { Id := some "1", Method := "getjob", Params := none, Worker := "rig1" } openConn
      = none :=
  (getjob_reads_past_the_work_list liveStratum plainProxy plainSession openConn liveTemplate
    rfl (by decide) rfl).2.1 _ rfl

theorem handleTCPMessage_unknown {W : Type} (env : StratumEnv W) (s : ProxyServer)
    (cs : Session) (req : StratumReq) (c : Conn W)
    (h1 : req.Method ≠ "login") (h2 : req.Method ≠ "getjob") (h3 : req.Method ≠ "submit")
    (h4 : req.Method ≠ "keepalived") :
    handleTCPMessage env s cs req c
      = some ((sendTCPError env (handleUnknownRPC env cs req.Method c).2 req.Id
                { Code := -3, Message := "Method not found" }).1, cs,
              (sendTCPError env (handleUnknownRPC env cs req.Method c).2 req.Id
                { Code := -3, Message := "Method not found" }).2) := by
  unfold handleTCPMessage
  rw [if_neg h1, if_neg h2, if_neg h3, if_neg h4]
  rfl

/-- C16 (as amended): for a request whose method is none of login,
getjob, submit, keepalived, the server sends one error reply with code -3 and
applies the malformed policy exactly once, but `handleTCPMessage` returns a
non-nil error (the write error, or else the message of the reply), because
`sendTCPError` returns an error after every reply it sends. The reader loop
stops at that request, and the connection goroutine removes the session and
closes the connection. -/
theorem unknown_method_closes_the_connection {W : Type} (env : StratumEnv W)
    (s : ProxyServer) (cs : Session) (req : StratumReq) (c : Conn W)
    (h1 : req.Method ≠ "login") (h2 : req.Method ≠ "getjob") (h3 : req.Method ≠ "submit")
    (h4 : req.Method ≠ "keepalived") :
    ∃ (err : String) (c1 : Conn W),
      handleTCPMessage env s cs req c = some (some err, cs, c1)
      ∧ c1.sent = c.sent ++
          [{ Id := req.Id, Version := "2.0", Result := none,
             Error := some { Code := -3, Message := "Method not found" } }]
      ∧ c1.world.trace = c.world.trace ++ [ProxyCall.ApplyMalformedPolicy cs.ip]
      ∧ c1.registered = c.registered ∧ c1.closed = c.closed
      ∧ (∀ (line : ReadLine) (rest : List ReadLine),
          line.tooLong = false → line.err = none → 1 < line.data.utf8ByteSize →
          env.unmarshalReq line.data = Except.ok req →
          handleTCPClient env s cs (line :: rest) c
              = some (ClientEnd.returned (some err), cs, c1)
            ∧ serveConnection env s cs (line :: rest) c
              = some (ClientEnd.returned (some err), cs,
                  { c1 with registered := false, closed := true })) := by
  have hmsg := handleTCPMessage_unknown env s cs req c h1 h2 h3 h4
  obtain ⟨hsent, htrace, hreg, hclosed, herr⟩ :=
    sendTCPError_sent env (handleUnknownRPC env cs req.Method c).2 req.Id
      { Code := -3, Message := "Method not found" }
  rw [herr] at hmsg
  refine ⟨_, _, hmsg, ?_, ?_, ?_, ?_, ?_⟩
  · rw [hsent]; rfl
  · rw [htrace]; rfl
  · rw [hreg]; rfl
  · rw [hclosed]; rfl
  · intro line rest hl he hd hu
    have hclient : handleTCPClient env s cs (line :: rest) c
        = some (ClientEnd.returned (some ((env.Encode (handleUnknownRPC env cs req.Method c).2.world.st
              { Id := req.Id, Version := "2.0", Result := none,
                Error := some { Code := -3, Message := "Method not found" } }).1.getD
                "Method not found")), cs,
            (sendTCPError env (handleUnknownRPC env cs req.Method c).2 req.Id
              { Code := -3, Message := "Method not found" }).2) := by
      unfold handleTCPClient
      simp only [hl, he, hd, hu, hmsg, if_true]
      simp
    refine ⟨hclient, ?_⟩
    unfold serveConnection
    rw [hclient]

/-- Witness for C16 (as amended): the method `ping`. -/
theorem unknown_method_closes_the_connection_witness :
    ∃ (err : String) (c1 : Conn Unit),
      handleTCPMessage liveStratum plainProxy plainSession pingReq openConn
        = some (some err, plainSession, c1)
      ∧ c1.sent = openConn.sent ++
          [{ Id := pingReq.Id, Version := "2.0", Result := none,
             Error := some { Code := -3, Message := "Method not found" } }]
      ∧ c1.world.trace = openConn.world.trace ++ [ProxyCall.ApplyMalformedPolicy plainSession.ip]
      ∧ c1.registered = openConn.registered ∧ c1.closed = openConn.closed
      ∧ (∀ (line : ReadLine) (rest : List ReadLine),
          line.tooLong = false → line.err = none → 1 < line.data.utf8ByteSize →
          liveStratum.unmarshalReq line.data = Except.ok pingReq →
          handleTCPClient liveStratum plainProxy plainSession (line :: rest) openConn
              = some (ClientEnd.returned (some err), plainSession, c1)
            ∧ serveConnection liveStratum plainProxy plainSession (line :: rest) openConn
              = some (ClientEnd.returned (some err), plainSession,
                  { c1 with registered := false, closed := true })) :=
  unknown_method_closes_the_connection liveStratum plainProxy plainSession pingReq openConn
    (by decide) (by decide) (by decide) (by decide)

/-- C16 fails as stated: a `ping` request followed by a `keepalived` request.
`handleTCPMessage` returns the error `Method not found` for the first one; the
second one is never read, the session is removed and the connection closed. -/
theorem unknown_method_returns_an_error :
    (handleTCPMessage liveStratum plainProxy plainSession pingReq openConn).map (fun r => r.1)
        = some (some "Method not found")
      ∧ serveConnection liveStratum plainProxy plainSession
          [{ data := "ping", tooLong := false, err := none },
           { data := "keepalived", tooLong := false, err := none }] openConn
        = some (ClientEnd.returned (some "Method not found"), plainSession,
            { world := { st := (), trace := [ProxyCall.ApplyMalformedPolicy "10.0.0.1"] },
              sent := [{ Id := some "1", Version := "2.0", Result := none,
                         Error := some { Code := -3, Message := "Method not found" } }],
              registered := false, closed := true }) := by
  constructor <;> rfl

/-! ### Stratum: the reply to a submit -/

theorem processShare_total {W : Type} (env : ProxyEnv W) (s : ProxyServer)
    (login id ip a b : String) (rest : List String) (t : BlockTemplate) (shareDiff : Int)
    (w : ProxyWorld W) :
    ∃ exist valid w1,
      processShare env s login id ip (some t) (a :: b :: rest) shareDiff w
        = some ((exist, valid), w1) := by
  cases hl : t.headers.lookup b with
  | none => exact ⟨false, false, w, by simp [processShare, hl]⟩
  | some h =>
    rw [processShare_live env s login id ip a b rest t h shareDiff w hl]
    split_ifs
    · exact ⟨_, _, _, rfl⟩
    · rcases hsb : w.call (ProxyCall.SubmitBlock (a :: b :: rest))
          (fun st => env.SubmitBlock st (a :: b :: rest)) with ⟨r, w1⟩
      cases r with
      | error e => exact ⟨_, _, _, rfl⟩
      | ok ok =>
        cases ok with
        | false => exact ⟨_, _, _, rfl⟩
        | true =>
          simp only []
          rcases hwb : (w1.call ProxyCall.FetchBlockTemplate
              (fun st => ((), env.fetchBlockTemplate st))).2.call
              (ProxyCall.WriteBlock login id (a :: b :: rest) shareDiff (wrapInt64 h.diff)
                h.height)
              (fun st => env.WriteBlock st login id (a :: b :: rest) shareDiff
                (wrapInt64 h.diff) h.height s.hashrateExpiration) with ⟨⟨e, er⟩, w3⟩
          cases e <;> exact ⟨_, _, _, rfl⟩
    · rcases hws : w.call (ProxyCall.WriteShare login id (a :: b :: rest) shareDiff h.height)
          (fun st => env.WriteShare st login id (a :: b :: rest) shareDiff h.height
            s.hashrateExpiration) with ⟨⟨e, er⟩, w1⟩
      cases e <;> exact ⟨_, _, _, rfl⟩

/-- C11 (as amended): for a submit from a registered session, with
parameters that decode and a template in place, the share processor returns a
pair (exist, valid), the share policy an answer ok, and exactly one message is
sent: the error 22 if exist; otherwise, for an invalid share, the error 23 if
not ok and the plain result `false` with no error if ok; otherwise, for a
valid share, the error -1 `High rate of invalid shares` if not ok and the
result with status `OK` and no error if ok. -/
theorem submit_reply_follows_outcome {W : Type} (env : StratumEnv W) (s : ProxyServer)
    (cs : Session) (req : StratumReq) (c : Conn W) (raw : String)
    (params : List (String × String)) (t : BlockTemplate)
    (hm : req.Method = "submit") (hp : req.Params = some raw)
    (hu : env.unmarshalParams raw = Except.ok params)
    (hreg : c.registered = true)
    (ht : env.currentBlockTemplate c.world.st = some t) :
    ∃ (exist valid : Bool) (w1 : ProxyWorld W) (out : Option String × Session × Conn W),
      processShare env.toProxyEnv s cs.login
          (if !workerPatternMatch req.Worker then "0" else req.Worker) cs.ip (some t)
          ["0x" ++ (params.lookup "nonce").getD "", cs.hashNoNonce,
           "0x" ++ (params.lookup "result").getD ""] cs.diff c.world
        = some ((exist, valid), w1)
      ∧ handleTCPMessage env s cs req c = some out
      ∧ out.2.2.sent = c.sent ++
          [if exist then
             { Id := req.Id, Version := "2.0", Result := none,
               Error := some { Code := 22, Message := "Duplicate share" } }
           else if !valid then
             if !(env.ApplySharePolicy w1.st cs.ip (!exist && valid)).1 then
               { Id := req.Id, Version := "2.0", Result := none,
                 Error := some { Code := 23, Message := "Invalid share" } }
             else
               { Id := req.Id, Version := "2.0", Result := some (ReplyResult.flag false),
                 Error := none }
           else if !(env.ApplySharePolicy w1.st cs.ip (!exist && valid)).1 then
             { Id := req.Id, Version := "2.0", Result := none,
               Error := some { Code := -1, Message := "High rate of invalid shares" } }
           else
             { Id := req.Id, Version := "2.0",
               Result := some (ReplyResult.job { Id := "", Job := none, Status := "OK" }),
               Error := none }] := by
  obtain ⟨exist, valid, w1, hps⟩ := processShare_total env.toProxyEnv s cs.login
    (if !workerPatternMatch req.Worker then "0" else req.Worker) cs.ip
    ("0x" ++ (params.lookup "nonce").getD "") cs.hashNoNonce
    ["0x" ++ (params.lookup "result").getD ""] t cs.diff c.world
  have h1 : ¬ req.Method = "login" := by rw [hm]; decide
  have h2 : ¬ req.Method = "getjob" := by rw [hm]; decide
  suffices key : ∃ out : Option String × Session × Conn W,
      handleTCPMessage env s cs req c = some out
      ∧ out.2.2.sent = c.sent ++
          [if exist then
             { Id := req.Id, Version := "2.0", Result := none,
               Error := some { Code := 22, Message := "Duplicate share" } }
           else if !valid then
             if !(env.ApplySharePolicy w1.st cs.ip (!exist && valid)).1 then
               { Id := req.Id, Version := "2.0", Result := none,
                 Error := some { Code := 23, Message := "Invalid share" } }
             else
               { Id := req.Id, Version := "2.0", Result := some (ReplyResult.flag false),
                 Error := none }
           else if !(env.ApplySharePolicy w1.st cs.ip (!exist && valid)).1 then
             { Id := req.Id, Version := "2.0", Result := none,
               Error := some { Code := -1, Message := "High rate of invalid shares" } }
           else
             { Id := req.Id, Version := "2.0",
               Result := some (ReplyResult.job { Id := "", Job := none, Status := "OK" }),
               Error := none }] by
    obtain ⟨out, ho1, ho2⟩ := key
    exact ⟨exist, valid, w1, out, hps, ho1, ho2⟩
  unfold handleTCPMessage
  rw [if_neg h1, if_neg h2, if_pos hm, hp]
  simp only [hu]
  unfold handleTCPSubmitRPC
  simp only [hreg, Bool.not_true, Bool.false_eq_true, if_false]
  unfold handleSubmitRPC
  simp only [List.length_cons, List.length_nil, ht, hps]
  rcases hpol : w1.call (ProxyCall.ApplySharePolicy cs.ip (!exist && valid))
      (fun st => env.ApplySharePolicy st cs.ip (!exist && valid)) with ⟨ok, w2⟩
  have hok : (env.ApplySharePolicy w1.st cs.ip (!exist && valid)).1 = ok := by
    have := congrArg Prod.fst hpol
    simpa [ProxyWorld.call] using this
  rw [hok]
  cases exist <;> cases valid <;> cases ok <;>
    exact ⟨_, rfl, by
      first
        | exact (sendTCPError_sent _ _ _ _).1
        | exact (sendTCPResult_sent _ _ _ _).1⟩

/-- Witness for C11 (as amended): a submit on the open connection of
`liveStratum`. -/
theorem submit_reply_follows_outcome_witness :
    ∃ out : Option String × Session × Conn Unit,
      handleTCPMessage liveStratum plainProxy plainSession submitReq openConn = some out :=
  match submit_reply_follows_outcome liveStratum plainProxy plainSession submitReq openConn
      "params" [("nonce", "01"), ("result", "00")] liveTemplate rfl rfl rfl rfl rfl with
  | ⟨_, _, _, out, _, h, _⟩ => ⟨out, h⟩

/-- C11 fails as stated: a submit for the header `0xstale`, which is not in the
template. The share processor reports an invalid share, the share policy
reports that the tolerance is not exceeded, and the reply is the result
`false`: neither an error nor the result with status `OK`. -/
theorem invalid_share_within_tolerance_gets_false :
    processShare liveStratum.toProxyEnv plainProxy plainSession.login "rig1" plainSession.ip
        (some liveTemplate) ["0x01", plainSession.hashNoNonce, "0x00"] plainSession.diff
        openConn.world
      = some ((false, false), openConn.world)
    ∧ (liveStratum.ApplySharePolicy () plainSession.ip false).1 = true
    ∧ handleTCPMessage liveStratum plainProxy plainSession submitReq openConn
      = some (none, plainSession,
          { world := { st := (), trace := [ProxyCall.ApplySharePolicy "10.0.0.1" false] },
            sent := [{ Id := some "1", Version := "2.0",
                       Result := some (ReplyResult.flag false), Error := none }],
            registered := true, closed := false }) := by
  refine ⟨rfl, rfl, rfl⟩

/-! ### Reward curve: uncles and monotonicity -/

theorem geo_step (X : Int) (hX : 0 ≤ X) (n : Nat) :
    X * 249 ^ (n + 1) / 250 ^ (n + 1) ≤ X * 249 ^ n / 250 ^ n := by
  have h250 : (0 : Int) < 250 ^ n := by positivity
  have h250' : (0 : Int) < 250 ^ (n + 1) := by positivity
  have hY : 0 ≤ X * 249 ^ n := by positivity
  rw [Int.le_ediv_iff_mul_le h250]
  have h1 := Int.ediv_mul_le (X * 249 ^ (n + 1)) (ne_of_gt h250')
  have e1 : ∀ q : Int, q * 250 ^ (n + 1) = q * 250 ^ n * 250 := fun q => by
    rw [pow_succ, mul_assoc]
  have e2 : X * 249 ^ (n + 1) = X * 249 ^ n * 249 := by
    rw [pow_succ, mul_assoc]
  rw [e1] at h1
  rw [e2] at h1 ⊢
  generalize X * 249 ^ n * 249 / 250 ^ (n + 1) * 250 ^ n = t at h1 ⊢
  generalize X * 249 ^ n = a at h1 hY ⊢
  omega

theorem winnerReward_zero : GetBlockWinnerRewardByEra 0 = 50 * 10 ^ 18 := by
  rw [GetBlockWinnerRewardByEra]
  norm_num

theorem winnerReward_geo (n : Nat) (hn : n ≤ 32) :
    GetBlockWinnerRewardByEra (n : Int) = 50 * 10 ^ 18 * 249 ^ n / 250 ^ n := by
  by_cases h0 : n = 0
  · subst h0
    rw [Nat.cast_zero, winnerReward_zero]
    norm_num
  · rw [winnerReward_main (n : Int) (by omega) (by omega)]
    have hp : ¬ (n : Int) ≤ 0 := by omega
    simp only [bigExp, bigDiv, hp, if_false, Int.toNat_ofNat]

theorem winnerReward_geo_skip (n : Nat) (hn : 45 ≤ n) :
    GetBlockWinnerRewardByEra (n : Int)
      = 50 * 10 ^ 18 * 249 ^ (n + 475) / 250 ^ (n + 475) := by
  rw [winnerReward_skip (n : Int) (by omega)]
  have hp : ¬ (n : Int) + 475 ≤ 0 := by omega
  have ht : ((n : Int) + 475).toNat = n + 475 := by omega
  simp only [bigExp, bigDiv, hp, if_false, ht]

theorem geo_strict_step (n : Nat) (hn : n < 32) :
    (50 * 10 ^ 18 * 249 ^ (n + 1) / 250 ^ (n + 1) : Int) < 50 * 10 ^ 18 * 249 ^ n / 250 ^ n := by
  interval_cases n <;> norm_num

theorem geo_strict (m n : Nat) (hmn : m < n) (hn : n ≤ 32) :
    (50 * 10 ^ 18 * 249 ^ n / 250 ^ n : Int) < 50 * 10 ^ 18 * 249 ^ m / 250 ^ m := by
  induction n with
  | zero => omega
  | succ k ih =>
    by_cases hk : m < k
    · exact lt_trans (geo_strict_step k (by omega)) (ih hk (by omega))
    · have : m = k := by omega
      subst this
      exact geo_strict_step m (by omega)

/-- C21: for every era, `getEraUncleBlockReward(era)` is the integer floor of
`GetBlockWinnerRewardByEra(era) / 32`, that is
uncleReward * 32 <= winnerReward < uncleReward * 32 + 32; for era 0 it is
1562500000000000000. -/
theorem uncle_reward_is_floor_of_winner_over_32 (era : Int) :
    getEraUncleBlockReward era = ⌊((GetBlockWinnerRewardByEra era : Int) : ℚ) / 32⌋
      ∧ getEraUncleBlockReward era * 32 ≤ GetBlockWinnerRewardByEra era
      ∧ GetBlockWinnerRewardByEra era < getEraUncleBlockReward era * 32 + 32
      ∧ getEraUncleBlockReward 0 = 1562500000000000000 := by
  have h1 : getEraUncleBlockReward era * 32 ≤ GetBlockWinnerRewardByEra era := by
    simp only [getEraUncleBlockReward, bigDiv, big32]
    exact Int.ediv_mul_le _ (by norm_num)
  have h2 : GetBlockWinnerRewardByEra era < getEraUncleBlockReward era * 32 + 32 := by
    simp only [getEraUncleBlockReward, bigDiv, big32]
    have := Int.lt_ediv_add_one_mul_self (GetBlockWinnerRewardByEra era)
      (by norm_num : (0 : Int) < 32)
    linarith
  refine ⟨?_, h1, h2, ?_⟩
  · symm
    rw [Int.floor_eq_iff]
    have h1q : ((getEraUncleBlockReward era * 32 : Int) : ℚ)
        ≤ ((GetBlockWinnerRewardByEra era : Int) : ℚ) := by exact_mod_cast h1
    have h2q : ((GetBlockWinnerRewardByEra era : Int) : ℚ)
        < ((getEraUncleBlockReward era * 32 + 32 : Int) : ℚ) := by exact_mod_cast h2
    push_cast at h1q h2q
    constructor
    · rw [le_div_iff₀ (by norm_num)]
      exact h1q
    · rw [div_lt_iff₀ (by norm_num)]
      linarith
  · simp only [getEraUncleBlockReward, bigDiv, big32, winnerReward_zero]
    norm_num

/-- C22: on the part of the curve before the bands the winner reward is strictly
decreasing: for 0 <= era1 < era2 < 33,
`GetBlockWinnerRewardByEra(era1) > GetBlockWinnerRewardByEra(era2)`. -/
theorem winner_reward_strictly_decreasing_before_bands (era1 era2 : Int)
    (h0 : 0 ≤ era1) (h12 : era1 < era2) (h33 : era2 < 33) :
    GetBlockWinnerRewardByEra era1 > GetBlockWinnerRewardByEra era2 := by
  obtain ⟨m, hm⟩ := Int.eq_ofNat_of_zero_le h0
  obtain ⟨n, hn⟩ := Int.eq_ofNat_of_zero_le (by omega : 0 ≤ era2)
  subst hm hn
  rw [winnerReward_geo m (by omega), winnerReward_geo n (by omega)]
  exact geo_strict m n (by omega) (by omega)

/-- Witness for C22: eras 31 and 32. -/
theorem winner_reward_strictly_decreasing_before_bands_witness :
    GetBlockWinnerRewardByEra 31 > GetBlockWinnerRewardByEra 32 :=
  winner_reward_strictly_decreasing_before_bands 31 32 (by decide) (by decide) (by decide)

theorem winnerReward_32_value :
    GetBlockWinnerRewardByEra 32 = 43981378160413714444 := by
  rw [winnerReward_32]
  norm_num

theorem winnerReward_bands :
    GetBlockWinnerRewardByEra 33 = 42148820737063143009
      ∧ GetBlockWinnerRewardByEra 34 = 40316263313712571574
      ∧ GetBlockWinnerRewardByEra 35 = 38483705890362000139
      ∧ GetBlockWinnerRewardByEra 36 = 20000000000000000000
      ∧ GetBlockWinnerRewardByEra 37 = 13000000000000000000
      ∧ GetBlockWinnerRewardByEra 38 = 12000000000000000000
      ∧ GetBlockWinnerRewardByEra 39 = 11000000000000000000
      ∧ GetBlockWinnerRewardByEra 40 = 10000000000000000000
      ∧ GetBlockWinnerRewardByEra 41 = 9000000000000000000
      ∧ GetBlockWinnerRewardByEra 42 = 8000000000000000000
      ∧ GetBlockWinnerRewardByEra 43 = 7000000000000000000
      ∧ GetBlockWinnerRewardByEra 44 = 6250000000000000000
      ∧ GetBlockWinnerRewardByEra 45 = 6220509886469656926 := by
  refine ⟨?_, ?_, ?_, ?_, ?_, ?_, ?_, ?_, ?_, ?_, ?_, ?_, ?_⟩
  · rw [winnerReward_band 33 (by decide) (by decide), winnerReward_32_value]
    norm_num [bigDiv]
  · rw [winnerReward_band 34 (by decide) (by decide), winnerReward_32_value]
    norm_num [bigDiv]
  · rw [winnerReward_band 35 (by decide) (by decide), winnerReward_32_value]
    norm_num [bigDiv]
  · rw [winnerReward_table 36 (by decide) (by decide)]; simp [eraRewardsTable]
  · rw [winnerReward_table 37 (by decide) (by decide)]; simp [eraRewardsTable]
  · rw [winnerReward_table 38 (by decide) (by decide)]; simp [eraRewardsTable]
  · rw [winnerReward_table 39 (by decide) (by decide)]; simp [eraRewardsTable]
  · rw [winnerReward_table 40 (by decide) (by decide)]; simp [eraRewardsTable]
  · rw [winnerReward_table 41 (by decide) (by decide)]; simp [eraRewardsTable]
  · rw [winnerReward_table 42 (by decide) (by decide)]; simp [eraRewardsTable]
  · rw [winnerReward_table 43 (by decide) (by decide)]; simp [eraRewardsTable]
  · rw [winnerReward_table 44 (by decide) (by decide)]; simp [eraRewardsTable]
  · have h := winnerReward_geo_skip 45 (by decide)
    rw [Nat.cast_ofNat] at h
    rw [h]
    norm_num

theorem winnerReward_step (e : Int) (h0 : 0 ≤ e) :
    GetBlockWinnerRewardByEra (e + 1) ≤ GetBlockWinnerRewardByEra e := by
  obtain ⟨n, hn⟩ := Int.eq_ofNat_of_zero_le h0
  subst hn
  by_cases h31 : n ≤ 31
  · have h1 := winnerReward_geo (n + 1) (by omega)
    rw [Nat.cast_add, Nat.cast_one] at h1
    rw [h1, winnerReward_geo n (by omega)]
    exact geo_step _ (by norm_num) n
  by_cases h44 : n ≤ 44
  · obtain ⟨v33, v34, v35, v36, v37, v38, v39, v40, v41, v42, v43, v44, v45⟩ :=
      winnerReward_bands
    have v32 := winnerReward_32_value
    have : n = 32 ∨ n = 33 ∨ n = 34 ∨ n = 35 ∨ n = 36 ∨ n = 37 ∨ n = 38 ∨ n = 39 ∨ n = 40
        ∨ n = 41 ∨ n = 42 ∨ n = 43 ∨ n = 44 := by omega
    rcases this with h | h | h | h | h | h | h | h | h | h | h | h | h <;> subst h <;>
      norm_num [v32, v33, v34, v35, v36, v37, v38, v39, v40, v41, v42, v43, v44, v45]
  · have h1 := winnerReward_geo_skip (n + 1) (by omega)
    rw [Nat.cast_add, Nat.cast_one] at h1
    rw [h1, winnerReward_geo_skip n (by omega)]
    exact geo_step _ (by norm_num) (n + 475)

theorem winnerReward_antitone (m : Int) (hm : 0 ≤ m) (k : Nat) :
    GetBlockWinnerRewardByEra (m + k) ≤ GetBlockWinnerRewardByEra m := by
  induction k with
  | zero => simp
  | succ j ih =>
    have e : m + ((j + 1 : Nat) : Int) = (m + j) + 1 := by push_cast; ring
    rw [e]
    exact le_trans (winnerReward_step (m + j) (by omega)) ih

/-- C27: the winner reward never increases with the era: for 0 <= era1 <= era2,
`GetBlockWinnerRewardByEra(era2) <= GetBlockWinnerRewardByEra(era1)`. This
includes the boundaries 32 -> 33 and 35 -> 36 of the bands and the era skip
44 -> 45, where 625 * 10^16 is followed by the main curve at exponent 520. -/
theorem winner_reward_never_increases (era1 era2 : Int) (h0 : 0 ≤ era1)
    (h12 : era1 ≤ era2) :
    GetBlockWinnerRewardByEra era2 ≤ GetBlockWinnerRewardByEra era1
      ∧ GetBlockWinnerRewardByEra 33 ≤ GetBlockWinnerRewardByEra 32
      ∧ GetBlockWinnerRewardByEra 36 ≤ GetBlockWinnerRewardByEra 35
      ∧ GetBlockWinnerRewardByEra 44 = 625 * 10 ^ 16
      ∧ GetBlockWinnerRewardByEra 45 = 50 * 10 ^ 18 * 249 ^ 520 / 250 ^ 520
      ∧ GetBlockWinnerRewardByEra 45 ≤ GetBlockWinnerRewardByEra 44 := by
  refine ⟨?_, winnerReward_step 32 (by decide), winnerReward_step 35 (by decide), ?_, ?_,
    winnerReward_step 44 (by decide)⟩
  · obtain ⟨k, hk⟩ := Int.eq_ofNat_of_zero_le (by omega : 0 ≤ era2 - era1)
    have e : era2 = era1 + (k : Int) := by omega
    rw [e]
    exact winnerReward_antitone era1 h0 k
  · rw [winnerReward_table 44 (by decide) (by decide)]
    simp [eraRewardsTable]
  · have h := winnerReward_geo_skip 45 (by decide)
    rw [Nat.cast_ofNat] at h
    exact h

/-- Witness for C27: eras 44 and 45, across the era skip. -/
theorem winner_reward_never_increases_witness :
    GetBlockWinnerRewardByEra 45 ≤ GetBlockWinnerRewardByEra 44 :=
  (winner_reward_never_increases 44 45 (by decide) (by decide)).1

/-! ### `handleBlock`: height and reward of a mined block -/

theorem extraRewardLoop_sum {W : Type} (env : Env W) :
    ∀ (txs : List Tx) (rs : List (Option TxReceipt)) (amount : Int) (w : World W),
      receiptsOf env txs w.st = some rs →
      (∀ p ∈ txs.zip rs, (txFee env p.1 p.2).isSome = true) →
      ∃ st1, extraRewardLoop env txs amount w
        = (Except.ok (amount + feeSum env txs rs),
            { st := st1, trace := w.trace ++ txs.map (fun tx => Call.GetTxReceipt tx.Hash) }) := by
  intro txs
  induction txs with
  | nil =>
    intro rs amount w hrec _
    simp only [receiptsOf, Option.some.injEq] at hrec
    subst hrec
    exact ⟨w.st, by simp [extraRewardLoop, feeSum]⟩
  | cons tx rest ih =>
    intro rs amount w hrec hwf
    simp only [receiptsOf] at hrec
    rcases hq : env.GetTxReceipt w.st tx.Hash with ⟨r, st1⟩
    rw [hq] at hrec
    cases r with
    | error err => simp at hrec
    | ok receipt =>
      simp only [Option.map_eq_some'] at hrec
      obtain ⟨rs1, hrs1, hrs⟩ := hrec
      subst hrs
      have hw0 := hwf (tx, receipt) (by simp)
      have hwrest : ∀ p ∈ rest.zip rs1, (txFee env p.1 p.2).isSome = true := by
        intro p hp
        exact hwf p (by simp [hp])
      have hcall : w.call (Call.GetTxReceipt tx.Hash) (fun st => env.GetTxReceipt st tx.Hash)
          = (Except.ok receipt, { st := st1, trace := w.trace ++ [Call.GetTxReceipt tx.Hash] }) := by
        simp [World.call, hq]
      cases receipt with
      | none =>
        obtain ⟨st2, h2⟩ := ih rs1 amount
          { st := st1, trace := w.trace ++ [Call.GetTxReceipt tx.Hash] } hrs1 hwrest
        refine ⟨st2, ?_⟩
        simp only [extraRewardLoop, hcall, h2, feeSum, txFee, Option.getD_some, zero_add,
          List.map_cons, List.append_assoc, List.singleton_append]
      | some rc =>
        simp only [txFee] at hw0
        cases hg : env.SetString0 rc.GasUsed with
        | none => rw [hg] at hw0; simp at hw0
        | some gasUsed =>
          cases hp : env.SetString0 tx.GasPrice with
          | none => rw [hg, hp] at hw0; simp at hw0
          | some gasPrice =>
            obtain ⟨st2, h2⟩ := ih rs1 (amount + gasUsed * gasPrice)
              { st := st1, trace := w.trace ++ [Call.GetTxReceipt tx.Hash] } hrs1 hwrest
            refine ⟨st2, ?_⟩
            simp only [extraRewardLoop, hcall, hg, hp, h2, feeSum, txFee, Option.getD_some,
              List.map_cons, List.append_assoc, List.singleton_append, add_assoc]

theorem GetBlockEra_some (h : Int) : ∃ era, GetBlockEra h 100000 = some era := by
  unfold GetBlockEra
  split_ifs with h1 h2
  · exact ⟨_, rfl⟩
  · exact absurd h2 (by decide)
  · exact ⟨_, rfl⟩

/-- C25: for a block whose number parses to the height h and whose receipts are
all retrievable and well-formed, `handleBlock` returns without error a
candidate with Height = h, Orphan = false, Hash = block.Hash and
Reward = winnerReward(era(h)) + uncleReward(era(h)) * (number of uncles) + F,
where F is the sum of gasUsed * gasPrice over the transactions with a receipt
when KeepTxFees is off and 0 when it is on; with KeepTxFees on that sum is
stored in ExtraReward instead, and with KeepTxFees off ExtraReward is not
touched. The only calls are the receipt queries, one per transaction. -/
theorem handleBlock_sets_height_and_reward {W : Type} (env : Env W) (u : BlockUnlocker)
    (block : GetBlockReply) (candidate : BlockData) (w : World W) (h : Int)
    (rs : List (Option TxReceipt))
    (hparse : ParseInt16 (replace0x block.Number) = (h, none))
    (hrec : receiptsOf env block.Transactions w.st = some rs)
    (hwf : ∀ p ∈ block.Transactions.zip rs, (txFee env p.1 p.2).isSome = true) :
    ∃ era c1 w1,
      GetBlockEra h 100000 = some era
      ∧ handleBlock env u block candidate w = some (Except.ok c1, w1)
      ∧ c1.Height = h ∧ c1.Orphan = false ∧ c1.Hash = block.Hash
      ∧ c1.Reward = some (GetBlockWinnerRewardByEra era
          + getEraUncleBlockReward era * (block.Uncles.length : Int)
          + (if u.config.KeepTxFees then 0 else feeSum env block.Transactions rs))
      ∧ c1.ExtraReward = (if u.config.KeepTxFees then some (feeSum env block.Transactions rs)
          else candidate.ExtraReward)
      ∧ w1.trace = w.trace ++ block.Transactions.map (fun tx => Call.GetTxReceipt tx.Hash) := by
  obtain ⟨era, hera⟩ := GetBlockEra_some h
  obtain ⟨st1, hx⟩ := extraRewardLoop_sum env block.Transactions rs 0 w hrec hwf
  have hb : handleBlock env u block candidate w
      = some (Except.ok
          { (if u.config.KeepTxFees then
                { candidate with Height := h,
                                 ExtraReward := some (feeSum env block.Transactions rs) }
              else { candidate with Height := h }) with
            Orphan := false, Hash := block.Hash,
            Reward := some ((if u.config.KeepTxFees then GetBlockWinnerRewardByEra era
                else GetBlockWinnerRewardByEra era + feeSum env block.Transactions rs)
              + getEraUncleBlockReward era * (block.Uncles.length : Int)) },
          { st := st1,
            trace := w.trace ++ block.Transactions.map (fun tx => Call.GetTxReceipt tx.Hash) }) := by
    unfold handleBlock
    rw [hparse]
    simp only [hera, getExtraRewardForTx, hx, zero_add]
  refine ⟨era, _, _, hera, hb, ?_, rfl, rfl, ?_, ?_, rfl⟩
  · cases u.config.KeepTxFees <;> rfl
  · cases u.config.KeepTxFees
    · simp only [Bool.false_eq_true, if_false]
      congr 1
      ring
    · simp
  · cases u.config.KeepTxFees <;> rfl

/-- Witness for C25: a block at height 1 with two uncles and two transactions,
each with a receipt. -/
theorem handleBlock_sets_height_and_reward_witness :
    ∃ c1 w1,
      handleBlock receiptEnv plainUnlocker feeBearingBlock twoShannonBlock emptyWorld
        = some (Except.ok c1, w1)
      ∧ c1.Height = 1 ∧ c1.Orphan = false ∧ c1.Hash = feeBearingBlock.Hash :=
  match handleBlock_sets_height_and_reward receiptEnv plainUnlocker feeBearingBlock
      twoShannonBlock emptyWorld 1 [some { GasUsed := "21000" }, some { GasUsed := "21000" }]
      (by decide) rfl (by decide) with
  | ⟨_, c1, w1, _, hb, h1, h2, h3, _⟩ => ⟨c1, w1, hb, h1, h2, h3⟩

/-! ### Payout distributor: the donation -/

theorem rewardSplitAfterShares_donation (fdiv : ℚ → ℚ → ℚ) (config : UnlockerConfig)
    (block : BlockData) (reward : Int) (rewards : RewardMap) :
    (rewardSplitAfterShares fdiv config block reward rewards).donation
      = (if donationPercent config > 0 then
          ((chargeFee fdiv (reward : ℚ) config.PoolFee).2
              + ((block.ExtraReward.getD 0 : Int) : ℚ)) * fdiv (donationPercent config) 100
        else 0) := by
  unfold rewardSplitAfterShares donationPercent
  cases hE : config.Enabled
  · simp
  · simp only [if_true]
    have hdf : donationFee = 10 := rfl
    cases hD : config.DevDonate with
    | none =>
      cases block.ExtraReward <;> simp [hdf, chargeFee]
    | some d =>
      by_cases hd : 0 ≤ d ∧ d < 100
      · by_cases hpos : 0 < d
        · cases block.ExtraReward <;> simp [hd, hpos, chargeFee]
        · have hz : d = 0 := le_antisymm (not_lt.mp hpos) hd.1
          subst hz
          cases block.ExtraReward <;> simp
      · cases block.ExtraReward <;> simp [hd, hdf, chargeFee]

theorem rewardSplitAfterShares_credit (fdiv : ℚ → ℚ → ℚ) (config : UnlockerConfig)
    (block : BlockData) (reward : Int) (rewards : RewardMap)
    (hp : config.PoolFeeAddress.length = 0
      ∨ toLower donationAccount ≠ toLower config.PoolFeeAddress) :
    (rewardSplitAfterShares fdiv config block reward rewards).rewards.get (toLower donationAccount)
      = (if donationPercent config > 0 then
          wrapInt64 (rewards.get (toLower donationAccount)
            + weiToShannonInt64
                (rewardSplitAfterShares fdiv config block reward rewards).donation)
        else rewards.get (toLower donationAccount)) := by
  have hpool : ∀ (m : RewardMap) (v : Int),
      (if config.PoolFeeAddress.length ≠ 0 then m.add (toLower config.PoolFeeAddress) v
        else m).get (toLower donationAccount) = m.get (toLower donationAccount) := by
    intro m v
    rcases hp with hp | hp
    · simp [hp]
    · split_ifs
      · exact RewardMap.get_add_other _ _ _ _ hp
      · rfl
  unfold rewardSplitAfterShares donationPercent
  simp only [hpool]
  have hdf : donationFee = 10 := rfl
  cases hE : config.Enabled
  · simp
  · simp only [if_true]
    cases hD : config.DevDonate with
    | none =>
      simp [hdf, RewardMap.get_add_same]
    | some d =>
      by_cases hd : 0 ≤ d ∧ d < 100
      · by_cases hpos : 0 < d
        · simp [hd, hpos, RewardMap.get_add_same]
        · have hz : d = 0 := le_antisymm (not_lt.mp hpos) hd.1
          subst hz
          simp
      · simp [hd, hdf, RewardMap.get_add_same]

/-- C26: whenever `calculateRewards` succeeds, the donation is the pool profit
(the pool fee plus the kept transaction fees) times the donation percentage
over 100, where the percentage is `DevDonate` when it is configured with
0 <= DevDonate < 100 and the default 10 otherwise, for an enabled unlocker.
The donation is deducted from the returned poolProfit and credited, in
Shannon, to the fixed donation address. With the unlocker disabled, or a
percentage of 0, the donation is 0, poolProfit is not reduced and the donation
address is credited nothing. -/
theorem donation_percentage_is_devdonate_or_default {W : Type} (env : Env W)
    (u : BlockUnlocker) (block : BlockData) (w w1 : World W) (out : RewardSplit)
    (h : calculateRewards env u block w = some (Except.ok out, w1)) :
    ∃ (reward : Int) (shares : List (String × Int)) (split : RewardMap),
      block.Reward = some reward
      ∧ calculateRewardsForShares shares block.TotalShares out.minersProfit = some split
      ∧ (u.config.Enabled = true → ∀ d, u.config.DevDonate = some d → 0 ≤ d → d < 100 →
          donationPercent u.config = d)
      ∧ (u.config.Enabled = true →
          (u.config.DevDonate = none
            ∨ ∃ d, u.config.DevDonate = some d ∧ (d < 0 ∨ 100 ≤ d)) →
          donationPercent u.config = 10)
      ∧ (u.config.Enabled = false → donationPercent u.config = 0)
      ∧ out.donation
          = (if donationPercent u.config > 0 then
              ((chargeFee env.fdiv (reward : ℚ) u.config.PoolFee).2
                  + ((block.ExtraReward.getD 0 : Int) : ℚ))
                * env.fdiv (donationPercent u.config) 100
            else 0)
      ∧ out.poolProfit
          = (chargeFee env.fdiv (reward : ℚ) u.config.PoolFee).2
              + ((block.ExtraReward.getD 0 : Int) : ℚ) - out.donation
      ∧ (u.config.PoolFeeAddress.length = 0
            ∨ toLower donationAccount ≠ toLower u.config.PoolFeeAddress →
          out.rewards.get (toLower donationAccount)
            = (if donationPercent u.config > 0 then
                wrapInt64 (split.get (toLower donationAccount)
                  + weiToShannonInt64 out.donation)
              else split.get (toLower donationAccount))) := by
  obtain ⟨reward, shares, split, hR, _, hsplit, hout⟩ :=
    calculateRewards_ok_inv env u block w w1 out h
  refine ⟨reward, shares, split, hR, ?_, ?_, ?_, ?_, ?_, ?_, ?_⟩
  · rw [hout, rewardSplitAfterShares_minersProfit]; exact hsplit
  · intro hE d hD h0 h100
    simp [donationPercent, hE, hD, h0, h100]
  · intro hE hD
    rcases hD with hD | ⟨d, hD, hd⟩
    · simp [donationPercent, hE, hD]
    · have : ¬ (0 ≤ d ∧ d < 100) := by
        rintro ⟨a, b⟩
        rcases hd with hd | hd
        · exact absurd a (not_le.mpr hd)
        · exact absurd b (not_lt.mpr hd)
      simp [donationPercent, hE, hD, this]
  · intro hE
    simp [donationPercent, hE]
  · rw [hout]; exact rewardSplitAfterShares_donation _ _ _ _ _
  · have hp := rewardSplitAfterShares_pool env.fdiv u.config block reward split
    rw [hout]
    linarith
  · intro hp
    rw [hout]
    exact rewardSplitAfterShares_credit _ _ _ _ _ hp

/-- Witness for C26: a donation of 50 percent on 1000 wei of kept fees. -/
theorem donation_percentage_is_devdonate_or_default_witness :
    ∃ out w1, calculateRewards quietEnv halfDonationUnlocker feeBlock emptyWorld
        = some (Except.ok out, w1)
      ∧ donationPercent halfDonationUnlocker.config = 50
      ∧ out.donation
          = (if donationPercent halfDonationUnlocker.config > 0 then
              ((chargeFee quietEnv.fdiv ((2000000000 : Int) : ℚ)
                    halfDonationUnlocker.config.PoolFee).2
                  + ((feeBlock.ExtraReward.getD 0 : Int) : ℚ))
                * quietEnv.fdiv (donationPercent halfDonationUnlocker.config) 100
            else 0) :=
  match donation_percentage_is_devdonate_or_default quietEnv halfDonationUnlocker feeBlock
      emptyWorld { st := (), trace := [Call.GetRoundShares 1 "0x01"] }
      (rewardSplitAfterShares exactDiv halfDonationConfig feeBlock 2000000000 []) rfl with
  | ⟨reward, _, _, hR, _, hd, _, _, hdon, _, _⟩ =>
    have hr : reward = 2000000000 := (Option.some.inj hR).symm
    ⟨_, _, rfl, hd rfl 50 rfl (by norm_num) (by norm_num), hr ▸ hdon⟩

/-! ### Var-diff staging: `cs.diff` and `cs.nextDiff` -/

theorem calcNewDiff_frame {W : Type} (env : ProxyEnv W) (s : ProxyServer) (cs : Session)
    (w : ProxyWorld W) :
    (calcNewDiff env s cs w).2.diff = cs.diff
      ∧ (calcNewDiff env s cs w).2.nextDiff = cs.nextDiff
      ∧ (calcNewDiff env s cs w).2.ip = cs.ip
      ∧ (calcNewDiff env s cs w).2.login = cs.login
      ∧ (calcNewDiff env s cs w).2.hashNoNonce = cs.hashNoNonce := by
  unfold calcNewDiff
  cases cs.lastShareTime with
  | none => exact ⟨rfl, rfl, rfl, rfl, rfl⟩
  | some last =>
    simp only []
    split_ifs <;> exact ⟨rfl, rfl, rfl, rfl, rfl⟩

theorem getJob_session (cs cs1 : Session) (hash blob target algo : String) (job : Job)
    (h : getJob cs hash blob target algo = some (job, cs1)) :
    cs1 = { cs with hashNoNonce := hash } := by
  unfold getJob at h
  simp only [] at h
  split_ifs at h
  simp only [Option.some.injEq, Prod.mk.injEq] at h
  exact h.2.symm

theorem pushNewJob_session {W : Type} (env : BroadcastEnv W) (cs cs1 : Session)
    (work : List String) (c c1 : Conn W) (e : Option String)
    (h : pushNewJob env cs work c = some (e, cs1, c1)) :
    cs1.diff = cs.diff ∧ cs1.nextDiff = cs.nextDiff := by
  unfold pushNewJob at h
  split at h
  · rename_i hash blob target algo _ _ _ _
    cases hg : getJob cs hash blob target algo with
    | none => rw [hg] at h; simp at h
    | some r =>
      obtain ⟨job, cs2⟩ := r
      rw [hg] at h
      simp only [Option.some.injEq, Prod.mk.injEq] at h
      rw [← h.2.1, getJob_session cs cs2 hash blob target algo job hg]
      exact ⟨rfl, rfl⟩
  · simp at h

theorem broadcastJob_session {W : Type} (env : BroadcastEnv W) (t : BlockTemplate)
    (cs cs1 : Session) (c c1 : Conn W) (h : broadcastJob env t cs c = some (cs1, c1)) :
    cs1.diff = cs.nextDiff ∧ cs1.nextDiff = cs.nextDiff := by
  unfold broadcastJob at h
  simp only [] at h
  rcases hp : pushNewJob env { cs with diff := cs.nextDiff }
      [t.Header, t.Seed, env.GetTargetHex cs.nextDiff,
        if t.Height ≥ env.lyra2_block then "lyra2-webchain" else "cryptonight-webchain"] c
    with _ | ⟨e, cs2, c2⟩
  · rw [hp] at h; simp at h
  · rw [hp] at h
    obtain ⟨g1, g2⟩ := pushNewJob_session env _ cs2 _ c c2 e hp
    cases e <;> simp only [Option.some.injEq, Prod.mk.injEq] at h <;> rw [← h.1] <;>
      exact ⟨g1, g2⟩

theorem handleSubmitRPC_frame {W : Type} (env : ProxyEnv W) (s : ProxyServer)
    (cs : Session) (login id : String) (params : List String) (w : ProxyWorld W)
    (out : Bool × Option ErrorReply) (cs1 : Session) (w1 : ProxyWorld W)
    (h : handleSubmitRPC env s cs login id params w = some (out, cs1, w1)) :
    (out.1 = false → cs1 = cs)
      ∧ (out.1 = true →
          cs1 = { (calcNewDiff env s cs w1).2 with nextDiff := (calcNewDiff env s cs w1).1 })
      ∧ (params.length = 3 →
          ∃ exist valid wp,
            processShare env s login (if !workerPatternMatch id then "0" else id) cs.ip
                (env.currentBlockTemplate w.st) params cs.diff w = some ((exist, valid), wp)
            ∧ out.1 = (!exist && valid)
            ∧ w1 = (wp.call (ProxyCall.ApplySharePolicy cs.ip (!exist && valid))
                (fun st => env.ApplySharePolicy st cs.ip (!exist && valid))).2) := by
  unfold handleSubmitRPC at h
  by_cases hlen : params.length ≠ 3
  · simp only [hlen, if_true, ne_eq, not_false_eq_true, Option.some.injEq, Prod.mk.injEq] at h
    obtain ⟨ho, hc, _⟩ := h
    subst ho hc
    exact ⟨fun _ => rfl, fun hf => absurd hf (by simp), fun h3 => absurd h3 hlen⟩
  · have hlen3 : params.length = 3 := not_not.mp hlen
    simp only [hlen, if_false] at h
    rcases hps : processShare env s login (if !workerPatternMatch id then "0" else id) cs.ip
        (env.currentBlockTemplate w.st) params cs.diff w with _ | ⟨⟨exist, valid⟩, wp⟩
    · rw [hps] at h
      simp at h
    · rw [hps] at h
      simp only [] at h
      rcases hpol : wp.call (ProxyCall.ApplySharePolicy cs.ip (!exist && valid))
          (fun st => env.ApplySharePolicy st cs.ip (!exist && valid)) with ⟨ok, w2⟩
      rw [hpol] at h
      simp only [] at h
      cases exist <;> cases valid <;> cases ok <;>
        simp only [Bool.false_eq_true, if_false, if_true, Bool.not_false, Bool.not_true,
          Option.some.injEq, Prod.mk.injEq] at h <;>
        obtain ⟨ho, hc, hw⟩ := h <;> subst ho hc hw <;>
        refine ⟨?_, ?_, fun _ => ⟨_, _, _, rfl, rfl, ?_⟩⟩ <;>
        first
          | (intro _; rfl)
          | (intro hf; exact absurd hf (by simp))
          | (rw [hpol])

/-- C23: `handleSubmitRPC` never changes `cs.diff`. Whatever the outcome, the
session it leaves has the same diff (and ip, login and header hash); for a
well-formed submission the share is verified by `processShare` against that
`cs.diff`; the session is untouched unless the share is valid, and then the
var-diff recomputation writes its result to `cs.nextDiff` only (besides its
own timing window). `cs.diff` takes the value of `cs.nextDiff` at job
handout: in `handleGetWorkRPC` on a ready template and in the broadcast to a
registered session; `handleGetWorkRPC` on an unready template leaves the
session as it is. -/
theorem submit_never_changes_diff {W : Type} (env : BroadcastEnv W) (s : ProxyServer)
    (cs : Session) (login id : String) (params : List String) (w : ProxyWorld W)
    (out : Bool × Option ErrorReply) (cs1 : Session) (w1 : ProxyWorld W)
    (h : handleSubmitRPC env.toProxyEnv s cs login id params w = some (out, cs1, w1)) :
    cs1.diff = cs.diff ∧ cs1.ip = cs.ip ∧ cs1.login = cs.login
      ∧ cs1.hashNoNonce = cs.hashNoNonce
      ∧ (out.1 = false → cs1 = cs)
      ∧ (out.1 = true → cs1.nextDiff = (calcNewDiff env.toProxyEnv s cs w1).1)
      ∧ (params.length = 3 →
          ∃ exist valid wp,
            processShare env.toProxyEnv s login (if !workerPatternMatch id then "0" else id)
                cs.ip (env.currentBlockTemplate w.st) params cs.diff w
              = some ((exist, valid), wp)
            ∧ out.1 = (!exist && valid))
      ∧ (∀ (s2 : ProxyServer) (cs2 : Session) (w2 : ProxyWorld W),
          (calcNewDiff env.toProxyEnv s2 cs2 w2).2.diff = cs2.diff
            ∧ (calcNewDiff env.toProxyEnv s2 cs2 w2).2.nextDiff = cs2.nextDiff)
      ∧ (∀ (cs2 : Session) (w2 : ProxyWorld W) (t : BlockTemplate),
          env.currentBlockTemplate w2.st = some t → t.Header.utf8ByteSize ≠ 0 →
          env.isSick w2.st = false →
          (handleGetWorkRPC env.toStratumEnv s cs2 w2).2 = { cs2 with diff := cs2.nextDiff })
      ∧ (∀ (cs2 : Session) (w2 : ProxyWorld W),
          (handleGetWorkRPC env.toStratumEnv s cs2 w2).1.2 ≠ none →
          (handleGetWorkRPC env.toStratumEnv s cs2 w2).2 = cs2)
      ∧ (∀ (cs2 cs3 : Session) (c2 c3 : Conn W),
          broadcastNewJobs env s cs2 c2 = some (cs3, c3) →
          cs3.nextDiff = cs2.nextDiff ∧ (cs3.diff = cs2.nextDiff ∨ cs3 = cs2)
            ∧ (∀ t, env.currentBlockTemplate c2.world.st = some t →
                t.Header.utf8ByteSize ≠ 0 → env.isSick c2.world.st = false →
                c2.registered = true → cs3.diff = cs2.nextDiff))
      ∧ (∀ (cs2 : Session) (login2 id2 : String) (params2 : List String) (w2 : ProxyWorld W),
          params2.length ≠ 3 ∨ (env.currentBlockTemplate w2.st).isSome = true →
          ∃ r, handleSubmitRPC env.toProxyEnv s cs2 login2 id2 params2 w2 = some r) := by
  obtain ⟨hfalse, htrue, hver⟩ := handleSubmitRPC_frame env.toProxyEnv s cs login id params w
    out cs1 w1 h
  obtain ⟨f1, f2, f3, f4, f5⟩ := calcNewDiff_frame env.toProxyEnv s cs w1
  have hcases : cs1 = cs
      ∨ cs1 = { (calcNewDiff env.toProxyEnv s cs w1).2 with
                nextDiff := (calcNewDiff env.toProxyEnv s cs w1).1 } := by
    cases ho : out.1
    · exact Or.inl (hfalse ho)
    · exact Or.inr (htrue ho)
  refine ⟨?_, ?_, ?_, ?_, hfalse, ?_, ?_, ?_, ?_, ?_, ?_, ?_⟩
  · rcases hcases with hc | hc <;> rw [hc]
    exact f1
  · rcases hcases with hc | hc <;> rw [hc]
    exact f3
  · rcases hcases with hc | hc <;> rw [hc]
    exact f4
  · rcases hcases with hc | hc <;> rw [hc]
    exact f5
  · intro ho
    rw [htrue ho]
  · intro h3
    obtain ⟨exist, valid, wp, hp, ho, _⟩ := hver h3
    exact ⟨exist, valid, wp, hp, ho⟩
  · intro s2 cs2 w2
    obtain ⟨g1, g2, _⟩ := calcNewDiff_frame env.toProxyEnv s2 cs2 w2
    exact ⟨g1, g2⟩
  · intro cs2 w2 t ht hh hs
    unfold handleGetWorkRPC
    simp [ht, hh, hs]
  · intro cs2 w2 herr
    unfold handleGetWorkRPC at herr ⊢
    cases ht : env.currentBlockTemplate w2.st with
    | none => rfl
    | some t =>
      rw [ht] at herr
      simp only [] at herr ⊢
      split_ifs at herr ⊢ with hc
      · rfl
      · exact absurd rfl herr
  · intro cs2 cs3 c2 c3 hb
    unfold broadcastNewJobs at hb
    cases ht : env.currentBlockTemplate c2.world.st with
    | none =>
      rw [ht] at hb
      simp only [Option.some.injEq, Prod.mk.injEq] at hb
      rw [← hb.1]
      exact ⟨rfl, Or.inr rfl, fun t h => absurd h (by simp)⟩
    | some t =>
      rw [ht] at hb
      simp only [] at hb
      split_ifs at hb with hc hr
      · simp only [Option.some.injEq, Prod.mk.injEq] at hb
        rw [← hb.1]
        refine ⟨rfl, Or.inr rfl, ?_⟩
        intro t2 ht2 hh hs _
        simp only [Option.some.injEq] at ht2
        subst ht2
        simp [hh, hs] at hc
      · obtain ⟨g1, g2⟩ := broadcastJob_session env t cs2 cs3 c2 c3 hb
        exact ⟨g2, Or.inl g1, fun _ _ _ _ _ => g1⟩
      · simp only [Option.some.injEq, Prod.mk.injEq] at hb
        rw [← hb.1]
        exact ⟨rfl, Or.inr rfl, fun _ _ _ _ hreg => absurd hreg hr⟩
  · intro cs2 login2 id2 params2 w2 hor
    unfold handleSubmitRPC
    by_cases hlen : params2.length ≠ 3
    · simp only [hlen, if_true, ne_eq, not_false_eq_true]
      exact ⟨_, rfl⟩
    · have hlen3 : params2.length = 3 := not_not.mp hlen
      rcases hor with hor | hor
      · exact absurd hor hlen
      · obtain ⟨t, ht⟩ := Option.isSome_iff_exists.mp hor
        obtain ⟨a, b, c, hp⟩ : ∃ a b c, params2 = [a, b, c] := by
          match params2, hlen3 with
          | [a, b, c], _ => exact ⟨a, b, c, rfl⟩
        subst hp
        obtain ⟨exist, valid, wp, hps⟩ := processShare_total env.toProxyEnv s login2
          (if !workerPatternMatch id2 then "0" else id2) cs2.ip a b [c] t cs2.diff w2
        simp only [hlen, if_false, ht, hps, ProxyWorld.call]
        cases exist <;> cases valid <;>
          simp only [Bool.false_eq_true, if_false, if_true, Bool.not_false, Bool.not_true] <;>
          first
            | exact ⟨_, rfl⟩
            | (split_ifs <;> exact ⟨_, rfl⟩)

/-- Witness for C23: a stale submission leaves the session as it is. -/
theorem submit_never_changes_diff_witness :
    (handleSubmitRPC liveBroadcast.toProxyEnv plainProxy plainSession plainSession.login "rig1"
        ["0x01", "0xstale", "0x00"] emptyProxyWorld).map (fun r => r.2.1.diff)
      = some plainSession.diff :=
  congrArg some (submit_never_changes_diff liveBroadcast plainProxy plainSession
    plainSession.login "rig1" ["0x01", "0xstale", "0x00"] emptyProxyWorld (false, none)
    plainSession { st := (), trace := [ProxyCall.ApplySharePolicy "10.0.0.1" false] } rfl).1

/-! ### Block unlocker: failures -/

theorem BlockUnlocker.fail_fail (u : BlockUnlocker) (e1 e2 : String) :
    (u.fail e1).fail e2 = u.fail e2 := rfl

theorem extraRewardLoop_noWrite {W : Type} (env : Env W) :
    ∀ (txs : List Tx) (amount : Int) (w : World W),
      w.grows (extraRewardLoop env txs amount w).2 (fun c => c.isStorageWrite = false) := by
  intro txs
  induction txs with
  | nil => intro amount w; exact World.grows_refl _ _
  | cons tx rest ih =>
    intro amount w
    simp only [extraRewardLoop]
    rcases hcall : w.call (Call.GetTxReceipt tx.Hash) (fun st => env.GetTxReceipt st tx.Hash)
      with ⟨r, w1⟩
    obtain ⟨_, hg⟩ := World.call_eq hcall (fun c => c.isStorageWrite = false) rfl
    cases r with
    | error err => exact hg
    | ok receipt =>
      cases receipt with
      | none => exact World.grows_trans hg (ih amount w1)
      | some receipt =>
        simp only []
        cases env.SetString0 receipt.GasUsed with
        | none => exact hg
        | some gasUsed =>
          simp only []
          cases env.SetString0 tx.GasPrice with
          | none => exact hg
          | some gasPrice => exact World.grows_trans hg (ih _ w1)

theorem handleBlock_noWrite {W : Type} (env : Env W) (u : BlockUnlocker) (block : GetBlockReply)
    (candidate : BlockData) (w w1 : World W) (r : Except String BlockData)
    (h : handleBlock env u block candidate w = some (r, w1)) :
    w.grows w1 (fun c => c.isStorageWrite = false) := by
  unfold handleBlock at h
  rcases hp : ParseInt16 (replace0x block.Number) with ⟨v, e⟩
  rw [hp] at h
  cases e with
  | some err =>
    simp only [Option.some.injEq, Prod.mk.injEq] at h
    rw [← h.2]
    exact World.grows_refl _ _
  | none =>
    simp only [] at h
    cases hera : GetBlockEra v 100000 with
    | none => rw [hera] at h; simp at h
    | some era =>
      rw [hera] at h
      simp only [] at h
      have ht := extraRewardLoop_noWrite env block.Transactions 0 w
      rcases hx : getExtraRewardForTx env block w with ⟨rr, w2⟩
      rw [hx] at h
      have hw2 : (extraRewardLoop env block.Transactions 0 w).2 = w2 := by
        unfold getExtraRewardForTx at hx
        rw [hx]
      rw [hw2] at ht
      cases rr with
      | error err =>
        simp only [Option.some.injEq, Prod.mk.injEq] at h
        rw [← h.2]; exact ht
      | ok extra =>
        simp only [Option.some.injEq, Prod.mk.injEq] at h
        rw [← h.2]; exact ht

theorem uncleLoop_frame {W : Type} (env : Env W) (height : Int) (candidate : BlockData) :
    ∀ (uncles : List String) (idx : Nat) (result : UnlockResult) (u : BlockUnlocker) (w : World W)
      (r : Except String ScanState) (u1 : BlockUnlocker) (w1 : World W),
      uncleLoop env height candidate uncles idx result u w = some (r, u1, w1) →
      w.grows w1 (fun c => c.isStorageWrite = false)
        ∧ (∀ scan, r = Except.ok scan → u1 = u)
        ∧ (∀ err, r = Except.error err → u1 = u ∨ u1 = u.fail err) := by
  intro uncles
  induction uncles with
  | nil =>
    intro idx result u w r u1 w1 h
    simp only [uncleLoop, Option.some.injEq, Prod.mk.injEq] at h
    obtain ⟨hr, hu, hw⟩ := h
    subst hr hu hw
    exact ⟨World.grows_refl _ _, by simp, by simp⟩
  | cons uncleHash rest ih =>
    intro idx result u w r u1 w1 h
    simp only [uncleLoop] at h
    rcases hcall : w.call (Call.GetUncleByBlockNumberAndIndex height idx)
        (fun st => env.GetUncleByBlockNumberAndIndex st height idx) with ⟨rep, w2⟩
    obtain ⟨_, hg⟩ := World.call_eq hcall (fun c => c.isStorageWrite = false) rfl
    rw [hcall] at h
    cases rep with
    | error err =>
      simp only [Option.some.injEq, Prod.mk.injEq] at h
      obtain ⟨hr, hu, hw⟩ := h
      subst hr hu hw
      exact ⟨hg, by simp, by simp⟩
    | ok reply =>
      cases reply with
      | none =>
        simp only [Option.some.injEq, Prod.mk.injEq] at h
        obtain ⟨hr, hu, hw⟩ := h
        subst hr hu hw
        exact ⟨hg, by simp, by simp⟩
      | some uncle =>
        simp only [] at h
        by_cases hm : matchCandidate uncle candidate = true
        · rw [if_pos hm] at h
          cases hb : handleUncle height uncle candidate with
          | none => rw [hb] at h; simp at h
          | some res =>
            rw [hb] at h
            cases res with
            | error err =>
              simp only [Option.some.injEq, Prod.mk.injEq] at h
              obtain ⟨hr, hu, hw⟩ := h
              subst hr hu hw
              refine ⟨hg, by simp, ?_⟩
              intro e he
              simp only [Except.error.injEq] at he
              subst he
              exact Or.inr rfl
            | ok c1 =>
              simp only [] at h
              split at h
              · simp at h
              · simp only [Option.some.injEq, Prod.mk.injEq] at h
                obtain ⟨hr, hu, hw⟩ := h
                subst hr hu hw
                exact ⟨hg, by simp, by simp⟩
        · rw [if_neg hm] at h
          obtain ⟨g1, g2, g3⟩ := ih _ _ _ _ _ _ _ h
          exact ⟨World.grows_trans hg g1, g2, g3⟩

theorem heightLoop_frame {W : Type} (env : Env W) (candidate : BlockData) :
    ∀ (remaining : Nat) (i : Int) (result : UnlockResult) (u : BlockUnlocker) (w : World W)
      (r : Except String ScanState) (u1 : BlockUnlocker) (w1 : World W),
      heightLoop env candidate remaining i result u w = some (r, u1, w1) →
      w.grows w1 (fun c => c.isStorageWrite = false)
        ∧ (∀ scan, r = Except.ok scan → u1 = u)
        ∧ (∀ err, r = Except.error err → u1 = u ∨ u1 = u.fail err) := by
  intro remaining
  induction remaining with
  | zero =>
    intro i result u w r u1 w1 h
    simp only [heightLoop, Option.some.injEq, Prod.mk.injEq] at h
    obtain ⟨hr, hu, hw⟩ := h
    subst hr hu hw
    exact ⟨World.grows_refl _ _, by simp, by simp⟩
  | succ n ih =>
    intro i result u w r u1 w1 h
    simp only [heightLoop] at h
    rcases hcall : w.call (Call.GetBlockByHeight (wrapInt64 (candidate.Height + i)))
        (fun st => env.GetBlockByHeight st (wrapInt64 (candidate.Height + i))) with ⟨rep, w2⟩
    obtain ⟨_, hg⟩ := World.call_eq hcall (fun c => c.isStorageWrite = false) rfl
    rw [hcall] at h
    cases rep with
    | error err =>
      simp only [Option.some.injEq, Prod.mk.injEq] at h
      obtain ⟨hr, hu, hw⟩ := h
      subst hr hu hw
      exact ⟨hg, by simp, by simp⟩
    | ok reply =>
      cases reply with
      | none =>
        simp only [Option.some.injEq, Prod.mk.injEq] at h
        obtain ⟨hr, hu, hw⟩ := h
        subst hr hu hw
        exact ⟨hg, by simp, by simp⟩
      | some block =>
        simp only [] at h
        by_cases hm : matchCandidate block candidate = true
        · rw [if_pos hm] at h
          cases hb : handleBlock env u block candidate w2 with
          | none => rw [hb] at h; simp at h
          | some res =>
            rw [hb] at h
            rcases res with ⟨res, w3⟩
            have hg2 := handleBlock_noWrite env u block candidate w2 w3 res hb
            cases res with
            | error err =>
              simp only [Option.some.injEq, Prod.mk.injEq] at h
              obtain ⟨hr, hu, hw⟩ := h
              subst hr hu hw
              refine ⟨World.grows_trans hg hg2, by simp, ?_⟩
              intro e he
              simp only [Except.error.injEq] at he
              subst he
              exact Or.inr rfl
            | ok c1 =>
              simp only [] at h
              split at h
              · simp at h
              · simp only [Option.some.injEq, Prod.mk.injEq] at h
                obtain ⟨hr, hu, hw⟩ := h
                subst hr hu hw
                exact ⟨World.grows_trans hg hg2, by simp, by simp⟩
        · rw [if_neg hm] at h
          by_cases hun : block.Uncles.length = 0
          · rw [if_pos hun] at h
            obtain ⟨g1, g2, g3⟩ := ih _ _ _ _ _ _ _ h
            exact ⟨World.grows_trans hg g1, g2, g3⟩
          · rw [if_neg hun] at h
            cases hul : uncleLoop env (wrapInt64 (candidate.Height + i)) candidate block.Uncles 0
                result u w2 with
            | none => rw [hul] at h; simp at h
            | some res =>
              rw [hul] at h
              rcases res with ⟨res, u2, w3⟩
              obtain ⟨k1, k2, k3⟩ := uncleLoop_frame env _ candidate _ _ _ _ _ _ _ _ hul
              cases res with
              | error err =>
                simp only [Option.some.injEq, Prod.mk.injEq] at h
                obtain ⟨hr, hu, hw⟩ := h
                subst hr hu hw
                exact ⟨World.grows_trans hg k1, by simp, fun e he => by
                  simp only [Except.error.injEq] at he
                  subst he
                  exact k3 _ rfl⟩
              | ok scan =>
                have hu2 : u2 = u := k2 scan rfl
                subst hu2
                simp only [] at h
                split at h
                · simp only [Option.some.injEq, Prod.mk.injEq] at h
                  obtain ⟨hr, hu, hw⟩ := h
                  subst hr hu hw
                  exact ⟨World.grows_trans hg k1, by simp, by simp⟩
                · obtain ⟨g1, g2, g3⟩ := ih _ _ _ _ _ _ _ h
                  exact ⟨World.grows_trans hg (World.grows_trans k1 g1), g2, g3⟩

theorem candidateLoop_frame {W : Type} (env : Env W) :
    ∀ (candidates : List BlockData) (result : UnlockResult) (u : BlockUnlocker) (w : World W)
      (r : Except String UnlockResult) (u1 : BlockUnlocker) (w1 : World W),
      candidateLoop env candidates result u w = some (r, u1, w1) →
      w.grows w1 (fun c => c.isStorageWrite = false)
        ∧ (∀ res, r = Except.ok res → u1 = u)
        ∧ (∀ err, r = Except.error err → u1 = u ∨ u1 = u.fail err) := by
  intro candidates
  induction candidates with
  | nil =>
    intro result u w r u1 w1 h
    simp only [candidateLoop, Option.some.injEq, Prod.mk.injEq] at h
    obtain ⟨hr, hu, hw⟩ := h
    subst hr hu hw
    exact ⟨World.grows_refl _ _, by simp, by simp⟩
  | cons candidate rest ih =>
    intro result u w r u1 w1 h
    simp only [candidateLoop] at h
    cases hl : heightLoop env candidate
        (minDepth - if minDepth * -1 < 0 then 0 else minDepth * -1).toNat
        (if minDepth * -1 < 0 then 0 else minDepth * -1) result u w with
    | none => rw [hl] at h; simp at h
    | some res =>
      rw [hl] at h
      rcases res with ⟨res, u2, w2⟩
      obtain ⟨k1, k2, k3⟩ := heightLoop_frame env candidate _ _ _ _ _ _ _ _ hl
      cases res with
      | error err =>
        simp only [Option.some.injEq, Prod.mk.injEq] at h
        obtain ⟨hr, hu, hw⟩ := h
        subst hr hu hw
        exact ⟨k1, by simp, fun e he => by
          simp only [Except.error.injEq] at he
          subst he
          exact k3 _ rfl⟩
      | ok scan =>
        have hu2 : u2 = u := k2 scan rfl
        subst hu2
        simp only [] at h
        obtain ⟨g1, g2, g3⟩ := ih _ _ _ _ _ _ h
        exact ⟨World.grows_trans k1 g1, g2, g3⟩

theorem unlockCandidates_frame {W : Type} (env : Env W) (u : BlockUnlocker)
    (candidates : List BlockData) (w : World W) (r : Except String UnlockResult)
    (u1 : BlockUnlocker) (w1 : World W)
    (h : unlockCandidates env u candidates w = some (r, u1, w1)) :
    w.grows w1 (fun c => c.isStorageWrite = false)
      ∧ (∀ res, r = Except.ok res → u1 = u)
      ∧ (∀ err, r = Except.error err → u1 = u ∨ u1 = u.fail err) :=
  candidateLoop_frame env candidates _ u w r u1 w1 h

theorem fail_ne_self (u : BlockUnlocker) (err : String) (hu : u.halt = false) :
    u.fail err ≠ u := by
  intro h
  have : (u.fail err).halt = u.halt := by rw [h]
  rw [hu] at this
  exact absurd this (by simp [BlockUnlocker.fail])

theorem immatureLoop_append {W : Type} (env : Env W) (u : BlockUnlocker) (hu : u.halt = false) :
    ∀ (done rest : List BlockData) (w wk : World W),
      immatureLoop env done u w = some (u, wk) →
      immatureLoop env (done ++ rest) u w = immatureLoop env rest u wk := by
  intro done
  induction done with
  | nil =>
    intro rest w wk h
    simp only [immatureLoop, Option.some.injEq, Prod.mk.injEq, true_and] at h
    subst h
    rfl
  | cons b d ih =>
    intro rest w wk h
    simp only [immatureLoop, List.cons_append] at h ⊢
    cases hc : calculateRewards env u b w with
    | none => rw [hc] at h; simp at h
    | some res =>
      rcases res with ⟨res, w1⟩
      rw [hc] at h
      cases res with
      | error err =>
        simp only [Option.some.injEq, Prod.mk.injEq] at h
        exact absurd h.1 (fail_ne_self u err hu)
      | ok split =>
        simp only [] at h ⊢
        rcases hw : w1.call (Call.WriteImmatureBlock b split.rewards)
            (fun st => env.WriteImmatureBlock st b split.rewards) with ⟨e, w2⟩
        rw [hw] at h
        cases e with
        | some err =>
          simp only [Option.some.injEq, Prod.mk.injEq] at h
          exact absurd h.1 (fail_ne_self u err hu)
        | none =>
          simp only [] at h ⊢
          exact ih rest w2 wk h

theorem maturedLoop_append {W : Type} (env : Env W) (u : BlockUnlocker) (hu : u.halt = false) :
    ∀ (done rest : List BlockData) (w wk : World W),
      maturedLoop env done u w = some (u, wk) →
      maturedLoop env (done ++ rest) u w = maturedLoop env rest u wk := by
  intro done
  induction done with
  | nil =>
    intro rest w wk h
    simp only [maturedLoop, Option.some.injEq, Prod.mk.injEq, true_and] at h
    subst h
    rfl
  | cons b d ih =>
    intro rest w wk h
    simp only [maturedLoop, List.cons_append] at h ⊢
    cases hc : calculateRewards env u b w with
    | none => rw [hc] at h; simp at h
    | some res =>
      rcases res with ⟨res, w1⟩
      rw [hc] at h
      cases res with
      | error err =>
        simp only [Option.some.injEq, Prod.mk.injEq] at h
        exact absurd h.1 (fail_ne_self u err hu)
      | ok split =>
        simp only [] at h ⊢
        rcases hw : w1.call (Call.WriteMaturedBlock b split.rewards)
            (fun st => env.WriteMaturedBlock st b split.rewards) with ⟨e, w2⟩
        rw [hw] at h
        cases e with
        | some err =>
          simp only [Option.some.injEq, Prod.mk.injEq] at h
          exact absurd h.1 (fail_ne_self u err hu)
        | none =>
          simp only [] at h ⊢
          exact ih rest w2 wk h

theorem orphanLoop_append {W : Type} (env : Env W) (u : BlockUnlocker) :
    ∀ (done rest : List BlockData) (w wk : World W),
      orphanLoop env done u w = (true, u, wk) →
      orphanLoop env (done ++ rest) u w = orphanLoop env rest u wk := by
  intro done
  induction done with
  | nil =>
    intro rest w wk h
    simp only [orphanLoop, Prod.mk.injEq, true_and] at h
    subst h
    rfl
  | cons b d ih =>
    intro rest w wk h
    simp only [orphanLoop, List.cons_append] at h ⊢
    rcases hw : w.call (Call.WriteOrphan b) (fun st => env.WriteOrphan st b) with ⟨e, w2⟩
    rw [hw] at h
    cases e with
    | some err => simp at h
    | none =>
      simp only [] at h ⊢
      exact ih rest w2 wk h

/-- C24: for `unlockPendingBlocks` and `unlockAndCreditMiners` started with
halt = false, a failure of any step makes the operation return at once with
halt = true and lastFail set to that error, in the world left by the failing
step, so that nothing is written to storage afterwards. The steps are, in
order: GetPendingBlock, parsing the pending block number, the storage query
(GetCandidates or GetImmatureBlocks), `unlockCandidates` (which itself never
writes to storage), writing the orphans (WritePendingOrphans, or WriteOrphan on
each orphan in turn), and, for each matured block in turn, `calculateRewards`
and the write of the block (WriteImmatureBlock or WriteMaturedBlock). -/
theorem failure_halts_the_unlocker {W : Type} (env : Env W) (u : BlockUnlocker)
    (w : World W) (hu : u.halt = false) :
    (∀ err, (u.fail err).halt = true ∧ (u.fail err).lastFail = some err
        ∧ (u.fail err).config = u.config)
    ∧ (∀ err w1,
        w.call Call.GetPendingBlock env.GetPendingBlock = (Except.error err, w1) →
        unlockPendingBlocks env u w = some (u.fail err, w1)
          ∧ unlockAndCreditMiners env u w = some (u.fail err, w1))
    ∧ (∀ current w1,
        w.call Call.GetPendingBlock env.GetPendingBlock = (Except.ok (some current), w1) →
        (∀ v e, ParseInt16 (replace0x current.Number) = (v, some e) →
          unlockPendingBlocks env u w = some (u.fail e.message, w1)
            ∧ unlockAndCreditMiners env u w = some (u.fail e.message, w1))
        ∧ (∀ h, ParseInt16 (replace0x current.Number) = (h, none) →
          (∀ err w2,
            w1.call (Call.GetCandidates (wrapInt64 (h - u.config.ImmatureDepth)))
                (fun st => env.GetCandidates st (wrapInt64 (h - u.config.ImmatureDepth)))
              = (Except.error err, w2) →
            unlockPendingBlocks env u w = some (u.fail err, w2))
          ∧ (∀ candidates w2,
            w1.call (Call.GetCandidates (wrapInt64 (h - u.config.ImmatureDepth)))
                (fun st => env.GetCandidates st (wrapInt64 (h - u.config.ImmatureDepth)))
              = (Except.ok candidates, w2) →
            candidates.length ≠ 0 →
            (∀ err u1 w3,
              unlockCandidates env u candidates w2 = some (Except.error err, u1, w3) →
              unlockPendingBlocks env u w = some (u.fail err, w3)
                ∧ w2.grows w3 (fun c => c.isStorageWrite = false))
            ∧ (∀ result u1 w3,
              unlockCandidates env u candidates w2 = some (Except.ok result, u1, w3) →
              (∀ err w4,
                w3.call (Call.WritePendingOrphans result.orphanedBlocks)
                    (fun st => env.WritePendingOrphans st result.orphanedBlocks)
                  = (some err, w4) →
                unlockPendingBlocks env u w = some (u.fail err, w4))
              ∧ (∀ w4,
                w3.call (Call.WritePendingOrphans result.orphanedBlocks)
                    (fun st => env.WritePendingOrphans st result.orphanedBlocks)
                  = (none, w4) →
                ∀ done block rest wk,
                  result.maturedBlocks = done ++ block :: rest →
                  immatureLoop env done u w4 = some (u, wk) →
                  (∀ err w5, calculateRewards env u block wk = some (Except.error err, w5) →
                    unlockPendingBlocks env u w = some (u.fail err, w5))
                  ∧ (∀ split w5 err w6,
                    calculateRewards env u block wk = some (Except.ok split, w5) →
                    w5.call (Call.WriteImmatureBlock block split.rewards)
                        (fun st => env.WriteImmatureBlock st block split.rewards)
                      = (some err, w6) →
                    unlockPendingBlocks env u w = some (u.fail err, w6)))))
          ∧ (∀ err w2,
            w1.call (Call.GetImmatureBlocks (wrapInt64 (h - u.config.Depth)))
                (fun st => env.GetImmatureBlocks st (wrapInt64 (h - u.config.Depth)))
              = (Except.error err, w2) →
            unlockAndCreditMiners env u w = some (u.fail err, w2))
          ∧ (∀ immature w2,
            w1.call (Call.GetImmatureBlocks (wrapInt64 (h - u.config.Depth)))
                (fun st => env.GetImmatureBlocks st (wrapInt64 (h - u.config.Depth)))
              = (Except.ok immature, w2) →
            immature.length ≠ 0 →
            (∀ err u1 w3,
              unlockCandidates env u immature w2 = some (Except.error err, u1, w3) →
              unlockAndCreditMiners env u w = some (u.fail err, w3)
                ∧ w2.grows w3 (fun c => c.isStorageWrite = false))
            ∧ (∀ result u1 w3,
              unlockCandidates env u immature w2 = some (Except.ok result, u1, w3) →
              (∀ done block rest wk err w4,
                result.orphanedBlocks = done ++ block :: rest →
                orphanLoop env done u w3 = (true, u, wk) →
                wk.call (Call.WriteOrphan block) (fun st => env.WriteOrphan st block)
                  = (some err, w4) →
                unlockAndCreditMiners env u w = some (u.fail err, w4))
              ∧ (∀ w4, orphanLoop env result.orphanedBlocks u w3 = (true, u, w4) →
                ∀ done block rest wk,
                  result.maturedBlocks = done ++ block :: rest →
                  maturedLoop env done u w4 = some (u, wk) →
                  (∀ err w5, calculateRewards env u block wk = some (Except.error err, w5) →
                    unlockAndCreditMiners env u w = some (u.fail err, w5))
                  ∧ (∀ split w5 err w6,
                    calculateRewards env u block wk = some (Except.ok split, w5) →
                    w5.call (Call.WriteMaturedBlock block split.rewards)
                        (fun st => env.WriteMaturedBlock st block split.rewards)
                      = (some err, w6) →
                    unlockAndCreditMiners env u w = some (u.fail err, w6)))))))
    ∧ (∀ (candidate : BlockData) (rest : List BlockData) (result : UnlockResult)
          (u0 u1 : BlockUnlocker) (w0 w1 : World W) (err : String),
        heightLoop env candidate 16 0 result u0 w0 = some (Except.error err, u1, w1) →
        candidateLoop env (candidate :: rest) result u0 w0 = some (Except.error err, u1, w1))
    ∧ (∀ (candidate : BlockData) (n : Nat) (i : Int) (result : UnlockResult)
          (u0 : BlockUnlocker) (w0 w1 : World W) (err : String),
        w0.call (Call.GetBlockByHeight (wrapInt64 (candidate.Height + i)))
            (fun st => env.GetBlockByHeight st (wrapInt64 (candidate.Height + i)))
          = (Except.error err, w1) →
        heightLoop env candidate (n + 1) i result u0 w0 = some (Except.error err, u0, w1))
    ∧ (∀ (candidate : BlockData) (n : Nat) (i : Int) (result : UnlockResult)
          (u0 : BlockUnlocker) (w0 w1 w2 : World W) (block : GetBlockReply) (err : String),
        w0.call (Call.GetBlockByHeight (wrapInt64 (candidate.Height + i)))
            (fun st => env.GetBlockByHeight st (wrapInt64 (candidate.Height + i)))
          = (Except.ok (some block), w1) →
        matchCandidate block candidate = true →
        handleBlock env u0 block candidate w1 = some (Except.error err, w2) →
        heightLoop env candidate (n + 1) i result u0 w0
          = some (Except.error err, u0.fail err, w2))
    ∧ (∀ (height : Int) (candidate : BlockData) (uncleHash : String) (rest : List String)
          (idx : Nat) (result : UnlockResult) (u0 : BlockUnlocker) (w0 w1 : World W)
          (err : String),
        w0.call (Call.GetUncleByBlockNumberAndIndex height idx)
            (fun st => env.GetUncleByBlockNumberAndIndex st height idx)
          = (Except.error err, w1) →
        uncleLoop env height candidate (uncleHash :: rest) idx result u0 w0
          = some (Except.error
              ("Error while retrieving uncle of block " ++ uncleHash ++ " from node: " ++ err),
              u0, w1)) := by
  have hh : ¬ u.halt = true := by rw [hu]; simp
  refine ⟨fun err => ⟨rfl, rfl, rfl⟩, ?_, ?_, ?_, ?_, ?_, ?_⟩
  rotate_left 2
  · intro candidate rest result u0 u1 w0 w1 err h
    have h0 : (if minDepth * -1 < 0 then (0 : Int) else minDepth * -1) = 0 := by decide
    have h16b : (minDepth - 0).toNat = 16 := by decide
    simp only [candidateLoop, h0, h16b, h]
  · intro candidate n i result u0 w0 w1 err h
    simp only [heightLoop, h]
  · intro candidate n i result u0 w0 w1 w2 block err h hm hb
    simp only [heightLoop, h, hm, if_true, hb]
    rfl
  · intro height candidate uncleHash rest idx result u0 w0 w1 err h
    simp only [uncleLoop, h]
  · intro err w1 h1
    constructor
    · unfold unlockPendingBlocks
      rw [if_neg hh, h1]
    · unfold unlockAndCreditMiners
      rw [if_neg hh, h1]
  · intro current w1 h1
    refine ⟨?_, ?_⟩
    · intro v e hp
      constructor
      · unfold unlockPendingBlocks
        rw [if_neg hh, h1]
        simp only [hp]
      · unfold unlockAndCreditMiners
        rw [if_neg hh, h1]
        simp only [hp]
    · intro h hp
      refine ⟨?_, ?_, ?_, ?_⟩
      · intro err w2 h2
        unfold unlockPendingBlocks
        rw [if_neg hh, h1]
        simp only [hp, h2]
      · intro candidates w2 h2 hne
        refine ⟨?_, ?_⟩
        · intro err u1 w3 h3
          obtain ⟨g1, _, g3⟩ := unlockCandidates_frame env u candidates w2 _ u1 w3 h3
          refine ⟨?_, g1⟩
          unfold unlockPendingBlocks
          rw [if_neg hh, h1]
          simp only [hp, h2, if_neg hne, h3]
          rcases g3 err rfl with hu1 | hu1 <;> rw [hu1]
          rfl
        · intro result u1 w3 h3
          obtain ⟨_, g2, _⟩ := unlockCandidates_frame env u candidates w2 _ u1 w3 h3
          have hu1 : u1 = u := g2 result rfl
          subst hu1
          refine ⟨?_, ?_⟩
          · intro err w4 h4
            unfold unlockPendingBlocks
            rw [if_neg hh, h1]
            simp only [hp, h2, if_neg hne, h3, h4]
          · intro w4 h4 done block rest wk hm hdone
            have hloop : unlockPendingBlocks env u1 w
                = immatureLoop env (block :: rest) u1 wk := by
              unfold unlockPendingBlocks
              rw [if_neg hh, h1]
              simp only [hp, h2, if_neg hne, h3, h4]
              rw [hm, immatureLoop_append env u1 hu done (block :: rest) w4 wk hdone]
            refine ⟨?_, ?_⟩
            · intro err w5 h5
              rw [hloop]
              simp only [immatureLoop, h5]
            · intro split w5 err w6 h5 h6
              rw [hloop]
              simp only [immatureLoop, h5, h6]
      · intro err w2 h2
        unfold unlockAndCreditMiners
        rw [if_neg hh, h1]
        simp only [hp, h2]
      · intro immature w2 h2 hne
        refine ⟨?_, ?_⟩
        · intro err u1 w3 h3
          obtain ⟨g1, _, g3⟩ := unlockCandidates_frame env u immature w2 _ u1 w3 h3
          refine ⟨?_, g1⟩
          unfold unlockAndCreditMiners
          rw [if_neg hh, h1]
          simp only [hp, h2, if_neg hne, h3]
          rcases g3 err rfl with hu1 | hu1 <;> rw [hu1]
          rfl
        · intro result u1 w3 h3
          obtain ⟨_, g2, _⟩ := unlockCandidates_frame env u immature w2 _ u1 w3 h3
          have hu1 : u1 = u := g2 result rfl
          subst hu1
          refine ⟨?_, ?_⟩
          · intro done block rest wk err w4 hm hdone h4
            unfold unlockAndCreditMiners
            rw [if_neg hh, h1]
            simp only [hp, h2, if_neg hne, h3]
            rw [hm, orphanLoop_append env u1 done (block :: rest) w3 wk hdone]
            simp only [orphanLoop, h4]
          · intro w4 h4 done block rest wk hm hdone
            have hloop : unlockAndCreditMiners env u1 w
                = maturedLoop env (block :: rest) u1 wk := by
              unfold unlockAndCreditMiners
              rw [if_neg hh, h1]
              simp only [hp, h2, if_neg hne, h3, h4]
              rw [hm, maturedLoop_append env u1 hu done (block :: rest) w4 wk hdone]
            refine ⟨?_, ?_⟩
            · intro err w5 h5
              rw [hloop]
              simp only [maturedLoop, h5]
            · intro split w5 err w6 h5 h6
              rw [hloop]
              simp only [maturedLoop, h5, h6]

/-- Witness for C24: a node that cannot be reached stops both operations at their
first step. -/
theorem failure_halts_the_unlocker_witness :
    unlockPendingBlocks quietEnv plainUnlocker emptyWorld
        = some (plainUnlocker.fail "no node", { st := (), trace := [Call.GetPendingBlock] })
      ∧ unlockAndCreditMiners quietEnv plainUnlocker emptyWorld
        = some (plainUnlocker.fail "no node", { st := (), trace := [Call.GetPendingBlock] }) :=
  (failure_halts_the_unlocker quietEnv plainUnlocker emptyWorld rfl).2.1 "no node"
    { st := (), trace := [Call.GetPendingBlock] } rfl

end Pool
